import Mathlib

/-!
# Verification development for the NGC cloud-function Terraform provider

Shallow embedding of the reconciler (`internal/provider/cloud_function_resource.go`),
of the client with its transport and deployment waiter
(`internal/provider/utils/nvcf_client.go`, `internal/provider/utils/ngc_client.go`),
of the provider configuration (`internal/provider/provider.go`) and of the merge of the
data source (`internal/provider/cloud_function_datasource.go`).

Conventions of the embedding

* The remote control plane is an arbitrary deterministic transition system over a
  state type `σ`: every client method is a handler that maps the remote state and
  the arguments to a reply, a successor state and the time the call took.
* Every client call is appended to a trace of `Call`s, so that "which calls were
  issued, in which order, with which arguments" is a statement about a list.
* A Go `(resp, err)` pair is a `Reply` with both components: the client methods
  return a non-nil response pointer also when `err != nil`, and some callers keep
  using it.
* A Go slice that may be `nil` is an `Option (List α)`; `none` is `nil`.
* Time is a natural number of nanoseconds, as in `time.Duration`.
* The HTTP client is an arbitrary function from requests to answers, and `encoding/json`
  is a parameter wherever the code calls it; `goJson` is the codec of the standard library
  on `interface{}` values, for the claims about the codec itself.
* A Go panic is the result `none` of the function that panics.
* The framework conversion `types.SetValueFrom` is `SetValueFrom`: a slice with a repeated
  element yields the unknown set and one diagnostic per repeated value.  The merge of a
  response into a model is a pair of functions, one for the merged model and one for the
  diagnostics the merge appends.
* `Ngc.sendRequest` is the transport for a request that `http.NewRequest` builds;
  `NVCFClient.sendRequest` adds the case in which it does not.
-/

namespace Ngc

/-! ## Terraform framework values -/

/-- Value of a Terraform framework attribute: null, unknown or known. -/
inductive TfValue (α : Type) where
  | null : TfValue α
  | unknown : TfValue α
  | known (v : α) : TfValue α
  deriving DecidableEq, Repr

namespace TfValue

/-- Framework method `IsNull`. -/
def IsNull {α : Type} : TfValue α → Bool
  | null => true
  | _ => false

/-- Framework method `IsUnknown`. -/
def IsUnknown {α : Type} : TfValue α → Bool
  | unknown => true
  | _ => false

/-- Framework methods `ValueString`, `ValueInt64`, `ValueBool`: the known value, or the
zero value of the Go type for null and unknown. -/
def valueOr {α : Type} (zero : α) : TfValue α → α
  | known v => v
  | _ => zero

/-- Framework method `Elements` of a list or set value: empty for null and unknown. -/
def Elements {α : Type} : TfValue (List α) → List α
  | known xs => xs
  | _ => []

/-- Framework method `ElementsAs` into a Go slice of structs or strings, with the
diagnostics it returns: a null collection leaves the nil slice, an unknown collection
is a conversion error, a known one yields its elements. -/
def ElementsAs {α : Type} : TfValue (List α) → List α × List (String × String)
  | null => ([], [])
  | unknown => ([], [("Value Conversion Error", "unhandled unknown value")])
  | known xs => (xs, [])

/-- Framework method `Equal` of a set value: same state, and for known sets the same
number of elements with every element of the receiver contained in the other. -/
def SetEqual {α : Type} [DecidableEq α] : TfValue (List α) → TfValue (List α) → Bool
  | null, null => true
  | unknown, unknown => true
  | known xs, known ys => xs.length == ys.length && xs.all (fun x => ys.contains x)
  | _, _ => false

end TfValue

abbrev TfString := TfValue String
abbrev TfInt64 := TfValue Int
abbrev TfBool := TfValue Bool

/-- Framework method `ValueString`. -/
def TfValue.ValueString (s : TfString) : String := s.valueOr ""

/-- Framework method `ValueInt64`. -/
def TfValue.ValueInt64 (s : TfInt64) : Int := s.valueOr 0

/-- Framework method `ValueBool`. -/
def TfValue.ValueBool (s : TfBool) : Bool := s.valueOr false

/-! ## Diagnostics -/

/-- One error diagnostic: summary and detail, as given to `AddError`. -/
structure Diagnostic where
  summary : String
  detail : String
  deriving DecidableEq, Repr

/-- Diagnostics collected by a lifecycle operation.  Only errors are ever added by the
code that is modelled, so the collection is a list of errors. -/
abbrev Diagnostics := List Diagnostic

/-- Framework method `HasError`. -/
def HasError (d : Diagnostics) : Bool := !d.isEmpty

/-- Framework method `AddError`. -/
def AddError (d : Diagnostics) (summary detail : String) : Diagnostics :=
  d ++ [Diagnostic.mk summary detail]

/-- Framework method `Append`, for the diagnostics a value conversion returns. -/
def Append (d : Diagnostics) (more : List (String × String)) : Diagnostics :=
  d ++ more.map (fun e => Diagnostic.mk e.1 e.2)

/-! ## JSON values carried by `interface{}` fields -/

/-- Value a Go `interface{}` holds after `json.Unmarshal`; `null` is the nil interface.
A number is the float64 the decoder produced, given by its bit pattern. -/
inductive JsonValue where
  | null : JsonValue
  | bool (b : Bool) : JsonValue
  | number (bits : Nat) : JsonValue
  | str (s : String) : JsonValue
  | array (xs : List JsonValue) : JsonValue
  | object (kvs : List (String × JsonValue)) : JsonValue

/-- The two functions of the standard library `encoding/json` the reconciler calls on
`interface{}` values. -/
structure JsonCodec where
  Unmarshal : String → Except String JsonValue
  Marshal : JsonValue → String

/-! ## Client model (`utils/nvcf_client_model.go`) -/

structure NvidiaCloudFunctionSecret where
  Name : String
  Value : JsonValue

structure NvidiaCloudFunctionModel where
  Name : String
  Version : String
  URI : String
  deriving DecidableEq, Repr

structure NvidiaCloudFunctionContainerEnvironment where
  Key : String
  Value : String
  deriving DecidableEq, Repr

structure NvidiaCloudFunctionHealth where
  Protocol : String
  URI : String
  Port : Int
  Timeout : String
  ExpectedStatusCode : Int
  deriving DecidableEq, Repr

structure NvidiaCloudFunctionActiveInstance where
  InstanceID : String
  FunctionID : String
  FunctionVersionID : String
  InstanceType : String
  InstanceStatus : String
  SisRequestID : String
  NcaID : String
  Gpu : String
  Backend : String
  Location : String
  InstanceCreatedAt : String
  InstanceUpdatedAt : String
  deriving DecidableEq, Repr

structure NvidiaCloudFunctionResource where
  Name : String
  Version : String
  URI : String
  deriving DecidableEq, Repr

structure NvidiaCloudFunctionInfo where
  ID : String
  NcaID : String
  VersionID : String
  Name : String
  Status : String
  InferenceURL : String
  OwnedByDifferentAccount : Bool
  InferencePort : Int
  ContainerImage : String
  ContainerEnvironment : Option (List NvidiaCloudFunctionContainerEnvironment)
  Models : Option (List NvidiaCloudFunctionModel)
  ContainerArgs : String
  APIBodyFormat : String
  HelmChart : String
  HelmChartServiceName : String
  HealthURI : String
  CreatedAt : String
  Description : String
  Health : Option NvidiaCloudFunctionHealth
  ActiveInstances : Option (List NvidiaCloudFunctionActiveInstance)
  Resources : Option (List NvidiaCloudFunctionResource)
  Secrets : Option (List String)
  Tags : Option (List String)
  FunctionType : String
  deriving DecidableEq, Repr

/-- The zero value of `NvidiaCloudFunctionInfo`. -/
def NvidiaCloudFunctionInfo.zero : NvidiaCloudFunctionInfo :=
  { ID := "", NcaID := "", VersionID := "", Name := "", Status := "", InferenceURL := "",
    OwnedByDifferentAccount := false, InferencePort := 0, ContainerImage := "",
    ContainerEnvironment := none, Models := none, ContainerArgs := "", APIBodyFormat := "",
    HelmChart := "", HelmChartServiceName := "", HealthURI := "", CreatedAt := "",
    Description := "", Health := none, ActiveInstances := none, Resources := none,
    Secrets := none, Tags := none, FunctionType := "" }

structure CreateNvidiaCloudFunctionRequest where
  FunctionName : String
  HelmChart : String
  HelmChartServiceName : String
  InferenceUrl : String
  HealthUri : String
  InferencePort : Int
  ContainerImage : String
  ContainerEnvironment : Option (List NvidiaCloudFunctionContainerEnvironment)
  Models : Option (List NvidiaCloudFunctionModel)
  ContainerArgs : String
  APIBodyFormat : String
  Description : String
  Health : Option NvidiaCloudFunctionHealth
  Resources : Option (List NvidiaCloudFunctionResource)
  Secrets : Option (List NvidiaCloudFunctionSecret)
  Tags : Option (List String)
  FunctionType : String

structure CreateNvidiaCloudFunctionResponse where
  Function : NvidiaCloudFunctionInfo
  deriving DecidableEq, Repr

structure GetNvidiaCloudFunctionVersionResponse where
  Function : NvidiaCloudFunctionInfo
  deriving DecidableEq, Repr

structure UpdateNvidiaCloudFunctionMetadataRequest where
  Tags : List String
  deriving DecidableEq, Repr

structure UpdateNvidiaCloudFunctionMetadataResponse where
  Function : NvidiaCloudFunctionInfo
  deriving DecidableEq, Repr

structure NvidiaCloudFunctionDeploymentSpecification where
  Gpu : String
  Backend : String
  InstanceType : String
  MaxInstances : Int
  MinInstances : Int
  MaxRequestConcurrency : Int
  Configuration : JsonValue

structure NvidiaCloudFunctionDeployment where
  FunctionID : String
  FunctionVersionID : String
  NcaID : String
  FunctionStatus : String
  HealthInfo : JsonValue
  DeploymentSpecifications : Option (List NvidiaCloudFunctionDeploymentSpecification)

/-- The zero value of `NvidiaCloudFunctionDeployment`: what the decoder leaves when the
body carries no deployment. -/
def NvidiaCloudFunctionDeployment.zero : NvidiaCloudFunctionDeployment :=
  { FunctionID := "", FunctionVersionID := "", NcaID := "", FunctionStatus := "",
    HealthInfo := JsonValue.null, DeploymentSpecifications := none }

structure CreateNvidiaCloudFunctionDeploymentRequest where
  DeploymentSpecifications : List NvidiaCloudFunctionDeploymentSpecification

structure CreateNvidiaCloudFunctionDeploymentResponse where
  Deployment : NvidiaCloudFunctionDeployment

structure UpdateNvidiaCloudFunctionDeploymentRequest where
  DeploymentSpecifications : List NvidiaCloudFunctionDeploymentSpecification

structure UpdateNvidiaCloudFunctionDeploymentResponse where
  Deployment : NvidiaCloudFunctionDeployment

structure ReadNvidiaCloudFunctionDeploymentResponse where
  Deployment : NvidiaCloudFunctionDeployment

structure DeleteNvidiaCloudFunctionDeploymentResponse where
  Function : NvidiaCloudFunctionInfo
  deriving DecidableEq, Repr

structure AuthorizedParty where
  ClientId : String
  NcaID : String
  deriving DecidableEq, Repr

structure AuthorizeAccountsToInvokeFunctionRequest where
  AuthorizedParties : List AuthorizedParty
  deriving DecidableEq, Repr

structure AuthorizeAccountsToInvokeFunctionResponseFunctionInfo where
  Id : String
  NcaID : String
  VersionID : String
  AuthorizedParties : Option (List AuthorizedParty)
  deriving DecidableEq, Repr

structure AuthorizeAccountsToInvokeFunctionResponse where
  Function : AuthorizeAccountsToInvokeFunctionResponseFunctionInfo
  deriving DecidableEq, Repr

/-- The zero value `utils.AuthorizeAccountsToInvokeFunctionResponse{}`. -/
def AuthorizeAccountsToInvokeFunctionResponse.zero : AuthorizeAccountsToInvokeFunctionResponse :=
  { Function := { Id := "", NcaID := "", VersionID := "", AuthorizedParties := none } }

/-! ## The remote, the trace and the clock -/

/-- One call of a client method, with the arguments that reach the wire. -/
inductive Call where
  | createFunction (functionID : String) (req : CreateNvidiaCloudFunctionRequest)
  | getFunctionVersion (functionID versionID : String)
  | updateFunctionTags (functionID versionID : String) (req : UpdateNvidiaCloudFunctionMetadataRequest)
  | deleteFunctionVersion (functionID versionID : String)
  | createDeployment (functionID versionID : String) (req : CreateNvidiaCloudFunctionDeploymentRequest)
  | updateDeployment (functionID versionID : String) (req : UpdateNvidiaCloudFunctionDeploymentRequest)
  | readDeployment (functionID versionID : String)
  | deleteDeployment (functionID versionID : String)
  | authorizeParties (functionID versionID : String) (req : AuthorizeAccountsToInvokeFunctionRequest)
  | unauthorizeAllParties (functionID versionID : String)
  | getAuthorization (functionID versionID : String)

/-- What a remote call gives back: the Go pair `(resp, err)`, the state the remote is in
afterwards, and the time the call took. -/
structure Reply (σ α : Type) where
  resp : α
  err : Option String
  next : σ
  took : Nat

/-- The environment of the provider: one handler per client method, over an arbitrary
state, and the choice the Go runtime makes when both cases of the waiter's `select` are
ready at the same instant (`true`: the `ctx.Done()` case). -/
structure Remote (σ : Type) where
  createFunction : σ → String → CreateNvidiaCloudFunctionRequest → Reply σ CreateNvidiaCloudFunctionResponse
  getFunctionVersion : σ → String → String → Reply σ GetNvidiaCloudFunctionVersionResponse
  updateFunctionTags : σ → String → String → UpdateNvidiaCloudFunctionMetadataRequest → Reply σ UpdateNvidiaCloudFunctionMetadataResponse
  deleteFunctionVersion : σ → String → String → Reply σ Unit
  createDeployment : σ → String → String → CreateNvidiaCloudFunctionDeploymentRequest → Reply σ CreateNvidiaCloudFunctionDeploymentResponse
  updateDeployment : σ → String → String → UpdateNvidiaCloudFunctionDeploymentRequest → Reply σ UpdateNvidiaCloudFunctionDeploymentResponse
  readDeployment : σ → String → String → Reply σ ReadNvidiaCloudFunctionDeploymentResponse
  deleteDeployment : σ → String → String → Reply σ DeleteNvidiaCloudFunctionDeploymentResponse
  authorizeParties : σ → String → String → AuthorizeAccountsToInvokeFunctionRequest → Reply σ AuthorizeAccountsToInvokeFunctionResponse
  unauthorizeAllParties : σ → String → String → Reply σ Unit
  getAuthorization : σ → String → String → Reply σ AuthorizeAccountsToInvokeFunctionResponse
  selectTie : σ → Bool

/-- State threaded through the provider code: the remote, the clock and the calls issued
so far, oldest first. -/
structure World (σ : Type) where
  remote : σ
  now : Nat
  calls : List Call

/-- Result of a client method: the Go pair and the world after the call. -/
structure Called (σ α : Type) where
  resp : α
  err : Option String
  world : World σ

/-- Issue one call: log it, move the remote on and let the clock advance. -/
def World.issue {σ α : Type} (w : World σ) (c : Call) (r : Reply σ α) : Called σ α :=
  { resp := r.resp, err := r.err,
    world := { remote := r.next, now := w.now + r.took, calls := w.calls ++ [c] } }

/-- A `context.Context` as the waiter sees it: the instant at which `ctx.Done()` becomes
ready (deadline or cancellation), if ever. -/
structure Context where
  doneAt : Option Nat
  deriving DecidableEq, Repr

/-- The duration `time.Second`, in nanoseconds. -/
def Second : Nat := 1000000000

/-- Library function `context.WithTimeout`, called at instant `now`. -/
def WithTimeout (ctx : Context) (now timeout : Nat) : Context :=
  match ctx.doneAt with
  | none => { doneAt := some (now + timeout) }
  | some d => { doneAt := some (min d (now + timeout)) }

/-! ## Client methods (`utils/nvcf_client.go`) -/

def CreateNvidiaCloudFunction {σ : Type} (env : Remote σ) (w : World σ) (functionID : String)
    (req : CreateNvidiaCloudFunctionRequest) : Called σ CreateNvidiaCloudFunctionResponse :=
  w.issue (Call.createFunction functionID req) (env.createFunction w.remote functionID req)

def UpdateNvidiaCloudFunctionMetadata {σ : Type} (env : Remote σ) (w : World σ)
    (functionID functionVersionID : String) (req : UpdateNvidiaCloudFunctionMetadataRequest) :
    Called σ UpdateNvidiaCloudFunctionMetadataResponse :=
  w.issue (Call.updateFunctionTags functionID functionVersionID req)
    (env.updateFunctionTags w.remote functionID functionVersionID req)

def GetNvidiaCloudFunctionVersion {σ : Type} (env : Remote σ) (w : World σ)
    (functionID functionVersionID : String) : Called σ GetNvidiaCloudFunctionVersionResponse :=
  w.issue (Call.getFunctionVersion functionID functionVersionID)
    (env.getFunctionVersion w.remote functionID functionVersionID)

def DeleteNvidiaCloudFunctionVersion {σ : Type} (env : Remote σ) (w : World σ)
    (functionID functionVersionID : String) : Called σ Unit :=
  w.issue (Call.deleteFunctionVersion functionID functionVersionID)
    (env.deleteFunctionVersion w.remote functionID functionVersionID)

def CreateNvidiaCloudFunctionDeployment {σ : Type} (env : Remote σ) (w : World σ)
    (functionID functionVersionID : String) (req : CreateNvidiaCloudFunctionDeploymentRequest) :
    Called σ CreateNvidiaCloudFunctionDeploymentResponse :=
  w.issue (Call.createDeployment functionID functionVersionID req)
    (env.createDeployment w.remote functionID functionVersionID req)

def UpdateNvidiaCloudFunctionDeployment {σ : Type} (env : Remote σ) (w : World σ)
    (functionID functionVersionID : String) (req : UpdateNvidiaCloudFunctionDeploymentRequest) :
    Called σ UpdateNvidiaCloudFunctionDeploymentResponse :=
  w.issue (Call.updateDeployment functionID functionVersionID req)
    (env.updateDeployment w.remote functionID functionVersionID req)

def ReadNvidiaCloudFunctionDeployment {σ : Type} (env : Remote σ) (w : World σ)
    (functionID functionVersionID : String) : Called σ ReadNvidiaCloudFunctionDeploymentResponse :=
  w.issue (Call.readDeployment functionID functionVersionID)
    (env.readDeployment w.remote functionID functionVersionID)

def DeleteNvidiaCloudFunctionDeployment {σ : Type} (env : Remote σ) (w : World σ)
    (functionID functionVersionID : String) : Called σ DeleteNvidiaCloudFunctionDeploymentResponse :=
  w.issue (Call.deleteDeployment functionID functionVersionID)
    (env.deleteDeployment w.remote functionID functionVersionID)

def AuthorizeAccountsToInvokeFunction {σ : Type} (env : Remote σ) (w : World σ)
    (functionID functionVersionID : String) (req : AuthorizeAccountsToInvokeFunctionRequest) :
    Called σ AuthorizeAccountsToInvokeFunctionResponse :=
  w.issue (Call.authorizeParties functionID functionVersionID req)
    (env.authorizeParties w.remote functionID functionVersionID req)

def UnAuthorizeAllExtraAccountsToInvokeFunction {σ : Type} (env : Remote σ) (w : World σ)
    (functionID functionVersionID : String) : Called σ Unit :=
  w.issue (Call.unauthorizeAllParties functionID functionVersionID)
    (env.unauthorizeAllParties w.remote functionID functionVersionID)

def GetFunctionAuthorization {σ : Type} (env : Remote σ) (w : World σ)
    (functionID functionVersionID : String) : Called σ AuthorizeAccountsToInvokeFunctionResponse :=
  w.issue (Call.getAuthorization functionID functionVersionID)
    (env.getAuthorization w.remote functionID functionVersionID)

/-- The case of the waiter's `select` that fires. -/
inductive SelectCase where
  | ctxDone : SelectCase
  | timeAfter : SelectCase
  deriving DecidableEq, Repr

/-- The interval `60 * time.Second` of the waiter. -/
def waitInterval : Nat := 60 * Second

/-- The statement `select { case <-ctx.Done(): ...; case <-time.After(60 * time.Second): ... }`
entered at instant `now`: the case that fires and the instant at which it does.  The
earlier of the two channels wins; when both become ready at the same instant the runtime
chooses (`tie`). -/
def selectWait (ctx : Context) (tie : Bool) (now : Nat) : SelectCase × Nat :=
  match ctx.doneAt with
  | none => (SelectCase.timeAfter, now + waitInterval)
  | some d =>
    if d ≤ now then (SelectCase.ctxDone, now)
    else if d < now + waitInterval then (SelectCase.ctxDone, d)
    else if now + waitInterval < d then (SelectCase.timeAfter, now + waitInterval)
    else if tie then (SelectCase.ctxDone, d)
    else (SelectCase.timeAfter, now + waitInterval)

/-- Result of a function that returns only an `error`. -/
structure Outcome (σ : Type) where
  err : Option String
  world : World σ

/-- `NVCFClient.WaitingDeploymentCompleted`.  The Go loop is unbounded; `fuel` bounds the
number of iterations and `none` means the bound was reached before the loop returned. -/
def WaitingDeploymentCompleted {σ : Type} (env : Remote σ) (ctx : Context)
    (functionID functionVersionId : String) : Nat → World σ → Option (Outcome σ)
  | 0, _ => none
  | fuel + 1, w =>
    let r := ReadNvidiaCloudFunctionDeployment env w functionID functionVersionId
    match r.err with
    | some e => some { err := some e, world := r.world }
    | none =>
      if r.resp.Deployment.FunctionStatus = "ACTIVE" then
        some { err := none, world := r.world }
      else if r.resp.Deployment.FunctionStatus = "DEPLOYING" then
        match selectWait ctx (env.selectTie r.world.remote) r.world.now with
        | (SelectCase.ctxDone, t) =>
          some { err := some "timeout occurred", world := { r.world with now := t } }
        | (SelectCase.timeAfter, t) =>
          WaitingDeploymentCompleted env ctx functionID functionVersionId fuel
            { r.world with now := t }
      else
        some { err := some ("unexpected status " ++ r.resp.Deployment.FunctionStatus),
               world := r.world }

/-! ## Resource model (`cloud_function_models.go`) -/

structure NvidiaCloudFunctionResourceContainerEnvironmentModel where
  Key : TfString
  Value : TfString
  deriving DecidableEq, Repr

structure NvidiaCloudFunctionResourceHealthModel where
  Protocol : TfString
  Uri : TfString
  Port : TfInt64
  Timeout : TfString
  ExpectedStatusCode : TfInt64
  deriving DecidableEq, Repr

structure NvidiaCloudFunctionResourceAuthorizedPartyModel where
  NcaID : TfString
  deriving DecidableEq, Repr

structure NvidiaCloudFunctionResourceSecretModel where
  Name : TfString
  Value : TfString
  deriving DecidableEq, Repr

structure NvidiaCloudFunctionResourceResourceModel where
  Name : TfString
  Uri : TfString
  Version : TfString
  deriving DecidableEq, Repr

structure NvidiaCloudFunctionResourceModelModel where
  Name : TfString
  Uri : TfString
  Version : TfString
  deriving DecidableEq, Repr

structure NvidiaCloudFunctionResourceDeploymentSpecificationModel where
  GpuType : TfString
  Backend : TfString
  MaxInstances : TfInt64
  MinInstances : TfInt64
  MaxRequestConcurrency : TfInt64
  Configuration : TfString
  InstanceType : TfString
  deriving DecidableEq, Repr

/-- One entry of the `timeouts` block: absent (null or unknown), a string that
`time.ParseDuration` rejects, or a duration in nanoseconds. -/
inductive TimeoutSetting where
  | unset : TimeoutSetting
  | invalid (raw : String) : TimeoutSetting
  | duration (ns : Nat) : TimeoutSetting
  deriving DecidableEq, Repr

/-- The `timeouts.Value` of the resource; the schema enables `create` and `update`. -/
structure TimeoutsValue where
  create : TimeoutSetting
  update : TimeoutSetting
  deriving DecidableEq, Repr

/-- Framework method `getTimeout` behind `Timeouts.Create` and `Timeouts.Update`: the
duration and the diagnostics. -/
def getTimeout (s : TimeoutSetting) (defaultTimeout : Nat) : Nat × List (String × String) :=
  match s with
  | TimeoutSetting.unset => (defaultTimeout, [])
  | TimeoutSetting.invalid raw => (defaultTimeout, [("Timeout Cannot Be Parsed", raw)])
  | TimeoutSetting.duration ns => (ns, [])

/-- Framework method `Timeouts.Create`. -/
def TimeoutsValue.Create (t : TimeoutsValue) (defaultTimeout : Nat) : Nat × List (String × String) :=
  getTimeout t.create defaultTimeout

/-- Framework method `Timeouts.Update`. -/
def TimeoutsValue.Update (t : TimeoutsValue) (defaultTimeout : Nat) : Nat × List (String × String) :=
  getTimeout t.update defaultTimeout

/-- The resource model.  The elements of `Tags` are strings, as the Go targets `[]string`
of its conversions are. -/
structure NvidiaCloudFunctionResourceModel where
  Id : TfString
  FunctionID : TfString
  VersionID : TfString
  NcaId : TfString
  FunctionName : TfString
  InferencePort : TfInt64
  HelmChart : TfString
  HelmChartServiceName : TfString
  ContainerImage : TfString
  ContainerArgs : TfString
  ContainerEnvironment : TfValue (List NvidiaCloudFunctionResourceContainerEnvironmentModel)
  InferenceUrl : TfString
  HealthUri : TfString
  Health : TfValue NvidiaCloudFunctionResourceHealthModel
  APIBodyFormat : TfString
  DeploymentSpecifications : TfValue (List NvidiaCloudFunctionResourceDeploymentSpecificationModel)
  Tags : TfValue (List String)
  Description : TfString
  Models : TfValue (List NvidiaCloudFunctionResourceModelModel)
  Resources : TfValue (List NvidiaCloudFunctionResourceResourceModel)
  FunctionType : TfString
  KeepFailedResource : TfBool
  Timeouts : TimeoutsValue
  Secrets : TfValue (List NvidiaCloudFunctionResourceSecretModel)
  AuthorizedParties : TfValue (List NvidiaCloudFunctionResourceAuthorizedPartyModel)
  deriving DecidableEq, Repr

/-! ## The reconciler (`cloud_function_resource.go`) -/

/-- The constant `DEFAULT_TIMEOUT_SEC`. -/
def DEFAULT_TIMEOUT_SEC : Nat := 60 * 60

/-- Result of a helper that works on the diagnostics it is handed and on the world. -/
structure Ret (σ α : Type) where
  val : α
  diags : Diagnostics
  world : World σ

/-- Library function `sort.Slice` with the comparison of the merge, `Key[i] < Key[j]`.  The
result is sorted by key.  `sort.Slice` is not stable: up to twelve entries it is an insertion
sort, which keeps entries with equal keys in input order, as this definition does; for longer
slices the order among entries with equal keys is that of the library's quicksort and is not
modelled, so nothing below is stated about the order of entries with equal keys. -/
def sortByKey (xs : List NvidiaCloudFunctionContainerEnvironment) :
    List NvidiaCloudFunctionContainerEnvironment :=
  xs.mergeSort (fun a b => decide (¬ b.Key < a.Key))

/-- The values that occur more than once in a list, each named once, in the order of
their first occurrence. -/
def duplicateValues {α : Type} [DecidableEq α] : List α → List α
  | [] => []
  | x :: xs =>
    if x ∈ xs ∧ x ∉ duplicateValues xs then x :: duplicateValues xs else duplicateValues xs

/-- Framework function `types.SetValueFrom` on a non-nil Go slice of values of the declared
element type: the set and the diagnostics.  The validation of the set type rejects a slice
in which a value occurs more than once: the result is then the unknown set, with one error
`Duplicate Set Element` for each repeated value.  (The framework ends the detail of that
error with a rendering of the value, which is left out here.) -/
def SetValueFrom {α : Type} [DecidableEq α] (xs : List α) :
    TfValue (List α) × List (String × String) :=
  if duplicateValues xs = [] then (TfValue.known xs, [])
  else
    (TfValue.unknown,
     (duplicateValues xs).map (fun _ =>
       ("Duplicate Set Element", "This attribute contains duplicate values of: ")))

/-- The elements of the `container_environment` set the merge builds from the entries of
the response, which it first sorts by key. -/
def containerEnvironmentModels (env : List NvidiaCloudFunctionContainerEnvironment) :
    List NvidiaCloudFunctionResourceContainerEnvironmentModel :=
  (sortByKey env).map (fun v =>
    NvidiaCloudFunctionResourceContainerEnvironmentModel.mk
      (TfValue.known v.Key) (TfValue.known v.Value))

/-- The elements of the `resources` set the merge builds from the response. -/
def resourceModels (rs : List NvidiaCloudFunctionResource) :
    List NvidiaCloudFunctionResourceResourceModel :=
  rs.map (fun v =>
    NvidiaCloudFunctionResourceResourceModel.mk
      (TfValue.known v.Name) (TfValue.known v.URI) (TfValue.known v.Version))

/-- The elements of the `models` set the merge builds from the response. -/
def modelModels (ms : List NvidiaCloudFunctionModel) :
    List NvidiaCloudFunctionResourceModelModel :=
  ms.map (fun v =>
    NvidiaCloudFunctionResourceModelModel.mk
      (TfValue.known v.Name) (TfValue.known v.URI) (TfValue.known v.Version))

/-- The elements of the `authorized_parties` set the merge builds from the authorization
response (a pointer, `none` is nil): none when the pointer or its list of parties is nil. -/
def authorizedPartyModels (authorizedAccounts : Option AuthorizeAccountsToInvokeFunctionResponse) :
    List NvidiaCloudFunctionResourceAuthorizedPartyModel :=
  match authorizedAccounts with
  | some a =>
    match a.Function.AuthorizedParties with
    | some ps =>
      ps.map (fun v => NvidiaCloudFunctionResourceAuthorizedPartyModel.mk (TfValue.known v.NcaID))
    | none => []
  | none => []

/-- The deployment-specification entry the merge builds from one remote entry. -/
def deploymentSpecificationModelOf (codec : JsonCodec)
    (v : NvidiaCloudFunctionDeploymentSpecification) :
    NvidiaCloudFunctionResourceDeploymentSpecificationModel :=
  { Backend := TfValue.known v.Backend,
    InstanceType := TfValue.known v.InstanceType,
    GpuType := TfValue.known v.Gpu,
    MaxInstances := TfValue.known v.MaxInstances,
    MinInstances := TfValue.known v.MinInstances,
    MaxRequestConcurrency := TfValue.known v.MaxRequestConcurrency,
    Configuration :=
      match v.Configuration with
      | JsonValue.null => TfValue.null
      | c => TfValue.known (codec.Marshal c) }

/-- `updateNvidiaCloudFunctionResourceModelBaseOnResponse`, the model it leaves in `data`:
merge of the function, of the deployment (a pointer, `none` is nil) and of the
authorization (a pointer) into the model.  The Go function assigns each attribute at most
once and reads none that it has assigned (`KeepFailedResource` is read before its own
assignment), so the result is given attribute by attribute.  The conversions
`ListValueFrom` and `ObjectValueFrom` are applied to Go values of the declared types and
return no diagnostics; the sets are what `SetValueFrom` returns, unknown when an element
is repeated.  The diagnostics the Go function appends are given by
`updateNvidiaCloudFunctionResourceModelBaseOnResponseDiagnostics`. -/
def updateNvidiaCloudFunctionResourceModelBaseOnResponse (codec : JsonCodec)
    (data : NvidiaCloudFunctionResourceModel)
    (functionInfo : NvidiaCloudFunctionInfo)
    (functionDeployment : Option NvidiaCloudFunctionDeployment)
    (authorizedAccounts : Option AuthorizeAccountsToInvokeFunctionResponse) :
    NvidiaCloudFunctionResourceModel :=
  { Id := TfValue.known functionInfo.ID,
    FunctionID := data.FunctionID,
    VersionID := TfValue.known functionInfo.VersionID,
    InferencePort := TfValue.known functionInfo.InferencePort,
    KeepFailedResource :=
      if data.KeepFailedResource.IsNull || data.KeepFailedResource.IsUnknown then
        TfValue.known false
      else data.KeepFailedResource,
    APIBodyFormat :=
      if functionInfo.APIBodyFormat ≠ "" then TfValue.known functionInfo.APIBodyFormat
      else data.APIBodyFormat,
    InferenceUrl :=
      if functionInfo.InferenceURL ≠ "" then TfValue.known functionInfo.InferenceURL
      else data.InferenceUrl,
    NcaId :=
      if functionInfo.NcaID ≠ "" then TfValue.known functionInfo.NcaID else data.NcaId,
    FunctionName :=
      if functionInfo.Name ≠ "" then TfValue.known functionInfo.Name else data.FunctionName,
    HealthUri :=
      if functionInfo.HealthURI ≠ "" then TfValue.known functionInfo.HealthURI
      else data.HealthUri,
    HelmChartServiceName :=
      if functionInfo.HelmChartServiceName ≠ "" then
        TfValue.known functionInfo.HelmChartServiceName
      else data.HelmChartServiceName,
    HelmChart :=
      if functionInfo.HelmChart ≠ "" then TfValue.known functionInfo.HelmChart
      else data.HelmChart,
    ContainerImage :=
      if functionInfo.ContainerImage ≠ "" then TfValue.known functionInfo.ContainerImage
      else data.ContainerImage,
    ContainerArgs :=
      if functionInfo.ContainerArgs ≠ "" then TfValue.known functionInfo.ContainerArgs
      else data.ContainerArgs,
    FunctionType :=
      if functionInfo.FunctionType ≠ "" then TfValue.known functionInfo.FunctionType
      else data.FunctionType,
    Description :=
      if functionInfo.Description ≠ "" then TfValue.known functionInfo.Description
      else data.Description,
    DeploymentSpecifications :=
      match functionDeployment with
      | some d =>
        match d.DeploymentSpecifications with
        | some specs => TfValue.known (specs.map (deploymentSpecificationModelOf codec))
        | none => data.DeploymentSpecifications
      | none => data.DeploymentSpecifications,
    Tags :=
      match functionInfo.Tags with
      | some tags => (SetValueFrom tags).1
      | none => data.Tags,
    Health :=
      match functionInfo.Health with
      | some h =>
        TfValue.known (NvidiaCloudFunctionResourceHealthModel.mk
          (TfValue.known h.Protocol) (TfValue.known h.URI) (TfValue.known h.Port)
          (TfValue.known h.Timeout) (TfValue.known h.ExpectedStatusCode))
      | none => data.Health,
    ContainerEnvironment :=
      match functionInfo.ContainerEnvironment with
      | some env => (SetValueFrom (containerEnvironmentModels env)).1
      | none => data.ContainerEnvironment,
    Resources :=
      match functionInfo.Resources with
      | some rs => (SetValueFrom (resourceModels rs)).1
      | none => data.Resources,
    Models :=
      match functionInfo.Models with
      | some ms => (SetValueFrom (modelModels ms)).1
      | none => data.Models,
    AuthorizedParties := (SetValueFrom (authorizedPartyModels authorizedAccounts)).1,
    Timeouts := data.Timeouts,
    Secrets := data.Secrets }

/-- `updateNvidiaCloudFunctionResourceModelBaseOnResponse`, the diagnostics it leaves in
`diag`: those handed over, followed by what `SetValueFrom` returns for the tags, the
container environment, the resources, the models and the authorized parties, in the order
of the Go function (a nil slice of the function response is not converted). -/
def updateNvidiaCloudFunctionResourceModelBaseOnResponseDiagnostics
    (functionInfo : NvidiaCloudFunctionInfo)
    (authorizedAccounts : Option AuthorizeAccountsToInvokeFunctionResponse)
    (diag : Diagnostics) : Diagnostics :=
  let diag :=
    match functionInfo.Tags with
    | some tags => Append diag (SetValueFrom tags).2
    | none => diag
  let diag :=
    match functionInfo.ContainerEnvironment with
    | some env => Append diag (SetValueFrom (containerEnvironmentModels env)).2
    | none => diag
  let diag :=
    match functionInfo.Resources with
    | some rs => Append diag (SetValueFrom (resourceModels rs)).2
    | none => diag
  let diag :=
    match functionInfo.Models with
    | some ms => Append diag (SetValueFrom (modelModels ms)).2
    | none => diag
  Append diag (SetValueFrom (authorizedPartyModels authorizedAccounts)).2

/-- The zero value `utils.CreateNvidiaCloudFunctionRequest{}`. -/
def CreateNvidiaCloudFunctionRequest.zero : CreateNvidiaCloudFunctionRequest :=
  { FunctionName := "", HelmChart := "", HelmChartServiceName := "", InferenceUrl := "",
    HealthUri := "", InferencePort := 0, ContainerImage := "", ContainerEnvironment := none,
    Models := none, ContainerArgs := "", APIBodyFormat := "", Description := "",
    Health := none, Resources := none, Secrets := none, Tags := none, FunctionType := "" }

/-- A Go slice grown by `append` from the nil slice: nil when nothing was appended. -/
def appended {α : Type} (xs : List α) : Option (List α) :=
  if xs.isEmpty then none else some xs

/-- Whether an attribute is neither null nor unknown. -/
def TfValue.isSet {α : Type} (v : TfValue α) : Bool := !v.IsNull && !v.IsUnknown

/-- The payload entry `createOrUpdateRequest` appends for one secret, if any: none for the
empty value, the parsed JSON value when the string parses, the string itself otherwise. -/
def secretEntry (codec : JsonCodec) (v : NvidiaCloudFunctionResourceSecretModel) :
    Option NvidiaCloudFunctionSecret :=
  if v.Value.ValueString ≠ "" then
    match codec.Unmarshal v.Value.ValueString with
    | Except.error _ => some { Name := v.Name.ValueString, Value := JsonValue.str v.Value.ValueString }
    | Except.ok secretValue => some { Name := v.Name.ValueString, Value := secretValue }
  else none

/-- `NvidiaCloudFunctionResource.createOrUpdateRequest`: the function-creation payload and
the diagnostics. -/
def createOrUpdateRequest (codec : JsonCodec) (data : NvidiaCloudFunctionResourceModel)
    (diag : Diagnostics) : CreateNvidiaCloudFunctionRequest × Diagnostics :=
  let diag1 := if data.Secrets.isSet then Append diag data.Secrets.ElementsAs.2 else diag
  if data.Secrets.isSet && HasError diag1 then (CreateNvidiaCloudFunctionRequest.zero, diag1)
  else
  let diag2 := if data.ContainerEnvironment.isSet then
    Append diag1 data.ContainerEnvironment.ElementsAs.2 else diag1
  if data.ContainerEnvironment.isSet && HasError diag2 then
    (CreateNvidiaCloudFunctionRequest.zero, diag2)
  else
  let diag3 := if data.Resources.isSet then Append diag2 data.Resources.ElementsAs.2 else diag2
  if data.Resources.isSet && HasError diag3 then (CreateNvidiaCloudFunctionRequest.zero, diag3)
  else
  let diag4 := if data.Models.isSet then Append diag3 data.Models.ElementsAs.2 else diag3
  if data.Models.isSet && HasError diag4 then (CreateNvidiaCloudFunctionRequest.zero, diag4)
  else
  ({ FunctionName := data.FunctionName.ValueString,
     InferencePort := data.InferencePort.ValueInt64,
     InferenceUrl := data.InferenceUrl.ValueString,
     APIBodyFormat := data.APIBodyFormat.ValueString,
     FunctionType := data.FunctionType.ValueString,
     HelmChart := if data.HelmChart.isSet then data.HelmChart.ValueString else "",
     HelmChartServiceName :=
       if data.HelmChartServiceName.isSet then data.HelmChartServiceName.ValueString else "",
     ContainerImage := if data.ContainerImage.isSet then data.ContainerImage.ValueString else "",
     ContainerArgs := if data.ContainerArgs.isSet then data.ContainerArgs.ValueString else "",
     HealthUri := if data.HealthUri.isSet then data.HealthUri.ValueString else "",
     Description := if data.Description.isSet then data.Description.ValueString else "",
     Secrets :=
       if data.Secrets.isSet then
         appended (data.Secrets.ElementsAs.1.filterMap (secretEntry codec))
       else none,
     Tags := if data.Tags.isSet then some data.Tags.Elements else none,
     ContainerEnvironment :=
       if data.ContainerEnvironment.isSet then
         appended (data.ContainerEnvironment.ElementsAs.1.map (fun v =>
           NvidiaCloudFunctionContainerEnvironment.mk v.Key.ValueString v.Value.ValueString))
       else none,
     Health :=
       match data.Health with
       | TfValue.known health =>
         some { URI := health.Uri.ValueString,
                Port := health.Port.ValueInt64,
                Protocol := health.Protocol.ValueString,
                Timeout := health.Timeout.ValueString,
                ExpectedStatusCode := health.ExpectedStatusCode.ValueInt64 }
       | _ => none,
     Resources :=
       if data.Resources.isSet then
         appended (data.Resources.ElementsAs.1.map (fun v =>
           NvidiaCloudFunctionResource.mk v.Name.ValueString v.Version.ValueString v.Uri.ValueString))
       else none,
     Models :=
       if data.Models.isSet then
         appended (data.Models.ElementsAs.1.map (fun v =>
           NvidiaCloudFunctionModel.mk v.Name.ValueString v.Version.ValueString v.Uri.ValueString))
       else none },
   diag4)

/-- `updateTags`. -/
def updateTags {σ : Type} (env : Remote σ) (functionID versionID : String)
    (tagsRawData : TfValue (List String)) (diag : Diagnostics) (w : World σ) : Ret σ Unit :=
  let tags := tagsRawData.ElementsAs.1
  let diag := Append diag tagsRawData.ElementsAs.2
  if HasError diag then { val := (), diags := diag, world := w }
  else
    let r := UpdateNvidiaCloudFunctionMetadata env w functionID versionID { Tags := tags }
    match r.err with
    | some e => { val := (), diags := AddError diag "Failed to update function tags" e,
                  world := r.world }
    | none => { val := (), diags := diag, world := r.world }

/-- `updateFunctionAuthorizedParties`. -/
def updateFunctionAuthorizedParties {σ : Type} (env : Remote σ) (functionID versionID : String)
    (authorizePartiesRawData : TfValue (List NvidiaCloudFunctionResourceAuthorizedPartyModel))
    (diag : Diagnostics) (w : World σ) : Ret σ AuthorizeAccountsToInvokeFunctionResponse :=
  if !authorizePartiesRawData.IsNull && authorizePartiesRawData.Elements.length > 0 then
    let authorizePartiesInTerraformModel := authorizePartiesRawData.ElementsAs.1
    let diag := Append diag authorizePartiesRawData.ElementsAs.2
    if HasError diag then
      { val := AuthorizeAccountsToInvokeFunctionResponse.zero, diags := diag, world := w }
    else
      let authorizeParties := authorizePartiesInTerraformModel.map (fun v =>
        AuthorizedParty.mk "" v.NcaID.ValueString)
      let r := AuthorizeAccountsToInvokeFunction env w functionID versionID
        { AuthorizedParties := authorizeParties }
      match r.err with
      | some e =>
        { val := AuthorizeAccountsToInvokeFunctionResponse.zero,
          diags := AddError diag "Failed to authorize additional accounts to invoke function" e,
          world := r.world }
      | none => { val := r.resp, diags := diag, world := r.world }
  else
    let g := GetFunctionAuthorization env w functionID versionID
    match g.err with
    | some e =>
      { val := AuthorizeAccountsToInvokeFunctionResponse.zero,
        diags := AddError diag "Failed to list authorized parties" e, world := g.world }
    | none =>
      if (g.resp.Function.AuthorizedParties.getD []).length > 0 then
        let u := UnAuthorizeAllExtraAccountsToInvokeFunction env g.world functionID versionID
        match u.err with
        | some e =>
          { val := AuthorizeAccountsToInvokeFunctionResponse.zero,
            diags := AddError diag "Failed to unauthorize additional accounts to invoke function" e,
            world := u.world }
        | none =>
          { val := AuthorizeAccountsToInvokeFunctionResponse.zero, diags := diag,
            world := u.world }
      else
        { val := AuthorizeAccountsToInvokeFunctionResponse.zero, diags := diag, world := g.world }

/-- The loop of `prepareDeploymentSpecifications`: the request entries in input order, or
the message of the first configuration that does not parse. -/
def convertDeploymentSpecifications (codec : JsonCodec) :
    List NvidiaCloudFunctionResourceDeploymentSpecificationModel →
    Except String (List NvidiaCloudFunctionDeploymentSpecification)
  | [] => Except.ok []
  | v :: rest =>
    match (if v.Configuration.ValueString ≠ "" then codec.Unmarshal v.Configuration.ValueString
           else Except.ok JsonValue.null) with
    | Except.error e => Except.error e
    | Except.ok configuration =>
      match convertDeploymentSpecifications codec rest with
      | Except.error e => Except.error e
      | Except.ok ds =>
        Except.ok ({ Backend := v.Backend.ValueString,
                     InstanceType := v.InstanceType.ValueString,
                     Gpu := v.GpuType.ValueString,
                     MaxInstances := v.MaxInstances.ValueInt64,
                     MinInstances := v.MinInstances.ValueInt64,
                     MaxRequestConcurrency := v.MaxRequestConcurrency.ValueInt64,
                     Configuration := configuration } :: ds)

/-- `NvidiaCloudFunctionResource.prepareDeploymentSpecifications`: the slice (`none` is
nil) and the diagnostics. -/
def prepareDeploymentSpecifications (codec : JsonCodec) (data : NvidiaCloudFunctionResourceModel)
    (diag : Diagnostics) :
    Option (List NvidiaCloudFunctionDeploymentSpecification) × Diagnostics :=
  if data.DeploymentSpecifications.IsNull || data.DeploymentSpecifications.Elements.length == 0 then
    (none, diag)
  else
    let deploymentSpecifications := data.DeploymentSpecifications.ElementsAs.1
    let diag := Append diag data.DeploymentSpecifications.ElementsAs.2
    if HasError diag then (none, diag)
    else
      match convertDeploymentSpecifications codec deploymentSpecifications with
      | Except.error e => (none, AddError diag "Failed to parse deployment configuration" e)
      | Except.ok ds => (some ds, diag)

/-- `NvidiaCloudFunctionResource.createDeployment`; `none` when the waiter's loop bound is
reached. -/
def createDeployment {σ : Type} (env : Remote σ) (codec : JsonCodec) (ctx : Context) (fuel : Nat)
    (data : NvidiaCloudFunctionResourceModel) (diag : Diagnostics)
    (function : NvidiaCloudFunctionInfo) (w : World σ) :
    Option (Ret σ NvidiaCloudFunctionDeployment) :=
  let p := prepareDeploymentSpecifications codec data diag
  match p.1 with
  | none => some { val := NvidiaCloudFunctionDeployment.zero, diags := p.2, world := w }
  | some deploymentSpecificationsOption =>
    if HasError p.2 then
      some { val := NvidiaCloudFunctionDeployment.zero, diags := p.2, world := w }
    else
      let c := CreateNvidiaCloudFunctionDeployment env w function.ID function.VersionID
        { DeploymentSpecifications := deploymentSpecificationsOption }
      match c.err with
      | some e =>
        some { val := NvidiaCloudFunctionDeployment.zero,
               diags := AddError p.2 "Failed to create Cloud Function Deployment" e,
               world := c.world }
      | none =>
        match WaitingDeploymentCompleted env ctx function.ID function.VersionID fuel c.world with
        | none => none
        | some o =>
          match o.err with
          | some e =>
            some { val := NvidiaCloudFunctionDeployment.zero,
                   diags := AddError p.2 "Failed to create Cloud Function Deployment" e,
                   world := o.world }
          | none => some { val := c.resp.Deployment, diags := p.2, world := o.world }

/-- `NvidiaCloudFunctionResource.updateDeployment`; `none` when the waiter's loop bound is
reached. -/
def updateDeployment {σ : Type} (env : Remote σ) (codec : JsonCodec) (ctx : Context) (fuel : Nat)
    (data : NvidiaCloudFunctionResourceModel) (diag : Diagnostics) (w : World σ) :
    Option (Ret σ NvidiaCloudFunctionDeployment) :=
  let p := prepareDeploymentSpecifications codec data diag
  match p.1 with
  | none => some { val := NvidiaCloudFunctionDeployment.zero, diags := p.2, world := w }
  | some deploymentSpecificationsOption =>
    if HasError p.2 then
      some { val := NvidiaCloudFunctionDeployment.zero, diags := p.2, world := w }
    else
      let c := UpdateNvidiaCloudFunctionDeployment env w data.Id.ValueString
        data.VersionID.ValueString { DeploymentSpecifications := deploymentSpecificationsOption }
      match c.err with
      | some e =>
        some { val := NvidiaCloudFunctionDeployment.zero,
               diags := AddError p.2 "Failed to update Cloud Function Deployment" e,
               world := c.world }
      | none =>
        match WaitingDeploymentCompleted env ctx data.Id.ValueString data.VersionID.ValueString
            fuel c.world with
        | none => none
        | some o =>
          match o.err with
          | some e =>
            some { val := NvidiaCloudFunctionDeployment.zero,
                   diags := AddError p.2 "Failed to update Cloud Function Deployment" e,
                   world := o.world }
          | none => some { val := c.resp.Deployment, diags := p.2, world := o.world }

/-- `NvidiaCloudFunctionResource.deleteFailedDeploymentVersion`. -/
def deleteFailedDeploymentVersion {σ : Type} (env : Remote σ) (keepFailedResource : Bool)
    (functionID versionID : String) (diag : Diagnostics) (w : World σ) : Ret σ Unit :=
  if !keepFailedResource then
    let r := DeleteNvidiaCloudFunctionVersion env w functionID versionID
    match r.err with
    | some e =>
      { val := (), diags := AddError diag "Failed to delete failed Cloud Function deployment" e,
        world := r.world }
    | none => { val := (), diags := diag, world := r.world }
  else { val := (), diags := diag, world := w }

/-- What a lifecycle operation did to the Terraform state of the resource. -/
inductive StateChange where
  | untouched : StateChange
  | removed : StateChange
  | set (data : NvidiaCloudFunctionResourceModel) : StateChange
  deriving DecidableEq, Repr

/-- The response of a lifecycle operation (`resp.Diagnostics`, `resp.State`) and the world
it leaves. -/
structure Response (σ : Type) where
  Diagnostics : Diagnostics
  State : StateChange
  world : World σ

/-- `NvidiaCloudFunctionResource.Create`, on the plan `data`, entered with the context
`ctx`; `none` when the waiter's loop bound is reached.  `req.Plan.Get` and `resp.State.Set`
return no diagnostics. -/
def Create {σ : Type} (env : Remote σ) (codec : JsonCodec) (ctx : Context) (fuel : Nat)
    (data : NvidiaCloudFunctionResourceModel) (w : World σ) : Option (Response σ) :=
  let t := data.Timeouts.Create (DEFAULT_TIMEOUT_SEC * Second)
  let diag0 := Append [] t.2
  if HasError diag0 then
    some { Diagnostics := diag0, State := StateChange.untouched, world := w }
  else
    let ctx := WithTimeout ctx w.now t.1
    let q := createOrUpdateRequest codec data diag0
    if HasError q.2 then
      some { Diagnostics := q.2, State := StateChange.untouched, world := w }
    else
      let c := CreateNvidiaCloudFunction env w data.FunctionID.ValueString q.1
      match c.err with
      | some e =>
        some { Diagnostics := AddError q.2 "Failed to create Cloud Function" e,
               State := StateChange.untouched, world := c.world }
      | none =>
        let function := c.resp.Function
        let a := updateFunctionAuthorizedParties env function.ID function.VersionID
          data.AuthorizedParties q.2 c.world
        if HasError a.diags then
          some { Diagnostics := a.diags, State := StateChange.untouched, world := a.world }
        else if data.DeploymentSpecifications.Elements.length == 0 then
          some { Diagnostics :=
                   updateNvidiaCloudFunctionResourceModelBaseOnResponseDiagnostics function
                     (some a.val) a.diags,
                 State := StateChange.set (updateNvidiaCloudFunctionResourceModelBaseOnResponse
                   codec data function none (some a.val)),
                 world := a.world }
        else
          match createDeployment env codec ctx fuel data a.diags function a.world with
          | none => none
          | some d =>
            if HasError d.diags then
              let x := deleteFailedDeploymentVersion env data.KeepFailedResource.ValueBool
                function.ID function.VersionID d.diags d.world
              some { Diagnostics := x.diags, State := StateChange.untouched, world := x.world }
            else
              some { Diagnostics :=
                       updateNvidiaCloudFunctionResourceModelBaseOnResponseDiagnostics function
                         (some a.val) d.diags,
                     State := StateChange.set (updateNvidiaCloudFunctionResourceModelBaseOnResponse
                       codec data function (some d.val) (some a.val)),
                     world := d.world }

/-- Whether the second list of characters starts the first. -/
def startsWith : List Char → List Char → Bool
  | _, [] => true
  | [], _ :: _ => false
  | c :: cs, d :: ds => c == d && startsWith cs ds

/-- Whether the second list of characters occurs in the first as a contiguous run. -/
def containsChars : List Char → List Char → Bool
  | [], substr => startsWith [] substr
  | c :: cs, substr => startsWith (c :: cs) substr || containsChars cs substr

/-- Library function `strings.Contains`. -/
def stringsContains (s substr : String) : Bool := containsChars s.toList substr.toList

/-- `NvidiaCloudFunctionResource.Read`, on the prior state `data`.  `req.State.Get` and
`resp.State.Set` return no diagnostics. -/
def Read {σ : Type} (env : Remote σ) (codec : JsonCodec)
    (data : NvidiaCloudFunctionResourceModel) (w : World σ) : Response σ :=
  let g := GetNvidiaCloudFunctionVersion env w data.Id.ValueString data.VersionID.ValueString
  match g.err with
  | some e =>
    if stringsContains e "Not found" then
      { Diagnostics := [], State := StateChange.removed, world := g.world }
    else
      { Diagnostics := AddError [] "Failed to Get Cloud Function version" e,
        State := StateChange.untouched, world := g.world }
  | none =>
    let r := ReadNvidiaCloudFunctionDeployment env g.world data.Id.ValueString
      data.VersionID.ValueString
    let diag : Diagnostics :=
      match r.err with
      | some e =>
        if e ≠ "failed to find function deployment" then
          AddError [] "Failed to read Cloud Function deployment" e
        else []
      | none => []
    if HasError diag then
      { Diagnostics := diag, State := StateChange.untouched, world := r.world }
    else
      let a := GetFunctionAuthorization env r.world data.Id.ValueString data.VersionID.ValueString
      match a.err with
      | some e =>
        { Diagnostics := AddError diag "Failed to get Cloud Function authorization" e,
          State := StateChange.untouched, world := a.world }
      | none =>
        { Diagnostics :=
            updateNvidiaCloudFunctionResourceModelBaseOnResponseDiagnostics g.resp.Function
              (some a.resp) diag,
          State := StateChange.set (updateNvidiaCloudFunctionResourceModelBaseOnResponse codec
            data g.resp.Function (some r.resp.Deployment) (some a.resp)),
          world := a.world }

/-- `NvidiaCloudFunctionResource.Update`, on the plan and the prior state, entered with the
context `ctx`; `none` when the waiter's loop bound is reached.  `req.Plan.Get`,
`req.State.Get` and `resp.State.Set` return no diagnostics. -/
def Update {σ : Type} (env : Remote σ) (codec : JsonCodec) (ctx : Context) (fuel : Nat)
    (plan state : NvidiaCloudFunctionResourceModel) (w : World σ) : Option (Response σ) :=
  let t := plan.Timeouts.Update (DEFAULT_TIMEOUT_SEC * Second)
  let diag0 := Append [] t.2
  if HasError diag0 then
    some { Diagnostics := diag0, State := StateChange.untouched, world := w }
  else
    let ctx := WithTimeout ctx w.now t.1
    let u : Ret σ Unit :=
      if !(plan.Tags.SetEqual state.Tags) then
        updateTags env state.Id.ValueString state.VersionID.ValueString plan.Tags diag0 w
      else { val := (), diags := diag0, world := w }
    let g := GetNvidiaCloudFunctionVersion env u.world state.Id.ValueString
      state.VersionID.ValueString
    let diag1 : Diagnostics :=
      match g.err with
      | some e => AddError u.diags "Failed to get Cloud Function" e
      | none => u.diags
    let function := g.resp.Function
    let a := updateFunctionAuthorizedParties env function.ID function.VersionID
      plan.AuthorizedParties diag1 g.world
    if HasError a.diags then
      some { Diagnostics := a.diags, State := StateChange.untouched, world := a.world }
    else if plan.DeploymentSpecifications.Elements.length == 0 then
      let d := DeleteNvidiaCloudFunctionDeployment env a.world state.Id.ValueString
        state.VersionID.ValueString
      let diag2 : Diagnostics :=
        match d.err with
        | some e =>
          AddError a.diags
            ("Failed to delete Cloud Function Deployment " ++ plan.VersionID.ValueString) e
        | none => a.diags
      some { Diagnostics :=
               updateNvidiaCloudFunctionResourceModelBaseOnResponseDiagnostics function
                 (some a.val) diag2,
             State := StateChange.set (updateNvidiaCloudFunctionResourceModelBaseOnResponse codec
               plan function none (some a.val)),
             world := d.world }
    else
      match updateDeployment env codec ctx fuel plan a.diags a.world with
      | none => none
      | some d =>
        if HasError d.diags then
          some { Diagnostics := d.diags, State := StateChange.untouched, world := d.world }
        else
          some { Diagnostics :=
                   updateNvidiaCloudFunctionResourceModelBaseOnResponseDiagnostics function
                     (some a.val) d.diags,
                 State := StateChange.set (updateNvidiaCloudFunctionResourceModelBaseOnResponse
                   codec plan function (some d.val) (some a.val)),
                 world := d.world }

/-! ## Specification vocabulary -/

/-- The world after `k` successive polls of the waiter that each read `DEPLOYING` without
error and whose wait ended with the interval elapsing (not with `ctx.Done()`); `none` when
one of the first `k` polls is not of that kind. -/
def afterDeployingPolls {σ : Type} (env : Remote σ) (ctx : Context)
    (functionID functionVersionId : String) : Nat → World σ → Option (World σ)
  | 0, w => some w
  | k + 1, w =>
    let r := ReadNvidiaCloudFunctionDeployment env w functionID functionVersionId
    if r.err = none ∧ r.resp.Deployment.FunctionStatus = "DEPLOYING" then
      match selectWait ctx (env.selectTie r.world.remote) r.world.now with
      | (SelectCase.timeAfter, t) =>
        afterDeployingPolls env ctx functionID functionVersionId k { r.world with now := t }
      | (SelectCase.ctxDone, _) => none
    else none

/-- Whether a call is a deployment read. -/
def Call.isReadDeployment : Call → Bool
  | Call.readDeployment _ _ => true
  | _ => false

/-- Whether a call is a function-version delete. -/
def Call.isDeleteFunctionVersion : Call → Bool
  | Call.deleteFunctionVersion _ _ => true
  | _ => false

/-- Whether a call creates, updates or reads a deployment. -/
def Call.isDeploymentCall : Call → Bool
  | Call.createDeployment _ _ _ => true
  | Call.updateDeployment _ _ _ => true
  | Call.readDeployment _ _ => true
  | _ => false

/-- Whether a call is a tags update. -/
def Call.isUpdateFunctionTags : Call → Bool
  | Call.updateFunctionTags _ _ _ => true
  | _ => false

/-! ## A scripted remote for concrete runs -/

/-- Script of a test remote: the statuses successive deployment reads report, the parties
the authorization query reports, and the error, if any, of each kind of call. -/
structure Script where
  statuses : List String
  parties : Option (List AuthorizedParty)
  createFunctionErr : Option String
  getFunctionVersionErr : Option String
  updateFunctionTagsErr : Option String
  deleteFunctionVersionErr : Option String
  createDeploymentErr : Option String
  readDeploymentErr : Option String
  getAuthorizationErr : Option String
  took : Nat

/-- The script in which every call succeeds at once, no deployment exists and nobody is
authorized. -/
def Script.quiet : Script :=
  { statuses := [], parties := none, createFunctionErr := none, getFunctionVersionErr := none,
    updateFunctionTagsErr := none, deleteFunctionVersionErr := none,
    createDeploymentErr := none, readDeploymentErr := none, getAuthorizationErr := none,
    took := 0 }

/-- The function the scripted remote reports: id `f1`, version `v1`. -/
def scriptedFunction : NvidiaCloudFunctionInfo :=
  { NvidiaCloudFunctionInfo.zero with ID := "f1", VersionID := "v1" }

/-- The scripted remote.  Its state is the list of statuses still to be reported by
deployment reads; a read past the end of the list reports the empty deployment.  A failing
function call leaves the zero response, as the client does on an unexpected status. -/
def scriptedRemote (s : Script) : Remote (List String) :=
  { createFunction := fun st _ _ =>
      { resp := { Function := if s.createFunctionErr.isSome then NvidiaCloudFunctionInfo.zero
                              else scriptedFunction },
        err := s.createFunctionErr, next := st, took := s.took },
    getFunctionVersion := fun st _ _ =>
      { resp := { Function := if s.getFunctionVersionErr.isSome then NvidiaCloudFunctionInfo.zero
                              else scriptedFunction },
        err := s.getFunctionVersionErr, next := st, took := s.took },
    updateFunctionTags := fun st _ _ _ =>
      { resp := { Function := scriptedFunction }, err := s.updateFunctionTagsErr, next := st,
        took := s.took },
    deleteFunctionVersion := fun st _ _ =>
      { resp := (), err := s.deleteFunctionVersionErr, next := st, took := s.took },
    createDeployment := fun st _ _ req =>
      { resp := { Deployment := { NvidiaCloudFunctionDeployment.zero with
                    DeploymentSpecifications := some req.DeploymentSpecifications } },
        err := s.createDeploymentErr, next := st, took := s.took },
    updateDeployment := fun st _ _ req =>
      { resp := { Deployment := { NvidiaCloudFunctionDeployment.zero with
                    DeploymentSpecifications := some req.DeploymentSpecifications } },
        err := none, next := st, took := s.took },
    readDeployment := fun st _ _ =>
      { resp := { Deployment := { NvidiaCloudFunctionDeployment.zero with
                    FunctionStatus := st.headD "" } },
        err := s.readDeploymentErr, next := st.tail, took := s.took },
    deleteDeployment := fun st _ _ =>
      { resp := { Function := scriptedFunction }, err := none, next := st, took := s.took },
    authorizeParties := fun st _ _ req =>
      { resp := { Function := { Id := "f1", NcaID := "", VersionID := "v1",
                                AuthorizedParties := some req.AuthorizedParties } },
        err := none, next := st, took := s.took },
    unauthorizeAllParties := fun st _ _ =>
      { resp := (), err := none, next := st, took := s.took },
    getAuthorization := fun st _ _ =>
      { resp := { Function := { Id := "f1", NcaID := "", VersionID := "v1",
                                AuthorizedParties := s.parties } },
        err := s.getAuthorizationErr, next := st, took := s.took },
    selectTie := fun _ => true }

/-- The world a scripted run starts in: clock at zero, nothing called yet. -/
def scriptedWorld (s : Script) : World (List String) :=
  { remote := s.statuses, now := 0, calls := [] }

/-- A context without deadline, as `context.Background()`. -/
def Background : Context := { doneAt := none }

/-- Script: the deployment is DEPLOYING at the first read and ACTIVE at the second. -/
def scriptDeployingActive : Script := { Script.quiet with statuses := ["DEPLOYING", "ACTIVE"] }

/-- Script: the deployment is FAILED at the first read. -/
def scriptFailed : Script := { Script.quiet with statuses := ["FAILED"] }

/-- Script: the deployment stays DEPLOYING. -/
def scriptDeploying : Script :=
  { Script.quiet with statuses := ["DEPLOYING", "DEPLOYING", "DEPLOYING"] }

/-- A context that is done thirty seconds after the clock's origin. -/
def thirtySeconds : Context := { doneAt := some (30 * Second) }

/-- A codec for concrete runs: every string parses to the JSON string holding it. -/
def stubCodec : JsonCodec :=
  { Unmarshal := fun s => Except.ok (JsonValue.str s), Marshal := fun _ => "" }

/-- A plan with every attribute null and no timeouts configured. -/
def emptyModel : NvidiaCloudFunctionResourceModel :=
  { Id := TfValue.null, FunctionID := TfValue.null, VersionID := TfValue.null,
    NcaId := TfValue.null, FunctionName := TfValue.null, InferencePort := TfValue.null,
    HelmChart := TfValue.null, HelmChartServiceName := TfValue.null,
    ContainerImage := TfValue.null, ContainerArgs := TfValue.null,
    ContainerEnvironment := TfValue.null, InferenceUrl := TfValue.null,
    HealthUri := TfValue.null, Health := TfValue.null, APIBodyFormat := TfValue.null,
    DeploymentSpecifications := TfValue.null, Tags := TfValue.null,
    Description := TfValue.null, Models := TfValue.null, Resources := TfValue.null,
    FunctionType := TfValue.null, KeepFailedResource := TfValue.null,
    Timeouts := { create := TimeoutSetting.unset, update := TimeoutSetting.unset },
    Secrets := TfValue.null, AuthorizedParties := TfValue.null }

/-- The deployment specification of the spec's scenario: GFN, one L40 instance. -/
def gfnSpecification : NvidiaCloudFunctionResourceDeploymentSpecificationModel :=
  { GpuType := TfValue.known "L40", Backend := TfValue.known "GFN",
    MaxInstances := TfValue.known 1, MinInstances := TfValue.known 1,
    MaxRequestConcurrency := TfValue.known 1, Configuration := TfValue.null,
    InstanceType := TfValue.known "x" }

/-- A plan that deploys `gfnSpecification`. -/
def deployingPlan : NvidiaCloudFunctionResourceModel :=
  { emptyModel with DeploymentSpecifications := TfValue.known [gfnSpecification] }

/-- A prior state of the function `f1`, version `v1`, deployed with `gfnSpecification`. -/
def deployedState : NvidiaCloudFunctionResourceModel :=
  { emptyModel with Id := TfValue.known "f1", VersionID := TfValue.known "v1",
                    DeploymentSpecifications := TfValue.known [gfnSpecification] }

/-- One authorized party of the plan, NCA id `nca-1`. -/
def partyModel : NvidiaCloudFunctionResourceAuthorizedPartyModel :=
  { NcaID := TfValue.known "nca-1" }

/-- Script: the function re-fetch fails. -/
def scriptGetFails : Script := { Script.quiet with getFunctionVersionErr := some "boom" }

/-- Script: the remote reports one authorized party, NCA id `nca-9`. -/
def scriptOneParty : Script :=
  { Script.quiet with parties := some [AuthorizedParty.mk "" "nca-9"] }

/-- A plan for the deployed function `f1`, version `v1`, that authorizes `partyModel`. -/
def authorizingPlan : NvidiaCloudFunctionResourceModel :=
  { deployedState with AuthorizedParties := TfValue.known [partyModel] }

/-- Whether a call is an authorize-parties call. -/
def Call.isAuthorizeParties : Call → Bool
  | Call.authorizeParties _ _ _ => true
  | _ => false

/-- The first remote call of `Create`: the function creation, issued on the payload built
from the plan. -/
def createdFunction {σ : Type} (env : Remote σ) (codec : JsonCodec)
    (data : NvidiaCloudFunctionResourceModel) (w : World σ) :
    Called σ CreateNvidiaCloudFunctionResponse :=
  CreateNvidiaCloudFunction env w data.FunctionID.ValueString (createOrUpdateRequest codec data []).1

/-- The second step of `Create`: the authorized-parties reconciliation against the version
just created. -/
def createdAuthorization {σ : Type} (env : Remote σ) (codec : JsonCodec)
    (data : NvidiaCloudFunctionResourceModel) (w : World σ) :
    Ret σ AuthorizeAccountsToInvokeFunctionResponse :=
  updateFunctionAuthorizedParties env (createdFunction env codec data w).resp.Function.ID
    (createdFunction env codec data w).resp.Function.VersionID data.AuthorizedParties []
    (createdFunction env codec data w).world

/-- The `createDeployment` client call of `Create`, issued after the reconciliation on the
specifications `specs`. -/
def createdDeployment {σ : Type} (env : Remote σ) (codec : JsonCodec)
    (data : NvidiaCloudFunctionResourceModel) (w : World σ)
    (specs : List NvidiaCloudFunctionDeploymentSpecification) :
    Called σ CreateNvidiaCloudFunctionDeploymentResponse :=
  CreateNvidiaCloudFunctionDeployment env (createdAuthorization env codec data w).world
    (createdFunction env codec data w).resp.Function.ID
    (createdFunction env codec data w).resp.Function.VersionID
    { DeploymentSpecifications := specs }

/-- The context `Create` runs its remote calls in: the caller's, bounded by the create
timeout. -/
def createContext (ctx : Context) (data : NvidiaCloudFunctionResourceModel) (now : Nat) : Context :=
  WithTimeout ctx now (data.Timeouts.Create (DEFAULT_TIMEOUT_SEC * Second)).1

/-- The request entry `gfnSpecification` is converted to. -/
def gfnRequestSpecification : NvidiaCloudFunctionDeploymentSpecification :=
  { Gpu := "L40", Backend := "GFN", InstanceType := "x", MaxInstances := 1, MinInstances := 1,
    MaxRequestConcurrency := 1, Configuration := JsonValue.null }

/-- Script: getting the function version fails with the remote's not-found message. -/
def scriptNotFound : Script :=
  { Script.quiet with getFunctionVersionErr := some "Not found: function version" }

/-- A plan for `deployedState` that changes the tags only. -/
def taggingPlan : NvidiaCloudFunctionResourceModel :=
  { deployedState with Tags := TfValue.known ["blue"] }

/-- The first step of `Update`: the tags update, issued only when the planned tags differ
from those of the prior state. -/
def updatedTags {σ : Type} (env : Remote σ) (plan state : NvidiaCloudFunctionResourceModel)
    (w : World σ) : Ret σ Unit :=
  if !(plan.Tags.SetEqual state.Tags) then
    updateTags env state.Id.ValueString state.VersionID.ValueString plan.Tags [] w
  else { val := (), diags := [], world := w }

/-- The second step of `Update`: the re-fetch of the function version. -/
def refetchedFunction {σ : Type} (env : Remote σ) (plan state : NvidiaCloudFunctionResourceModel)
    (w : World σ) : Called σ GetNvidiaCloudFunctionVersionResponse :=
  GetNvidiaCloudFunctionVersion env (updatedTags env plan state w).world state.Id.ValueString
    state.VersionID.ValueString

/-- The diagnostics of `Update` after the re-fetch. -/
def refetchedDiagnostics {σ : Type} (env : Remote σ)
    (plan state : NvidiaCloudFunctionResourceModel) (w : World σ) : Diagnostics :=
  match (refetchedFunction env plan state w).err with
  | some e => AddError (updatedTags env plan state w).diags "Failed to get Cloud Function" e
  | none => (updatedTags env plan state w).diags

/-- The third step of `Update`: the authorized-parties reconciliation against the plan. -/
def updatedAuthorization {σ : Type} (env : Remote σ)
    (plan state : NvidiaCloudFunctionResourceModel) (w : World σ) :
    Ret σ AuthorizeAccountsToInvokeFunctionResponse :=
  updateFunctionAuthorizedParties env (refetchedFunction env plan state w).resp.Function.ID
    (refetchedFunction env plan state w).resp.Function.VersionID plan.AuthorizedParties
    (refetchedDiagnostics env plan state w) (refetchedFunction env plan state w).world

/-- The context `Update` runs its remote calls in: the caller's, bounded by the update
timeout. -/
def updateContext (ctx : Context) (plan : NvidiaCloudFunctionResourceModel) (now : Nat) : Context :=
  WithTimeout ctx now (plan.Timeouts.Update (DEFAULT_TIMEOUT_SEC * Second)).1

/-- Number of loop iterations within which the waiter returns when its context is done at
most `timeout` after the waiter starts. -/
def enoughFuel (timeout : Nat) : Nat := timeout / waitInterval + 2

/-! ## The transport (`NVCFClient.sendRequest`) -/

structure RequestStatusModel where
  StatusCode : String
  StatusDescription : String
  RequestID : String
  deriving DecidableEq, Repr

structure ErrorResponse where
  RequestStatus : RequestStatusModel
  Type_ : String
  Title : String
  Status : Int
  Detail : String
  Instance : String
  deriving DecidableEq, Repr

/-- An `http.Request` as `sendRequest` builds it; a body of `none` is `http.NoBody`. -/
structure HttpRequest where
  Method : String
  URL : String
  Header : List (String × String)
  Body : Option String
  deriving DecidableEq, Repr

/-- What `sendRequest` reads of an `http.Response`: the status code and the whole body. -/
structure HttpResponse where
  StatusCode : Int
  Body : String
  deriving DecidableEq, Repr

/-- A non-nil `responseObject`: `Unmarshal body` is the object after
`json.Unmarshal(body, responseObject)` together with the error of that call. -/
structure ResponseObject (α : Type) where
  Unmarshal : String → α × Option String

/-- Result of `sendRequest`: the response object when it was written (`none`: it was nil or
was left as the caller passed it) and the error returned. -/
structure SendResult (α : Type) where
  object : Option α
  err : Option String

/-- The request `sendRequest` hands to the HTTP client. -/
def buildRequest (NgcApiKey requestURL method : String) (payload : Option String) : HttpRequest :=
  { Method := method, URL := requestURL,
    Header := [("Authorization", "Bearer " ++ NgcApiKey), ("Content-Type", "application/json")],
    Body := payload }

/-- Whether a status code is a key of the `expectedStatusCode` map (the value stored under
the key is not consulted). -/
def expected (expectedStatusCode : List (Int × Bool)) (status : Int) : Bool :=
  expectedStatusCode.any (fun kv => kv.1 == status)

/-- `NVCFClient.sendRequest` for a request that `http.NewRequest` builds.  `Do` is
`HttpClient.Do`; `UnmarshalErrorResponse` is `json.Unmarshal` into an `ErrorResponse`;
`requestBody` is `none` for a nil body and otherwise the outcome of encoding it (the
payload, or the encoder's error).  The request URL and method are taken to be well formed,
so that `http.NewRequest` succeeds; `NVCFClient.sendRequest` below adds the other case. -/
def sendRequest {α : Type} (Do : HttpRequest → Except String HttpResponse) (NgcApiKey : String)
    (UnmarshalErrorResponse : String → Except String ErrorResponse)
    (requestURL method : String) (requestBody : Option (Except String String))
    (responseObject : Option (ResponseObject α)) (expectedStatusCode : List (Int × Bool)) :
    SendResult α :=
  match requestBody with
  | some (Except.error e) => { object := none, err := some e }
  | _ =>
    let payload : Option String :=
      match requestBody with
      | some (Except.ok b) => some b
      | _ => none
    match Do (buildRequest NgcApiKey requestURL method payload) with
    | Except.error e => { object := none, err := some e }
    | Except.ok response =>
      if !(expected expectedStatusCode response.StatusCode) then
        if response.StatusCode = 401 then
          { object := none, err := some "not authenticated" }
        else
          match UnmarshalErrorResponse response.Body with
          | Except.error _ =>
            { object := none,
              err := some ("failed to parse error response body. Response body: " ++
                response.Body) }
          | Except.ok errResponseObject =>
            if errResponseObject.RequestStatus.StatusDescription ≠ "" then
              { object := none, err := some errResponseObject.RequestStatus.StatusDescription }
            else
              { object := none, err := some errResponseObject.Detail }
      else
        match responseObject with
        | some o => { object := some (o.Unmarshal response.Body).1,
                      err := (o.Unmarshal response.Body).2 }
        | none => { object := none, err := none }

/-! ## More vocabulary and fixtures -/

/-- The `updateDeployment` client call of `Update`, issued after the reconciliation on the
specifications `specs`, addressed with the plan's id and version id. -/
def updatedDeployment {σ : Type} (env : Remote σ)
    (plan state : NvidiaCloudFunctionResourceModel) (w : World σ)
    (specs : List NvidiaCloudFunctionDeploymentSpecification) :
    Called σ UpdateNvidiaCloudFunctionDeploymentResponse :=
  UpdateNvidiaCloudFunctionDeployment env (updatedAuthorization env plan state w).world
    plan.Id.ValueString plan.VersionID.ValueString { DeploymentSpecifications := specs }

/-- Script: the tags update fails. -/
def scriptTagsFail : Script := { Script.quiet with updateFunctionTagsErr := some "boom" }

/-- Script: the function re-fetch fails while the remote has one authorized party. -/
def scriptGetFailsOneParty : Script :=
  { Script.quiet with getFunctionVersionErr := some "boom",
                      parties := some [AuthorizedParty.mk "" "nca-9"] }

/-- A codec for concrete runs that rejects the string `not json` and accepts every other string
as the JSON string holding it. -/
def strictCodec : JsonCodec :=
  { Unmarshal := fun s =>
      if s = "not json" then Except.error "invalid character"
      else Except.ok (JsonValue.str s),
    Marshal := fun _ => "" }

/-- A deployment specification whose configuration is the malformed string `not json`. -/
def malformedSpecification : NvidiaCloudFunctionResourceDeploymentSpecificationModel :=
  { gfnSpecification with Configuration := TfValue.known "not json" }

/-- A plan that deploys `malformedSpecification`. -/
def malformedPlan : NvidiaCloudFunctionResourceModel :=
  { emptyModel with DeploymentSpecifications := TfValue.known [malformedSpecification] }

/-- Script: the deployment is ACTIVE at the first read. -/
def scriptActive : Script := { Script.quiet with statuses := ["ACTIVE"] }

/-- The configuration `prepareDeploymentSpecifications` sends for one planned entry: nil for
an unset or empty string, the parsed value otherwise (nil, too, when it does not parse: the
conversion then fails as a whole). -/
def parsedConfiguration (codec : JsonCodec)
    (v : NvidiaCloudFunctionResourceDeploymentSpecificationModel) : JsonValue :=
  if v.Configuration.ValueString ≠ "" then
    match codec.Unmarshal v.Configuration.ValueString with
    | Except.ok c => c
    | Except.error _ => JsonValue.null
  else JsonValue.null

/-- The request entry `prepareDeploymentSpecifications` builds for one planned entry whose
configuration parses. -/
def requestSpecification (codec : JsonCodec)
    (v : NvidiaCloudFunctionResourceDeploymentSpecificationModel) :
    NvidiaCloudFunctionDeploymentSpecification :=
  { Backend := v.Backend.ValueString,
    InstanceType := v.InstanceType.ValueString,
    Gpu := v.GpuType.ValueString,
    MaxInstances := v.MaxInstances.ValueInt64,
    MinInstances := v.MinInstances.ValueInt64,
    MaxRequestConcurrency := v.MaxRequestConcurrency.ValueInt64,
    Configuration := parsedConfiguration codec v }

/-- The entry saved for one planned entry when the remote echoes the request: the request
entry merged back into the model. -/
def savedSpecification (codec : JsonCodec)
    (v : NvidiaCloudFunctionResourceDeploymentSpecificationModel) :
    NvidiaCloudFunctionResourceDeploymentSpecificationModel :=
  deploymentSpecificationModelOf codec (requestSpecification codec v)

/-- The replies the three remote reads of `Read` get, for the ids of the state `data`, from
the world `w` on: get version, read deployment, get authorization. -/
def readReplies {σ : Type} (env : Remote σ) (data : NvidiaCloudFunctionResourceModel)
    (w : World σ) :
    (GetNvidiaCloudFunctionVersionResponse × Option String) ×
    (ReadNvidiaCloudFunctionDeploymentResponse × Option String) ×
    (AuthorizeAccountsToInvokeFunctionResponse × Option String) :=
  let g := GetNvidiaCloudFunctionVersion env w data.Id.ValueString data.VersionID.ValueString
  let r := ReadNvidiaCloudFunctionDeployment env g.world data.Id.ValueString
    data.VersionID.ValueString
  let a := GetFunctionAuthorization env r.world data.Id.ValueString data.VersionID.ValueString
  ((g.resp, g.err), (r.resp, r.err), (a.resp, a.err))

/-- Whether the container group of a payload is populated: image, arguments or
environment. -/
def containerGroupPopulated (request : CreateNvidiaCloudFunctionRequest) : Bool :=
  request.ContainerImage != "" || request.ContainerArgs != "" ||
    request.ContainerEnvironment.isSome

/-- Whether the Helm group of a payload is populated: chart or service name. -/
def helmGroupPopulated (request : CreateNvidiaCloudFunctionRequest) : Bool :=
  request.HelmChart != "" || request.HelmChartServiceName != ""

/-- Whether the configuration populates the container group. -/
def containerGroupConfigured (data : NvidiaCloudFunctionResourceModel) : Bool :=
  data.ContainerImage.ValueString != "" || data.ContainerArgs.ValueString != "" ||
    !data.ContainerEnvironment.Elements.isEmpty

/-- Whether the configuration populates the Helm group. -/
def helmGroupConfigured (data : NvidiaCloudFunctionResourceModel) : Bool :=
  data.HelmChart.ValueString != "" || data.HelmChartServiceName.ValueString != ""

/-- A configuration that sets both a container image and a Helm chart. -/
def mixedModel : NvidiaCloudFunctionResourceModel :=
  { emptyModel with ContainerImage := TfValue.known "nvcr.io/org/image:1",
                    HelmChart := TfValue.known "https://helm.ngc.nvidia.com/org/chart-1.tgz" }

/-- An HTTP client for concrete runs that answers every request with the given response. -/
def answering (response : HttpResponse) : HttpRequest → Except String HttpResponse :=
  fun _ => Except.ok response

/-- An error-body decoder for concrete runs: the body `both` decodes to an error object
with a status description and a detail, the body `detail` to one with a detail only, and
every other body fails to decode. -/
def stubErrorDecoder (body : String) : Except String ErrorResponse :=
  if body = "both" then
    Except.ok { RequestStatus := { StatusCode := "INVALID_REQUEST",
                                   StatusDescription := "Invalid function id",
                                   RequestID := "r1" },
                Type_ := "", Title := "", Status := 400, Detail := "Bad request",
                Instance := "" }
  else if body = "detail" then
    Except.ok { RequestStatus := { StatusCode := "", StatusDescription := "", RequestID := "" },
                Type_ := "about:blank", Title := "Not Found", Status := 404,
                Detail := "Not found", Instance := "/v2/nvcf" }
  else Except.error "invalid character"

/-- What `Read` reports and does to the state, as a function of the prior state and of the
replies of its three remote reads (a read that `Read` does not reach is not consulted). -/
def readOutcome (codec : JsonCodec) (data : NvidiaCloudFunctionResourceModel)
    (replies : (GetNvidiaCloudFunctionVersionResponse × Option String) ×
      (ReadNvidiaCloudFunctionDeploymentResponse × Option String) ×
      (AuthorizeAccountsToInvokeFunctionResponse × Option String)) :
    Diagnostics × StateChange :=
  match replies.1.2 with
  | some e =>
    if stringsContains e "Not found" then ([], StateChange.removed)
    else (AddError [] "Failed to Get Cloud Function version" e, StateChange.untouched)
  | none =>
    let diag : Diagnostics :=
      match replies.2.1.2 with
      | some e =>
        if e ≠ "failed to find function deployment" then
          AddError [] "Failed to read Cloud Function deployment" e
        else []
      | none => []
    if HasError diag then (diag, StateChange.untouched)
    else
      match replies.2.2.2 with
      | some e =>
        (AddError diag "Failed to get Cloud Function authorization" e, StateChange.untouched)
      | none =>
        (updateNvidiaCloudFunctionResourceModelBaseOnResponseDiagnostics replies.1.1.Function
           (some replies.2.2.1) diag,
         StateChange.set (updateNvidiaCloudFunctionResourceModelBaseOnResponse codec data
          replies.1.1.Function (some replies.2.1.1.Deployment) (some replies.2.2.1)))

/-- A configuration that carries one secret. -/
def secretModel : NvidiaCloudFunctionResourceModel :=
  { emptyModel with
    Secrets := TfValue.known ([NvidiaCloudFunctionResourceSecretModel.mk (TfValue.known "token")
      (TfValue.known "s3cr3t")]) }

/-! ## The HTTP client (`utils/nvcf_client.go`, `utils/ngc_client.go`) -/

/-- `utils.NVCFClient`.  The `HttpClient` field is given by its `Do` method. -/
structure NVCFClient where
  NgcEndpoint : String
  NgcApiKey : String
  NgcOrg : String
  NgcTeam : String
  HttpClient : HttpRequest → Except String HttpResponse

/-- `NVCFClient.NvcfEndpoint`. -/
def NVCFClient.NvcfEndpoint (c : NVCFClient) : String :=
  if c.NgcTeam = "" then c.NgcEndpoint ++ "/v2/orgs/" ++ c.NgcOrg
  else c.NgcEndpoint ++ "/v2/orgs/" ++ c.NgcOrg ++ "/teams/" ++ c.NgcTeam

/-- `NVCFClient.sendRequest` with the building of the request: `none` when the Go function
panics.  `NewRequestSucceeds method url` says whether `http.NewRequest` returns a request
for the method and the URL; it returns nil and an error when it cannot parse them.
`sendRequest` discards that error and goes on to set the headers of the request, which
dereferences the nil pointer.  An error of the encoder is returned before the request is
built. -/
def NVCFClient.sendRequest {α : Type} (c : NVCFClient)
    (NewRequestSucceeds : String → String → Bool)
    (UnmarshalErrorResponse : String → Except String ErrorResponse)
    (requestURL method : String) (requestBody : Option (Except String String))
    (responseObject : Option (ResponseObject α)) (expectedStatusCode : List (Int × Bool)) :
    Option (SendResult α) :=
  match requestBody with
  | some (Except.error e) => some { object := none, err := some e }
  | _ =>
    if NewRequestSucceeds method requestURL then
      some (Ngc.sendRequest c.HttpClient c.NgcApiKey UnmarshalErrorResponse requestURL method
        requestBody responseObject expectedStatusCode)
    else none

/-- `NVCFClient.CreateNvidiaCloudFunction` over the transport: the Go pair `(resp, err)`,
or `none` when `sendRequest` panics.  `Encode` is the JSON encoding of the request and
`responseObject` the decoding into the response variable, which starts as the zero
value. -/
def NVCFClient.CreateNvidiaCloudFunction (c : NVCFClient)
    (NewRequestSucceeds : String → String → Bool)
    (UnmarshalErrorResponse : String → Except String ErrorResponse)
    (Encode : CreateNvidiaCloudFunctionRequest → Except String String)
    (responseObject : ResponseObject CreateNvidiaCloudFunctionResponse)
    (functionID : String) (req : CreateNvidiaCloudFunctionRequest) :
    Option (CreateNvidiaCloudFunctionResponse × Option String) :=
  let requestURL :=
    if functionID ≠ "" then c.NvcfEndpoint ++ "/nvcf/functions/" ++ functionID ++ "/versions"
    else c.NvcfEndpoint ++ "/nvcf/functions"
  (c.sendRequest NewRequestSucceeds UnmarshalErrorResponse requestURL "POST"
    (some (Encode req)) (some responseObject) [(200, true)]).map
    (fun r => (r.object.getD { Function := NvidiaCloudFunctionInfo.zero }, r.err))

/-- `NVCFClient.ReadNvidiaCloudFunctionDeployment` over the transport, for a request that
`http.NewRequest` builds. -/
def NVCFClient.ReadNvidiaCloudFunctionDeployment (c : NVCFClient)
    (UnmarshalErrorResponse : String → Except String ErrorResponse)
    (responseObject : ResponseObject ReadNvidiaCloudFunctionDeploymentResponse)
    (functionID functionVersionID : String) :
    ReadNvidiaCloudFunctionDeploymentResponse × Option String :=
  let requestURL := c.NvcfEndpoint ++ "/nvcf/deployments/functions/" ++ functionID ++
    "/versions/" ++ functionVersionID
  let r := Ngc.sendRequest c.HttpClient c.NgcApiKey UnmarshalErrorResponse requestURL "GET"
    none (some responseObject) [(200, true), (404, true)]
  (r.object.getD { Deployment := NvidiaCloudFunctionDeployment.zero }, r.err)

/-- `NVCFClient.DeleteNvidiaCloudFunctionDeployment` over the transport, for a request
that `http.NewRequest` builds. -/
def NVCFClient.DeleteNvidiaCloudFunctionDeployment (c : NVCFClient)
    (UnmarshalErrorResponse : String → Except String ErrorResponse)
    (responseObject : ResponseObject DeleteNvidiaCloudFunctionDeploymentResponse)
    (functionID functionVersionID : String) :
    DeleteNvidiaCloudFunctionDeploymentResponse × Option String :=
  let requestURL := c.NvcfEndpoint ++ "/nvcf/deployments/functions/" ++ functionID ++
    "/versions/" ++ functionVersionID
  let r := Ngc.sendRequest c.HttpClient c.NgcApiKey UnmarshalErrorResponse requestURL "DELETE"
    none (some responseObject) [(200, true)]
  (r.object.getD { Function := NvidiaCloudFunctionInfo.zero }, r.err)

/-- `utils.NGCClient`. -/
structure NGCClient where
  NgcEndpoint : String
  NgcApiKey : String
  NgcOrg : String
  NgcTeam : String
  HttpClient : HttpRequest → Except String HttpResponse

/-- The package variables of `utils/ngc_client.go`: the pointer `nvcfClient` (`none` is
nil) and whether the `sync.Once` `nvcfClientOnce` has run its function. -/
structure ClientPackage where
  nvcfClient : Option NVCFClient
  nvcfClientOnce : Bool

/-- The package variables when the process starts. -/
def ClientPackage.start : ClientPackage := { nvcfClient := none, nvcfClientOnce := false }

/-- `NGCClient.NVCFClient`, as one atomic step on the package variables: the pointer
returned and the variables afterwards.  `sync.Once.Do` runs its function only when no
earlier `Do` of the same `Once` has. -/
def NGCClient.NVCFClient (c : NGCClient) (p : ClientPackage) :
    Option Ngc.NVCFClient × ClientPackage :=
  let p1 : ClientPackage :=
    if !p.nvcfClientOnce then
      { nvcfClient := some { NgcEndpoint := c.NgcEndpoint, NgcApiKey := c.NgcApiKey,
                             NgcOrg := c.NgcOrg, NgcTeam := c.NgcTeam,
                             HttpClient := c.HttpClient },
        nvcfClientOnce := true }
    else p
  (p1.nvcfClient, p1)

/-! ## The provider (`provider.go`) -/

/-- `NgcProviderModel`. -/
structure NgcProviderModel where
  NgcEndpoint : TfString
  NgcApiKey : TfString
  NgcOrg : TfString
  NgcTeam : TfString
  deriving DecidableEq, Repr

/-- What `Configure` leaves in its response. -/
structure ConfigureResponse where
  Diagnostics : Diagnostics
  DataSourceData : Option NGCClient
  ResourceData : Option NGCClient

/-- `NgcProvider.Configure`.  `Getenv` is `os.Getenv`, `httpClient` the value of
`cleanhttp.DefaultPooledClient()`, `data` and `configDiags` the model and the diagnostics
that `req.Config.Get` yields. -/
def Configure (Getenv : String → String) (httpClient : HttpRequest → Except String HttpResponse)
    (data : NgcProviderModel) (configDiags : List (String × String)) : ConfigureResponse :=
  let ngcEndpoint := Getenv "NGC_ENDPOINT"
  let ngcApiKey := Getenv "NGC_API_KEY"
  let ngcOrg := Getenv "NGC_ORG"
  let ngcTeam := Getenv "NGC_TEAM"
  let diag := Append [] configDiags
  let ngcApiKey := if data.NgcApiKey.ValueString ≠ "" then data.NgcApiKey.ValueString else ngcApiKey
  let diag :=
    if ngcApiKey = "" then
      AddError diag "Missing NGC_API_KEY Configuration"
        ("While configuring the provider, the NGC personal key was not found in " ++
          "the NGC_API_KEY environment variable or provider " ++
          "configuration block ngc_api_key attribute.")
    else diag
  let ngcOrg := if data.NgcOrg.ValueString ≠ "" then data.NgcOrg.ValueString else ngcOrg
  let diag :=
    if ngcOrg = "" then
      AddError diag "Missing NGC_ORG Configuration"
        ("While configuring the provider, the NGC Org Name was not found in " ++
          "the NGC_ORG environment variable or provider " ++
          "configuration block ngc_org attribute.")
    else diag
  let ngcTeam := if data.NgcTeam.ValueString ≠ "" then data.NgcTeam.ValueString else ngcTeam
  let ngcEndpoint :=
    if data.NgcEndpoint.ValueString ≠ "" then data.NgcEndpoint.ValueString else ngcEndpoint
  let ngcEndpoint := if ngcEndpoint = "" then "https://api.ngc.nvidia.com" else ngcEndpoint
  if HasError diag then { Diagnostics := diag, DataSourceData := none, ResourceData := none }
  else
    let client : NGCClient :=
      { NgcEndpoint := ngcEndpoint, NgcApiKey := ngcApiKey, NgcOrg := ngcOrg,
        NgcTeam := ngcTeam, HttpClient := httpClient }
    { Diagnostics := diag, DataSourceData := some client, ResourceData := some client }

/-! ## Import (`NvidiaCloudFunctionResource.ImportState`) -/

/-- Library function `strings.Split` for a separator of one character, on the characters
of the string: the pieces between the separators, in order; a string without separator is
its own single piece. -/
def splitChars (sep : Char) : List Char → List (List Char)
  | [] => [[]]
  | c :: cs =>
    if c = sep then [] :: splitChars sep cs
    else
      match splitChars sep cs with
      | [] => [[c]]
      | p :: ps => (c :: p) :: ps

/-- Library function `strings.Split` for a separator of one character. -/
def stringsSplit (s : String) (sep : Char) : List String :=
  (splitChars sep s.toList).map String.mk

/-- What `ImportState` leaves in its response: the diagnostics and the two attributes of
the state it may set (`none`: not set). -/
structure ImportStateResponse where
  Diagnostics : Diagnostics
  id : Option String
  version_id : Option String
  deriving DecidableEq, Repr

/-- `NvidiaCloudFunctionResource.ImportState` on the identifier `ID`.  `Quote` is the
formatting verb `%q`; `resp.State.SetAttribute` returns no diagnostics. -/
def ImportState (Quote : String → String) (ID : String) : ImportStateResponse :=
  let idParts := stringsSplit ID ','
  let diag : Diagnostics :=
    if idParts.length ≠ 2 || idParts.getD 0 "" = "" || idParts.getD 1 "" = "" then
      AddError [] "Unexpected Import Identifier"
        ("Expected import identifier with format: function_id,version_id. Got: " ++ Quote ID)
    else []
  if HasError diag then { Diagnostics := diag, id := none, version_id := none }
  else { Diagnostics := diag, id := some (idParts.getD 0 ""), version_id := some (idParts.getD 1 "") }

/-! ## The data source (`cloud_function_datasource.go`) -/

/-- `NvidiaCloudFunctionDataSourceModel`; `Health` is a pointer (`none` is nil). -/
structure NvidiaCloudFunctionDataSourceModel where
  FunctionID : TfString
  VersionID : TfString
  NcaId : TfString
  FunctionName : TfString
  HelmChart : TfString
  HelmChartServiceName : TfString
  InferencePort : TfInt64
  ContainerImage : TfString
  ContainerArgs : TfString
  ContainerEnvironment : TfValue (List NvidiaCloudFunctionResourceContainerEnvironmentModel)
  InferenceUrl : TfString
  HealthUri : TfString
  Health : Option NvidiaCloudFunctionResourceHealthModel
  APIBodyFormat : TfString
  DeploymentSpecifications : TfValue (List NvidiaCloudFunctionResourceDeploymentSpecificationModel)
  Tags : TfValue (List String)
  Description : TfString
  Models : TfValue (List NvidiaCloudFunctionResourceModelModel)
  Resources : TfValue (List NvidiaCloudFunctionResourceResourceModel)
  FunctionType : TfString
  AuthorizedParties : TfValue (List NvidiaCloudFunctionResourceAuthorizedPartyModel)
  deriving DecidableEq, Repr

/-- `updateNvidiaCloudFunctionDataSourceModel`, the model it leaves in `data`, or `none`
when the Go function panics on the nil pointer `functionInfo.Health`, which it dereferences
without a check.  `functionInfo` and `functionDeployment` are addresses of variables at the
only call site, so they are values here; `functionAuthorizedParties` is a slice (`none` is
nil).  The conversion `ListValueFrom` is applied to Go values of the declared type and
returns no diagnostics; the sets are what `SetValueFrom` returns, unknown when an element
is repeated, and `SetValueFrom` of a nil slice is the null set.  The diagnostics the Go
function appends are given by `updateNvidiaCloudFunctionDataSourceModelDiagnostics`. -/
def updateNvidiaCloudFunctionDataSourceModel (codec : JsonCodec)
    (data : NvidiaCloudFunctionDataSourceModel)
    (functionInfo : NvidiaCloudFunctionInfo)
    (functionDeployment : NvidiaCloudFunctionDeployment)
    (functionAuthorizedParties : Option (List AuthorizedParty)) :
    Option NvidiaCloudFunctionDataSourceModel :=
  match functionInfo.Health with
  | none => none
  | some health =>
    some
      { VersionID := TfValue.known functionInfo.VersionID,
        FunctionName := TfValue.known functionInfo.Name,
        FunctionID := TfValue.known functionInfo.ID,
        InferencePort := TfValue.known functionInfo.InferencePort,
        APIBodyFormat :=
          if functionInfo.APIBodyFormat ≠ "" then TfValue.known functionInfo.APIBodyFormat
          else data.APIBodyFormat,
        InferenceUrl :=
          if functionInfo.InferenceURL ≠ "" then TfValue.known functionInfo.InferenceURL
          else data.InferenceUrl,
        NcaId :=
          if functionInfo.NcaID ≠ "" then TfValue.known functionInfo.NcaID else data.NcaId,
        HealthUri :=
          if functionInfo.HealthURI ≠ "" then TfValue.known functionInfo.HealthURI
          else data.HealthUri,
        HelmChartServiceName :=
          if functionInfo.HelmChartServiceName ≠ "" then
            TfValue.known functionInfo.HelmChartServiceName
          else data.HelmChartServiceName,
        HelmChart :=
          if functionInfo.HelmChart ≠ "" then TfValue.known functionInfo.HelmChart
          else data.HelmChart,
        ContainerImage :=
          if functionInfo.ContainerImage ≠ "" then TfValue.known functionInfo.ContainerImage
          else data.ContainerImage,
        ContainerArgs :=
          if functionInfo.ContainerArgs ≠ "" then TfValue.known functionInfo.ContainerArgs
          else data.ContainerArgs,
        FunctionType :=
          if functionInfo.FunctionType ≠ "" then TfValue.known functionInfo.FunctionType
          else data.FunctionType,
        Description :=
          if functionInfo.Description ≠ "" then TfValue.known functionInfo.Description
          else data.Description,
        DeploymentSpecifications :=
          match functionDeployment.DeploymentSpecifications with
          | some specs => TfValue.known (specs.map (deploymentSpecificationModelOf codec))
          | none => data.DeploymentSpecifications,
        Tags :=
          match functionInfo.Tags with
          | some tags => (SetValueFrom tags).1
          | none => TfValue.null,
        Health :=
          some (NvidiaCloudFunctionResourceHealthModel.mk
            (TfValue.known health.Protocol) (TfValue.known health.URI)
            (TfValue.known health.Port) (TfValue.known health.Timeout)
            (TfValue.known health.ExpectedStatusCode)),
        ContainerEnvironment :=
          match functionInfo.ContainerEnvironment with
          | some env =>
            (SetValueFrom (env.map (fun v =>
              NvidiaCloudFunctionResourceContainerEnvironmentModel.mk
                (TfValue.known v.Key) (TfValue.known v.Value)))).1
          | none => data.ContainerEnvironment,
        Resources :=
          match functionInfo.Resources with
          | some rs => (SetValueFrom (resourceModels rs)).1
          | none => data.Resources,
        Models :=
          match functionInfo.Models with
          | some ms => (SetValueFrom (modelModels ms)).1
          | none => data.Models,
        AuthorizedParties :=
          if (functionAuthorizedParties.getD []).length > 0 then
            (SetValueFrom ((functionAuthorizedParties.getD []).map (fun v =>
              NvidiaCloudFunctionResourceAuthorizedPartyModel.mk (TfValue.known v.NcaID)))).1
          else data.AuthorizedParties }

/-- `updateNvidiaCloudFunctionDataSourceModel`, the diagnostics it leaves in `diag` when it
does not panic: those handed over, followed by what `SetValueFrom` returns for the tags,
the container environment, the resources, the models and the authorized parties, in the
order of the Go function. -/
def updateNvidiaCloudFunctionDataSourceModelDiagnostics
    (functionInfo : NvidiaCloudFunctionInfo)
    (functionAuthorizedParties : Option (List AuthorizedParty))
    (diag : Diagnostics) : Diagnostics :=
  let diag :=
    match functionInfo.Tags with
    | some tags => Append diag (SetValueFrom tags).2
    | none => diag
  let diag :=
    match functionInfo.ContainerEnvironment with
    | some env =>
      Append diag (SetValueFrom (env.map (fun v =>
        NvidiaCloudFunctionResourceContainerEnvironmentModel.mk
          (TfValue.known v.Key) (TfValue.known v.Value)))).2
    | none => diag
  let diag :=
    match functionInfo.Resources with
    | some rs => Append diag (SetValueFrom (resourceModels rs)).2
    | none => diag
  let diag :=
    match functionInfo.Models with
    | some ms => Append diag (SetValueFrom (modelModels ms)).2
    | none => diag
  if (functionAuthorizedParties.getD []).length > 0 then
    Append diag (SetValueFrom ((functionAuthorizedParties.getD []).map (fun v =>
      NvidiaCloudFunctionResourceAuthorizedPartyModel.mk (TfValue.known v.NcaID)))).2
  else diag

/-! ## The standard library codec: `encoding/json` on `interface{}` values

`json.Unmarshal` into an `interface{}` and `json.Marshal` of the value it produced, from the
documentation of `encoding/json` and of `strconv`.  A text is a list of characters: the
configuration strings of Terraform are valid UTF-8, and UTF-8 keeps the order of the code
points.  A JSON object is decoded to a Go map, given here by its entries in increasing key
order, the order in which `json.Marshal` writes them.  The text of the errors is not
modelled: decoding either yields a value or fails. -/

namespace Json

/-- The double quote. -/
def quoteMark : Char := Char.ofNat 34

/-- The backslash. -/
def backslash : Char := Char.ofNat 92

/-- The opening brace. -/
def openBrace : Char := Char.ofNat 123

/-- The closing brace. -/
def closeBrace : Char := Char.ofNat 125

/-- The replacement character U+FFFD. -/
def replacementChar : Char := Char.ofNat 65533

/-! ### Numbers: `strconv.ParseFloat` and `strconv.FormatFloat` at 64 bits

A finite float64 of magnitude bits `mag` (the 63 bits below the sign) has the value
`floatMantissa mag * 2 ^ (floatShift mag - 1074)`. -/

/-- Quotient `n / d` rounded to the nearest integer, ties to even. -/
def roundHalfEven (n d : Nat) : Nat :=
  if 2 * (n % d) < d then n / d
  else if d < 2 * (n % d) then n / d + 1
  else if n / d % 2 = 0 then n / d else n / d + 1

/-- The binade of the fraction `num / den`: the least `s`, from the given one on, with
`num / den < 2 ^ (s - 1021)`, searched over `fuel` values of `s`.  In binade `s` the
floats are the multiples of `2 ^ (s - 1074)`; binade 0 holds the subnormal numbers and the
first normal ones. -/
def binade (num den : Nat) : Nat → Nat → Nat
  | 0, s => s
  | fuel + 1, s =>
    if num * 2 ^ (1021 - s) < den * 2 ^ (s - 1021) then s else binade num den fuel (s + 1)

/-- The float64 nearest to `num / den`, ties to even, as the bit pattern of its magnitude:
the binade times `2 ^ 52` plus the rounded multiple of the binade's unit (a mantissa that
rounds up to `2 ^ 53` carries into the next binade).  The result is `none` when the nearest
value is beyond the largest finite float64. -/
def roundToFloat (num den : Nat) : Option Nat :=
  if binade num den 2046 0 * 2 ^ 52 +
      roundHalfEven (num * 2 ^ (1074 - binade num den 2046 0))
        (den * 2 ^ (binade num den 2046 0 - 1074)) < 2047 * 2 ^ 52 then
    some (binade num den 2046 0 * 2 ^ 52 +
      roundHalfEven (num * 2 ^ (1074 - binade num den 2046 0))
        (den * 2 ^ (binade num den 2046 0 - 1074)))
  else none

/-- Library function `strconv.ParseFloat(s, 64)` on the decimal `d * 10 ^ e`: the nearest
float64, an error (`none`) when it is out of range. -/
def parseDecimal (d : Nat) (e : Int) : Option Nat :=
  roundToFloat (d * 10 ^ e.toNat) (10 ^ (-e).toNat)

/-- Decimal digit character of a number below ten. -/
def digitChar (n : Nat) : Char := Char.ofNat (48 + n)

/-- Loop of `natDigits`. -/
def natDigitsAux : Nat → Nat → List Char → List Char
  | 0, _, acc => acc
  | fuel + 1, n, acc =>
    if n < 10 then digitChar n :: acc
    else natDigitsAux fuel (n / 10) (digitChar (n % 10) :: acc)

/-- Decimal digits of a natural number, most significant first. -/
def natDigits (n : Nat) : List Char := natDigitsAux (n + 1) n []

/-- Binade of a finite float64 given by its magnitude bits. -/
def floatShift (mag : Nat) : Nat := mag / 2 ^ 52 - 1

/-- Mantissa of a finite float64 given by its magnitude bits, with the leading bit of a
normal number. -/
def floatMantissa (mag : Nat) : Nat := mag - floatShift mag * 2 ^ 52

/-- Numerator of the value of the float divided by `10 ^ k`. -/
def scaledNum (mag : Nat) (k : Int) : Nat :=
  floatMantissa mag * 2 ^ (floatShift mag - 1074) * 10 ^ (-k).toNat

/-- Denominator of the value of the float divided by `10 ^ k`. -/
def scaledDen (mag : Nat) (k : Int) : Nat :=
  2 ^ (1074 - floatShift mag) * 10 ^ k.toNat

/-- The multiple of `10 ^ k` next to the value of the float that `strconv.ParseFloat`
converts back to the float, if there is one: the nearest multiple first, then the other
neighbour. -/
def candidate (mag : Nat) (k : Int) : Option Nat :=
  if roundHalfEven (scaledNum mag k) (scaledDen mag k) ≠ 0 ∧
      parseDecimal (roundHalfEven (scaledNum mag k) (scaledDen mag k)) k = some mag then
    some (roundHalfEven (scaledNum mag k) (scaledDen mag k))
  else if scaledNum mag k / scaledDen mag k ≠ 0 ∧
      parseDecimal (scaledNum mag k / scaledDen mag k) k = some mag then
    some (scaledNum mag k / scaledDen mag k)
  else if parseDecimal (scaledNum mag k / scaledDen mag k + 1) k = some mag then
    some (scaledNum mag k / scaledDen mag k + 1)
  else none

/-- Search of the shortest decimal from the decimal exponent `k` downwards: the first
exponent at which a neighbouring multiple of `10 ^ k` converts back to the float.  The
search ends at the exponent -1074, where the value of every float64 is itself a multiple. -/
def shortestDecimal (mag : Nat) : Nat → Int → Nat × Int
  | 0, k => (scaledNum mag k / scaledDen mag k, k)
  | fuel + 1, k =>
    match candidate mag k with
    | some d => (d, k)
    | none => shortestDecimal mag fuel (k - 1)

/-- Number of digits of the integer part of the float: above this decimal exponent a
multiple of `10 ^ k` is zero or more than ten times the float. -/
def integerDigits (mag : Nat) : Nat :=
  (natDigits (scaledNum mag 0 / scaledDen mag 0)).length

/-- Library function `strconv.FormatFloat(f, fmt, -1, 64)`, the digits: the decimal
`d * 10 ^ k` with the smallest number of digits that `strconv.ParseFloat` returns to `f`,
the one nearest to `f` among those. -/
def shortest (mag : Nat) : Nat × Int :=
  shortestDecimal mag (integerDigits mag + 1074) (integerDigits mag)

/-- Format `'f'` of `strconv.FormatFloat` for the digits `d * 10 ^ k`: no exponent. -/
def formatFixed (d : Nat) (k : Int) : List Char :=
  if (natDigits d).length + k ≤ 0 then
    '0' :: '.' :: (List.replicate (-((natDigits d).length + k)).toNat '0' ++ natDigits d)
  else if 0 ≤ k then natDigits d ++ List.replicate k.toNat '0'
  else
    (natDigits d).take ((natDigits d).length + k).toNat ++
      '.' :: (natDigits d).drop ((natDigits d).length + k).toNat

/-- Format `'e'` of `strconv.FormatFloat` for the digits `d * 10 ^ k`, after the clean-up
of `encoding/json` that drops the leading zero of a two-digit exponent. -/
def formatExponent (d : Nat) (k : Int) : List Char :=
  (match natDigits d with
   | [] => []
   | c :: rest => if rest.isEmpty then [c] else c :: '.' :: rest) ++
  'e' :: (if ((natDigits d).length : Int) + k - 1 < 0 then '-' else '+') ::
    natDigits (((natDigits d).length : Int) + k - 1).natAbs

/-- The float encoder of `encoding/json` for a float64 given by its bits: an error (`none`)
for an infinity or a NaN, else the sign and the shortest decimal, in format `'e'` when the
magnitude is below `1e-6` or at least `1e21` and in format `'f'` otherwise. -/
def formatFloat (bits : Nat) : Option (List Char) :=
  if bits < 2 ^ 64 ∧ bits % 2 ^ 63 < 2047 * 2 ^ 52 then
    some ((if 2 ^ 63 ≤ bits then ['-'] else []) ++
      (if bits % 2 ^ 63 = 0 then ['0']
       else if bits % 2 ^ 63 < 4517329193108106637 ∨ 4921056587992461136 ≤ bits % 2 ^ 63 then
         formatExponent (shortest (bits % 2 ^ 63)).1 (shortest (bits % 2 ^ 63)).2
       else formatFixed (shortest (bits % 2 ^ 63)).1 (shortest (bits % 2 ^ 63)).2))
  else none

/-! ### Number literals -/

/-- Decimal digit. -/
def isDigit (c : Char) : Bool := decide (48 ≤ c.toNat ∧ c.toNat ≤ 57)

/-- The number a sequence of decimal digits denotes after the digits denoting `a`. -/
def foldDigits (a : Nat) (cs : List Char) : Nat :=
  cs.foldl (fun a c => 10 * a + (c.toNat - 48)) a

/-- The number a sequence of decimal digits denotes. -/
def digitsValue (cs : List Char) : Nat := foldDigits 0 cs

/-- Integer part of a number literal: a single zero, or digits that start with a non-zero
digit. -/
def scanInteger : List Char → Option (List Char × List Char)
  | [] => none
  | c :: rest =>
    if c = '0' then some ([c], rest)
    else if isDigit c then some ((c :: rest).takeWhile isDigit, (c :: rest).dropWhile isDigit)
    else none

/-- Optional fraction of a number literal: a point and at least one digit. -/
def scanFraction : List Char → Option (List Char × List Char)
  | [] => some ([], [])
  | c :: rest =>
    if c = '.' then
      if rest.takeWhile isDigit = [] then none
      else some (rest.takeWhile isDigit, rest.dropWhile isDigit)
    else some ([], c :: rest)

/-- Digits of the exponent of a number literal, at least one. -/
def scanExponentDigits (negative : Bool) (cs : List Char) : Option (Int × List Char) :=
  if cs.takeWhile isDigit = [] then none
  else some (if negative then -(digitsValue (cs.takeWhile isDigit) : Int)
             else (digitsValue (cs.takeWhile isDigit) : Int), cs.dropWhile isDigit)

/-- Optional exponent of a number literal: `e` or `E`, an optional sign, digits. -/
def scanExponent : List Char → Option (Int × List Char)
  | [] => some (0, [])
  | c :: rest =>
    if c = 'e' ∨ c = 'E' then
      match rest with
      | [] => none
      | s :: rest1 =>
        if s = '+' then scanExponentDigits false rest1
        else if s = '-' then scanExponentDigits true rest1
        else scanExponentDigits false rest
    else some (0, c :: rest)

/-- A number literal without sign: the decimal `d * 10 ^ e` it denotes and the rest of the
text. -/
def scanUnsigned (cs : List Char) : Option ((Nat × Int) × List Char) :=
  match scanInteger cs with
  | none => none
  | some (ip, cs1) =>
    match scanFraction cs1 with
    | none => none
    | some (fp, cs2) =>
      match scanExponent cs2 with
      | none => none
      | some (x, cs3) => some ((digitsValue (ip ++ fp), x - (fp.length : Int)), cs3)

/-- A number literal, converted as into an `interface{}`: the bits of the float64 that
`strconv.ParseFloat` returns, an error when it reports the number out of range. -/
def scanNumber : List Char → Option (Nat × List Char)
  | [] => none
  | c :: rest =>
    if c = '-' then
      match scanUnsigned rest with
      | none => none
      | some (p, cs1) =>
        match parseDecimal p.1 p.2 with
        | none => none
        | some mag => some (2 ^ 63 + mag, cs1)
    else
      match scanUnsigned (c :: rest) with
      | none => none
      | some (p, cs1) =>
        match parseDecimal p.1 p.2 with
        | none => none
        | some mag => some (mag, cs1)

/-! ### String literals -/

/-- Lower-case hexadecimal digit of a number below sixteen. -/
def hexDigit (n : Nat) : Char := if n < 10 then Char.ofNat (48 + n) else Char.ofNat (87 + n)

/-- Value of a hexadecimal digit of either case. -/
def hexValue (c : Char) : Option Nat :=
  if 48 ≤ c.toNat ∧ c.toNat ≤ 57 then some (c.toNat - 48)
  else if 97 ≤ c.toNat ∧ c.toNat ≤ 102 then some (c.toNat - 87)
  else if 65 ≤ c.toNat ∧ c.toNat ≤ 70 then some (c.toNat - 55)
  else none

/-- Four hexadecimal digits. -/
def hex4 : List Char → Option (Nat × List Char)
  | a :: b :: c :: d :: rest =>
    match hexValue a, hexValue b, hexValue c, hexValue d with
    | some x, some y, some z, some w => some (x * 4096 + y * 256 + z * 16 + w, rest)
    | _, _, _, _ => none
  | _ => none

/-- A second escape `\uXXXX` that holds a low surrogate. -/
def lowSurrogate : List Char → Option (Nat × List Char)
  | b :: u :: rest =>
    if b = backslash ∧ u = 'u' then
      match hex4 rest with
      | some (r2, rest1) => if 56320 ≤ r2 ∧ r2 < 57344 then some (r2, rest1) else none
      | none => none
    else none
  | _ => none

/-- The escape `\uXXXX` after `\u`: the character, with a surrogate pair combined and a
surrogate without its partner replaced by U+FFFD. -/
def scanUnicodeEscape (cs : List Char) : Option (Char × List Char) :=
  match hex4 cs with
  | none => none
  | some (r1, rest) =>
    if 55296 ≤ r1 ∧ r1 < 57344 then
      if r1 < 56320 then
        match lowSurrogate rest with
        | some (r2, rest1) =>
          some (Char.ofNat (65536 + (r1 - 55296) * 1024 + (r2 - 56320)), rest1)
        | none => some (replacementChar, rest)
      else some (replacementChar, rest)
    else some (Char.ofNat r1, rest)

/-- An escape after the backslash. -/
def scanEscape : List Char → Option (Char × List Char)
  | [] => none
  | c :: rest =>
    if c = quoteMark ∨ c = backslash ∨ c = '/' then some (c, rest)
    else if c = 'b' then some (Char.ofNat 8, rest)
    else if c = 'f' then some (Char.ofNat 12, rest)
    else if c = 'n' then some (Char.ofNat 10, rest)
    else if c = 'r' then some (Char.ofNat 13, rest)
    else if c = 't' then some (Char.ofNat 9, rest)
    else if c = 'u' then scanUnicodeEscape rest
    else none

/-- A string literal after its opening quote: the string and the text after the closing
quote.  Control characters must be escaped.  Every step consumes a character, so the
length of the text is enough fuel. -/
def scanString : Nat → List Char → Option (List Char × List Char)
  | 0, _ => none
  | _ + 1, [] => none
  | fuel + 1, c :: rest =>
    if c = quoteMark then some ([], rest)
    else if c = backslash then
      match scanEscape rest with
      | none => none
      | some (ch, rest1) =>
        match scanString fuel rest1 with
        | none => none
        | some (s, rest2) => some (ch :: s, rest2)
    else if c.toNat < 32 then none
    else
      match scanString fuel rest with
      | none => none
      | some (s, rest1) => some (c :: s, rest1)

/-- The string encoder of `json.Marshal` (HTML escaping on) for one character.  From Go
1.22 on the backspace and the form feed are written `\b` and `\f` (`shortEscapes`), before
as `\u0008` and `\u000c`. -/
def escapeChar (shortEscapes : Bool) (c : Char) : List Char :=
  if c = quoteMark ∨ c = backslash then [backslash, c]
  else if c.toNat = 10 then [backslash, 'n']
  else if c.toNat = 13 then [backslash, 'r']
  else if c.toNat = 9 then [backslash, 't']
  else if shortEscapes = true ∧ c.toNat = 8 then [backslash, 'b']
  else if shortEscapes = true ∧ c.toNat = 12 then [backslash, 'f']
  else if c.toNat < 32 ∨ c = '<' ∨ c = '>' ∨ c = '&' ∨ c.toNat = 8232 ∨ c.toNat = 8233 then
    [backslash, 'u', hexDigit (c.toNat / 4096), hexDigit (c.toNat / 256 % 16),
     hexDigit (c.toNat / 16 % 16), hexDigit (c.toNat % 16)]
  else [c]

/-- The string encoder on the characters of a string. -/
def escapeChars (shortEscapes : Bool) : List Char → List Char
  | [] => []
  | c :: rest => escapeChar shortEscapes c ++ escapeChars shortEscapes rest

/-- The string encoder: the quoted string. -/
def quoteString (shortEscapes : Bool) (s : String) : List Char :=
  quoteMark :: (escapeChars shortEscapes s.data ++ [quoteMark])

/-- The result of a scan with one more character in front. -/
def consResult (c : Char) : Option (List Char × List Char) → Option (List Char × List Char)
  | none => none
  | some (s, rest) => some (c :: s, rest)

/-! ### Values -/

/-- White space of JSON: space, tab, carriage return, line feed. -/
def isSpace (c : Char) : Bool := decide (c = ' ' ∨ c.toNat = 9 ∨ c.toNat = 13 ∨ c.toNat = 10)

/-- The text without its leading white space. -/
def skipSpace : List Char → List Char
  | [] => []
  | c :: rest => if isSpace c then skipSpace rest else c :: rest

/-- Order of two texts by code points, which is the order of their UTF-8 bytes: the order
in which `json.Marshal` sorts the keys of a map. -/
def charsLess : List Char → List Char → Bool
  | _, [] => false
  | [], _ :: _ => true
  | a :: as, b :: bs =>
    decide (a.toNat < b.toNat) || (decide (a.toNat = b.toNat) && charsLess as bs)

/-- Assignment `m[k] = v` on a map given by its entries in increasing key order. -/
def insertMember (k : String) (v : JsonValue) :
    List (String × JsonValue) → List (String × JsonValue)
  | [] => [(k, v)]
  | (k1, v1) :: rest =>
    if charsLess k.data k1.data = true then (k, v) :: (k1, v1) :: rest
    else if k = k1 then (k, v) :: rest
    else (k1, v1) :: insertMember k v rest

/-- The map a JSON object is decoded to: its members assigned in the order of the text, a
later member replacing an earlier one of the same key. -/
def objectOf (members : List (String × JsonValue)) : List (String × JsonValue) :=
  members.foldl (fun m kv => insertMember kv.1 kv.2 m) []

/-- The rest of a literal name. -/
def scanLiteral (word : List Char) (cs : List Char) : Option (List Char) :=
  if word.isPrefixOf cs then some (cs.drop word.length) else none

/-- The elements of a non-empty array, from the first value to the closing bracket. -/
def parseElements (parse : List Char → Option (JsonValue × List Char)) :
    Nat → List Char → Option (List JsonValue × List Char)
  | 0, _ => none
  | fuel + 1, cs =>
    match parse cs with
    | none => none
    | some (v, rest) =>
      match skipSpace rest with
      | [] => none
      | c :: rest1 =>
        if c = ',' then
          match parseElements parse fuel rest1 with
          | none => none
          | some (vs, rest2) => some (v :: vs, rest2)
        else if c = ']' then some ([v], rest1)
        else none

/-- One member of an object: key, colon, value. -/
def parseMember (parse : List Char → Option (JsonValue × List Char)) (cs : List Char) :
    Option ((String × JsonValue) × List Char) :=
  match skipSpace cs with
  | [] => none
  | q :: rest =>
    if q = quoteMark then
      match scanString rest.length rest with
      | none => none
      | some (key, rest1) =>
        match skipSpace rest1 with
        | [] => none
        | c :: rest2 =>
          if c = ':' then
            match parse rest2 with
            | none => none
            | some (v, rest3) => some ((String.mk key, v), rest3)
          else none
    else none

/-- The members of a non-empty object, from the first key to the closing brace. -/
def parseMembers (parse : List Char → Option (JsonValue × List Char)) :
    Nat → List Char → Option (List (String × JsonValue) × List Char)
  | 0, _ => none
  | fuel + 1, cs =>
    match parseMember parse cs with
    | none => none
    | some (kv, rest) =>
      match skipSpace rest with
      | [] => none
      | c :: rest1 =>
        if c = ',' then
          match parseMembers parse fuel rest1 with
          | none => none
          | some (kvs, rest2) => some (kv :: kvs, rest2)
        else if c = closeBrace then some ([kv], rest1)
        else none

/-- An array after its opening bracket, decoded to a slice. -/
def parseArray (parse : List Char → Option (JsonValue × List Char)) (rest : List Char) :
    Option (JsonValue × List Char) :=
  match skipSpace rest with
  | [] => none
  | c :: rest1 =>
    if c = ']' then some (JsonValue.array [], rest1)
    else
      match parseElements parse rest.length (c :: rest1) with
      | none => none
      | some (vs, rest2) => some (JsonValue.array vs, rest2)

/-- An object after its opening brace, decoded to a map. -/
def parseObject (parse : List Char → Option (JsonValue × List Char)) (rest : List Char) :
    Option (JsonValue × List Char) :=
  match skipSpace rest with
  | [] => none
  | c :: rest1 =>
    if c = closeBrace then some (JsonValue.object [], rest1)
    else
      match parseMembers parse rest.length (c :: rest1) with
      | none => none
      | some (kvs, rest2) => some (JsonValue.object (objectOf kvs), rest2)

/-- A string, a literal name or a number, from its first character. -/
def parseScalar (c : Char) (rest : List Char) : Option (JsonValue × List Char) :=
  if c = quoteMark then
    match scanString rest.length rest with
    | none => none
    | some (s, rest1) => some (JsonValue.str (String.mk s), rest1)
  else if c = 't' then
    match scanLiteral ['r', 'u', 'e'] rest with
    | none => none
    | some rest1 => some (JsonValue.bool true, rest1)
  else if c = 'f' then
    match scanLiteral ['a', 'l', 's', 'e'] rest with
    | none => none
    | some rest1 => some (JsonValue.bool false, rest1)
  else if c = 'n' then
    match scanLiteral ['u', 'l', 'l'] rest with
    | none => none
    | some rest1 => some (JsonValue.null, rest1)
  else
    match scanNumber (c :: rest) with
    | none => none
    | some (bits, rest1) => some (JsonValue.number bits, rest1)

/-- A JSON value with the white space before it.  The first argument is the nesting the
scanner still allows plus one: an array or an object needs room for its content, and
`encoding/json` refuses nesting deeper than 10000. -/
def parseValue : Nat → List Char → Option (JsonValue × List Char)
  | 0, _ => none
  | budget + 1, cs =>
    match skipSpace cs with
    | [] => none
    | c :: rest =>
      if c = '[' then
        if budget = 0 then none else parseArray (parseValue budget) rest
      else if c = openBrace then
        if budget = 0 then none else parseObject (parseValue budget) rest
      else parseScalar c rest

/-- Library function `json.Unmarshal` into an `interface{}`: one value with white space
around it; `none` when it returns an error. -/
def decode (s : String) : Option JsonValue :=
  match parseValue 10001 s.data with
  | none => none
  | some (v, rest) => if skipSpace rest = [] then some v else none

mutual
/-- Library function `json.Marshal` on a value an `interface{}` holds; `none` when it
returns an error (a float64 that is not finite). -/
def encodeValue (shortEscapes : Bool) : JsonValue → Option (List Char)
  | JsonValue.null => some ['n', 'u', 'l', 'l']
  | JsonValue.bool true => some ['t', 'r', 'u', 'e']
  | JsonValue.bool false => some ['f', 'a', 'l', 's', 'e']
  | JsonValue.number bits => formatFloat bits
  | JsonValue.str s => some (quoteString shortEscapes s)
  | JsonValue.array xs =>
    match encodeElements shortEscapes xs with
    | none => none
    | some body => some ('[' :: (body ++ [']']))
  | JsonValue.object kvs =>
    match encodeMembers shortEscapes kvs with
    | none => none
    | some body => some (openBrace :: (body ++ [closeBrace]))
/-- The elements of a slice, separated by commas. -/
def encodeElements (shortEscapes : Bool) : List JsonValue → Option (List Char)
  | [] => some []
  | x :: xs =>
    match encodeValue shortEscapes x, encodeElements shortEscapes xs with
    | some a, some b => some (if xs.isEmpty then a else a ++ ',' :: b)
    | _, _ => none
/-- The entries of a map, in increasing key order, separated by commas. -/
def encodeMembers (shortEscapes : Bool) : List (String × JsonValue) → Option (List Char)
  | [] => some []
  | (k, v) :: kvs =>
    match encodeValue shortEscapes v, encodeMembers shortEscapes kvs with
    | some a, some b =>
      some (if kvs.isEmpty then quoteString shortEscapes k ++ ':' :: a
            else quoteString shortEscapes k ++ ':' :: (a ++ ',' :: b))
    | _, _ => none
end

/-- A text that ends an encoded value where it stands: nothing, or a comma, a closing
bracket or a closing brace. -/
def delimited (rest : List Char) : Prop :=
  ∀ c ∈ rest.head?, c = ',' ∨ c = ']' ∨ c = closeBrace

/-- The value has an encoding that the given parser reads back to the value, whatever
delimited text follows. -/
def roundTrips (shortEscapes : Bool) (parse : List Char → Option (JsonValue × List Char))
    (v : JsonValue) : Prop :=
  ∃ text, encodeValue shortEscapes v = some text ∧
    ∀ rest, delimited rest → parse (text ++ rest) = some (v, rest)

/-- The entries are in strictly increasing key order. -/
def keysAscending (m : List (String × JsonValue)) : Prop :=
  m.Pairwise (fun a b => charsLess a.1.data b.1.data = true)

/-- A character with which the encoding of a value starts. -/
def valueStart (c : Char) : Prop :=
  c = '[' ∨ c = openBrace ∨ c = quoteMark ∨ c = 't' ∨ c = 'f' ∨ c = 'n' ∨ c = '-' ∨
    isDigit c = true

end Json

/-- The codec of the Go standard library.  `json.Unmarshal` returns the decoded value or an
error, whose text `errorText` gives; `json.Marshal` returns the encoding, and the callers
that discard its error get the empty string when it fails. -/
def goJson (errorText : String → String) (shortEscapes : Bool) : JsonCodec :=
  { Unmarshal := fun s =>
      match Json.decode s with
      | some v => Except.ok v
      | none => Except.error (errorText s),
    Marshal := fun v =>
      match Json.encodeValue shortEscapes v with
      | some cs => String.mk cs
      | none => "" }

/-! ## Vocabulary and fixtures for the client, the provider and the data source -/

/-- Whether a call belongs to the authorized-parties reconciliation. -/
def Call.isAuthorizationCall : Call → Bool
  | Call.authorizeParties _ _ _ => true
  | Call.unauthorizeAllParties _ _ => true
  | Call.getAuthorization _ _ => true
  | _ => false

/-- The setting the spec describes: the explicit provider-configuration value when that is
non-empty, and the environment value otherwise. -/
def resolvedSetting (explicit : TfString) (environment : String) : String :=
  if explicit.ValueString ≠ "" then explicit.ValueString else environment

/-- The results of successive calls of `NVCFClient()` on the given receivers, in order,
and the package variables afterwards. -/
def NVCFClientCalls : List NGCClient → ClientPackage → List (Option NVCFClient) × ClientPackage
  | [], p => ([], p)
  | c :: cs, p =>
    ((c.NVCFClient p).1 :: (NVCFClientCalls cs (c.NVCFClient p).2).1,
     (NVCFClientCalls cs (c.NVCFClient p).2).2)

/-- The client `NVCFClient()` builds from a receiver. -/
def NGCClient.built (c : NGCClient) : Ngc.NVCFClient :=
  { NgcEndpoint := c.NgcEndpoint, NgcApiKey := c.NgcApiKey, NgcOrg := c.NgcOrg,
    NgcTeam := c.NgcTeam, HttpClient := c.HttpClient }

/-- A client for concrete runs: production endpoint, org `org1`, no team, and an HTTP
client that answers every request with the given response. -/
def stubClient (response : HttpResponse) : NVCFClient :=
  { NgcEndpoint := "https://api.ngc.nvidia.com", NgcApiKey := "key", NgcOrg := "org1",
    NgcTeam := "", HttpClient := answering response }

/-- A decoder of the deployment-read response for concrete runs: the empty body and the
body `not json` fail to decode, every other body stands for a JSON object without a
deployment member and leaves the zero response. -/
def stubDeploymentDecoder : ResponseObject ReadNvidiaCloudFunctionDeploymentResponse :=
  { Unmarshal := fun body =>
      if body = "" then
        ({ Deployment := NvidiaCloudFunctionDeployment.zero }, some "unexpected end of JSON input")
      else if body = "not json" then
        ({ Deployment := NvidiaCloudFunctionDeployment.zero }, some "invalid character")
      else ({ Deployment := NvidiaCloudFunctionDeployment.zero }, none) }

/-- A decoder of the deployment-delete response for concrete runs: the empty body and the
body `not json` fail to decode, every other body stands for the JSON of the scripted
function. -/
def stubDeleteDecoder : ResponseObject DeleteNvidiaCloudFunctionDeploymentResponse :=
  { Unmarshal := fun body =>
      if body = "" then
        ({ Function := NvidiaCloudFunctionInfo.zero }, some "unexpected end of JSON input")
      else if body = "not json" then
        ({ Function := NvidiaCloudFunctionInfo.zero }, some "invalid character")
      else ({ Function := scriptedFunction }, none) }

/-- A decoder of the function-creation response for concrete runs: the empty body and the
body `not json` fail to decode, every other body stands for the JSON of the scripted
function. -/
def stubFunctionDecoder : ResponseObject CreateNvidiaCloudFunctionResponse :=
  { Unmarshal := fun body =>
      if body = "" then
        ({ Function := NvidiaCloudFunctionInfo.zero }, some "unexpected end of JSON input")
      else if body = "not json" then
        ({ Function := NvidiaCloudFunctionInfo.zero }, some "invalid character")
      else ({ Function := scriptedFunction }, none) }

/-- A stand-in for the acceptance of `http.NewRequest` in concrete runs: a URL holding an
ASCII control character is rejected, as `net/url` rejects it, and every other is taken to
be accepted. -/
def controlFreeURL (_method url : String) : Bool :=
  url.toList.all (fun ch => decide (32 ≤ ch.toNat ∧ ch.toNat ≠ 127))

/-- Whether no element is repeated in any of the slices of the replies that the merge turns
into sets: tags, container environment, resources, models and authorized parties. -/
def withoutRepeatedElements (functionInfo : NvidiaCloudFunctionInfo)
    (authorizedAccounts : Option AuthorizeAccountsToInvokeFunctionResponse) : Prop :=
  (functionInfo.Tags.getD []).Nodup ∧
  (containerEnvironmentModels (functionInfo.ContainerEnvironment.getD [])).Nodup ∧
  (resourceModels (functionInfo.Resources.getD [])).Nodup ∧
  (modelModels (functionInfo.Models.getD [])).Nodup ∧
  (authorizedPartyModels authorizedAccounts).Nodup

/-- A configuration string that is JSON but not in the form the serialiser writes: the keys
are not in order and there are blanks. -/
def reorderedConfiguration : String := "\x7b\"b\": 1, \"a\": 2\x7d"

/-- The form in which `json.Marshal` writes the value of `reorderedConfiguration`. -/
def serialisedConfiguration : String := "\x7b\"a\":2,\"b\":1\x7d"

/-- The codec of the standard library for concrete runs, with the escapes of Go 1.22. -/
def standardCodec : JsonCodec := goJson (fun _ => "invalid JSON") true

/-- The deployment specification `gfnSpecification` with the configuration
`reorderedConfiguration`. -/
def reorderedSpecification : NvidiaCloudFunctionResourceDeploymentSpecificationModel :=
  { gfnSpecification with Configuration := TfValue.known reorderedConfiguration }

/-- A plan that deploys `reorderedSpecification`. -/
def reorderedPlan : NvidiaCloudFunctionResourceModel :=
  { emptyModel with DeploymentSpecifications := TfValue.known [reorderedSpecification] }

/-- An encoder of the function-creation request for concrete runs: the request's name. -/
def stubEncoder (req : CreateNvidiaCloudFunctionRequest) : Except String String :=
  Except.ok req.FunctionName

/-- The scripted remote whose deployment delete goes through the HTTP client `c`. -/
def deleteOverHttp (c : NVCFClient) (s : Script) : Remote (List String) :=
  { scriptedRemote s with
    deleteDeployment := fun st functionID functionVersionID =>
      { resp := (c.DeleteNvidiaCloudFunctionDeployment stubErrorDecoder stubDeleteDecoder
                  functionID functionVersionID).1,
        err := (c.DeleteNvidiaCloudFunctionDeployment stubErrorDecoder stubDeleteDecoder
                  functionID functionVersionID).2,
        next := st, took := s.took } }

/-- A plan for `deployedState` with an empty list of deployment specifications. -/
def undeployingPlan : NvidiaCloudFunctionResourceModel :=
  { deployedState with DeploymentSpecifications := TfValue.known [] }

/-- Script: the authorization query fails. -/
def scriptAuthorizationFails : Script := { Script.quiet with getAuthorizationErr := some "boom" }

/-- A configuration with three secrets: one whose value is not JSON, one whose value
parses, and one with the empty value. -/
def secretsModel : NvidiaCloudFunctionResourceModel :=
  { emptyModel with
    Secrets := TfValue.known ([NvidiaCloudFunctionResourceSecretModel.mk (TfValue.known "raw")
        (TfValue.known "not json"),
      NvidiaCloudFunctionResourceSecretModel.mk (TfValue.known "parsed") (TfValue.known "true"),
      NvidiaCloudFunctionResourceSecretModel.mk (TfValue.known "skipped") (TfValue.known "")]) }

/-- A data-source model with every attribute null. -/
def emptyDataSourceModel : NvidiaCloudFunctionDataSourceModel :=
  { FunctionID := TfValue.null, VersionID := TfValue.null, NcaId := TfValue.null,
    FunctionName := TfValue.null, HelmChart := TfValue.null,
    HelmChartServiceName := TfValue.null, InferencePort := TfValue.null,
    ContainerImage := TfValue.null, ContainerArgs := TfValue.null,
    ContainerEnvironment := TfValue.null, InferenceUrl := TfValue.null,
    HealthUri := TfValue.null, Health := none, APIBodyFormat := TfValue.null,
    DeploymentSpecifications := TfValue.null, Tags := TfValue.null,
    Description := TfValue.null, Models := TfValue.null, Resources := TfValue.null,
    FunctionType := TfValue.null, AuthorizedParties := TfValue.null }

/-- An environment for concrete runs: only `NGC_API_KEY` and `NGC_ORG` are set. -/
def stubGetenv (name : String) : String :=
  if name = "NGC_API_KEY" then "env-key" else if name = "NGC_ORG" then "env-org" else ""

/-- A provider configuration with every attribute null. -/
def emptyProviderModel : NgcProviderModel :=
  { NgcEndpoint := TfValue.null, NgcApiKey := TfValue.null, NgcOrg := TfValue.null,
    NgcTeam := TfValue.null }

/-! ## The waiter -/

section Waiter

variable {σ : Type} (env : Remote σ) (ctx : Context) (functionID functionVersionId : String)

theorem afterDeployingPolls_calls (k : Nat) (w w' : World σ)
    (h : afterDeployingPolls env ctx functionID functionVersionId k w = some w') :
    w'.calls = w.calls ++ List.replicate k (Call.readDeployment functionID functionVersionId) := by
  induction k generalizing w with
  | zero =>
    simp only [afterDeployingPolls, Option.some.injEq] at h
    subst h
    simp
  | succ k ih =>
    simp only [afterDeployingPolls] at h
    split at h
    · split at h
      · rename_i t _
        have := ih _ h
        rw [this]
        simp [ReadNvidiaCloudFunctionDeployment, World.issue, List.replicate_succ]
      · exact absurd h (by simp)
    · exact absurd h (by simp)

theorem waiting_after_polls (k fuel : Nat) (w w' : World σ)
    (h : afterDeployingPolls env ctx functionID functionVersionId k w = some w') :
    WaitingDeploymentCompleted env ctx functionID functionVersionId (k + fuel) w =
      WaitingDeploymentCompleted env ctx functionID functionVersionId fuel w' := by
  induction k generalizing w with
  | zero =>
    simp only [afterDeployingPolls, Option.some.injEq] at h
    subst h
    simp
  | succ k ih =>
    simp only [afterDeployingPolls] at h
    split at h
    · rename_i hc
      obtain ⟨herr, hst⟩ := hc
      split at h
      · rename_i t hsel
        have hk : k + 1 + fuel = (k + fuel) + 1 := by omega
        rw [hk, WaitingDeploymentCompleted]
        simp only [herr, hst, hsel]
        simpa using ih _ h
      · exact absurd h (by simp)
    · exact absurd h (by simp)

theorem waiting_mono (fuel n : Nat) (w : World σ) (o : Outcome σ)
    (h : WaitingDeploymentCompleted env ctx functionID functionVersionId fuel w = some o) :
    WaitingDeploymentCompleted env ctx functionID functionVersionId (fuel + n) w = some o := by
  induction fuel generalizing w with
  | zero => simp [WaitingDeploymentCompleted] at h
  | succ fuel ih =>
    have hk : fuel + 1 + n = (fuel + n) + 1 := by omega
    rw [hk]
    rw [WaitingDeploymentCompleted] at h ⊢
    split
    · rename_i e he
      simpa [he] using h
    · rename_i he
      simp only [he] at h
      split
      · rename_i ha
        simpa [ha] using h
      · rename_i ha
        simp only [ha, if_false] at h
        split
        · rename_i hd
          simp only [hd, if_true] at h
          split
          · rename_i t hsel
            simpa [hsel] using h
          · rename_i t hsel
            simp only [hsel] at h
            exact ih _ h
        · rename_i hd
          simpa [hd] using h

theorem waiting_success_polls (fuel : Nat) (w : World σ) (o : Outcome σ)
    (h : WaitingDeploymentCompleted env ctx functionID functionVersionId fuel w = some o)
    (herr : o.err = none) :
    ∃ k u, k < fuel ∧
      afterDeployingPolls env ctx functionID functionVersionId k w = some u ∧
      (ReadNvidiaCloudFunctionDeployment env u functionID functionVersionId).err = none ∧
      (ReadNvidiaCloudFunctionDeployment env u functionID functionVersionId).resp.Deployment.FunctionStatus
        = "ACTIVE" ∧
      o.world = (ReadNvidiaCloudFunctionDeployment env u functionID functionVersionId).world := by
  induction fuel generalizing w with
  | zero => simp [WaitingDeploymentCompleted] at h
  | succ fuel ih =>
    rw [WaitingDeploymentCompleted] at h
    split at h
    · rename_i e he
      simp only [Option.some.injEq] at h
      subst h
      simp at herr
    · rename_i he
      split at h
      · rename_i ha
        simp only [Option.some.injEq] at h
        subst h
        exact ⟨0, w, by omega, rfl, he, ha, rfl⟩
      · rename_i ha
        split at h
        · rename_i hd
          split at h
          · simp only [Option.some.injEq] at h
            subst h
            simp at herr
          · rename_i t hsel
            obtain ⟨k, u, hk, hp, h1, h2, h3⟩ := ih _ h
            refine ⟨k + 1, u, by omega, ?_, h1, h2, h3⟩
            simp only [afterDeployingPolls, he, hd, and_self, if_true, hsel]
            exact hp
        · simp only [Option.some.injEq] at h
          subst h
          simp at herr

theorem selectWait_bounds (tie : Bool) (now d : Nat) (hctx : ctx.doneAt = some d) :
    now ≤ (selectWait ctx tie now).2 ∧ (selectWait ctx tie now).2 ≤ max now d := by
  unfold selectWait
  rw [hctx]
  simp only
  split_ifs <;> simp <;> omega

theorem selectWait_interval_first (tie : Bool) (now : Nat)
    (h : ∀ d, ctx.doneAt = some d → now + waitInterval < d) :
    selectWait ctx tie now = (SelectCase.timeAfter, now + waitInterval) := by
  unfold selectWait
  cases hc : ctx.doneAt with
  | none => rfl
  | some d =>
    have := h d hc
    simp only
    split_ifs <;> first | rfl | omega

theorem selectWait_deadline_first (tie : Bool) (now d : Nat) (hctx : ctx.doneAt = some d)
    (h : d < now + waitInterval) :
    selectWait ctx tie now = (SelectCase.ctxDone, max now d) := by
  unfold selectWait
  rw [hctx]
  simp only
  split_ifs with h1
  · rw [max_eq_left h1]
  · rw [max_eq_right (by omega)]

/-- C2. When `k` successive deployment reads report DEPLOYING (no read error, every wait
ended by the interval and not by the deadline) and the next read reports ACTIVE, the
waiter, given room for more than `k` iterations, returns success after exactly `k + 1`
reads; and whenever the waiter returns success, the run was of that shape: the last status
it read was ACTIVE and every read before it was DEPLOYING. -/
theorem waiting_deploying_then_active (k fuel : Nat) (w u : World σ)
    (hpolls : afterDeployingPolls env ctx functionID functionVersionId k w = some u)
    (hok : (ReadNvidiaCloudFunctionDeployment env u functionID functionVersionId).err = none)
    (hactive :
      (ReadNvidiaCloudFunctionDeployment env u functionID functionVersionId).resp.Deployment.FunctionStatus
        = "ACTIVE")
    (hfuel : k < fuel) :
    WaitingDeploymentCompleted env ctx functionID functionVersionId fuel w =
        some { err := none,
               world := (ReadNvidiaCloudFunctionDeployment env u functionID functionVersionId).world } ∧
      (ReadNvidiaCloudFunctionDeployment env u functionID functionVersionId).world.calls =
        w.calls ++ List.replicate (k + 1) (Call.readDeployment functionID functionVersionId) ∧
      ∀ (fuel2 : Nat) (w2 : World σ) (o : Outcome σ),
        WaitingDeploymentCompleted env ctx functionID functionVersionId fuel2 w2 = some o →
        o.err = none →
        ∃ j v, afterDeployingPolls env ctx functionID functionVersionId j w2 = some v ∧
          (ReadNvidiaCloudFunctionDeployment env v functionID functionVersionId).err = none ∧
          (ReadNvidiaCloudFunctionDeployment env v functionID functionVersionId).resp.Deployment.FunctionStatus
            = "ACTIVE" ∧
          o.world = (ReadNvidiaCloudFunctionDeployment env v functionID functionVersionId).world ∧
          o.world.calls =
            w2.calls ++ List.replicate (j + 1) (Call.readDeployment functionID functionVersionId) := by
  have hcalls : ∀ (j : Nat) (a b : World σ),
      afterDeployingPolls env ctx functionID functionVersionId j a = some b →
      (ReadNvidiaCloudFunctionDeployment env b functionID functionVersionId).world.calls =
        a.calls ++ List.replicate (j + 1) (Call.readDeployment functionID functionVersionId) := by
    intro j a b hab
    have := afterDeployingPolls_calls env ctx functionID functionVersionId j a b hab
    simp [ReadNvidiaCloudFunctionDeployment, World.issue, this, List.replicate_succ']
  refine ⟨?_, hcalls k w u hpolls, ?_⟩
  · obtain ⟨n, rfl⟩ : ∃ n, fuel = k + (n + 1) := ⟨fuel - k - 1, by omega⟩
    rw [waiting_after_polls env ctx functionID functionVersionId k (n + 1) w u hpolls]
    rw [WaitingDeploymentCompleted]
    simp only [hok, hactive, if_true]
  · intro fuel2 w2 o h herr
    obtain ⟨j, v, _, hp, h1, h2, h3⟩ :=
      waiting_success_polls env ctx functionID functionVersionId fuel2 w2 o h herr
    exact ⟨j, v, hp, h1, h2, h3, by rw [h3]; exact hcalls j w2 v hp⟩

/-- C3. On the first read (after any number `k` of DEPLOYING polls) that returns an error
or reports a status other than ACTIVE and DEPLOYING, the waiter returns at once: with the
read's error, or with the message `unexpected status <status>`; the failing read is the
last call, `k + 1` reads in all. -/
theorem waiting_fails_without_retry (k fuel : Nat) (w u : World σ)
    (hpolls : afterDeployingPolls env ctx functionID functionVersionId k w = some u)
    (hfuel : k < fuel) :
    (∀ e, (ReadNvidiaCloudFunctionDeployment env u functionID functionVersionId).err = some e →
      WaitingDeploymentCompleted env ctx functionID functionVersionId fuel w =
        some { err := some e,
               world := (ReadNvidiaCloudFunctionDeployment env u functionID functionVersionId).world }) ∧
    ((ReadNvidiaCloudFunctionDeployment env u functionID functionVersionId).err = none →
      (ReadNvidiaCloudFunctionDeployment env u functionID functionVersionId).resp.Deployment.FunctionStatus
        ≠ "ACTIVE" →
      (ReadNvidiaCloudFunctionDeployment env u functionID functionVersionId).resp.Deployment.FunctionStatus
        ≠ "DEPLOYING" →
      WaitingDeploymentCompleted env ctx functionID functionVersionId fuel w =
        some { err := some ("unexpected status " ++
                 (ReadNvidiaCloudFunctionDeployment env u functionID functionVersionId).resp.Deployment.FunctionStatus),
               world := (ReadNvidiaCloudFunctionDeployment env u functionID functionVersionId).world }) ∧
    (ReadNvidiaCloudFunctionDeployment env u functionID functionVersionId).world.calls =
      w.calls ++ List.replicate (k + 1) (Call.readDeployment functionID functionVersionId) := by
  obtain ⟨n, rfl⟩ : ∃ n, fuel = k + (n + 1) := ⟨fuel - k - 1, by omega⟩
  rw [waiting_after_polls env ctx functionID functionVersionId k (n + 1) w u hpolls]
  refine ⟨?_, ?_, ?_⟩
  · intro e he
    rw [WaitingDeploymentCompleted]
    simp only [he]
  · intro he ha hd
    rw [WaitingDeploymentCompleted]
    simp only [he, ha, hd, if_false]
  · have := afterDeployingPolls_calls env ctx functionID functionVersionId k w u hpolls
    simp [ReadNvidiaCloudFunctionDeployment, World.issue, this, List.replicate_succ']

/-- C4. When a read (after any number `k` of DEPLOYING polls) reports DEPLOYING and the
context is done at an instant `d` earlier than the end of the 60-second interval, the
waiter returns `timeout occurred` with that read as its last call; it returns nothing else
for any loop bound, so never success; it stops waiting at `d` (or at once if `d` has
passed); and no wait of the `select` ever ends after the later of its start and `d`. -/
theorem waiting_timeout_at_deadline (k : Nat) (w u : World σ) (d : Nat)
    (hpolls : afterDeployingPolls env ctx functionID functionVersionId k w = some u)
    (hok : (ReadNvidiaCloudFunctionDeployment env u functionID functionVersionId).err = none)
    (hdeploying :
      (ReadNvidiaCloudFunctionDeployment env u functionID functionVersionId).resp.Deployment.FunctionStatus
        = "DEPLOYING")
    (hctx : ctx.doneAt = some d)
    (hdeadline :
      d < (ReadNvidiaCloudFunctionDeployment env u functionID functionVersionId).world.now
            + waitInterval) :
    (∀ fuel, k < fuel →
      WaitingDeploymentCompleted env ctx functionID functionVersionId fuel w =
        some { err := some "timeout occurred",
               world := { (ReadNvidiaCloudFunctionDeployment env u functionID functionVersionId).world
                          with now := max (ReadNvidiaCloudFunctionDeployment env u functionID
                                             functionVersionId).world.now d } }) ∧
    (∀ fuel o,
      WaitingDeploymentCompleted env ctx functionID functionVersionId fuel w = some o →
      o.err = some "timeout occurred") ∧
    (ReadNvidiaCloudFunctionDeployment env u functionID functionVersionId).world.calls =
      w.calls ++ List.replicate (k + 1) (Call.readDeployment functionID functionVersionId) ∧
    (∀ (tie : Bool) (now : Nat),
      now ≤ (selectWait ctx tie now).2 ∧ (selectWait ctx tie now).2 ≤ max now d) := by
  have hmain : ∀ fuel, k < fuel →
      WaitingDeploymentCompleted env ctx functionID functionVersionId fuel w =
        some { err := some "timeout occurred",
               world := { (ReadNvidiaCloudFunctionDeployment env u functionID functionVersionId).world
                          with now := max (ReadNvidiaCloudFunctionDeployment env u functionID
                                             functionVersionId).world.now d } } := by
    intro fuel hfuel
    obtain ⟨n, rfl⟩ : ∃ n, fuel = k + (n + 1) := ⟨fuel - k - 1, by omega⟩
    rw [waiting_after_polls env ctx functionID functionVersionId k (n + 1) w u hpolls]
    rw [WaitingDeploymentCompleted]
    have hsel := selectWait_deadline_first ctx
      (env.selectTie (ReadNvidiaCloudFunctionDeployment env u functionID functionVersionId).world.remote)
      _ d hctx hdeadline
    have hne : ¬ ("DEPLOYING" = "ACTIVE") := by decide
    simp only [hok, hdeploying, hne, if_false, if_true, hsel]
  refine ⟨hmain, ?_, ?_, ?_⟩
  · intro fuel o ho
    have h1 := waiting_mono env ctx functionID functionVersionId fuel (k + 1) w o ho
    rw [hmain (fuel + (k + 1)) (by omega)] at h1
    simp only [Option.some.injEq] at h1
    rw [← h1]
  · have := afterDeployingPolls_calls env ctx functionID functionVersionId k w u hpolls
    simp [ReadNvidiaCloudFunctionDeployment, World.issue, this, List.replicate_succ']
  · intro tie now
    exact selectWait_bounds ctx tie now d hctx

/-- Witness of C2: first poll DEPLOYING, second poll ACTIVE. -/
theorem waiting_deploying_then_active_witness :
    afterDeployingPolls (scriptedRemote scriptDeployingActive) Background "f1" "v1" 1
        (scriptedWorld scriptDeployingActive) =
      some { remote := ["ACTIVE"], now := waitInterval, calls := [Call.readDeployment "f1" "v1"] } ∧
    WaitingDeploymentCompleted (scriptedRemote scriptDeployingActive) Background "f1" "v1" 2
        (scriptedWorld scriptDeployingActive) =
      some { err := none,
             world := { remote := [], now := waitInterval,
                        calls := [Call.readDeployment "f1" "v1", Call.readDeployment "f1" "v1"] } } :=
  ⟨rfl,
   (waiting_deploying_then_active (scriptedRemote scriptDeployingActive) Background "f1" "v1" 1 2
      (scriptedWorld scriptDeployingActive)
      { remote := ["ACTIVE"], now := waitInterval, calls := [Call.readDeployment "f1" "v1"] }
      rfl rfl rfl (by decide)).1⟩

/-- Witness of C3: the first poll reports FAILED. -/
theorem waiting_fails_without_retry_witness :
    afterDeployingPolls (scriptedRemote scriptFailed) Background "f1" "v1" 0
        (scriptedWorld scriptFailed) = some (scriptedWorld scriptFailed) ∧
    WaitingDeploymentCompleted (scriptedRemote scriptFailed) Background "f1" "v1" 1
        (scriptedWorld scriptFailed) =
      some { err := some "unexpected status FAILED",
             world := { remote := [], now := 0, calls := [Call.readDeployment "f1" "v1"] } } :=
  ⟨rfl,
   (waiting_fails_without_retry (scriptedRemote scriptFailed) Background "f1" "v1" 0 1
      (scriptedWorld scriptFailed) (scriptedWorld scriptFailed) rfl (by decide)).2.1
      rfl (by decide) (by decide)⟩

/-- Witness of C4: DEPLOYING at the first poll, context done after thirty seconds. -/
theorem waiting_timeout_at_deadline_witness :
    30 * Second < 0 + waitInterval ∧
    WaitingDeploymentCompleted (scriptedRemote scriptDeploying) thirtySeconds "f1" "v1" 1
        (scriptedWorld scriptDeploying) =
      some { err := some "timeout occurred",
             world := { remote := ["DEPLOYING", "DEPLOYING"], now := 30 * Second,
                        calls := [Call.readDeployment "f1" "v1"] } } :=
  ⟨by decide,
   (waiting_timeout_at_deadline (scriptedRemote scriptDeploying) thirtySeconds "f1" "v1" 0
      (scriptedWorld scriptDeploying) (scriptedWorld scriptDeploying) (30 * Second)
      rfl rfl rfl rfl (by decide)).1 1 (by decide)⟩

theorem waiting_terminates (d n : Nat) (hctx : ctx.doneAt = some d) (w : World σ)
    (h : d < w.now + n * waitInterval) :
    ∃ o, WaitingDeploymentCompleted env ctx functionID functionVersionId (n + 1) w = some o := by
  induction n generalizing w with
  | zero =>
    rw [WaitingDeploymentCompleted]
    split
    · exact ⟨_, rfl⟩
    · split
      · exact ⟨_, rfl⟩
      · split
        · have hsel := selectWait_deadline_first ctx
            (env.selectTie (ReadNvidiaCloudFunctionDeployment env w functionID
              functionVersionId).world.remote)
            (ReadNvidiaCloudFunctionDeployment env w functionID functionVersionId).world.now d hctx
            (by simp only [ReadNvidiaCloudFunctionDeployment, World.issue]; omega)
          simp only [hsel]
          exact ⟨_, rfl⟩
        · exact ⟨_, rfl⟩
  | succ n ih =>
    rw [WaitingDeploymentCompleted]
    split
    · exact ⟨_, rfl⟩
    · split
      · exact ⟨_, rfl⟩
      · split
        · split
          · exact ⟨_, rfl⟩
          · rename_i t hsel
            apply ih
            have hb := (selectWait_bounds ctx
              (env.selectTie (ReadNvidiaCloudFunctionDeployment env w functionID
                functionVersionId).world.remote)
              (ReadNvidiaCloudFunctionDeployment env w functionID functionVersionId).world.now d
              hctx)
            have ht : t = (ReadNvidiaCloudFunctionDeployment env w functionID
                functionVersionId).world.now + waitInterval := by
              have hs := hsel
              unfold selectWait at hs
              rw [hctx] at hs
              simp only at hs
              split_ifs at hs <;> simp_all
            simp only [ReadNvidiaCloudFunctionDeployment, World.issue] at ht ⊢
            rw [ht]
            have : (n + 1) * waitInterval = n * waitInterval + waitInterval := by ring
            omega
        · exact ⟨_, rfl⟩

theorem waiting_returns_within_deadline (timeout d fuel : Nat) (hctx : ctx.doneAt = some d)
    (w : World σ) (hd : d ≤ w.now + timeout) (hfuel : enoughFuel timeout ≤ fuel) :
    ∃ o, WaitingDeploymentCompleted env ctx functionID functionVersionId fuel w = some o := by
  have hpos : 0 < waitInterval := by decide
  have hlt : timeout < waitInterval * (timeout / waitInterval + 1) :=
    Nat.lt_mul_div_succ timeout hpos
  obtain ⟨o, ho⟩ := waiting_terminates env ctx functionID functionVersionId d
    (timeout / waitInterval + 1) hctx w (by rw [Nat.mul_comm]; omega)
  obtain ⟨n, rfl⟩ : ∃ n, fuel = (timeout / waitInterval + 1 + 1) + n :=
    ⟨fuel - (timeout / waitInterval + 2), by unfold enoughFuel at hfuel; omega⟩
  exact ⟨o, waiting_mono env ctx functionID functionVersionId _ n w o ho⟩

theorem waiting_calls_filter (p : Call → Bool)
    (hp : p (Call.readDeployment functionID functionVersionId) = false)
    (fuel : Nat) (w : World σ) (o : Outcome σ)
    (h : WaitingDeploymentCompleted env ctx functionID functionVersionId fuel w = some o) :
    o.world.calls.filter p = w.calls.filter p := by
  induction fuel generalizing w with
  | zero => simp [WaitingDeploymentCompleted] at h
  | succ fuel ih =>
    rw [WaitingDeploymentCompleted] at h
    have hr : (ReadNvidiaCloudFunctionDeployment env w functionID functionVersionId).world.calls.filter p
        = w.calls.filter p := by
      simp [ReadNvidiaCloudFunctionDeployment, World.issue, List.filter_append, hp]
    split at h
    · simp only [Option.some.injEq] at h
      subst h
      exact hr
    · split at h
      · simp only [Option.some.injEq] at h
        subst h
        exact hr
      · split at h
        · split at h
          · simp only [Option.some.injEq] at h
            subst h
            exact hr
          · have := ih _ h
            rw [this]
            exact hr
        · simp only [Option.some.injEq] at h
          subst h
          exact hr

end Waiter

/-! ## Authorized-parties reconciliation -/

section Authorization

variable {σ : Type} (env : Remote σ)

theorem elements_ne_nil_known {α : Type} (raw : TfValue (List α)) (h : raw.Elements ≠ []) :
    raw = TfValue.known raw.Elements := by
  cases raw with
  | null => simp [TfValue.Elements] at h
  | unknown => simp [TfValue.Elements] at h
  | known xs => rfl

theorem updateFunctionAuthorizedParties_calls_filter (p : Call → Bool)
    (functionID versionID : String)
    (hp1 : ∀ req, p (Call.authorizeParties functionID versionID req) = false)
    (hp2 : p (Call.unauthorizeAllParties functionID versionID) = false)
    (hp3 : p (Call.getAuthorization functionID versionID) = false)
    (raw : TfValue (List NvidiaCloudFunctionResourceAuthorizedPartyModel))
    (diag : Diagnostics) (w : World σ) :
    (updateFunctionAuthorizedParties env functionID versionID raw diag w).world.calls.filter p =
      w.calls.filter p := by
  unfold updateFunctionAuthorizedParties
  dsimp only
  split_ifs <;> (try split) <;> (try split) <;>
    simp [AuthorizeAccountsToInvokeFunction, GetFunctionAuthorization,
      UnAuthorizeAllExtraAccountsToInvokeFunction, World.issue, List.filter_append, hp1, hp2, hp3]

/-- C5, as the code has it. For a non-empty desired authorized-party set handed over
together with diagnostics that hold no error, `updateFunctionAuthorizedParties` issues
exactly one call, an `authorizeParties` whose payload has one entry per desired element, in
order, carrying that element's NCA id and nothing else; when the diagnostics handed over
already hold an error, it issues no call at all. -/
theorem authorize_overwrites_with_desired (functionID versionID : String)
    (raw : TfValue (List NvidiaCloudFunctionResourceAuthorizedPartyModel))
    (diag : Diagnostics) (w : World σ) (hne : raw.Elements ≠ []) :
    (HasError diag = false →
      (updateFunctionAuthorizedParties env functionID versionID raw diag w).world.calls =
        w.calls ++ [Call.authorizeParties functionID versionID
          { AuthorizedParties := raw.Elements.map (fun v => AuthorizedParty.mk "" v.NcaID.ValueString) }]) ∧
    (HasError diag = true →
      (updateFunctionAuthorizedParties env functionID versionID raw diag w).world.calls = w.calls) := by
  obtain ⟨xs, rfl⟩ : ∃ xs, raw = TfValue.known xs := ⟨_, elements_ne_nil_known raw hne⟩
  have hlen : 0 < xs.length := List.length_pos.mpr hne
  have hcond : (!(TfValue.known xs).IsNull && decide ((TfValue.known xs).Elements.length > 0)) = true := by
    simp [TfValue.IsNull, TfValue.Elements, hlen]
  have happ : Append diag (TfValue.known xs).ElementsAs.2 = diag := by
    simp [Append, TfValue.ElementsAs]
  constructor
  · intro hd
    unfold updateFunctionAuthorizedParties
    rw [if_pos hcond]
    dsimp only
    rw [happ, hd]
    simp only [Bool.false_eq_true, if_false]
    split <;> simp [AuthorizeAccountsToInvokeFunction, World.issue, TfValue.ElementsAs, TfValue.Elements]
  · intro hd
    unfold updateFunctionAuthorizedParties
    rw [if_pos hcond]
    dsimp only
    rw [happ, hd]
    simp

/-- Witness of C5 as amended: one desired party, no error on entry. -/
theorem authorize_overwrites_with_desired_witness :
    (TfValue.known [partyModel]).Elements ≠ [] ∧ HasError [] = false ∧
    (updateFunctionAuthorizedParties (scriptedRemote scriptOneParty) "f1" "v1"
        (TfValue.known [partyModel]) [] (scriptedWorld scriptOneParty)).world.calls =
      [Call.authorizeParties "f1" "v1" { AuthorizedParties := [AuthorizedParty.mk "" "nca-1"] }] :=
  ⟨by decide, rfl,
   (authorize_overwrites_with_desired (scriptedRemote scriptOneParty) "f1" "v1"
      (TfValue.known [partyModel]) [] (scriptedWorld scriptOneParty) (by decide)).1 rfl⟩

/-- C5 fails as stated: with a non-empty desired set, `updateFunctionAuthorizedParties`
issues no call when the diagnostics it is handed already hold an error; `Update` reaches
it in that condition when the function re-fetch has failed, and then issues no
`authorizeParties` call. -/
theorem authorize_skipped_after_earlier_error :
    (TfValue.known [partyModel]).Elements ≠ [] ∧
    (updateFunctionAuthorizedParties (scriptedRemote Script.quiet) "f1" "v1"
        (TfValue.known [partyModel]) [Diagnostic.mk "Failed to get Cloud Function" "boom"]
        (scriptedWorld Script.quiet)).world.calls = [] ∧
    (Update (scriptedRemote scriptGetFails) stubCodec Background 1 authorizingPlan deployedState
        (scriptedWorld scriptGetFails)).map (fun r => r.world.calls.filter Call.isAuthorizeParties)
      = some [] ∧
    (Update (scriptedRemote scriptGetFails) stubCodec Background 1 authorizingPlan deployedState
        (scriptedWorld scriptGetFails)).map (fun r => r.world.calls.length) = some 1 :=
  ⟨by decide, rfl, rfl, rfl⟩

/-- C6. For an empty, null or unknown desired set, `updateFunctionAuthorizedParties` first
issues one `getAuthorization`; it then issues one `unauthorizeAllParties` when the query
succeeded with a non-empty set and nothing more otherwise; it never issues
`authorizeParties`; and it returns the empty response, so that the merged model has zero
authorized parties. -/
theorem unauthorize_when_desired_empty (functionID versionID : String)
    (raw : TfValue (List NvidiaCloudFunctionResourceAuthorizedPartyModel))
    (diag : Diagnostics) (w : World σ) (hempty : raw.Elements = []) :
    (updateFunctionAuthorizedParties env functionID versionID raw diag w).world.calls =
      w.calls ++ Call.getAuthorization functionID versionID ::
        (if (GetFunctionAuthorization env w functionID versionID).err = none ∧
            (GetFunctionAuthorization env w functionID versionID).resp.Function.AuthorizedParties.getD []
              ≠ [] then
           [Call.unauthorizeAllParties functionID versionID]
         else []) ∧
    (updateFunctionAuthorizedParties env functionID versionID raw diag w).val =
      AuthorizeAccountsToInvokeFunctionResponse.zero ∧
    ∀ (codec : JsonCodec) (data : NvidiaCloudFunctionResourceModel)
      (functionInfo : NvidiaCloudFunctionInfo)
      (functionDeployment : Option NvidiaCloudFunctionDeployment),
      (updateNvidiaCloudFunctionResourceModelBaseOnResponse codec data functionInfo
        functionDeployment
        (some (updateFunctionAuthorizedParties env functionID versionID raw diag w).val)).AuthorizedParties
        = TfValue.known [] := by
  have hcond : ¬ ((!raw.IsNull && decide (raw.Elements.length > 0)) = true) := by
    simp [hempty]
  have hval : (updateFunctionAuthorizedParties env functionID versionID raw diag w).val =
      AuthorizeAccountsToInvokeFunctionResponse.zero := by
    unfold updateFunctionAuthorizedParties
    rw [if_neg hcond]
    dsimp only
    split
    · rfl
    · split_ifs
      · split <;> rfl
      · rfl
  refine ⟨?_, hval, ?_⟩
  · unfold updateFunctionAuthorizedParties
    rw [if_neg hcond]
    dsimp only
    split
    · rename_i e he
      simp only [GetFunctionAuthorization, World.issue] at he ⊢
      simp [he]
    · rename_i he
      by_cases hl : ((GetFunctionAuthorization env w functionID versionID).resp.Function.AuthorizedParties.getD
          []).length > 0
      · have hne : (GetFunctionAuthorization env w functionID versionID).resp.Function.AuthorizedParties.getD
            [] ≠ [] := List.length_pos.mp hl
        rw [if_pos hl, if_pos ⟨he, hne⟩]
        split <;> simp [GetFunctionAuthorization, UnAuthorizeAllExtraAccountsToInvokeFunction,
          World.issue]
      · have hnil : ¬ ((GetFunctionAuthorization env w functionID versionID).resp.Function.AuthorizedParties.getD
            [] ≠ []) := by
          intro hx
          exact hl (List.length_pos.mpr hx)
        rw [if_neg hl, if_neg (fun hx => hnil hx.2)]
        simp [GetFunctionAuthorization, World.issue]
  · intro codec data functionInfo functionDeployment
    rw [hval]
    rfl

/-- Witness of C6: null desired set, one party authorized remotely. -/
theorem unauthorize_when_desired_empty_witness :
    (TfValue.null : TfValue (List NvidiaCloudFunctionResourceAuthorizedPartyModel)).Elements = [] ∧
    (updateFunctionAuthorizedParties (scriptedRemote scriptOneParty) "f1" "v1" TfValue.null []
        (scriptedWorld scriptOneParty)).world.calls =
      [Call.getAuthorization "f1" "v1", Call.unauthorizeAllParties "f1" "v1"] :=
  ⟨rfl,
   (unauthorize_when_desired_empty (scriptedRemote scriptOneParty) "f1" "v1" TfValue.null []
      (scriptedWorld scriptOneParty) rfl).1⟩

end Authorization

/-! ## The lifecycle operations -/

section Reconciler

variable {σ : Type} (env : Remote σ) (codec : JsonCodec)

theorem hasError_eq_false_iff (d : Diagnostics) : HasError d = false ↔ d = [] := by
  cases d <;> simp [HasError]

theorem duplicateValues_subset {α : Type} [DecidableEq α] (xs : List α) :
    ∀ x ∈ duplicateValues xs, x ∈ xs := by
  induction xs with
  | nil => simp [duplicateValues]
  | cons y ys ih =>
    intro x hx
    unfold duplicateValues at hx
    split_ifs at hx with h
    · rcases List.mem_cons.1 hx with rfl | hx
      · exact List.mem_cons_self _ _
      · exact List.mem_cons_of_mem _ (ih x hx)
    · exact List.mem_cons_of_mem _ (ih x hx)

theorem duplicateValues_eq_nil_iff {α : Type} [DecidableEq α] (xs : List α) :
    duplicateValues xs = [] ↔ xs.Nodup := by
  induction xs with
  | nil => simp [duplicateValues]
  | cons y ys ih =>
    unfold duplicateValues
    rw [List.nodup_cons, ← ih]
    constructor
    · intro h
      split_ifs at h with hy
      refine ⟨fun hmem => hy ⟨hmem, ?_⟩, h⟩
      rw [h]
      simp
    · rintro ⟨hy, h⟩
      rw [if_neg (fun hc => hy hc.1)]
      exact h

theorem SetValueFrom_of_nodup {α : Type} [DecidableEq α] (xs : List α) (h : xs.Nodup) :
    SetValueFrom xs = (TfValue.known xs, []) := by
  unfold SetValueFrom
  rw [if_pos ((duplicateValues_eq_nil_iff xs).2 h)]

theorem SetValueFrom_of_repeated {α : Type} [DecidableEq α] (xs : List α) (h : ¬ xs.Nodup) :
    (SetValueFrom xs).1 = TfValue.unknown ∧ (SetValueFrom xs).2 ≠ [] ∧
      ∀ d ∈ (SetValueFrom xs).2, d.1 = "Duplicate Set Element" := by
  have hne : duplicateValues xs ≠ [] := fun hc => h ((duplicateValues_eq_nil_iff xs).1 hc)
  unfold SetValueFrom
  rw [if_neg hne]
  refine ⟨rfl, ?_, ?_⟩
  · simpa using hne
  · intro d hd
    simp only [List.mem_map] at hd
    obtain ⟨_, _, rfl⟩ := hd
    rfl

theorem mergeDiagnostics_of_withoutRepeatedElements (functionInfo : NvidiaCloudFunctionInfo)
    (authorizedAccounts : Option AuthorizeAccountsToInvokeFunctionResponse)
    (diag : Diagnostics) (h : withoutRepeatedElements functionInfo authorizedAccounts) :
    updateNvidiaCloudFunctionResourceModelBaseOnResponseDiagnostics functionInfo
      authorizedAccounts diag = diag := by
  obtain ⟨h1, h2, h3, h4, h5⟩ := h
  unfold updateNvidiaCloudFunctionResourceModelBaseOnResponseDiagnostics
  rw [SetValueFrom_of_nodup _ h5]
  rcases ht : functionInfo.Tags with _ | tags <;>
  rcases he : functionInfo.ContainerEnvironment with _ | env <;>
  rcases hr : functionInfo.Resources with _ | rs <;>
  rcases hm : functionInfo.Models with _ | ms <;>
  simp only [ht, he, hr, hm, Option.getD_some, Option.getD_none] at h1 h2 h3 h4 <;>
  simp [Append, SetValueFrom_of_nodup, h1, h2, h3, h4]

theorem mergeDiagnostics_append (functionInfo : NvidiaCloudFunctionInfo)
    (authorizedAccounts : Option AuthorizeAccountsToInvokeFunctionResponse)
    (diag : Diagnostics) :
    updateNvidiaCloudFunctionResourceModelBaseOnResponseDiagnostics functionInfo
      authorizedAccounts diag =
    diag ++ updateNvidiaCloudFunctionResourceModelBaseOnResponseDiagnostics functionInfo
      authorizedAccounts [] := by
  unfold updateNvidiaCloudFunctionResourceModelBaseOnResponseDiagnostics
  rcases functionInfo.Tags with _ | tags <;>
  rcases functionInfo.ContainerEnvironment with _ | env <;>
  rcases functionInfo.Resources with _ | rs <;>
  rcases functionInfo.Models with _ | ms <;>
  simp [Append, List.append_assoc]

theorem append_elementsAs_of_isSet {α : Type} (d : Diagnostics) (v : TfValue (List α)) :
    (if v.isSet = true then Append d v.ElementsAs.2 else d) = d := by
  cases v <;> simp [TfValue.isSet, TfValue.IsNull, TfValue.IsUnknown, TfValue.ElementsAs, Append]

theorem createOrUpdateRequest_diags (data : NvidiaCloudFunctionResourceModel) :
    (createOrUpdateRequest codec data []).2 = [] := by
  unfold createOrUpdateRequest
  simp only [append_elementsAs_of_isSet, HasError, List.isEmpty_nil, Bool.not_true,
    Bool.and_false, Bool.false_eq_true, if_false]

theorem deleteFailedDeploymentVersion_diags (keep : Bool) (functionID versionID : String)
    (diag : Diagnostics) (w : World σ) :
    ∀ x ∈ diag, x ∈ (deleteFailedDeploymentVersion env keep functionID versionID diag w).diags := by
  intro x hx
  unfold deleteFailedDeploymentVersion
  split_ifs
  · dsimp only
    split <;> simp [AddError, hx]
  · exact hx

theorem deleteFailedDeploymentVersion_calls (keep : Bool) (functionID versionID : String)
    (diag : Diagnostics) (w : World σ) :
    (deleteFailedDeploymentVersion env keep functionID versionID diag w).world.calls =
      w.calls ++ (if keep then [] else [Call.deleteFunctionVersion functionID versionID]) := by
  unfold deleteFailedDeploymentVersion
  cases keep
  · simp only [Bool.not_false, if_true, Bool.false_eq_true, if_false]
    split <;> simp [DeleteNvidiaCloudFunctionVersion, World.issue]
  · simp

theorem Create_unfold (ctx : Context) (fuel : Nat) (data : NvidiaCloudFunctionResourceModel)
    (w : World σ) (ht : (data.Timeouts.Create (DEFAULT_TIMEOUT_SEC * Second)).2 = []) :
    Create env codec ctx fuel data w =
      match (createdFunction env codec data w).err with
      | some e =>
        some { Diagnostics := [Diagnostic.mk "Failed to create Cloud Function" e],
               State := StateChange.untouched, world := (createdFunction env codec data w).world }
      | none =>
        if HasError (createdAuthorization env codec data w).diags then
          some { Diagnostics := (createdAuthorization env codec data w).diags,
                 State := StateChange.untouched,
                 world := (createdAuthorization env codec data w).world }
        else if data.DeploymentSpecifications.Elements.length == 0 then
          some { Diagnostics :=
                   updateNvidiaCloudFunctionResourceModelBaseOnResponseDiagnostics
                     (createdFunction env codec data w).resp.Function
                     (some (createdAuthorization env codec data w).val)
                     (createdAuthorization env codec data w).diags,
                 State := StateChange.set (updateNvidiaCloudFunctionResourceModelBaseOnResponse
                   codec data (createdFunction env codec data w).resp.Function none
                   (some (createdAuthorization env codec data w).val)),
                 world := (createdAuthorization env codec data w).world }
        else
          match createDeployment env codec (createContext ctx data w.now) fuel data
              (createdAuthorization env codec data w).diags
              (createdFunction env codec data w).resp.Function
              (createdAuthorization env codec data w).world with
          | none => none
          | some d =>
            if HasError d.diags then
              some { Diagnostics := (deleteFailedDeploymentVersion env
                       data.KeepFailedResource.ValueBool
                       (createdFunction env codec data w).resp.Function.ID
                       (createdFunction env codec data w).resp.Function.VersionID
                       d.diags d.world).diags,
                     State := StateChange.untouched,
                     world := (deleteFailedDeploymentVersion env
                       data.KeepFailedResource.ValueBool
                       (createdFunction env codec data w).resp.Function.ID
                       (createdFunction env codec data w).resp.Function.VersionID
                       d.diags d.world).world }
            else
              some { Diagnostics :=
                       updateNvidiaCloudFunctionResourceModelBaseOnResponseDiagnostics
                         (createdFunction env codec data w).resp.Function
                         (some (createdAuthorization env codec data w).val) d.diags,
                     State := StateChange.set (updateNvidiaCloudFunctionResourceModelBaseOnResponse
                       codec data (createdFunction env codec data w).resp.Function (some d.val)
                       (some (createdAuthorization env codec data w).val)),
                     world := d.world } := by
  have hq := createOrUpdateRequest_diags codec data
  unfold Create createdAuthorization createdFunction createContext
  have hn : HasError [] = false := rfl
  simp only [ht, Append, List.map_nil, List.append_nil, hq, hn, Bool.false_eq_true, if_false,
    AddError, List.nil_append]

theorem createDeployment_unfold (ctx : Context) (fuel : Nat)
    (data : NvidiaCloudFunctionResourceModel) (function : NvidiaCloudFunctionInfo) (w : World σ)
    (specs : List NvidiaCloudFunctionDeploymentSpecification)
    (hprep : prepareDeploymentSpecifications codec data [] = (some specs, [])) :
    createDeployment env codec ctx fuel data [] function w =
      match (CreateNvidiaCloudFunctionDeployment env w function.ID function.VersionID
              { DeploymentSpecifications := specs }).err with
      | some e =>
        some { val := NvidiaCloudFunctionDeployment.zero,
               diags := [Diagnostic.mk "Failed to create Cloud Function Deployment" e],
               world := (CreateNvidiaCloudFunctionDeployment env w function.ID function.VersionID
                 { DeploymentSpecifications := specs }).world }
      | none =>
        match WaitingDeploymentCompleted env ctx function.ID function.VersionID fuel
            (CreateNvidiaCloudFunctionDeployment env w function.ID function.VersionID
              { DeploymentSpecifications := specs }).world with
        | none => none
        | some o =>
          match o.err with
          | some e =>
            some { val := NvidiaCloudFunctionDeployment.zero,
                   diags := [Diagnostic.mk "Failed to create Cloud Function Deployment" e],
                   world := o.world }
          | none =>
            some { val := (CreateNvidiaCloudFunctionDeployment env w function.ID
                     function.VersionID { DeploymentSpecifications := specs }).resp.Deployment,
                   diags := [], world := o.world } := by
  have hn : HasError [] = false := rfl
  unfold createDeployment
  simp only [hprep, hn, Bool.false_eq_true, if_false, AddError, List.nil_append]

/-- C1. In `Create` with at least one deployment specification (all of them converting),
when the `createDeployment` call returns an error, or succeeds and the waiter returns an
error: `Create` returns without saving state, the deployment error is among the reported
errors whatever the delete does, and, with `keep_failed_resource` false or unset, exactly
one `deleteFunctionVersion` call is issued, as the last call, addressed to the id and
version id that `createFunction` returned; with `keep_failed_resource` true, none is. -/
theorem create_rolls_back_failed_deployment (ctx : Context) (fuel : Nat)
    (data : NvidiaCloudFunctionResourceModel) (w : World σ)
    (specs : List NvidiaCloudFunctionDeploymentSpecification) (e : String)
    (ht : (data.Timeouts.Create (DEFAULT_TIMEOUT_SEC * Second)).2 = [])
    (hc : (createdFunction env codec data w).err = none)
    (ha : HasError (createdAuthorization env codec data w).diags = false)
    (hprep : prepareDeploymentSpecifications codec data [] = (some specs, []))
    (hfail : (createdDeployment env codec data w specs).err = some e ∨
      ((createdDeployment env codec data w specs).err = none ∧
        ∃ o, WaitingDeploymentCompleted env (createContext ctx data w.now)
              (createdFunction env codec data w).resp.Function.ID
              (createdFunction env codec data w).resp.Function.VersionID fuel
              (createdDeployment env codec data w specs).world = some o ∧
            o.err = some e)) :
    ∃ r, Create env codec ctx fuel data w = some r ∧
      r.State = StateChange.untouched ∧
      Diagnostic.mk "Failed to create Cloud Function Deployment" e ∈ r.Diagnostics ∧
      (data.KeepFailedResource.ValueBool = false →
        r.world.calls.filter Call.isDeleteFunctionVersion =
          w.calls.filter Call.isDeleteFunctionVersion ++
            [Call.deleteFunctionVersion (createdFunction env codec data w).resp.Function.ID
              (createdFunction env codec data w).resp.Function.VersionID] ∧
        r.world.calls.getLast? =
          some (Call.deleteFunctionVersion (createdFunction env codec data w).resp.Function.ID
            (createdFunction env codec data w).resp.Function.VersionID)) ∧
      (data.KeepFailedResource.ValueBool = true →
        r.world.calls.filter Call.isDeleteFunctionVersion =
          w.calls.filter Call.isDeleteFunctionVersion) := by
  have ha2 : (createdAuthorization env codec data w).diags = [] :=
    (hasError_eq_false_iff _).1 ha
  have hspecs : ¬ ((data.DeploymentSpecifications.Elements.length == 0) = true) := by
    intro h0
    unfold prepareDeploymentSpecifications at hprep
    rw [if_pos (by simp [h0])] at hprep
    simp at hprep
  -- calls before the deployment step hold no delete
  have hpre : (createdAuthorization env codec data w).world.calls.filter Call.isDeleteFunctionVersion
      = w.calls.filter Call.isDeleteFunctionVersion := by
    unfold createdAuthorization
    rw [updateFunctionAuthorizedParties_calls_filter env Call.isDeleteFunctionVersion _ _
      (fun _ => rfl) rfl rfl]
    simp [createdFunction, CreateNvidiaCloudFunction, World.issue, List.filter_append,
      Call.isDeleteFunctionVersion]
  have hcd : (createdDeployment env codec data w specs).world.calls.filter
      Call.isDeleteFunctionVersion = w.calls.filter Call.isDeleteFunctionVersion := by
    rw [← hpre]
    simp [createdDeployment, CreateNvidiaCloudFunctionDeployment, World.issue,
      List.filter_append, Call.isDeleteFunctionVersion]
  -- the deployment step fails with the error `e`
  have hdep : ∃ d, createDeployment env codec (createContext ctx data w.now) fuel data []
        (createdFunction env codec data w).resp.Function
        (createdAuthorization env codec data w).world = some d ∧
      d.diags = [Diagnostic.mk "Failed to create Cloud Function Deployment" e] ∧
      d.world.calls.filter Call.isDeleteFunctionVersion =
        w.calls.filter Call.isDeleteFunctionVersion := by
    rw [createDeployment_unfold env codec _ _ _ _ _ specs hprep]
    rcases hfail with h1 | ⟨h1, o, ho, hoe⟩
    · unfold createdDeployment at h1 hcd
      rw [h1]
      exact ⟨_, rfl, rfl, hcd⟩
    · have hw := waiting_calls_filter env (createContext ctx data w.now)
        (createdFunction env codec data w).resp.Function.ID
        (createdFunction env codec data w).resp.Function.VersionID
        Call.isDeleteFunctionVersion rfl fuel _ o ho
      unfold createdDeployment at h1 hcd ho hw
      rw [h1]
      simp only [ho, hoe]
      exact ⟨_, rfl, rfl, by rw [hw]; exact hcd⟩
  obtain ⟨d, hd, hdiags, hdcalls⟩ := hdep
  have hhas : HasError d.diags = true := by rw [hdiags]; rfl
  rw [Create_unfold env codec ctx fuel data w ht]
  simp only [hc, ha, Bool.false_eq_true, if_false, hspecs, ha2, hd, hhas, if_true]
  refine ⟨_, rfl, rfl, ?_, ?_, ?_⟩
  · apply deleteFailedDeploymentVersion_diags
    rw [hdiags]
    simp
  · intro hk
    rw [deleteFailedDeploymentVersion_calls, hk]
    simp [List.filter_append, hdcalls, Call.isDeleteFunctionVersion]
  · intro hk
    rw [deleteFailedDeploymentVersion_calls, hk]
    simp [hdcalls]

theorem Update_unfold (ctx : Context) (fuel : Nat) (plan state : NvidiaCloudFunctionResourceModel)
    (w : World σ) (ht : (plan.Timeouts.Update (DEFAULT_TIMEOUT_SEC * Second)).2 = []) :
    Update env codec ctx fuel plan state w =
      if HasError (updatedAuthorization env plan state w).diags then
        some { Diagnostics := (updatedAuthorization env plan state w).diags,
               State := StateChange.untouched,
               world := (updatedAuthorization env plan state w).world }
      else if plan.DeploymentSpecifications.Elements.length == 0 then
        some { Diagnostics :=
                 updateNvidiaCloudFunctionResourceModelBaseOnResponseDiagnostics
                   (refetchedFunction env plan state w).resp.Function
                   (some (updatedAuthorization env plan state w).val)
                   (match (DeleteNvidiaCloudFunctionDeployment env
                      (updatedAuthorization env plan state w).world state.Id.ValueString
                      state.VersionID.ValueString).err with
                  | some e =>
                    AddError (updatedAuthorization env plan state w).diags
                      ("Failed to delete Cloud Function Deployment " ++ plan.VersionID.ValueString) e
                  | none => (updatedAuthorization env plan state w).diags),
               State := StateChange.set (updateNvidiaCloudFunctionResourceModelBaseOnResponse codec
                 plan (refetchedFunction env plan state w).resp.Function none
                 (some (updatedAuthorization env plan state w).val)),
               world := (DeleteNvidiaCloudFunctionDeployment env
                 (updatedAuthorization env plan state w).world state.Id.ValueString
                 state.VersionID.ValueString).world }
      else
        match updateDeployment env codec (updateContext ctx plan w.now) fuel plan
            (updatedAuthorization env plan state w).diags
            (updatedAuthorization env plan state w).world with
        | none => none
        | some d =>
          if HasError d.diags then
            some { Diagnostics := d.diags, State := StateChange.untouched, world := d.world }
          else
            some { Diagnostics :=
                     updateNvidiaCloudFunctionResourceModelBaseOnResponseDiagnostics
                       (refetchedFunction env plan state w).resp.Function
                       (some (updatedAuthorization env plan state w).val) d.diags,
                   State := StateChange.set (updateNvidiaCloudFunctionResourceModelBaseOnResponse
                     codec plan (refetchedFunction env plan state w).resp.Function (some d.val)
                     (some (updatedAuthorization env plan state w).val)),
                   world := d.world } := by
  have hn : HasError [] = false := rfl
  unfold Update updatedAuthorization refetchedDiagnostics refetchedFunction updatedTags
    updateContext
  simp only [ht, Append, List.map_nil, List.append_nil, hn, Bool.false_eq_true, if_false]

/-- Witness of C1: the deployment turns FAILED at the first poll, `keep_failed_resource`
is unset. -/
theorem create_rolls_back_failed_deployment_witness :
    prepareDeploymentSpecifications stubCodec deployingPlan [] = (some [gfnRequestSpecification], []) ∧
    WaitingDeploymentCompleted (scriptedRemote scriptFailed)
        (createContext Background deployingPlan 0) "f1" "v1" 1
        (createdDeployment (scriptedRemote scriptFailed) stubCodec deployingPlan
          (scriptedWorld scriptFailed) [gfnRequestSpecification]).world =
      some { err := some "unexpected status FAILED",
             world := { remote := [], now := 0,
                        calls := (createdDeployment (scriptedRemote scriptFailed) stubCodec
                          deployingPlan (scriptedWorld scriptFailed)
                          [gfnRequestSpecification]).world.calls ++
                          [Call.readDeployment "f1" "v1"] } } ∧
    (Create (scriptedRemote scriptFailed) stubCodec Background 1 deployingPlan
        (scriptedWorld scriptFailed)).map
      (fun r => r.world.calls.filter Call.isDeleteFunctionVersion) =
      some [Call.deleteFunctionVersion "f1" "v1"] := by
  refine ⟨rfl, rfl, ?_⟩
  obtain ⟨r, hr, _, _, hk, _⟩ :=
    create_rolls_back_failed_deployment (scriptedRemote scriptFailed) stubCodec Background 1
      deployingPlan (scriptedWorld scriptFailed) [gfnRequestSpecification]
      "unexpected status FAILED" rfl rfl rfl rfl (Or.inr ⟨rfl, _, rfl, rfl⟩)
  rw [hr]
  exact congrArg some (hk rfl).1

theorem Create_invalid_timeout (ctx : Context) (fuel : Nat)
    (data : NvidiaCloudFunctionResourceModel) (w : World σ)
    (ht : (data.Timeouts.Create (DEFAULT_TIMEOUT_SEC * Second)).2 ≠ []) :
    ∃ r, Create env codec ctx fuel data w = some r ∧ r.world = w ∧
      r.State = StateChange.untouched := by
  have hh : HasError (Append [] (data.Timeouts.Create (DEFAULT_TIMEOUT_SEC * Second)).2) = true := by
    cases hx : (data.Timeouts.Create (DEFAULT_TIMEOUT_SEC * Second)).2 with
    | nil => exact absurd hx ht
    | cons a l => simp [HasError, Append]
  unfold Create
  simp only [hh, if_true]
  exact ⟨_, rfl, rfl, rfl⟩

theorem Update_invalid_timeout (ctx : Context) (fuel : Nat)
    (plan state : NvidiaCloudFunctionResourceModel) (w : World σ)
    (ht : (plan.Timeouts.Update (DEFAULT_TIMEOUT_SEC * Second)).2 ≠ []) :
    ∃ r, Update env codec ctx fuel plan state w = some r ∧ r.world = w ∧
      r.State = StateChange.untouched := by
  have hh : HasError (Append [] (plan.Timeouts.Update (DEFAULT_TIMEOUT_SEC * Second)).2) = true := by
    cases hx : (plan.Timeouts.Update (DEFAULT_TIMEOUT_SEC * Second)).2 with
    | nil => exact absurd hx ht
    | cons a l => simp [HasError, Append]
  unfold Update
  simp only [hh, if_true]
  exact ⟨_, rfl, rfl, rfl⟩

theorem updateTags_calls (functionID versionID : String) (tags : TfValue (List String))
    (diag : Diagnostics) (w : World σ) :
    (updateTags env functionID versionID tags diag w).world.calls =
      w.calls ++ (if HasError (Append diag tags.ElementsAs.2) then []
        else [Call.updateFunctionTags functionID versionID { Tags := tags.ElementsAs.1 }]) := by
  unfold updateTags
  dsimp only
  split_ifs
  · simp
  · split <;> simp [UpdateNvidiaCloudFunctionMetadata, World.issue]

theorem createdAuthorization_calls_filter (p : Call → Bool)
    (data : NvidiaCloudFunctionResourceModel) (w : World σ)
    (h1 : ∀ f req, p (Call.createFunction f req) = false)
    (h2 : ∀ f v req, p (Call.authorizeParties f v req) = false)
    (h3 : ∀ f v, p (Call.unauthorizeAllParties f v) = false)
    (h4 : ∀ f v, p (Call.getAuthorization f v) = false) :
    (createdAuthorization env codec data w).world.calls.filter p = w.calls.filter p := by
  unfold createdAuthorization
  rw [updateFunctionAuthorizedParties_calls_filter env p _ _ (h2 _ _) (h3 _ _) (h4 _ _)]
  simp [createdFunction, CreateNvidiaCloudFunction, World.issue, List.filter_append, h1]

theorem updatedAuthorization_calls_filter (p : Call → Bool)
    (plan state : NvidiaCloudFunctionResourceModel) (w : World σ)
    (h1 : ∀ f v, p (Call.getFunctionVersion f v) = false)
    (h2 : ∀ f v req, p (Call.authorizeParties f v req) = false)
    (h3 : ∀ f v, p (Call.unauthorizeAllParties f v) = false)
    (h4 : ∀ f v, p (Call.getAuthorization f v) = false) :
    (updatedAuthorization env plan state w).world.calls.filter p =
      (updatedTags env plan state w).world.calls.filter p := by
  unfold updatedAuthorization
  rw [updateFunctionAuthorizedParties_calls_filter env p _ _ (h2 _ _) (h3 _ _) (h4 _ _)]
  simp [refetchedFunction, GetNvidiaCloudFunctionVersion, World.issue, List.filter_append, h1]

theorem updatedTags_calls_filter (p : Call → Bool)
    (plan state : NvidiaCloudFunctionResourceModel) (w : World σ)
    (h : ∀ f v req, p (Call.updateFunctionTags f v req) = false) :
    (updatedTags env plan state w).world.calls.filter p = w.calls.filter p := by
  unfold updatedTags
  split_ifs
  · rw [updateTags_calls]
    split_ifs <;> simp [List.filter_append, h]
  · rfl

theorem updateDeployment_calls_filter (p : Call → Bool) (ctx : Context) (fuel : Nat)
    (data : NvidiaCloudFunctionResourceModel) (diag : Diagnostics) (w : World σ)
    (d : Ret σ NvidiaCloudFunctionDeployment)
    (h1 : ∀ f v req, p (Call.updateDeployment f v req) = false)
    (h2 : ∀ f v, p (Call.readDeployment f v) = false)
    (h : updateDeployment env codec ctx fuel data diag w = some d) :
    d.world.calls.filter p = w.calls.filter p := by
  unfold updateDeployment at h
  dsimp only at h
  split at h
  · simp only [Option.some.injEq] at h
    subst h
    rfl
  · split_ifs at h
    · simp only [Option.some.injEq] at h
      subst h
      rfl
    · have hu : ∀ req, (UpdateNvidiaCloudFunctionDeployment env w data.Id.ValueString
          data.VersionID.ValueString req).world.calls.filter p = w.calls.filter p := by
        intro req
        simp [UpdateNvidiaCloudFunctionDeployment, World.issue, List.filter_append, h1]
      split at h
      · simp only [Option.some.injEq] at h
        subst h
        exact hu _
      · split at h
        · exact absurd h (by simp)
        · rename_i o ho
          have hw := waiting_calls_filter env ctx _ _ p (h2 _ _) fuel _ o ho
          split at h <;>
          · simp only [Option.some.injEq] at h
            subst h
            rw [hw]
            exact hu _

theorem createDeployment_calls_filter (p : Call → Bool) (ctx : Context) (fuel : Nat)
    (data : NvidiaCloudFunctionResourceModel) (diag : Diagnostics)
    (function : NvidiaCloudFunctionInfo) (w : World σ)
    (d : Ret σ NvidiaCloudFunctionDeployment)
    (h1 : ∀ f v req, p (Call.createDeployment f v req) = false)
    (h2 : ∀ f v, p (Call.readDeployment f v) = false)
    (h : createDeployment env codec ctx fuel data diag function w = some d) :
    d.world.calls.filter p = w.calls.filter p := by
  unfold createDeployment at h
  dsimp only at h
  split at h
  · simp only [Option.some.injEq] at h
    subst h
    rfl
  · split_ifs at h
    · simp only [Option.some.injEq] at h
      subst h
      rfl
    · have hu : ∀ req, (CreateNvidiaCloudFunctionDeployment env w function.ID
          function.VersionID req).world.calls.filter p = w.calls.filter p := by
        intro req
        simp [CreateNvidiaCloudFunctionDeployment, World.issue, List.filter_append, h1]
      split at h
      · simp only [Option.some.injEq] at h
        subst h
        exact hu _
      · split at h
        · exact absurd h (by simp)
        · rename_i o ho
          have hw := waiting_calls_filter env ctx _ _ p (h2 _ _) fuel _ o ho
          split at h <;>
          · simp only [Option.some.injEq] at h
            subst h
            rw [hw]
            exact hu _

/-- C7. With an empty, null or unknown deployment-specification list in the plan, `Create`
and `Update` return, for every loop bound, plan, prior state, context and remote, and the
calls they issued hold no `createDeployment`, no `updateDeployment` and no deployment read
(the waiter's only call) beyond those already in the trace. -/
theorem no_deployment_calls_without_specifications (ctx : Context) (fuel : Nat)
    (plan state : NvidiaCloudFunctionResourceModel) (w : World σ)
    (hempty : plan.DeploymentSpecifications.Elements = []) :
    (∃ r, Create env codec ctx fuel plan w = some r ∧
      r.world.calls.filter Call.isDeploymentCall = w.calls.filter Call.isDeploymentCall) ∧
    (∃ r, Update env codec ctx fuel plan state w = some r ∧
      r.world.calls.filter Call.isDeploymentCall = w.calls.filter Call.isDeploymentCall) := by
  have hlen : (plan.DeploymentSpecifications.Elements.length == 0) = true := by simp [hempty]
  constructor
  · by_cases ht : (plan.Timeouts.Create (DEFAULT_TIMEOUT_SEC * Second)).2 = []
    · have hca := createdAuthorization_calls_filter env codec Call.isDeploymentCall plan w
        (fun _ _ => rfl) (fun _ _ _ => rfl) (fun _ _ => rfl) (fun _ _ => rfl)
      rw [Create_unfold env codec ctx fuel plan w ht]
      split
      · refine ⟨_, rfl, ?_⟩
        simp [createdFunction, CreateNvidiaCloudFunction, World.issue, List.filter_append,
          Call.isDeploymentCall]
      · split_ifs
        · exact ⟨_, rfl, hca⟩
        · exact ⟨_, rfl, hca⟩
    · obtain ⟨r, hr, hw, _⟩ := Create_invalid_timeout env codec ctx fuel plan w ht
      exact ⟨r, hr, by rw [hw]⟩
  · by_cases ht : (plan.Timeouts.Update (DEFAULT_TIMEOUT_SEC * Second)).2 = []
    · have hua : (updatedAuthorization env plan state w).world.calls.filter Call.isDeploymentCall
          = w.calls.filter Call.isDeploymentCall := by
        rw [updatedAuthorization_calls_filter env Call.isDeploymentCall plan state w
          (fun _ _ => rfl) (fun _ _ _ => rfl) (fun _ _ => rfl) (fun _ _ => rfl)]
        exact updatedTags_calls_filter env Call.isDeploymentCall plan state w (fun _ _ _ => rfl)
      rw [Update_unfold env codec ctx fuel plan state w ht]
      split_ifs
      · exact ⟨_, rfl, hua⟩
      · refine ⟨_, rfl, ?_⟩
        simp [DeleteNvidiaCloudFunctionDeployment, World.issue, List.filter_append, hua,
          Call.isDeploymentCall]
    · obtain ⟨r, hr, hw, _⟩ := Update_invalid_timeout env codec ctx fuel plan state w ht
      exact ⟨r, hr, by rw [hw]⟩

/-- Witness of C7: a plan without deployment specifications. -/
theorem no_deployment_calls_without_specifications_witness :
    emptyModel.DeploymentSpecifications.Elements = [] ∧
    (Create (scriptedRemote Script.quiet) stubCodec Background 0 emptyModel
        (scriptedWorld Script.quiet)).map
      (fun r => r.world.calls.filter Call.isDeploymentCall) = some [] := by
  refine ⟨rfl, ?_⟩
  obtain ⟨r, hr, hc⟩ :=
    (no_deployment_calls_without_specifications (scriptedRemote Script.quiet) stubCodec
      Background 0 emptyModel emptyModel (scriptedWorld Script.quiet) rfl).1
  rw [hr]
  exact congrArg some hc

theorem WithTimeout_doneAt (ctx : Context) (now timeout : Nat) :
    ∃ d, (WithTimeout ctx now timeout).doneAt = some d ∧ d ≤ now + timeout := by
  unfold WithTimeout
  split
  · exact ⟨_, rfl, le_refl _⟩
  · exact ⟨_, rfl, min_le_right _ _⟩

theorem updateFunctionAuthorizedParties_now (functionID versionID : String)
    (raw : TfValue (List NvidiaCloudFunctionResourceAuthorizedPartyModel))
    (diag : Diagnostics) (w : World σ) :
    w.now ≤ (updateFunctionAuthorizedParties env functionID versionID raw diag w).world.now := by
  unfold updateFunctionAuthorizedParties
  dsimp only
  split_ifs <;> (try split) <;> (try split) <;>
    simp [AuthorizeAccountsToInvokeFunction, GetFunctionAuthorization,
      UnAuthorizeAllExtraAccountsToInvokeFunction, World.issue, Nat.add_assoc]

theorem updateTags_now (functionID versionID : String) (tags : TfValue (List String))
    (diag : Diagnostics) (w : World σ) :
    w.now ≤ (updateTags env functionID versionID tags diag w).world.now := by
  unfold updateTags
  dsimp only
  split_ifs <;> (try split) <;> simp [UpdateNvidiaCloudFunctionMetadata, World.issue]

theorem updatedAuthorization_now (plan state : NvidiaCloudFunctionResourceModel) (w : World σ) :
    w.now ≤ (updatedAuthorization env plan state w).world.now := by
  have h1 : w.now ≤ (updatedTags env plan state w).world.now := by
    unfold updatedTags
    split_ifs
    · exact updateTags_now env _ _ _ _ _
    · exact le_refl _
  have h2 : (updatedTags env plan state w).world.now ≤
      (refetchedFunction env plan state w).world.now := by
    simp [refetchedFunction, GetNvidiaCloudFunctionVersion, World.issue]
  have h3 := updateFunctionAuthorizedParties_now env
    (refetchedFunction env plan state w).resp.Function.ID
    (refetchedFunction env plan state w).resp.Function.VersionID plan.AuthorizedParties
    (refetchedDiagnostics env plan state w) (refetchedFunction env plan state w).world
  unfold updatedAuthorization
  omega

theorem createdAuthorization_now (data : NvidiaCloudFunctionResourceModel) (w : World σ) :
    w.now ≤ (createdAuthorization env codec data w).world.now := by
  have h2 : w.now ≤ (createdFunction env codec data w).world.now := by
    simp [createdFunction, CreateNvidiaCloudFunction, World.issue]
  have h3 := updateFunctionAuthorizedParties_now env
    (createdFunction env codec data w).resp.Function.ID
    (createdFunction env codec data w).resp.Function.VersionID data.AuthorizedParties
    [] (createdFunction env codec data w).world
  unfold createdAuthorization
  omega

theorem updateDeployment_returns (ctx : Context) (fuel timeout d : Nat)
    (data : NvidiaCloudFunctionResourceModel) (diag : Diagnostics) (w : World σ)
    (hctx : ctx.doneAt = some d) (hd : d ≤ w.now + timeout) (hfuel : enoughFuel timeout ≤ fuel) :
    ∃ r, updateDeployment env codec ctx fuel data diag w = some r := by
  unfold updateDeployment
  dsimp only
  split
  · exact ⟨_, rfl⟩
  · split_ifs
    · exact ⟨_, rfl⟩
    · split
      · exact ⟨_, rfl⟩
      · rename_i specs _ _ _ _
        obtain ⟨o, ho⟩ := waiting_returns_within_deadline env ctx data.Id.ValueString
          data.VersionID.ValueString timeout d fuel hctx
          (UpdateNvidiaCloudFunctionDeployment env w data.Id.ValueString
            data.VersionID.ValueString { DeploymentSpecifications := specs }).world
          (by simp only [UpdateNvidiaCloudFunctionDeployment, World.issue]; omega) hfuel
        rw [ho]
        dsimp only
        split <;> exact ⟨_, rfl⟩

theorem createDeployment_returns (ctx : Context) (fuel timeout d : Nat)
    (data : NvidiaCloudFunctionResourceModel) (diag : Diagnostics)
    (function : NvidiaCloudFunctionInfo) (w : World σ)
    (hctx : ctx.doneAt = some d) (hd : d ≤ w.now + timeout) (hfuel : enoughFuel timeout ≤ fuel) :
    ∃ r, createDeployment env codec ctx fuel data diag function w = some r := by
  unfold createDeployment
  dsimp only
  split
  · exact ⟨_, rfl⟩
  · split_ifs
    · exact ⟨_, rfl⟩
    · split
      · exact ⟨_, rfl⟩
      · rename_i specs _ _ _ _
        obtain ⟨o, ho⟩ := waiting_returns_within_deadline env ctx function.ID
          function.VersionID timeout d fuel hctx
          (CreateNvidiaCloudFunctionDeployment env w function.ID
            function.VersionID { DeploymentSpecifications := specs }).world
          (by simp only [CreateNvidiaCloudFunctionDeployment, World.issue]; omega) hfuel
        rw [ho]
        dsimp only
        split <;> exact ⟨_, rfl⟩

theorem Update_returns (ctx : Context) (fuel : Nat)
    (plan state : NvidiaCloudFunctionResourceModel) (w : World σ)
    (hfuel : enoughFuel (plan.Timeouts.Update (DEFAULT_TIMEOUT_SEC * Second)).1 ≤ fuel) :
    ∃ r, Update env codec ctx fuel plan state w = some r := by
  by_cases ht : (plan.Timeouts.Update (DEFAULT_TIMEOUT_SEC * Second)).2 = []
  · rw [Update_unfold env codec ctx fuel plan state w ht]
    split_ifs
    · exact ⟨_, rfl⟩
    · exact ⟨_, rfl⟩
    · obtain ⟨d, hd, hle⟩ := WithTimeout_doneAt ctx w.now
        (plan.Timeouts.Update (DEFAULT_TIMEOUT_SEC * Second)).1
      have hnow := updatedAuthorization_now env plan state w
      obtain ⟨r, hr⟩ := updateDeployment_returns env codec (updateContext ctx plan w.now) fuel
        (plan.Timeouts.Update (DEFAULT_TIMEOUT_SEC * Second)).1 d plan
        (updatedAuthorization env plan state w).diags (updatedAuthorization env plan state w).world
        hd (by omega) hfuel
      rw [hr]
      dsimp only
      split_ifs <;> exact ⟨_, rfl⟩
  · obtain ⟨r, hr, _⟩ := Update_invalid_timeout env codec ctx fuel plan state w ht
    exact ⟨r, hr⟩

theorem Create_returns (ctx : Context) (fuel : Nat)
    (data : NvidiaCloudFunctionResourceModel) (w : World σ)
    (hfuel : enoughFuel (data.Timeouts.Create (DEFAULT_TIMEOUT_SEC * Second)).1 ≤ fuel) :
    ∃ r, Create env codec ctx fuel data w = some r := by
  by_cases ht : (data.Timeouts.Create (DEFAULT_TIMEOUT_SEC * Second)).2 = []
  · rw [Create_unfold env codec ctx fuel data w ht]
    split
    · exact ⟨_, rfl⟩
    · split_ifs
      · exact ⟨_, rfl⟩
      · exact ⟨_, rfl⟩
      · obtain ⟨d, hd, hle⟩ := WithTimeout_doneAt ctx w.now
          (data.Timeouts.Create (DEFAULT_TIMEOUT_SEC * Second)).1
        have hnow := createdAuthorization_now env codec data w
        obtain ⟨r, hr⟩ := createDeployment_returns env codec (createContext ctx data w.now) fuel
          (data.Timeouts.Create (DEFAULT_TIMEOUT_SEC * Second)).1 d data
          (createdAuthorization env codec data w).diags
          (createdFunction env codec data w).resp.Function
          (createdAuthorization env codec data w).world
          hd (by omega) hfuel
        rw [hr]
        dsimp only
        split_ifs <;> exact ⟨_, rfl⟩
  · obtain ⟨r, hr, _⟩ := Create_invalid_timeout env codec ctx fuel data w ht
    exact ⟨r, hr⟩

theorem Update_calls_filter_after_tags (p : Call → Bool) (ctx : Context) (fuel : Nat)
    (plan state : NvidiaCloudFunctionResourceModel) (w : World σ) (r : Response σ)
    (ht : (plan.Timeouts.Update (DEFAULT_TIMEOUT_SEC * Second)).2 = [])
    (h1 : ∀ f v, p (Call.getFunctionVersion f v) = false)
    (h2 : ∀ f v req, p (Call.authorizeParties f v req) = false)
    (h3 : ∀ f v, p (Call.unauthorizeAllParties f v) = false)
    (h4 : ∀ f v, p (Call.getAuthorization f v) = false)
    (h5 : ∀ f v, p (Call.deleteDeployment f v) = false)
    (h6 : ∀ f v req, p (Call.updateDeployment f v req) = false)
    (h7 : ∀ f v, p (Call.readDeployment f v) = false)
    (h : Update env codec ctx fuel plan state w = some r) :
    r.world.calls.filter p = (updatedTags env plan state w).world.calls.filter p := by
  have hua := updatedAuthorization_calls_filter env p plan state w h1 h2 h3 h4
  rw [Update_unfold env codec ctx fuel plan state w ht] at h
  split_ifs at h
  · simp only [Option.some.injEq] at h
    subst h
    exact hua
  · simp only [Option.some.injEq] at h
    subst h
    simp [DeleteNvidiaCloudFunctionDeployment, World.issue, List.filter_append, hua, h5]
  · split at h
    · exact absurd h (by simp)
    · rename_i d hd
      have hf := updateDeployment_calls_filter env codec p _ _ _ _ _ d h6 h7 hd
      split_ifs at h <;>
      · simp only [Option.some.injEq] at h
        subst h
        rw [hf]
        exact hua

/-- C10. For a plan whose timeouts parse and whose tags are not unknown, `Update` returns
(given a loop bound that covers the update timeout) and, among the calls it issued: when
the planned tags differ from the prior state's, there is exactly one `updateFunctionTags`,
issued first, carrying the planned tags and the prior state's function id and version id;
when the two tag sets are equal, there is none. -/
theorem update_issues_tags_update_iff_changed (ctx : Context) (fuel : Nat)
    (plan state : NvidiaCloudFunctionResourceModel) (w : World σ)
    (ht : (plan.Timeouts.Update (DEFAULT_TIMEOUT_SEC * Second)).2 = [])
    (hknown : plan.Tags.IsUnknown = false)
    (hfuel : enoughFuel (plan.Timeouts.Update (DEFAULT_TIMEOUT_SEC * Second)).1 ≤ fuel) :
    ∃ r, Update env codec ctx fuel plan state w = some r ∧
      (plan.Tags.SetEqual state.Tags = false →
        r.world.calls.filter Call.isUpdateFunctionTags =
          w.calls.filter Call.isUpdateFunctionTags ++
            [Call.updateFunctionTags state.Id.ValueString state.VersionID.ValueString
              { Tags := plan.Tags.Elements }] ∧
        (updatedTags env plan state w).world.calls =
          w.calls ++ [Call.updateFunctionTags state.Id.ValueString state.VersionID.ValueString
              { Tags := plan.Tags.Elements }]) ∧
      (plan.Tags.SetEqual state.Tags = true →
        r.world.calls.filter Call.isUpdateFunctionTags =
          w.calls.filter Call.isUpdateFunctionTags) := by
  obtain ⟨r, hr⟩ := Update_returns env codec ctx fuel plan state w hfuel
  have hf := Update_calls_filter_after_tags env codec Call.isUpdateFunctionTags ctx fuel plan
    state w r ht (fun _ _ => rfl) (fun _ _ _ => rfl) (fun _ _ => rfl) (fun _ _ => rfl)
    (fun _ _ => rfl) (fun _ _ _ => rfl) (fun _ _ => rfl) hr
  have hconv : Append [] plan.Tags.ElementsAs.2 = [] ∧ plan.Tags.ElementsAs.1 = plan.Tags.Elements := by
    cases hx : plan.Tags with
    | null => exact ⟨rfl, rfl⟩
    | unknown => rw [hx] at hknown; simp [TfValue.IsUnknown] at hknown
    | known xs => exact ⟨rfl, rfl⟩
  refine ⟨r, hr, ?_, ?_⟩
  · intro hne
    have hcalls : (updatedTags env plan state w).world.calls =
        w.calls ++ [Call.updateFunctionTags state.Id.ValueString state.VersionID.ValueString
              { Tags := plan.Tags.Elements }] := by
      unfold updatedTags
      rw [hne]
      simp only [Bool.not_false, if_true]
      rw [updateTags_calls, hconv.1, hconv.2]
      rfl
    refine ⟨?_, hcalls⟩
    rw [hf, hcalls]
    simp [List.filter_append, Call.isUpdateFunctionTags]
  · intro heq
    rw [hf]
    unfold updatedTags
    rw [heq]
    simp

/-- Witness of C10: the plan changes the tags only. -/
theorem update_issues_tags_update_iff_changed_witness :
    (taggingPlan.Timeouts.Update (DEFAULT_TIMEOUT_SEC * Second)).2 = [] ∧
    taggingPlan.Tags.IsUnknown = false ∧
    taggingPlan.Tags.SetEqual deployedState.Tags = false ∧
    (Update (scriptedRemote scriptDeployingActive) stubCodec Background 62 taggingPlan
        deployedState (scriptedWorld scriptDeployingActive)).map
      (fun r => r.world.calls.filter Call.isUpdateFunctionTags) =
      some [Call.updateFunctionTags "f1" "v1" { Tags := ["blue"] }] := by
  refine ⟨rfl, rfl, rfl, ?_⟩
  obtain ⟨r, hr, hne, _⟩ :=
    update_issues_tags_update_iff_changed (scriptedRemote scriptDeployingActive) stubCodec
      Background 62 taggingPlan deployedState (scriptedWorld scriptDeployingActive) rfl rfl
      (by decide)
  rw [hr]
  exact congrArg some (hne rfl).1

theorem startsWith_iff (s t : List Char) : startsWith s t = true ↔ t <+: s := by
  induction t generalizing s with
  | nil => simp [startsWith]
  | cons d ds ih =>
    cases s with
    | nil => simp [startsWith]
    | cons c cs =>
      simp only [startsWith, Bool.and_eq_true, beq_iff_eq, ih, List.cons_prefix_cons]
      constructor
      · rintro ⟨h1, h2⟩; exact ⟨h1.symm, h2⟩
      · rintro ⟨h1, h2⟩; exact ⟨h1.symm, h2⟩

theorem containsChars_iff (s t : List Char) : containsChars s t = true ↔ t <:+: s := by
  induction s with
  | nil =>
    simp only [containsChars, startsWith_iff, List.prefix_nil, List.infix_nil]
  | cons c cs ih =>
    simp only [containsChars, Bool.or_eq_true, startsWith_iff, ih, List.infix_cons_iff]

/-- C8. `Read` removes the resource from state exactly when getting the function version
fails with a message that contains `Not found`; then it reports no error and its only call
is that get.  For every other get-version error it reports the error, leaves the state
untouched and issues no other call either. -/
theorem read_signals_absent_iff_not_found (data : NvidiaCloudFunctionResourceModel)
    (w : World σ) :
    ((Read env codec data w).State = StateChange.removed ↔
      ∃ e, (GetNvidiaCloudFunctionVersion env w data.Id.ValueString
              data.VersionID.ValueString).err = some e ∧
        "Not found".toList <:+: e.toList) ∧
    (∀ e, (GetNvidiaCloudFunctionVersion env w data.Id.ValueString
              data.VersionID.ValueString).err = some e →
      "Not found".toList <:+: e.toList →
      (Read env codec data w).State = StateChange.removed ∧
      (Read env codec data w).Diagnostics = [] ∧
      (Read env codec data w).world.calls =
        w.calls ++ [Call.getFunctionVersion data.Id.ValueString data.VersionID.ValueString]) ∧
    (∀ e, (GetNvidiaCloudFunctionVersion env w data.Id.ValueString
              data.VersionID.ValueString).err = some e →
      ¬ "Not found".toList <:+: e.toList →
      (Read env codec data w).State = StateChange.untouched ∧
      (Read env codec data w).Diagnostics =
        [Diagnostic.mk "Failed to Get Cloud Function version" e] ∧
      (Read env codec data w).world.calls =
        w.calls ++ [Call.getFunctionVersion data.Id.ValueString data.VersionID.ValueString]) := by
  have hcalls : (GetNvidiaCloudFunctionVersion env w data.Id.ValueString
      data.VersionID.ValueString).world.calls =
      w.calls ++ [Call.getFunctionVersion data.Id.ValueString data.VersionID.ValueString] := rfl
  have hyes : ∀ e, (GetNvidiaCloudFunctionVersion env w data.Id.ValueString
              data.VersionID.ValueString).err = some e →
      "Not found".toList <:+: e.toList →
      (Read env codec data w).State = StateChange.removed ∧
      (Read env codec data w).Diagnostics = [] ∧
      (Read env codec data w).world.calls =
        w.calls ++ [Call.getFunctionVersion data.Id.ValueString data.VersionID.ValueString] := by
    intro e he hin
    have hc : stringsContains e "Not found" = true := (containsChars_iff _ _).2 hin
    have hR : Read env codec data w =
        { Diagnostics := [], State := StateChange.removed,
          world := (GetNvidiaCloudFunctionVersion env w data.Id.ValueString
            data.VersionID.ValueString).world } := by
      unfold Read
      simp only [he, hc, if_true]
    rw [hR]
    exact ⟨rfl, rfl, hcalls⟩
  have hno : ∀ e, (GetNvidiaCloudFunctionVersion env w data.Id.ValueString
              data.VersionID.ValueString).err = some e →
      ¬ "Not found".toList <:+: e.toList →
      (Read env codec data w).State = StateChange.untouched ∧
      (Read env codec data w).Diagnostics =
        [Diagnostic.mk "Failed to Get Cloud Function version" e] ∧
      (Read env codec data w).world.calls =
        w.calls ++ [Call.getFunctionVersion data.Id.ValueString data.VersionID.ValueString] := by
    intro e he hin
    have hc : stringsContains e "Not found" = false := by
      cases hx : stringsContains e "Not found" with
      | false => rfl
      | true => exact absurd ((containsChars_iff _ _).1 hx) hin
    have hR : Read env codec data w =
        { Diagnostics := AddError [] "Failed to Get Cloud Function version" e,
          State := StateChange.untouched,
          world := (GetNvidiaCloudFunctionVersion env w data.Id.ValueString
            data.VersionID.ValueString).world } := by
      unfold Read
      simp only [he, hc, Bool.false_eq_true, if_false]
    rw [hR]
    exact ⟨rfl, rfl, hcalls⟩
  refine ⟨⟨?_, ?_⟩, hyes, hno⟩
  · intro hrem
    cases he : (GetNvidiaCloudFunctionVersion env w data.Id.ValueString
        data.VersionID.ValueString).err with
    | some e =>
      by_cases hin : "Not found".toList <:+: e.toList
      · exact ⟨e, rfl, hin⟩
      · rw [(hno e he hin).1] at hrem
        exact absurd hrem (by simp)
    | none =>
      exfalso
      have hne : (Read env codec data w).State ≠ StateChange.removed := by
        unfold Read
        simp only [he]
        split_ifs
        · simp
        · split <;> simp
      exact hne hrem
  · rintro ⟨e, he, hin⟩
    exact (hyes e he hin).1

/-- C9, as the code has it. When the function version is fetched, the deployment read
succeeds with a deployment that carries no specification list (the empty deployment of an
undeployed version) and the authorization is fetched, `Read` saves a model whose
deployment-specification list is the one of the prior state, unchanged.  The diagnostics
it reports are those of the merge, and there are none when no element is repeated in the
slices of the replies that the merge turns into sets. -/
theorem read_keeps_prior_specifications (data : NvidiaCloudFunctionResourceModel) (w : World σ)
    (hg : (GetNvidiaCloudFunctionVersion env w data.Id.ValueString
            data.VersionID.ValueString).err = none)
    (hr : (ReadNvidiaCloudFunctionDeployment env
            (GetNvidiaCloudFunctionVersion env w data.Id.ValueString
              data.VersionID.ValueString).world
            data.Id.ValueString data.VersionID.ValueString).err = none)
    (hnone : (ReadNvidiaCloudFunctionDeployment env
            (GetNvidiaCloudFunctionVersion env w data.Id.ValueString
              data.VersionID.ValueString).world
            data.Id.ValueString data.VersionID.ValueString).resp.Deployment.DeploymentSpecifications
          = none)
    (ha : (GetFunctionAuthorization env
            (ReadNvidiaCloudFunctionDeployment env
              (GetNvidiaCloudFunctionVersion env w data.Id.ValueString
                data.VersionID.ValueString).world
              data.Id.ValueString data.VersionID.ValueString).world
            data.Id.ValueString data.VersionID.ValueString).err = none) :
    ∃ m, (Read env codec data w).State = StateChange.set m ∧
      m.DeploymentSpecifications = data.DeploymentSpecifications ∧
      (Read env codec data w).Diagnostics =
        updateNvidiaCloudFunctionResourceModelBaseOnResponseDiagnostics
          (readReplies env data w).1.1.Function (some (readReplies env data w).2.2.1) [] ∧
      (withoutRepeatedElements (readReplies env data w).1.1.Function
          (some (readReplies env data w).2.2.1) →
        (Read env codec data w).Diagnostics = []) := by
  have hn : HasError [] = false := rfl
  have hR : Read env codec data w =
      { Diagnostics :=
          updateNvidiaCloudFunctionResourceModelBaseOnResponseDiagnostics
            (readReplies env data w).1.1.Function (some (readReplies env data w).2.2.1) [],
        State := StateChange.set (updateNvidiaCloudFunctionResourceModelBaseOnResponse codec data
          (GetNvidiaCloudFunctionVersion env w data.Id.ValueString
            data.VersionID.ValueString).resp.Function
          (some (ReadNvidiaCloudFunctionDeployment env
            (GetNvidiaCloudFunctionVersion env w data.Id.ValueString
              data.VersionID.ValueString).world
            data.Id.ValueString data.VersionID.ValueString).resp.Deployment)
          (some (GetFunctionAuthorization env
            (ReadNvidiaCloudFunctionDeployment env
              (GetNvidiaCloudFunctionVersion env w data.Id.ValueString
                data.VersionID.ValueString).world
              data.Id.ValueString data.VersionID.ValueString).world
            data.Id.ValueString data.VersionID.ValueString).resp)),
        world := (GetFunctionAuthorization env
            (ReadNvidiaCloudFunctionDeployment env
              (GetNvidiaCloudFunctionVersion env w data.Id.ValueString
                data.VersionID.ValueString).world
              data.Id.ValueString data.VersionID.ValueString).world
            data.Id.ValueString data.VersionID.ValueString).world } := by
    unfold Read readReplies
    simp only [hg, hr, hn, Bool.false_eq_true, if_false, ha]
  rw [hR]
  refine ⟨_, rfl, ?_, rfl, ?_⟩
  · simp only [updateNvidiaCloudFunctionResourceModelBaseOnResponse, hnone]
  · intro hrep
    exact mergeDiagnostics_of_withoutRepeatedElements _ _ [] hrep

/-- Witness of C9 as amended: the prior state holds one specification, the remote has no
deployment. -/
theorem read_keeps_prior_specifications_witness :
    (ReadNvidiaCloudFunctionDeployment (scriptedRemote Script.quiet)
        (GetNvidiaCloudFunctionVersion (scriptedRemote Script.quiet) (scriptedWorld Script.quiet)
          "f1" "v1").world "f1" "v1").resp.Deployment.DeploymentSpecifications = none ∧
    ∃ m, (Read (scriptedRemote Script.quiet) stubCodec deployedState
           (scriptedWorld Script.quiet)).State = StateChange.set m ∧
      m.DeploymentSpecifications = TfValue.known [gfnSpecification] := by
  refine ⟨rfl, ?_⟩
  obtain ⟨m, hm, hs, _⟩ := read_keeps_prior_specifications (scriptedRemote Script.quiet)
    stubCodec deployedState (scriptedWorld Script.quiet) rfl rfl rfl rfl
  exact ⟨m, hm, hs⟩

/-- C9 fails as stated: with a prior state that holds one specification and a remote whose
deployment read succeeds with the empty deployment (no error, no specification list, empty
status), `Read` saves a model whose deployment-specification list still holds that one
specification; it is not empty. -/
theorem read_without_deployment_keeps_specification :
    (ReadNvidiaCloudFunctionDeployment (scriptedRemote Script.quiet)
        (GetNvidiaCloudFunctionVersion (scriptedRemote Script.quiet) (scriptedWorld Script.quiet)
          "f1" "v1").world "f1" "v1").err = none ∧
    (ReadNvidiaCloudFunctionDeployment (scriptedRemote Script.quiet)
        (GetNvidiaCloudFunctionVersion (scriptedRemote Script.quiet) (scriptedWorld Script.quiet)
          "f1" "v1").world "f1" "v1").resp.Deployment.DeploymentSpecifications = none ∧
    (ReadNvidiaCloudFunctionDeployment (scriptedRemote Script.quiet)
        (GetNvidiaCloudFunctionVersion (scriptedRemote Script.quiet) (scriptedWorld Script.quiet)
          "f1" "v1").world "f1" "v1").resp.Deployment.FunctionStatus = "" ∧
    (Read (scriptedRemote Script.quiet) stubCodec deployedState
        (scriptedWorld Script.quiet)).Diagnostics = [] ∧
    ∃ m, (Read (scriptedRemote Script.quiet) stubCodec deployedState
           (scriptedWorld Script.quiet)).State = StateChange.set m ∧
      m.DeploymentSpecifications.Elements = [gfnSpecification] ∧
      m.DeploymentSpecifications.Elements ≠ [] :=
  ⟨rfl, rfl, rfl, rfl, _, rfl, rfl, by decide⟩

/-- Witness of C8: the remote answers the get with a not-found message. -/
theorem read_signals_absent_iff_not_found_witness :
    (Read (scriptedRemote scriptNotFound) stubCodec deployedState
        (scriptedWorld scriptNotFound)).State = StateChange.removed ∧
    (Read (scriptedRemote scriptNotFound) stubCodec deployedState
        (scriptedWorld scriptNotFound)).world.calls = [Call.getFunctionVersion "f1" "v1"] := by
  have h := (read_signals_absent_iff_not_found (scriptedRemote scriptNotFound) stubCodec
    deployedState (scriptedWorld scriptNotFound)).2.1 "Not found: function version" rfl
    ⟨[], ": function version".toList, by decide⟩
  exact ⟨h.1, h.2.2⟩

theorem updateDeployment_unfold (ctx : Context) (fuel : Nat)
    (data : NvidiaCloudFunctionResourceModel) (w : World σ)
    (specs : List NvidiaCloudFunctionDeploymentSpecification)
    (hprep : prepareDeploymentSpecifications codec data [] = (some specs, [])) :
    updateDeployment env codec ctx fuel data [] w =
      match (UpdateNvidiaCloudFunctionDeployment env w data.Id.ValueString
              data.VersionID.ValueString { DeploymentSpecifications := specs }).err with
      | some e =>
        some { val := NvidiaCloudFunctionDeployment.zero,
               diags := [Diagnostic.mk "Failed to update Cloud Function Deployment" e],
               world := (UpdateNvidiaCloudFunctionDeployment env w data.Id.ValueString
                 data.VersionID.ValueString { DeploymentSpecifications := specs }).world }
      | none =>
        match WaitingDeploymentCompleted env ctx data.Id.ValueString data.VersionID.ValueString
            fuel
            (UpdateNvidiaCloudFunctionDeployment env w data.Id.ValueString
              data.VersionID.ValueString { DeploymentSpecifications := specs }).world with
        | none => none
        | some o =>
          match o.err with
          | some e =>
            some { val := NvidiaCloudFunctionDeployment.zero,
                   diags := [Diagnostic.mk "Failed to update Cloud Function Deployment" e],
                   world := o.world }
          | none =>
            some { val := (UpdateNvidiaCloudFunctionDeployment env w data.Id.ValueString
                     data.VersionID.ValueString
                     { DeploymentSpecifications := specs }).resp.Deployment,
                   diags := [], world := o.world } := by
  have hn : HasError [] = false := rfl
  unfold updateDeployment
  simp only [hprep, hn, Bool.false_eq_true, if_false, AddError, List.nil_append]

theorem Update_calls_filter (p : Call → Bool) (ctx : Context) (fuel : Nat)
    (plan state : NvidiaCloudFunctionResourceModel) (w : World σ) (r : Response σ)
    (h0 : ∀ f v req, p (Call.updateFunctionTags f v req) = false)
    (h1 : ∀ f v, p (Call.getFunctionVersion f v) = false)
    (h2 : ∀ f v req, p (Call.authorizeParties f v req) = false)
    (h3 : ∀ f v, p (Call.unauthorizeAllParties f v) = false)
    (h4 : ∀ f v, p (Call.getAuthorization f v) = false)
    (h5 : ∀ f v, p (Call.deleteDeployment f v) = false)
    (h6 : ∀ f v req, p (Call.updateDeployment f v req) = false)
    (h7 : ∀ f v, p (Call.readDeployment f v) = false)
    (h : Update env codec ctx fuel plan state w = some r) :
    r.world.calls.filter p = w.calls.filter p := by
  by_cases ht : (plan.Timeouts.Update (DEFAULT_TIMEOUT_SEC * Second)).2 = []
  · rw [Update_calls_filter_after_tags env codec p ctx fuel plan state w r ht h1 h2 h3 h4 h5
      h6 h7 h]
    exact updatedTags_calls_filter env p plan state w h0
  · obtain ⟨r2, hr2, hw, _⟩ := Update_invalid_timeout env codec ctx fuel plan state w ht
    rw [hr2] at h
    simp only [Option.some.injEq] at h
    subst h
    rw [hw]

/-- C11. `Update` never issues `deleteFunctionVersion`: whenever it returns, for every
plan, prior state, context and remote, the calls it issued hold no delete-version call;
it does return once the loop bound covers the update timeout; and when the
`updateDeployment` call fails, or succeeds and the waiter fails or times out, `Update`
reports that error and leaves the state untouched. -/
theorem update_never_deletes_version (ctx : Context) (fuel : Nat)
    (plan state : NvidiaCloudFunctionResourceModel) (w : World σ) :
    (∀ r, Update env codec ctx fuel plan state w = some r →
      r.world.calls.filter Call.isDeleteFunctionVersion =
        w.calls.filter Call.isDeleteFunctionVersion) ∧
    (enoughFuel (plan.Timeouts.Update (DEFAULT_TIMEOUT_SEC * Second)).1 ≤ fuel →
      ∃ r, Update env codec ctx fuel plan state w = some r) ∧
    (∀ (specs : List NvidiaCloudFunctionDeploymentSpecification) (e : String),
      (plan.Timeouts.Update (DEFAULT_TIMEOUT_SEC * Second)).2 = [] →
      HasError (updatedAuthorization env plan state w).diags = false →
      prepareDeploymentSpecifications codec plan [] = (some specs, []) →
      ((updatedDeployment env plan state w specs).err = some e ∨
        ((updatedDeployment env plan state w specs).err = none ∧
          ∃ o, WaitingDeploymentCompleted env (updateContext ctx plan w.now)
                plan.Id.ValueString plan.VersionID.ValueString fuel
                (updatedDeployment env plan state w specs).world = some o ∧
              o.err = some e)) →
      ∃ r, Update env codec ctx fuel plan state w = some r ∧
        r.State = StateChange.untouched ∧
        Diagnostic.mk "Failed to update Cloud Function Deployment" e ∈ r.Diagnostics ∧
        r.world.calls.filter Call.isDeleteFunctionVersion =
          w.calls.filter Call.isDeleteFunctionVersion) := by
  have hnodel : ∀ r, Update env codec ctx fuel plan state w = some r →
      r.world.calls.filter Call.isDeleteFunctionVersion =
        w.calls.filter Call.isDeleteFunctionVersion := fun r hr =>
    Update_calls_filter env codec Call.isDeleteFunctionVersion ctx fuel plan state w r
      (fun _ _ _ => rfl) (fun _ _ => rfl) (fun _ _ _ => rfl) (fun _ _ => rfl) (fun _ _ => rfl)
      (fun _ _ => rfl) (fun _ _ _ => rfl) (fun _ _ => rfl) hr
  refine ⟨hnodel, Update_returns env codec ctx fuel plan state w, ?_⟩
  intro specs e ht ha hprep hfail
  have ha2 : (updatedAuthorization env plan state w).diags = [] :=
    (hasError_eq_false_iff _).1 ha
  have hspecs : ¬ ((plan.DeploymentSpecifications.Elements.length == 0) = true) := by
    intro h0
    unfold prepareDeploymentSpecifications at hprep
    rw [if_pos (by simp [h0])] at hprep
    simp at hprep
  have hdep : ∃ d, updateDeployment env codec (updateContext ctx plan w.now) fuel plan []
        (updatedAuthorization env plan state w).world = some d ∧
      d.diags = [Diagnostic.mk "Failed to update Cloud Function Deployment" e] := by
    rw [updateDeployment_unfold env codec _ _ _ _ specs hprep]
    rcases hfail with h1 | ⟨h1, o, ho, hoe⟩
    · unfold updatedDeployment at h1
      rw [h1]
      exact ⟨_, rfl, rfl⟩
    · unfold updatedDeployment at h1 ho
      rw [h1]
      simp only [ho, hoe]
      exact ⟨_, rfl, rfl⟩
  obtain ⟨d, hd, hdiags⟩ := hdep
  have hhas : HasError d.diags = true := by rw [hdiags]; rfl
  have hU : Update env codec ctx fuel plan state w =
      some { Diagnostics := d.diags, State := StateChange.untouched, world := d.world } := by
    have hn : HasError [] = false := rfl
    rw [Update_unfold env codec ctx fuel plan state w ht]
    simp only [ha, hn, Bool.false_eq_true, if_false, hspecs, ha2, hd, hhas, if_true]
  refine ⟨_, hU, rfl, ?_, hnodel _ hU⟩
  rw [hdiags]
  simp

/-- Witness of C11: the updated deployment turns FAILED at the first poll. -/
theorem update_never_deletes_version_witness :
    (Update (scriptedRemote scriptFailed) stubCodec Background 1 deployingPlan deployedState
        (scriptedWorld scriptFailed)).map
      (fun r => (r.world.calls.filter Call.isDeleteFunctionVersion, r.Diagnostics)) =
      some ([], [Diagnostic.mk "Failed to update Cloud Function Deployment"
                   "unexpected status FAILED"]) ∧
    ∃ r, Update (scriptedRemote scriptFailed) stubCodec Background 1 deployingPlan deployedState
        (scriptedWorld scriptFailed) = some r ∧ r.State = StateChange.untouched := by
  obtain ⟨r, hr, hs, _, _⟩ :=
    (update_never_deletes_version (scriptedRemote scriptFailed) stubCodec Background 1
      deployingPlan deployedState (scriptedWorld scriptFailed)).2.2 [gfnRequestSpecification]
      "unexpected status FAILED" rfl rfl rfl (Or.inr ⟨rfl, _, rfl, rfl⟩)
  exact ⟨rfl, r, hr, hs⟩

/-- C12 fails on the code: `Update` does not stop at a failing tags update or a failing
function re-fetch.  After a failing tags update it still issues the get-version and the
get-authorization calls; after a failing re-fetch, with no parties desired and one party
authorized remotely, it still issues get-authorization and unauthorize-all, addressed with
the empty ids of the missing function. -/
theorem update_continues_after_failed_call :
    (Update (scriptedRemote scriptTagsFail) stubCodec Background 62 taggingPlan deployedState
        (scriptedWorld scriptTagsFail)).map (fun r => (r.world.calls, r.Diagnostics)) =
      some ([Call.updateFunctionTags "f1" "v1" { Tags := ["blue"] },
             Call.getFunctionVersion "f1" "v1",
             Call.getAuthorization "f1" "v1"],
            [Diagnostic.mk "Failed to update function tags" "boom"]) ∧
    (Update (scriptedRemote scriptGetFailsOneParty) stubCodec Background 62 deployedState
        deployedState (scriptedWorld scriptGetFailsOneParty)).map
        (fun r => (r.world.calls, r.Diagnostics)) =
      some ([Call.getFunctionVersion "f1" "v1",
             Call.getAuthorization "" "",
             Call.unauthorizeAllParties "" ""],
            [Diagnostic.mk "Failed to get Cloud Function" "boom"]) :=
  ⟨rfl, rfl⟩

theorem convertDeploymentSpecifications_error
    (vs : List NvidiaCloudFunctionResourceDeploymentSpecificationModel)
    (hbad : ∃ v ∈ vs, v.Configuration.ValueString ≠ "" ∧
      ∃ e, codec.Unmarshal v.Configuration.ValueString = Except.error e) :
    ∃ e, convertDeploymentSpecifications codec vs = Except.error e := by
  induction vs with
  | nil => obtain ⟨v, hv, _⟩ := hbad; simp at hv
  | cons a rest ih =>
    obtain ⟨v, hv, hne, e, he⟩ := hbad
    unfold convertDeploymentSpecifications
    rcases List.mem_cons.1 hv with rfl | hrest
    · rw [if_pos hne, he]
      exact ⟨e, rfl⟩
    · obtain ⟨e2, he2⟩ := ih ⟨v, hrest, hne, e, he⟩
      split
      · exact ⟨_, rfl⟩
      · rw [he2]
        exact ⟨_, rfl⟩

theorem convertDeploymentSpecifications_ok
    (vs : List NvidiaCloudFunctionResourceDeploymentSpecificationModel)
    (ds : List NvidiaCloudFunctionDeploymentSpecification)
    (h : convertDeploymentSpecifications codec vs = Except.ok ds) :
    ds = vs.map (requestSpecification codec) := by
  induction vs generalizing ds with
  | nil =>
    simp only [convertDeploymentSpecifications, Except.ok.injEq] at h
    subst h
    rfl
  | cons a rest ih =>
    unfold convertDeploymentSpecifications at h
    split at h
    · exact absurd h (by simp)
    · rename_i configuration hcfg
      split at h
      · exact absurd h (by simp)
      · rename_i ds2 hds2
        simp only [Except.ok.injEq] at h
        subst h
        have hp : parsedConfiguration codec a = configuration := by
          unfold parsedConfiguration
          split_ifs at hcfg ⊢ with hne
          · rw [hcfg]
          · simp only [Except.ok.injEq] at hcfg
            exact hcfg
        simp only [List.map_cons, ih ds2 hds2, requestSpecification, hp]

theorem prepareDeploymentSpecifications_ok (data : NvidiaCloudFunctionResourceModel)
    (specs : List NvidiaCloudFunctionDeploymentSpecification)
    (hprep : prepareDeploymentSpecifications codec data [] = (some specs, [])) :
    specs = data.DeploymentSpecifications.Elements.map (requestSpecification codec) ∧
      data.DeploymentSpecifications.Elements ≠ [] := by
  by_cases h0 : (data.DeploymentSpecifications.IsNull ||
      data.DeploymentSpecifications.Elements.length == 0) = true
  · unfold prepareDeploymentSpecifications at hprep
    rw [if_pos h0] at hprep
    simp at hprep
  · have hne : data.DeploymentSpecifications.Elements ≠ [] := by
      intro hnil
      apply h0
      simp [hnil]
    have hk := elements_ne_nil_known _ hne
    have h2 : data.DeploymentSpecifications.ElementsAs =
        (data.DeploymentSpecifications.Elements, []) := by
      rw [hk]
      rfl
    have hn : HasError [] = false := rfl
    unfold prepareDeploymentSpecifications at hprep
    rw [if_neg h0] at hprep
    simp only [h2, Append, List.map_nil, List.append_nil, hn, Bool.false_eq_true, if_false]
      at hprep
    split at hprep
    · simp [AddError] at hprep
    · rename_i ds hds
      simp only [Prod.mk.injEq, Option.some.injEq, and_true] at hprep
      rw [← hprep]
      exact ⟨convertDeploymentSpecifications_ok codec _ _ hds, hne⟩

/-- C13, as the code has it. In `Create`, when the function was created and the
authorized parties reconciled, a deployment specification whose configuration string is
non-empty and does not parse produces the validation error `Failed to parse deployment
configuration`: `Create` returns for every loop bound, saves no state and issues no
`createDeployment` call and no deployment read; the `createFunction` call has been issued
before, and the version it created is deleted unless `keep_failed_resource` is true. -/
theorem create_validates_configuration_after_creating (ctx : Context) (fuel : Nat)
    (data : NvidiaCloudFunctionResourceModel) (w : World σ)
    (ht : (data.Timeouts.Create (DEFAULT_TIMEOUT_SEC * Second)).2 = [])
    (hc : (createdFunction env codec data w).err = none)
    (ha : HasError (createdAuthorization env codec data w).diags = false)
    (hbad : ∃ v ∈ data.DeploymentSpecifications.Elements, v.Configuration.ValueString ≠ "" ∧
      ∃ e, codec.Unmarshal v.Configuration.ValueString = Except.error e) :
    ∃ r e, Create env codec ctx fuel data w = some r ∧
      r.State = StateChange.untouched ∧
      Diagnostic.mk "Failed to parse deployment configuration" e ∈ r.Diagnostics ∧
      r.world.calls = (createdAuthorization env codec data w).world.calls ++
        (if data.KeepFailedResource.ValueBool then []
         else [Call.deleteFunctionVersion (createdFunction env codec data w).resp.Function.ID
                 (createdFunction env codec data w).resp.Function.VersionID]) ∧
      Call.createFunction data.FunctionID.ValueString (createOrUpdateRequest codec data []).1
        ∈ (createdAuthorization env codec data w).world.calls ∧
      r.world.calls.filter Call.isDeploymentCall = w.calls.filter Call.isDeploymentCall := by
  have hn : HasError [] = false := rfl
  have ha2 : (createdAuthorization env codec data w).diags = [] :=
    (hasError_eq_false_iff _).1 ha
  have hne : data.DeploymentSpecifications.Elements ≠ [] := by
    obtain ⟨v, hv, _⟩ := hbad
    exact List.ne_nil_of_mem hv
  have hk := elements_ne_nil_known _ hne
  have hlen : ¬ ((data.DeploymentSpecifications.Elements.length == 0) = true) := by
    simpa using hne
  obtain ⟨e, he⟩ := convertDeploymentSpecifications_error codec _ hbad
  have hprep : prepareDeploymentSpecifications codec data [] =
      (none, [Diagnostic.mk "Failed to parse deployment configuration" e]) := by
    unfold prepareDeploymentSpecifications
    have h1 : (data.DeploymentSpecifications.IsNull ||
        data.DeploymentSpecifications.Elements.length == 0) = false := by
      rw [hk]
      simp only [TfValue.IsNull, TfValue.Elements, Bool.false_or]
      simpa using hne
    have h2 : data.DeploymentSpecifications.ElementsAs =
        (data.DeploymentSpecifications.Elements, []) := by
      rw [hk]
      rfl
    simp only [h1, Bool.false_eq_true, if_false, h2, Append, List.map_nil, List.append_nil, hn,
      he, AddError, List.nil_append]
  have hcd : createDeployment env codec (createContext ctx data w.now) fuel data []
      (createdFunction env codec data w).resp.Function
      (createdAuthorization env codec data w).world =
      some { val := NvidiaCloudFunctionDeployment.zero,
             diags := [Diagnostic.mk "Failed to parse deployment configuration" e],
             world := (createdAuthorization env codec data w).world } := by
    unfold createDeployment
    simp only [hprep]
  have hhas : HasError [Diagnostic.mk "Failed to parse deployment configuration" e] = true := rfl
  have hcalls1 : Call.createFunction data.FunctionID.ValueString
      (createOrUpdateRequest codec data []).1 ∈ (createdFunction env codec data w).world.calls := by
    simp [createdFunction, CreateNvidiaCloudFunction, World.issue]
  have hsub : ∀ c ∈ (createdFunction env codec data w).world.calls,
      c ∈ (createdAuthorization env codec data w).world.calls := by
    intro c hcin
    unfold createdAuthorization updateFunctionAuthorizedParties
    dsimp only
    split_ifs <;> (try split) <;> (try split) <;>
      simp [AuthorizeAccountsToInvokeFunction, GetFunctionAuthorization,
        UnAuthorizeAllExtraAccountsToInvokeFunction, World.issue, hcin]
  have hfilter := createdAuthorization_calls_filter env codec Call.isDeploymentCall data w
    (fun _ _ => rfl) (fun _ _ _ => rfl) (fun _ _ => rfl) (fun _ _ => rfl)
  have hC : Create env codec ctx fuel data w =
      some { Diagnostics := (deleteFailedDeploymentVersion env data.KeepFailedResource.ValueBool
               (createdFunction env codec data w).resp.Function.ID
               (createdFunction env codec data w).resp.Function.VersionID
               [Diagnostic.mk "Failed to parse deployment configuration" e]
               (createdAuthorization env codec data w).world).diags,
             State := StateChange.untouched,
             world := (deleteFailedDeploymentVersion env data.KeepFailedResource.ValueBool
               (createdFunction env codec data w).resp.Function.ID
               (createdFunction env codec data w).resp.Function.VersionID
               [Diagnostic.mk "Failed to parse deployment configuration" e]
               (createdAuthorization env codec data w).world).world } := by
    rw [Create_unfold env codec ctx fuel data w ht]
    simp only [hc, ha, hn, Bool.false_eq_true, if_false, hlen, ha2, hcd, hhas, if_true]
  refine ⟨_, e, hC, rfl, ?_, ?_, hsub _ hcalls1, ?_⟩
  · apply deleteFailedDeploymentVersion_diags
    simp
  · rw [deleteFailedDeploymentVersion_calls]
  · rw [deleteFailedDeploymentVersion_calls]
    cases data.KeepFailedResource.ValueBool <;>
      simp [List.filter_append, hfilter, Call.isDeploymentCall]

/-- Witness of C13 as amended: the configuration `not json` does not parse. -/
theorem create_validates_configuration_after_creating_witness :
    (∃ v ∈ malformedPlan.DeploymentSpecifications.Elements, v.Configuration.ValueString ≠ "" ∧
      ∃ e, strictCodec.Unmarshal v.Configuration.ValueString = Except.error e) ∧
    ∃ r, Create (scriptedRemote Script.quiet) strictCodec Background 0 malformedPlan
        (scriptedWorld Script.quiet) = some r ∧ r.State = StateChange.untouched := by
  have hbad : ∃ v ∈ malformedPlan.DeploymentSpecifications.Elements,
      v.Configuration.ValueString ≠ "" ∧
      ∃ e, strictCodec.Unmarshal v.Configuration.ValueString = Except.error e :=
    ⟨malformedSpecification, by simp [malformedPlan, TfValue.Elements], by decide,
      "invalid character", rfl⟩
  obtain ⟨r, _, hr, hs, _⟩ :=
    create_validates_configuration_after_creating (scriptedRemote Script.quiet) strictCodec
      Background 0 malformedPlan (scriptedWorld Script.quiet) rfl rfl rfl hbad
  exact ⟨hbad, r, hr, hs⟩

/-- C13 fails as stated: with a deployment specification whose configuration `not json`
does not parse, `Create` has issued `createFunction` and the authorization query before it
reports the validation error, and it then deletes the version it created. -/
theorem create_calls_remote_before_validation :
    strictCodec.Unmarshal malformedSpecification.Configuration.ValueString =
      Except.error "invalid character" ∧
    (Create (scriptedRemote Script.quiet) strictCodec Background 0 malformedPlan
        (scriptedWorld Script.quiet)).map (fun r => (r.world.calls, r.Diagnostics)) =
      some ([Call.createFunction "" (createOrUpdateRequest strictCodec malformedPlan []).1,
             Call.getAuthorization "f1" "v1",
             Call.deleteFunctionVersion "f1" "v1"],
            [Diagnostic.mk "Failed to parse deployment configuration"
               "invalid character"]) :=
  ⟨rfl, rfl⟩

theorem isSet_known_valueString (v : TfString) (h : v.isSet = true) :
    TfValue.known v.ValueString = v := by
  cases v <;> simp_all [TfValue.isSet, TfValue.IsNull, TfValue.IsUnknown, TfValue.ValueString,
    TfValue.valueOr]

theorem isSet_known_valueInt64 (v : TfInt64) (h : v.isSet = true) :
    TfValue.known v.ValueInt64 = v := by
  cases v <;> simp_all [TfValue.isSet, TfValue.IsNull, TfValue.IsUnknown, TfValue.ValueInt64,
    TfValue.valueOr]

/-- What a successful `Create` saves of `N ≥ 1` deployment specifications when the remote's
`createDeployment` response carries the specifications it was sent: the saved list has
length `N` and its `i`-th entry is built from the `i`-th input entry.  It equals it in
instance type, GPU type, min instances, max instances, max request concurrency and backend
wherever the input sets the attribute; its configuration is null when the input
configuration is unset or empty, and otherwise the serialisation of the parsed input (null
when that parse is the JSON null).  The diagnostics are those of the merge. -/
theorem Create_saved_specifications (ctx : Context) (fuel : Nat)
    (data : NvidiaCloudFunctionResourceModel) (w : World σ)
    (specs : List NvidiaCloudFunctionDeploymentSpecification) (o : Outcome σ)
    (ht : (data.Timeouts.Create (DEFAULT_TIMEOUT_SEC * Second)).2 = [])
    (hc : (createdFunction env codec data w).err = none)
    (ha : HasError (createdAuthorization env codec data w).diags = false)
    (hprep : prepareDeploymentSpecifications codec data [] = (some specs, []))
    (hcd : (createdDeployment env codec data w specs).err = none)
    (hecho : (createdDeployment env codec data w specs).resp.Deployment.DeploymentSpecifications
      = some specs)
    (hwait : WaitingDeploymentCompleted env (createContext ctx data w.now)
      (createdFunction env codec data w).resp.Function.ID
      (createdFunction env codec data w).resp.Function.VersionID fuel
      (createdDeployment env codec data w specs).world = some o)
    (hok : o.err = none) :
    ∃ r m, Create env codec ctx fuel data w = some r ∧
      r.Diagnostics = updateNvidiaCloudFunctionResourceModelBaseOnResponseDiagnostics
        (createdFunction env codec data w).resp.Function
        (some (createdAuthorization env codec data w).val) [] ∧
      r.State = StateChange.set m ∧
      m.DeploymentSpecifications =
        TfValue.known (data.DeploymentSpecifications.Elements.map (savedSpecification codec)) ∧
      m.DeploymentSpecifications.Elements.length =
        data.DeploymentSpecifications.Elements.length ∧
      0 < data.DeploymentSpecifications.Elements.length ∧
      (∀ (i : Nat) v, data.DeploymentSpecifications.Elements[i]? = some v →
        m.DeploymentSpecifications.Elements[i]? = some (savedSpecification codec v)) ∧
      ∀ v : NvidiaCloudFunctionResourceDeploymentSpecificationModel,
        (v.InstanceType.isSet = true → (savedSpecification codec v).InstanceType = v.InstanceType) ∧
        (v.GpuType.isSet = true → (savedSpecification codec v).GpuType = v.GpuType) ∧
        (v.MinInstances.isSet = true → (savedSpecification codec v).MinInstances = v.MinInstances) ∧
        (v.MaxInstances.isSet = true → (savedSpecification codec v).MaxInstances = v.MaxInstances) ∧
        (v.MaxRequestConcurrency.isSet = true →
          (savedSpecification codec v).MaxRequestConcurrency = v.MaxRequestConcurrency) ∧
        (v.Backend.isSet = true → (savedSpecification codec v).Backend = v.Backend) ∧
        (v.Configuration.ValueString = "" →
          (savedSpecification codec v).Configuration = TfValue.null) ∧
        (∀ c, v.Configuration.ValueString ≠ "" →
          codec.Unmarshal v.Configuration.ValueString = Except.ok c →
          (savedSpecification codec v).Configuration =
            (match c with
             | JsonValue.null => TfValue.null
             | c => TfValue.known (codec.Marshal c))) := by
  have hn : HasError [] = false := rfl
  have ha2 : (createdAuthorization env codec data w).diags = [] :=
    (hasError_eq_false_iff _).1 ha
  obtain ⟨hspecs, hne⟩ := prepareDeploymentSpecifications_ok codec data specs hprep
  have hlen : ¬ ((data.DeploymentSpecifications.Elements.length == 0) = true) := by
    simpa using hne
  have hdep : createDeployment env codec (createContext ctx data w.now) fuel data []
        (createdFunction env codec data w).resp.Function
        (createdAuthorization env codec data w).world =
      some { val := (createdDeployment env codec data w specs).resp.Deployment, diags := [],
             world := o.world } := by
    rw [createDeployment_unfold env codec _ _ _ _ _ specs hprep]
    unfold createdDeployment at hcd hwait
    rw [hcd]
    simp only [hwait, hok]
    rfl
  have hC : Create env codec ctx fuel data w =
      some { Diagnostics := updateNvidiaCloudFunctionResourceModelBaseOnResponseDiagnostics
               (createdFunction env codec data w).resp.Function
               (some (createdAuthorization env codec data w).val) [],
             State := StateChange.set (updateNvidiaCloudFunctionResourceModelBaseOnResponse
               codec data (createdFunction env codec data w).resp.Function
               (some (createdDeployment env codec data w specs).resp.Deployment)
               (some (createdAuthorization env codec data w).val)),
             world := o.world } := by
    rw [Create_unfold env codec ctx fuel data w ht]
    simp only [hc, ha, hn, Bool.false_eq_true, if_false, hlen, ha2, hdep]
  have hm : (updateNvidiaCloudFunctionResourceModelBaseOnResponse
               codec data (createdFunction env codec data w).resp.Function
               (some (createdDeployment env codec data w specs).resp.Deployment)
               (some (createdAuthorization env codec data w).val)).DeploymentSpecifications =
      TfValue.known (data.DeploymentSpecifications.Elements.map (savedSpecification codec)) := by
    simp only [updateNvidiaCloudFunctionResourceModelBaseOnResponse, hecho]
    rw [hspecs, List.map_map]
    rfl
  refine ⟨_, _, hC, rfl, rfl, hm, ?_, List.length_pos.mpr hne, ?_, ?_⟩
  · rw [hm]
    simp [TfValue.Elements]
  · intro i v hv
    rw [hm]
    show (List.map (savedSpecification codec) data.DeploymentSpecifications.Elements)[i]? = _
    rw [List.getElem?_map, hv]
    rfl
  · intro v
    refine ⟨?_, ?_, ?_, ?_, ?_, ?_, ?_, ?_⟩
    · exact isSet_known_valueString _
    · exact isSet_known_valueString _
    · exact isSet_known_valueInt64 _
    · exact isSet_known_valueInt64 _
    · exact isSet_known_valueInt64 _
    · exact isSet_known_valueString _
    · intro h0
      simp [savedSpecification, deploymentSpecificationModelOf, requestSpecification,
        parsedConfiguration, h0]
    · intro c hne2 hparse
      simp only [savedSpecification, deploymentSpecificationModelOf, requestSpecification,
        parsedConfiguration, hne2, ne_eq, not_false_eq_true, if_true, hparse]

set_option maxRecDepth 1000000 in
set_option exponentiation.threshold 5000 in
/-- C14 fails on the code: the saved configuration is not the configured string but the
serialisation of its parse.  For a plan whose one specification carries the configuration
`reorderedConfiguration` (keys out of order, blanks), a `Create` with the codec of the
standard library against a remote that echoes the specifications it was sent succeeds
without diagnostics and saves the configuration `serialisedConfiguration`, a different
string. -/
theorem create_saves_reserialised_configuration :
    reorderedPlan.DeploymentSpecifications.Elements.map (fun v => v.Configuration) =
      [TfValue.known reorderedConfiguration] ∧
    (∃ r m, Create (scriptedRemote scriptActive) standardCodec Background 1 reorderedPlan
        (scriptedWorld scriptActive) = some r ∧ r.Diagnostics = [] ∧
      r.State = StateChange.set m ∧
      m.DeploymentSpecifications.Elements.map (fun v => v.Configuration) =
        [TfValue.known serialisedConfiguration]) ∧
    reorderedConfiguration ≠ serialisedConfiguration :=
  ⟨rfl, ⟨_, _, rfl, rfl, rfl, rfl⟩, by decide⟩

theorem Read_eq_readOutcome (data : NvidiaCloudFunctionResourceModel) (w : World σ) :
    ((Read env codec data w).Diagnostics, (Read env codec data w).State) =
      readOutcome codec data (readReplies env data w) := by
  unfold Read readOutcome readReplies
  dsimp only
  generalize (GetNvidiaCloudFunctionVersion env w data.Id.ValueString
      data.VersionID.ValueString).err = ge
  generalize (ReadNvidiaCloudFunctionDeployment env
      (GetNvidiaCloudFunctionVersion env w data.Id.ValueString data.VersionID.ValueString).world
      data.Id.ValueString data.VersionID.ValueString).err = re
  generalize (GetFunctionAuthorization env
      (ReadNvidiaCloudFunctionDeployment env
        (GetNvidiaCloudFunctionVersion env w data.Id.ValueString
          data.VersionID.ValueString).world
        data.Id.ValueString data.VersionID.ValueString).world
      data.Id.ValueString data.VersionID.ValueString).err = ae
  rcases ge with _ | e
  · rcases re with _ | e2
    · rcases ae with _ | e3 <;> rfl
    · dsimp only
      by_cases hx : e2 ≠ "failed to find function deployment"
      · simp only [if_pos hx]
        rfl
      · simp only [if_neg hx]
        rcases ae with _ | e3 <;> rfl
  · dsimp only
    cases hc : stringsContains e "Not found" <;> rfl

theorem merge_idempotent (data : NvidiaCloudFunctionResourceModel)
    (functionInfo : NvidiaCloudFunctionInfo)
    (functionDeployment : Option NvidiaCloudFunctionDeployment)
    (authorizedAccounts : Option AuthorizeAccountsToInvokeFunctionResponse) :
    updateNvidiaCloudFunctionResourceModelBaseOnResponse codec
      (updateNvidiaCloudFunctionResourceModelBaseOnResponse codec data functionInfo
        functionDeployment authorizedAccounts)
      functionInfo functionDeployment authorizedAccounts =
    updateNvidiaCloudFunctionResourceModelBaseOnResponse codec data functionInfo
      functionDeployment authorizedAccounts := by
  unfold updateNvidiaCloudFunctionResourceModelBaseOnResponse
  simp only [NvidiaCloudFunctionResourceModel.mk.injEq, true_and, and_true]
  refine ⟨?_, ?_, ?_, ?_, ?_, ?_, ?_, ?_, ?_, ?_, ?_, ?_, ?_, ?_, ?_, ?_, ?_, ?_⟩ <;>
    first
    | rfl
    | (split_ifs <;> rfl)
    | (split <;> first | rfl | (split <;> first | rfl | simp_all))

/-- C15. `Read` is idempotent: when a first `Read` saves the state `m`, a `Read` on `m`
that gets the same replies from the remote (same function, deployment and authorization
responses and errors) saves exactly `m` again and reports the same diagnostics. -/
theorem read_is_idempotent (data m : NvidiaCloudFunctionResourceModel) (w w2 : World σ)
    (hfirst : (Read env codec data w).State = StateChange.set m)
    (hfixed : readReplies env m w2 = readReplies env data w) :
    (Read env codec m w2).State = StateChange.set m ∧
      (Read env codec m w2).Diagnostics = (Read env codec data w).Diagnostics := by
  have h1 := Read_eq_readOutcome env codec data w
  have h2 := Read_eq_readOutcome env codec m w2
  rw [hfixed] at h2
  generalize readReplies env data w = R at h1 h2
  rw [hfirst] at h1
  have key : readOutcome codec m R = ((Read env codec data w).Diagnostics, StateChange.set m) := by
    unfold readOutcome at h1 ⊢
    rcases hg : R.1.2 with _ | e
    · rw [hg] at h1
      dsimp only at h1 ⊢
      split_ifs at h1 ⊢ with hd
      · simp at h1
      · rcases ha : R.2.2.2 with _ | e3
        · rw [ha] at h1
          dsimp only at h1 ⊢
          simp only [Prod.mk.injEq, StateChange.set.injEq] at h1
          rw [h1.1, h1.2, merge_idempotent]
        · rw [ha] at h1
          simp at h1
    · rw [hg] at h1
      dsimp only at h1
      split_ifs at h1 <;> simp at h1
  rw [key] at h2
  simp only [Prod.mk.injEq] at h2
  exact ⟨h2.2, h2.1⟩

/-- Witness of C15: two reads of the deployed function against the quiet remote. -/
theorem read_is_idempotent_witness :
    readReplies (scriptedRemote Script.quiet)
        (updateNvidiaCloudFunctionResourceModelBaseOnResponse stubCodec deployedState
          scriptedFunction (some NvidiaCloudFunctionDeployment.zero)
          (some AuthorizeAccountsToInvokeFunctionResponse.zero))
        (Read (scriptedRemote Script.quiet) stubCodec deployedState
          (scriptedWorld Script.quiet)).world =
      readReplies (scriptedRemote Script.quiet) deployedState (scriptedWorld Script.quiet) ∧
    (Read (scriptedRemote Script.quiet) stubCodec
        (updateNvidiaCloudFunctionResourceModelBaseOnResponse stubCodec deployedState
          scriptedFunction (some NvidiaCloudFunctionDeployment.zero)
          (some AuthorizeAccountsToInvokeFunctionResponse.zero))
        (Read (scriptedRemote Script.quiet) stubCodec deployedState
          (scriptedWorld Script.quiet)).world).State =
      (Read (scriptedRemote Script.quiet) stubCodec deployedState
        (scriptedWorld Script.quiet)).State := by
  refine ⟨rfl, ?_⟩
  have h := (read_is_idempotent (scriptedRemote Script.quiet) stubCodec deployedState
    (updateNvidiaCloudFunctionResourceModelBaseOnResponse stubCodec deployedState
      scriptedFunction (some NvidiaCloudFunctionDeployment.zero)
      (some AuthorizeAccountsToInvokeFunctionResponse.zero))
    (scriptedWorld Script.quiet)
    (Read (scriptedRemote Script.quiet) stubCodec deployedState
      (scriptedWorld Script.quiet)).world rfl rfl).1
  rw [h]
  rfl

/-- C17. The response merge never modifies the secrets attribute: for every prior model
and every function, deployment and authorization response the merged model's secrets are
the prior model's; hence every state that `Read`, `Create` or `Update` saves carries the
secrets of the model it was handed. -/
theorem merge_keeps_secrets (data : NvidiaCloudFunctionResourceModel)
    (functionInfo : NvidiaCloudFunctionInfo)
    (functionDeployment : Option NvidiaCloudFunctionDeployment)
    (authorizedAccounts : Option AuthorizeAccountsToInvokeFunctionResponse) :
    (updateNvidiaCloudFunctionResourceModelBaseOnResponse codec data functionInfo
      functionDeployment authorizedAccounts).Secrets = data.Secrets ∧
    (∀ (w : World σ) m, (Read env codec data w).State = StateChange.set m →
      m.Secrets = data.Secrets) ∧
    (∀ (ctx : Context) (fuel : Nat) (w : World σ) r m,
      Create env codec ctx fuel data w = some r → r.State = StateChange.set m →
      m.Secrets = data.Secrets) ∧
    (∀ (ctx : Context) (fuel : Nat) (state : NvidiaCloudFunctionResourceModel) (w : World σ) r m,
      Update env codec ctx fuel data state w = some r → r.State = StateChange.set m →
      m.Secrets = data.Secrets) := by
  refine ⟨rfl, ?_, ?_, ?_⟩
  · intro w m hm
    have h := Read_eq_readOutcome env codec data w
    rw [hm] at h
    generalize readReplies env data w = R at h
    unfold readOutcome at h
    rcases hg : R.1.2 with _ | e
    · rw [hg] at h
      dsimp only at h
      split_ifs at h
      · simp at h
      · rcases ha : R.2.2.2 with _ | e3
        · rw [ha] at h
          simp only [Prod.mk.injEq, StateChange.set.injEq] at h
          rw [h.2]
          rfl
        · rw [ha] at h
          simp at h
    · rw [hg] at h
      dsimp only at h
      split_ifs at h <;> simp at h
  · intro ctx fuel w r m hr hm
    by_cases ht : (data.Timeouts.Create (DEFAULT_TIMEOUT_SEC * Second)).2 = []
    · rw [Create_unfold env codec ctx fuel data w ht] at hr
      split at hr
      · simp only [Option.some.injEq] at hr
        subst hr
        simp at hm
      · split_ifs at hr
        · simp only [Option.some.injEq] at hr
          subst hr
          simp at hm
        · simp only [Option.some.injEq] at hr
          subst hr
          simp only [StateChange.set.injEq] at hm
          rw [← hm]
          rfl
        · split at hr
          · simp at hr
          · split_ifs at hr
            · simp only [Option.some.injEq] at hr
              subst hr
              simp at hm
            · simp only [Option.some.injEq] at hr
              subst hr
              simp only [StateChange.set.injEq] at hm
              rw [← hm]
              rfl
    · obtain ⟨r2, hr2, _, hs⟩ := Create_invalid_timeout env codec ctx fuel data w ht
      rw [hr2] at hr
      simp only [Option.some.injEq] at hr
      subst hr
      rw [hs] at hm
      simp at hm
  · intro ctx fuel state w r m hr hm
    by_cases ht : (data.Timeouts.Update (DEFAULT_TIMEOUT_SEC * Second)).2 = []
    · rw [Update_unfold env codec ctx fuel data state w ht] at hr
      split_ifs at hr
      · simp only [Option.some.injEq] at hr
        subst hr
        simp at hm
      · simp only [Option.some.injEq] at hr
        subst hr
        simp only [StateChange.set.injEq] at hm
        rw [← hm]
        rfl
      · split at hr
        · simp at hr
        · split_ifs at hr
          · simp only [Option.some.injEq] at hr
            subst hr
            simp at hm
          · simp only [Option.some.injEq] at hr
            subst hr
            simp only [StateChange.set.injEq] at hm
            rw [← hm]
            rfl
    · obtain ⟨r2, hr2, _, hs⟩ := Update_invalid_timeout env codec ctx fuel data state w ht
      rw [hr2] at hr
      simp only [Option.some.injEq] at hr
      subst hr
      rw [hs] at hm
      simp at hm

theorem valueString_of_isSet (v : TfString) :
    (if v.isSet = true then v.ValueString else "") = v.ValueString := by
  cases v <;> rfl

theorem appended_isSome {α : Type} (xs : List α) : (appended xs).isSome = !xs.isEmpty := by
  cases xs <;> rfl

/-- C18, as the code has it. The payload built by `createOrUpdateRequest` carries each
workload field as the configuration has it (the configured string, empty when unset; the
configured environment entries, nil when there are none): a field group is populated in
the payload exactly when the configuration populates it, so exactly one group is populated
exactly when the configuration populates exactly one. -/
theorem request_carries_configured_workload (data : NvidiaCloudFunctionResourceModel) :
    (createOrUpdateRequest codec data []).1.ContainerImage = data.ContainerImage.ValueString ∧
    (createOrUpdateRequest codec data []).1.ContainerArgs = data.ContainerArgs.ValueString ∧
    (createOrUpdateRequest codec data []).1.ContainerEnvironment =
      appended (data.ContainerEnvironment.Elements.map (fun v =>
        NvidiaCloudFunctionContainerEnvironment.mk v.Key.ValueString v.Value.ValueString)) ∧
    (createOrUpdateRequest codec data []).1.HelmChart = data.HelmChart.ValueString ∧
    (createOrUpdateRequest codec data []).1.HelmChartServiceName =
      data.HelmChartServiceName.ValueString ∧
    containerGroupPopulated (createOrUpdateRequest codec data []).1 =
      containerGroupConfigured data ∧
    helmGroupPopulated (createOrUpdateRequest codec data []).1 = helmGroupConfigured data ∧
    (xor (containerGroupPopulated (createOrUpdateRequest codec data []).1)
        (helmGroupPopulated (createOrUpdateRequest codec data []).1) =
      xor (containerGroupConfigured data) (helmGroupConfigured data)) := by
  have hq : (createOrUpdateRequest codec data []).1 =
      { FunctionName := data.FunctionName.ValueString,
        InferencePort := data.InferencePort.ValueInt64,
        InferenceUrl := data.InferenceUrl.ValueString,
        APIBodyFormat := data.APIBodyFormat.ValueString,
        FunctionType := data.FunctionType.ValueString,
        HelmChart := if data.HelmChart.isSet then data.HelmChart.ValueString else "",
        HelmChartServiceName :=
          if data.HelmChartServiceName.isSet then data.HelmChartServiceName.ValueString else "",
        ContainerImage :=
          if data.ContainerImage.isSet then data.ContainerImage.ValueString else "",
        ContainerArgs := if data.ContainerArgs.isSet then data.ContainerArgs.ValueString else "",
        HealthUri := if data.HealthUri.isSet then data.HealthUri.ValueString else "",
        Description := if data.Description.isSet then data.Description.ValueString else "",
        Secrets :=
          if data.Secrets.isSet then
            appended (data.Secrets.ElementsAs.1.filterMap (secretEntry codec))
          else none,
        Tags := if data.Tags.isSet then some data.Tags.Elements else none,
        ContainerEnvironment :=
          if data.ContainerEnvironment.isSet then
            appended (data.ContainerEnvironment.ElementsAs.1.map (fun v =>
              NvidiaCloudFunctionContainerEnvironment.mk v.Key.ValueString v.Value.ValueString))
          else none,
        Health :=
          match data.Health with
          | TfValue.known health =>
            some { URI := health.Uri.ValueString,
                   Port := health.Port.ValueInt64,
                   Protocol := health.Protocol.ValueString,
                   Timeout := health.Timeout.ValueString,
                   ExpectedStatusCode := health.ExpectedStatusCode.ValueInt64 }
          | _ => none,
        Resources :=
          if data.Resources.isSet then
            appended (data.Resources.ElementsAs.1.map (fun v =>
              NvidiaCloudFunctionResource.mk v.Name.ValueString v.Version.ValueString
                v.Uri.ValueString))
          else none,
        Models :=
          if data.Models.isSet then
            appended (data.Models.ElementsAs.1.map (fun v =>
              NvidiaCloudFunctionModel.mk v.Name.ValueString v.Version.ValueString
                v.Uri.ValueString))
          else none } := by
    unfold createOrUpdateRequest
    simp only [append_elementsAs_of_isSet, HasError, List.isEmpty_nil, Bool.not_true,
      Bool.and_false, Bool.false_eq_true, if_false]
  have h1 : (createOrUpdateRequest codec data []).1.ContainerImage =
      data.ContainerImage.ValueString := by
    rw [hq]; exact valueString_of_isSet _
  have h2 : (createOrUpdateRequest codec data []).1.ContainerArgs =
      data.ContainerArgs.ValueString := by
    rw [hq]; exact valueString_of_isSet _
  have h3 : (createOrUpdateRequest codec data []).1.ContainerEnvironment =
      appended (data.ContainerEnvironment.Elements.map (fun v =>
        NvidiaCloudFunctionContainerEnvironment.mk v.Key.ValueString v.Value.ValueString)) := by
    rw [hq]
    cases data.ContainerEnvironment <;> rfl
  have h4 : (createOrUpdateRequest codec data []).1.HelmChart = data.HelmChart.ValueString := by
    rw [hq]; exact valueString_of_isSet _
  have h5 : (createOrUpdateRequest codec data []).1.HelmChartServiceName =
      data.HelmChartServiceName.ValueString := by
    rw [hq]; exact valueString_of_isSet _
  have h6 : containerGroupPopulated (createOrUpdateRequest codec data []).1 =
      containerGroupConfigured data := by
    unfold containerGroupPopulated containerGroupConfigured
    rw [h1, h2, h3, appended_isSome]
    cases data.ContainerEnvironment.Elements <;> rfl
  have h7 : helmGroupPopulated (createOrUpdateRequest codec data []).1 =
      helmGroupConfigured data := by
    unfold helmGroupPopulated helmGroupConfigured
    rw [h4, h5]
  exact ⟨h1, h2, h3, h4, h5, h6, h7, by rw [h6, h7]⟩

/-- C18 fails as stated: for the configuration that sets no workload field the payload has
neither group populated, and for the configuration that sets both a container image and a
Helm chart it has both. -/
theorem request_groups_not_exclusive :
    containerGroupPopulated (createOrUpdateRequest stubCodec emptyModel []).1 = false ∧
    helmGroupPopulated (createOrUpdateRequest stubCodec emptyModel []).1 = false ∧
    containerGroupPopulated (createOrUpdateRequest stubCodec mixedModel []).1 = true ∧
    helmGroupPopulated (createOrUpdateRequest stubCodec mixedModel []).1 = true :=
  ⟨rfl, rfl, rfl, rfl⟩

/-- Witness of C17: the state `Read` saves for a model with one secret. -/
theorem merge_keeps_secrets_witness :
    ∃ m, (Read (scriptedRemote Script.quiet) stubCodec secretModel
        (scriptedWorld Script.quiet)).State = StateChange.set m ∧
      m.Secrets = TfValue.known
        [NvidiaCloudFunctionResourceSecretModel.mk (TfValue.known "token")
          (TfValue.known "s3cr3t")] :=
  ⟨_, rfl,
   (merge_keeps_secrets (scriptedRemote Script.quiet) stubCodec secretModel scriptedFunction
      none none).2.1 (scriptedWorld Script.quiet) _ rfl⟩

end Reconciler

/-! ## The transport -/

section Transport

variable {α : Type} (Do : HttpRequest → Except String HttpResponse) (NgcApiKey : String)
  (UnmarshalErrorResponse : String → Except String ErrorResponse)

theorem sendRequest_unfold (requestURL method : String)
    (requestBody : Option (Except String String))
    (responseObject : Option (ResponseObject α)) (expectedStatusCode : List (Int × Bool))
    (payload : Option String) (response : HttpResponse)
    (hbody : requestBody = payload.map Except.ok)
    (hdo : Do (buildRequest NgcApiKey requestURL method payload) = Except.ok response) :
    sendRequest Do NgcApiKey UnmarshalErrorResponse requestURL method requestBody responseObject
        expectedStatusCode =
      if !(expected expectedStatusCode response.StatusCode) then
        if response.StatusCode = 401 then
          { object := none, err := some "not authenticated" }
        else
          match UnmarshalErrorResponse response.Body with
          | Except.error _ =>
            { object := none,
              err := some ("failed to parse error response body. Response body: " ++
                response.Body) }
          | Except.ok errResponseObject =>
            if errResponseObject.RequestStatus.StatusDescription ≠ "" then
              { object := none, err := some errResponseObject.RequestStatus.StatusDescription }
            else
              { object := none, err := some errResponseObject.Detail }
      else
        match responseObject with
        | some o => { object := some (o.Unmarshal response.Body).1,
                      err := (o.Unmarshal response.Body).2 }
        | none => { object := none, err := none } := by
  subst hbody
  cases payload with
  | none =>
    simp only [sendRequest, Option.map_none', hdo]
  | some b =>
    simp only [sendRequest, Option.map_some', hdo]

/-- C19. For every response the HTTP client hands back and every map of acceptable status
codes: `sendRequest` returns an error when the status is not a key of the map; when it is
a key, `sendRequest` returns no error if no response object is expected or if the body
decodes into the response object without error. -/
theorem sendRequest_error_iff_status_unexpected (requestURL method : String)
    (requestBody : Option (Except String String))
    (responseObject : Option (ResponseObject α)) (expectedStatusCode : List (Int × Bool))
    (payload : Option String) (response : HttpResponse)
    (hbody : requestBody = payload.map Except.ok)
    (hdo : Do (buildRequest NgcApiKey requestURL method payload) = Except.ok response) :
    (expected expectedStatusCode response.StatusCode = false →
      (sendRequest Do NgcApiKey UnmarshalErrorResponse requestURL method requestBody
        responseObject expectedStatusCode).err ≠ none) ∧
    (expected expectedStatusCode response.StatusCode = true → responseObject = none →
      (sendRequest Do NgcApiKey UnmarshalErrorResponse requestURL method requestBody
        responseObject expectedStatusCode).err = none) ∧
    (expected expectedStatusCode response.StatusCode = true →
      ∀ o, responseObject = some o → (o.Unmarshal response.Body).2 = none →
      (sendRequest Do NgcApiKey UnmarshalErrorResponse requestURL method requestBody
          responseObject expectedStatusCode).err = none ∧
        (sendRequest Do NgcApiKey UnmarshalErrorResponse requestURL method requestBody
          responseObject expectedStatusCode).object = some (o.Unmarshal response.Body).1) ∧
    (expected expectedStatusCode response.StatusCode = true ↔
      ∃ v, (response.StatusCode, v) ∈ expectedStatusCode) := by
  rw [sendRequest_unfold Do NgcApiKey UnmarshalErrorResponse requestURL method requestBody
    responseObject expectedStatusCode payload response hbody hdo]
  refine ⟨?_, ?_, ?_, ?_⟩
  · intro hno
    simp only [hno, Bool.not_false, if_true]
    split_ifs
    · simp
    · split
      · simp
      · split_ifs <;> simp
  · intro hyes hnone
    simp only [hyes, Bool.not_true, Bool.false_eq_true, if_false, hnone]
  · intro hyes o ho hdec
    simp only [hyes, Bool.not_true, Bool.false_eq_true, if_false, ho, hdec, and_self]
  · unfold expected
    simp only [List.any_eq_true, beq_iff_eq, Prod.exists]
    constructor
    · rintro ⟨a, b, hmem, rfl⟩
      exact ⟨b, hmem⟩
    · rintro ⟨v, hv⟩
      exact ⟨_, v, hv, rfl⟩

/-- Witness of C19: a 500 answer to a call that accepts only 204. -/
theorem sendRequest_error_iff_status_unexpected_witness :
    expected [(204, true)] 500 = false ∧
    (sendRequest (α := Unit) (answering { StatusCode := 500, Body := "detail" }) "key"
        stubErrorDecoder "https://api/nvcf/functions/f1/versions/v1" "DELETE" none none
        [(204, true)]).err ≠ none :=
  ⟨rfl,
   (sendRequest_error_iff_status_unexpected (α := Unit)
      (answering { StatusCode := 500, Body := "detail" }) "key" stubErrorDecoder
      "https://api/nvcf/functions/f1/versions/v1" "DELETE" none none [(204, true)] none
      { StatusCode := 500, Body := "detail" } rfl rfl).1 rfl⟩

/-- C20. For a response whose status is not a key of the acceptable map, the error of
`sendRequest` is `not authenticated` when the status is 401, whatever the body;
otherwise, when the body decodes as an error object, it is the object's
`requestStatus.statusDescription` if that is non-empty and else its `detail`; and when
the body does not decode, it is the fixed parse-failure text followed by the body. -/
theorem sendRequest_error_message (requestURL method : String)
    (requestBody : Option (Except String String))
    (responseObject : Option (ResponseObject α)) (expectedStatusCode : List (Int × Bool))
    (payload : Option String) (response : HttpResponse)
    (hbody : requestBody = payload.map Except.ok)
    (hdo : Do (buildRequest NgcApiKey requestURL method payload) = Except.ok response)
    (hno : expected expectedStatusCode response.StatusCode = false) :
    (response.StatusCode = 401 →
      (sendRequest Do NgcApiKey UnmarshalErrorResponse requestURL method requestBody
        responseObject expectedStatusCode).err = some "not authenticated") ∧
    (response.StatusCode ≠ 401 →
      ∀ e, UnmarshalErrorResponse response.Body = Except.ok e →
      (e.RequestStatus.StatusDescription ≠ "" →
        (sendRequest Do NgcApiKey UnmarshalErrorResponse requestURL method requestBody
          responseObject expectedStatusCode).err = some e.RequestStatus.StatusDescription) ∧
      (e.RequestStatus.StatusDescription = "" →
        (sendRequest Do NgcApiKey UnmarshalErrorResponse requestURL method requestBody
          responseObject expectedStatusCode).err = some e.Detail)) ∧
    (response.StatusCode ≠ 401 →
      ∀ x, UnmarshalErrorResponse response.Body = Except.error x →
      (sendRequest Do NgcApiKey UnmarshalErrorResponse requestURL method requestBody
        responseObject expectedStatusCode).err =
        some ("failed to parse error response body. Response body: " ++ response.Body)) ∧
    (sendRequest Do NgcApiKey UnmarshalErrorResponse requestURL method requestBody
      responseObject expectedStatusCode).object = none := by
  rw [sendRequest_unfold Do NgcApiKey UnmarshalErrorResponse requestURL method requestBody
    responseObject expectedStatusCode payload response hbody hdo]
  simp only [hno, Bool.not_false, if_true]
  refine ⟨?_, ?_, ?_, ?_⟩
  · intro h401
    simp only [h401, if_true]
  · intro h401 e he
    simp only [h401, if_false, he]
    constructor
    · intro hne
      simp only [hne, ne_eq, not_false_eq_true, if_true]
    · intro heq
      simp only [heq, ne_eq, not_true_eq_false, if_false]
  · intro h401 x hx
    simp only [h401, if_false, hx]
  · split_ifs
    · rfl
    · split
      · rfl
      · split_ifs <;> rfl

/-- Witness of C20: a 400 answer whose body carries both a status description and a
detail, and a 401 answer. -/
theorem sendRequest_error_message_witness :
    expected [(200, true)] 400 = false ∧
    (sendRequest (α := Unit) (answering { StatusCode := 400, Body := "both" }) "key"
        stubErrorDecoder "https://api/nvcf/functions" "POST" (some (Except.ok "payload")) none
        [(200, true)]).err = some "Invalid function id" :=
  ⟨rfl,
   ((sendRequest_error_message (α := Unit)
      (answering { StatusCode := 400, Body := "both" }) "key" stubErrorDecoder
      "https://api/nvcf/functions" "POST" (some (Except.ok "payload")) none [(200, true)]
      (some "payload") { StatusCode := 400, Body := "both" } rfl rfl rfl).2.1 (by decide)
      _ rfl).1 (by decide)⟩

end Transport

/-! ## The client methods over the transport -/

section Client

variable (c : NVCFClient) (UnmarshalErrorResponse : String → Except String ErrorResponse)

theorem sendRequest_err_of_unexpected_status {α : Type}
    (Do : HttpRequest → Except String HttpResponse) (NgcApiKey : String)
    (UnmarshalErrorResponse : String → Except String ErrorResponse)
    (requestURL method : String) (requestBody : Option (Except String String))
    (responseObject : Option (ResponseObject α)) (expectedStatusCode : List (Int × Bool))
    (payload : Option String) (response : HttpResponse)
    (hbody : requestBody = payload.map Except.ok)
    (hdo : Do (buildRequest NgcApiKey requestURL method payload) = Except.ok response)
    (hno : expected expectedStatusCode response.StatusCode = false) :
    (sendRequest Do NgcApiKey UnmarshalErrorResponse requestURL method requestBody
      responseObject expectedStatusCode).err ≠ none := by
  rw [sendRequest_unfold Do NgcApiKey UnmarshalErrorResponse requestURL method requestBody
    responseObject expectedStatusCode payload response hbody hdo]
  simp only [hno, Bool.not_false, if_true]
  split_ifs
  · simp
  · split
    · simp
    · split_ifs <;> simp

/-- C24. For every endpoint, org and team, `NvcfEndpoint` is the endpoint followed by
`/v2/orgs/` and the org when the team is the empty string, and that followed by `/teams/`
and the team otherwise. -/
theorem nvcfEndpoint_base_path :
    (c.NgcTeam = "" → c.NvcfEndpoint = c.NgcEndpoint ++ "/v2/orgs/" ++ c.NgcOrg) ∧
    (c.NgcTeam ≠ "" →
      c.NvcfEndpoint = c.NgcEndpoint ++ "/v2/orgs/" ++ c.NgcOrg ++ "/teams/" ++ c.NgcTeam) := by
  constructor
  · intro h
    simp [NVCFClient.NvcfEndpoint, h]
  · intro h
    simp [NVCFClient.NvcfEndpoint, h]

/-- Witness of C24: the production endpoint with org `org1`, without team. -/
theorem nvcfEndpoint_base_path_witness :
    (stubClient { StatusCode := 200, Body := "" }).NgcTeam = "" ∧
    (stubClient { StatusCode := 200, Body := "" }).NvcfEndpoint =
      "https://api.ngc.nvidia.com/v2/orgs/org1" :=
  ⟨rfl, (nvcfEndpoint_base_path (stubClient { StatusCode := 200, Body := "" })).1 rfl⟩

/-- C23, as the code has it. When `http.NewRequest` accepts the URL,
`CreateNvidiaCloudFunction` hands the HTTP client exactly one request and returns what
follows from the answer to it: a POST, with the encoded request as body, to
`<base>/nvcf/functions/<functionID>/versions` when the parent function id is non-empty and
to `<base>/nvcf/functions` when it is empty, `<base>` being `NvcfEndpoint`.  The result
depends on the HTTP client only through its answer to that request, an error of the HTTP
client on that request is the error returned, and a 200 answer is decoded into the
response.  The body is the same in both cases.  When `http.NewRequest` rejects the URL,
the method panics whatever the HTTP client is: nothing is sent. -/
theorem create_function_posts_by_parent_id
    (NewRequestSucceeds : String → String → Bool)
    (Encode : CreateNvidiaCloudFunctionRequest → Except String String)
    (responseObject : ResponseObject CreateNvidiaCloudFunctionResponse)
    (functionID : String) (req : CreateNvidiaCloudFunctionRequest) (payload : String)
    (henc : Encode req = Except.ok payload) :
    ∃ url : String,
      (functionID ≠ "" → url = c.NvcfEndpoint ++ "/nvcf/functions/" ++ functionID ++ "/versions") ∧
      (functionID = "" → url = c.NvcfEndpoint ++ "/nvcf/functions") ∧
      (NewRequestSucceeds "POST" url = true →
        ∃ F : Except String HttpResponse → CreateNvidiaCloudFunctionResponse × Option String,
          (∀ e, F (Except.error e) = ({ Function := NvidiaCloudFunctionInfo.zero }, some e)) ∧
          (∀ body, F (Except.ok { StatusCode := 200, Body := body }) =
            ((responseObject.Unmarshal body).1, (responseObject.Unmarshal body).2)) ∧
          ∀ Do : HttpRequest → Except String HttpResponse,
            NVCFClient.CreateNvidiaCloudFunction { c with HttpClient := Do } NewRequestSucceeds
                UnmarshalErrorResponse Encode responseObject functionID req =
              some (F (Do { Method := "POST", URL := url,
                            Header := [("Authorization", "Bearer " ++ c.NgcApiKey),
                                       ("Content-Type", "application/json")],
                            Body := some payload }))) ∧
      (NewRequestSucceeds "POST" url = false →
        ∀ Do : HttpRequest → Except String HttpResponse,
          NVCFClient.CreateNvidiaCloudFunction { c with HttpClient := Do } NewRequestSucceeds
              UnmarshalErrorResponse Encode responseObject functionID req = none) := by
  have hep : ∀ D, NVCFClient.NvcfEndpoint { c with HttpClient := D } = c.NvcfEndpoint := by
    intro D
    rfl
  refine ⟨if functionID ≠ "" then c.NvcfEndpoint ++ "/nvcf/functions/" ++ functionID ++ "/versions"
      else c.NvcfEndpoint ++ "/nvcf/functions", ?_, ?_, ?_, ?_⟩
  · intro h
    simp [h]
  · intro h
    simp [h]
  · intro hnew
    refine ⟨fun answer =>
      match answer with
      | Except.error e => ({ Function := NvidiaCloudFunctionInfo.zero }, some e)
      | Except.ok response =>
        ((Ngc.sendRequest (fun _ => Except.ok response) c.NgcApiKey UnmarshalErrorResponse
            "" "POST" (some (Except.ok payload)) (some responseObject)
            [(200, true)]).object.getD { Function := NvidiaCloudFunctionInfo.zero },
         (Ngc.sendRequest (fun _ => Except.ok response) c.NgcApiKey UnmarshalErrorResponse
            "" "POST" (some (Except.ok payload)) (some responseObject) [(200, true)]).err),
      ?_, ?_, ?_⟩
    · intro e
      rfl
    · intro body
      simp [sendRequest, expected]
    · intro Do
      simp only [NVCFClient.CreateNvidiaCloudFunction, NVCFClient.sendRequest, hep, henc, hnew,
        if_true, Option.map_some', sendRequest, buildRequest]
      split <;> rename_i h <;> simp only [h, Option.getD_none]
  · intro hnew Do
    simp only [NVCFClient.CreateNvidiaCloudFunction, NVCFClient.sendRequest, hep, henc, hnew,
      Bool.false_eq_true, if_false, Option.map_none']

/-- Witness of C23 as amended: a new version of the function `f1`, sent through an HTTP
client that fails with the method and the URL it is given. -/
theorem create_function_posts_by_parent_id_witness :
    stubEncoder CreateNvidiaCloudFunctionRequest.zero = Except.ok "" ∧
    controlFreeURL "POST" "https://api.ngc.nvidia.com/v2/orgs/org1/nvcf/functions/f1/versions" =
      true ∧
    (NVCFClient.CreateNvidiaCloudFunction
      { stubClient { StatusCode := 200, Body := "" } with
        HttpClient := fun request => Except.error (request.Method ++ " " ++ request.URL) }
      controlFreeURL stubErrorDecoder stubEncoder stubFunctionDecoder "f1"
      CreateNvidiaCloudFunctionRequest.zero).map Prod.snd =
      some (some "POST https://api.ngc.nvidia.com/v2/orgs/org1/nvcf/functions/f1/versions") := by
  refine ⟨rfl, by decide, ?_⟩
  obtain ⟨url, h1, _, hF, _⟩ :=
    create_function_posts_by_parent_id (stubClient { StatusCode := 200, Body := "" })
      stubErrorDecoder controlFreeURL stubEncoder stubFunctionDecoder "f1"
      CreateNvidiaCloudFunctionRequest.zero "" rfl
  have hurl := h1 (by decide)
  subst hurl
  obtain ⟨F, hE, _, hDo⟩ := hF (by decide)
  have h := hDo (fun request => Except.error (request.Method ++ " " ++ request.URL))
  exact (congrArg (Option.map Prod.snd) h).trans (by rw [hE]; rfl)

/-- C23 fails as stated: for the non-empty parent function id that holds a line feed
between `f` and `1`, `http.NewRequest` rejects the URL and `CreateNvidiaCloudFunction`
panics, also with an HTTP client that would answer 200; no POST is sent.  For the id `f1`
the same client is reached and its answer decoded. -/
theorem create_function_panics_on_unparsable_id :
    "f\n1" ≠ "" ∧
    controlFreeURL "POST"
      ((stubClient { StatusCode := 200, Body := "function" }).NvcfEndpoint ++
        "/nvcf/functions/" ++ "f\n1" ++ "/versions") = false ∧
    NVCFClient.CreateNvidiaCloudFunction (stubClient { StatusCode := 200, Body := "function" })
      controlFreeURL stubErrorDecoder stubEncoder stubFunctionDecoder "f\n1"
      CreateNvidiaCloudFunctionRequest.zero = none ∧
    NVCFClient.CreateNvidiaCloudFunction (stubClient { StatusCode := 200, Body := "function" })
      controlFreeURL stubErrorDecoder stubEncoder stubFunctionDecoder "f1"
      CreateNvidiaCloudFunctionRequest.zero = some ({ Function := scriptedFunction }, none) :=
  ⟨by decide, by decide, rfl, rfl⟩

/-- C21, as the code has it. A 404 answer to the deployment read is an acceptable status,
so `ReadNvidiaCloudFunctionDeployment` decodes its body like that of a 200 answer: it
returns the response object as the decoder leaves it together with the decoder's error.
Hence, for a body that decodes without error into an object without deployment, it returns
no error and the empty deployment (no specifications, empty status). -/
theorem read_deployment_404_decodes_body
    (responseObject : ResponseObject ReadNvidiaCloudFunctionDeploymentResponse)
    (functionID functionVersionID : String) (response : HttpResponse)
    (hdo : c.HttpClient
      { Method := "GET",
        URL := c.NvcfEndpoint ++ "/nvcf/deployments/functions/" ++ functionID ++ "/versions/" ++
          functionVersionID,
        Header := [("Authorization", "Bearer " ++ c.NgcApiKey),
                   ("Content-Type", "application/json")],
        Body := none } = Except.ok response)
    (h404 : response.StatusCode = 404) :
    c.ReadNvidiaCloudFunctionDeployment UnmarshalErrorResponse responseObject functionID
        functionVersionID =
      ((responseObject.Unmarshal response.Body).1, (responseObject.Unmarshal response.Body).2) ∧
    (responseObject.Unmarshal response.Body =
        ({ Deployment := NvidiaCloudFunctionDeployment.zero }, none) →
      (c.ReadNvidiaCloudFunctionDeployment UnmarshalErrorResponse responseObject functionID
        functionVersionID).2 = none ∧
      (c.ReadNvidiaCloudFunctionDeployment UnmarshalErrorResponse responseObject functionID
        functionVersionID).1.Deployment.DeploymentSpecifications = none ∧
      (c.ReadNvidiaCloudFunctionDeployment UnmarshalErrorResponse responseObject functionID
        functionVersionID).1.Deployment.FunctionStatus = "") := by
  have h : c.ReadNvidiaCloudFunctionDeployment UnmarshalErrorResponse responseObject functionID
        functionVersionID =
      ((responseObject.Unmarshal response.Body).1, (responseObject.Unmarshal response.Body).2) := by
    have hdo2 : c.HttpClient (buildRequest c.NgcApiKey (c.NvcfEndpoint ++
        "/nvcf/deployments/functions/" ++ functionID ++ "/versions/" ++ functionVersionID)
        "GET" none) = Except.ok response := hdo
    unfold NVCFClient.ReadNvidiaCloudFunctionDeployment
    simp only [sendRequest_unfold c.HttpClient c.NgcApiKey UnmarshalErrorResponse _ "GET" none
      (some responseObject) [(200, true), (404, true)] none response rfl hdo2]
    simp [expected, h404]
  refine ⟨h, ?_⟩
  intro hdec
  rw [h, hdec]
  exact ⟨rfl, rfl, rfl⟩

/-- Witness of C21: a 404 answer whose body is an error object. -/
theorem read_deployment_404_decodes_body_witness :
    (NVCFClient.ReadNvidiaCloudFunctionDeployment (stubClient { StatusCode := 404, Body := "detail" })
      stubErrorDecoder stubDeploymentDecoder "f1" "v1").2 = none :=
  ((read_deployment_404_decodes_body (stubClient { StatusCode := 404, Body := "detail" })
      stubErrorDecoder stubDeploymentDecoder "f1" "v1" { StatusCode := 404, Body := "detail" }
      rfl rfl).2 rfl).1

/-- Counterexample to C21 as stated: a 404 answer with an empty body, which does not decode,
makes `ReadNvidiaCloudFunctionDeployment` return the decoder's error. -/
theorem read_deployment_404_undecodable_body :
    (NVCFClient.ReadNvidiaCloudFunctionDeployment (stubClient { StatusCode := 404, Body := "" })
      stubErrorDecoder stubDeploymentDecoder "f1" "v1").2 =
      some "unexpected end of JSON input" := by
  rfl

end Client

/-! ## The lifecycle operations over the client -/

section Lifecycle

variable {σ : Type} (env : Remote σ) (codec : JsonCodec)

theorem updateFunctionAuthorizedParties_calls_append (functionID versionID : String)
    (raw : TfValue (List NvidiaCloudFunctionResourceAuthorizedPartyModel))
    (diag : Diagnostics) (w : World σ) :
    ∃ auth, (updateFunctionAuthorizedParties env functionID versionID raw diag w).world.calls =
        w.calls ++ auth ∧ ∀ c ∈ auth, c.isAuthorizationCall = true := by
  have h0 : ∃ auth, w.calls = w.calls ++ auth ∧ ∀ c ∈ auth, c.isAuthorizationCall = true :=
    ⟨[], by simp, by simp⟩
  have h1 : ∀ req, ∃ auth, (AuthorizeAccountsToInvokeFunction env w functionID versionID
      req).world.calls = w.calls ++ auth ∧ ∀ c ∈ auth, c.isAuthorizationCall = true :=
    fun req => ⟨[Call.authorizeParties functionID versionID req], rfl,
      by simp [Call.isAuthorizationCall]⟩
  have h2 : ∃ auth, (GetFunctionAuthorization env w functionID versionID).world.calls =
      w.calls ++ auth ∧ ∀ c ∈ auth, c.isAuthorizationCall = true :=
    ⟨[Call.getAuthorization functionID versionID], rfl, by simp [Call.isAuthorizationCall]⟩
  have h3 : ∃ auth, (UnAuthorizeAllExtraAccountsToInvokeFunction env
      (GetFunctionAuthorization env w functionID versionID).world functionID
      versionID).world.calls = w.calls ++ auth ∧ ∀ c ∈ auth, c.isAuthorizationCall = true :=
    ⟨[Call.getAuthorization functionID versionID, Call.unauthorizeAllParties functionID versionID],
      by simp [GetFunctionAuthorization, UnAuthorizeAllExtraAccountsToInvokeFunction, World.issue],
      by simp [Call.isAuthorizationCall]⟩
  unfold updateFunctionAuthorizedParties
  dsimp only
  split_ifs <;> (try split) <;> (try split) <;>
    first | exact h0 | exact h1 _ | exact h2 | exact h3

theorem waiting_calls_append (ctx : Context) (functionID functionVersionId : String)
    (fuel : Nat) (w : World σ) (o : Outcome σ)
    (h : WaitingDeploymentCompleted env ctx functionID functionVersionId fuel w = some o) :
    ∃ rest, o.world.calls = w.calls ++ rest ∧ ∀ c ∈ rest, c.isDeploymentCall = true := by
  induction fuel generalizing w with
  | zero => simp [WaitingDeploymentCompleted] at h
  | succ fuel ih =>
    rw [WaitingDeploymentCompleted] at h
    have hr : ∃ rest, (ReadNvidiaCloudFunctionDeployment env w functionID
        functionVersionId).world.calls = w.calls ++ rest ∧
        ∀ c ∈ rest, c.isDeploymentCall = true :=
      ⟨[Call.readDeployment functionID functionVersionId], rfl, by simp [Call.isDeploymentCall]⟩
    split at h
    · simp only [Option.some.injEq] at h
      subst h
      exact hr
    · split at h
      · simp only [Option.some.injEq] at h
        subst h
        exact hr
      · split at h
        · split at h
          · simp only [Option.some.injEq] at h
            subst h
            exact hr
          · obtain ⟨rest, h1, h2⟩ := ih _ h
            refine ⟨Call.readDeployment functionID functionVersionId :: rest, ?_, ?_⟩
            · rw [h1]
              simp [ReadNvidiaCloudFunctionDeployment, World.issue]
            · intro c hc
              rcases List.mem_cons.1 hc with rfl | hc
              · rfl
              · exact h2 c hc
        · simp only [Option.some.injEq] at h
          subst h
          exact hr

theorem createDeployment_calls_append (ctx : Context) (fuel : Nat)
    (data : NvidiaCloudFunctionResourceModel) (diag : Diagnostics)
    (function : NvidiaCloudFunctionInfo) (w : World σ)
    (d : Ret σ NvidiaCloudFunctionDeployment)
    (h : createDeployment env codec ctx fuel data diag function w = some d) :
    ∃ rest, d.world.calls = w.calls ++ rest ∧ ∀ c ∈ rest, c.isDeploymentCall = true := by
  unfold createDeployment at h
  dsimp only at h
  split at h
  · simp only [Option.some.injEq] at h
    subst h
    exact ⟨[], by simp, by simp⟩
  · split_ifs at h
    · simp only [Option.some.injEq] at h
      subst h
      exact ⟨[], by simp, by simp⟩
    · split at h
      · simp only [Option.some.injEq] at h
        subst h
        exact ⟨[_], rfl, by simp [Call.isDeploymentCall]⟩
      · split at h
        · exact absurd h (by simp)
        · rename_i specs _ _ _ _ _ o ho
          obtain ⟨rest, h1, h2⟩ := waiting_calls_append env ctx _ _ fuel _ o ho
          have hall : ∃ rest, o.world.calls = w.calls ++ rest ∧
              ∀ c ∈ rest, c.isDeploymentCall = true := by
            refine ⟨Call.createDeployment function.ID function.VersionID
              { DeploymentSpecifications := specs } :: rest, ?_, ?_⟩
            · rw [h1]
              simp only [CreateNvidiaCloudFunctionDeployment, World.issue, List.append_assoc,
                List.singleton_append]
            · intro c hc
              rcases List.mem_cons.1 hc with rfl | hc
              · rfl
              · exact h2 c hc
          split at h <;>
          · simp only [Option.some.injEq] at h
            subst h
            exact hall

/-- C29. In `Create`, once `createFunction` has succeeded, the calls are the function
creation, then the calls of the authorized-parties reconciliation, then everything else:
every call of the reconciliation block is an authorization call and none is a deployment
call, and every later call is a deployment call or a function-version delete.  If the
reconciliation reports an error, `Create` returns right after it with that error: the
trace ends with the reconciliation block, so no `createDeployment`, no deployment read
of the waiter and no `deleteFunctionVersion` is issued, and no state is saved. -/
theorem create_reconciles_before_deployment (ctx : Context) (fuel : Nat)
    (data : NvidiaCloudFunctionResourceModel) (w : World σ)
    (ht : (data.Timeouts.Create (DEFAULT_TIMEOUT_SEC * Second)).2 = [])
    (hc : (createdFunction env codec data w).err = none) :
    ∃ auth : List Call,
      (createdAuthorization env codec data w).world.calls =
        w.calls ++ Call.createFunction data.FunctionID.ValueString
          (createOrUpdateRequest codec data []).1 :: auth ∧
      (∀ c ∈ auth, c.isAuthorizationCall = true ∧ c.isDeploymentCall = false) ∧
      (enoughFuel (data.Timeouts.Create (DEFAULT_TIMEOUT_SEC * Second)).1 ≤ fuel →
        ∃ r rest, Create env codec ctx fuel data w = some r ∧
          r.world.calls = w.calls ++ Call.createFunction data.FunctionID.ValueString
            (createOrUpdateRequest codec data []).1 :: auth ++ rest ∧
          ∀ c ∈ rest, c.isAuthorizationCall = false ∧
            (c.isDeploymentCall = true ∨ c.isDeleteFunctionVersion = true)) ∧
      (HasError (createdAuthorization env codec data w).diags = true →
        ∃ r, Create env codec ctx fuel data w = some r ∧
          r.Diagnostics = (createdAuthorization env codec data w).diags ∧
          r.State = StateChange.untouched ∧
          r.world.calls = w.calls ++ Call.createFunction data.FunctionID.ValueString
            (createOrUpdateRequest codec data []).1 :: auth ∧
          r.world.calls.filter Call.isDeploymentCall = w.calls.filter Call.isDeploymentCall ∧
          r.world.calls.filter Call.isDeleteFunctionVersion =
            w.calls.filter Call.isDeleteFunctionVersion) := by
  obtain ⟨auth, hauth, hall⟩ := updateFunctionAuthorizedParties_calls_append env
    (createdFunction env codec data w).resp.Function.ID
    (createdFunction env codec data w).resp.Function.VersionID data.AuthorizedParties []
    (createdFunction env codec data w).world
  have hcalls : (createdAuthorization env codec data w).world.calls =
      w.calls ++ Call.createFunction data.FunctionID.ValueString
        (createOrUpdateRequest codec data []).1 :: auth := by
    unfold createdAuthorization
    rw [hauth]
    simp [createdFunction, CreateNvidiaCloudFunction, World.issue]
  have hkind : ∀ c : Call, c.isAuthorizationCall = true →
      c.isDeploymentCall = false ∧ c.isDeleteFunctionVersion = false := by
    intro c hc
    cases c <;> simp_all [Call.isAuthorizationCall, Call.isDeploymentCall,
      Call.isDeleteFunctionVersion]
  have hdep : ∀ c : Call, c.isDeploymentCall = true → c.isAuthorizationCall = false := by
    intro c hc
    cases c <;> simp_all [Call.isAuthorizationCall, Call.isDeploymentCall]
  have hdel : ∀ c : Call, c.isDeleteFunctionVersion = true → c.isAuthorizationCall = false := by
    intro c hc
    cases c <;> simp_all [Call.isAuthorizationCall, Call.isDeleteFunctionVersion]
  have hnil : ∀ c ∈ ([] : List Call), c.isAuthorizationCall = false ∧
      (c.isDeploymentCall = true ∨ c.isDeleteFunctionVersion = true) := by simp
  refine ⟨auth, hcalls, fun c hc => ⟨hall c hc, (hkind c (hall c hc)).1⟩, ?_, ?_⟩
  · intro hfuel
    obtain ⟨r, hr0⟩ := Create_returns env codec ctx fuel data w hfuel
    refine ⟨r, ?_⟩
    have hr := hr0
    rw [Create_unfold env codec ctx fuel data w ht, hc] at hr
    dsimp only at hr
    split_ifs at hr
    · cases hr
      exact ⟨[], hr0, by rw [hcalls]; simp, hnil⟩
    · cases hr
      exact ⟨[], hr0, by rw [hcalls]; simp, hnil⟩
    · split at hr
      · exact absurd hr (by simp)
      · rename_i d hd
        obtain ⟨rest, hrest, hrall⟩ := createDeployment_calls_append env codec _ fuel data _ _ _
          d hd
        split_ifs at hr
        · cases hr
          refine ⟨rest ++ (if data.KeepFailedResource.ValueBool then []
            else [Call.deleteFunctionVersion (createdFunction env codec data w).resp.Function.ID
              (createdFunction env codec data w).resp.Function.VersionID]), hr0, ?_, ?_⟩
          · rw [deleteFailedDeploymentVersion_calls, hrest, hcalls]
            simp
          · intro c hc
            rcases List.mem_append.1 hc with hc | hc
            · exact ⟨hdep c (hrall c hc), Or.inl (hrall c hc)⟩
            · split_ifs at hc
              · simp at hc
              · simp only [List.mem_singleton] at hc
                subst hc
                exact ⟨rfl, Or.inr rfl⟩
        · cases hr
          refine ⟨rest, hr0, ?_, ?_⟩
          · rw [hrest, hcalls]
          · intro c hc
            exact ⟨hdep c (hrall c hc), Or.inl (hrall c hc)⟩
  · intro herr
    rw [Create_unfold env codec ctx fuel data w ht, hc]
    dsimp only
    rw [if_pos herr]
    refine ⟨_, rfl, rfl, rfl, hcalls, ?_, ?_⟩
    · exact createdAuthorization_calls_filter env codec Call.isDeploymentCall data w
        (fun _ _ => rfl) (fun _ _ _ => rfl) (fun _ _ => rfl) (fun _ _ => rfl)
    · exact createdAuthorization_calls_filter env codec Call.isDeleteFunctionVersion data w
        (fun _ _ => rfl) (fun _ _ _ => rfl) (fun _ _ => rfl) (fun _ _ => rfl)

/-- Witness of C29: the authorization query of the remote fails while the plan asks for a
deployment. -/
theorem create_reconciles_before_deployment_witness :
    (createdFunction (scriptedRemote scriptAuthorizationFails) stubCodec deployingPlan
      (scriptedWorld scriptAuthorizationFails)).err = none ∧
    (Create (scriptedRemote scriptAuthorizationFails) stubCodec Background 0 deployingPlan
        (scriptedWorld scriptAuthorizationFails)).map
      (fun r => (r.Diagnostics, r.State,
        r.world.calls.filter Call.isDeploymentCall,
        r.world.calls.filter Call.isDeleteFunctionVersion)) =
      some ([Diagnostic.mk "Failed to list authorized parties" "boom"],
        StateChange.untouched, [], []) := by
  refine ⟨rfl, ?_⟩
  obtain ⟨auth, _, _, _, h⟩ :=
    create_reconciles_before_deployment (scriptedRemote scriptAuthorizationFails) stubCodec
      Background 0 deployingPlan (scriptedWorld scriptAuthorizationFails) rfl rfl
  obtain ⟨r, hr, hd, hs, _, h1, h2⟩ := h rfl
  rw [hr]
  simp only [Option.map_some', hd, hs, h1, h2]
  rfl

/-- C22, as the code has it. In `Update` with an empty planned specification list (and a
reconciliation without error), the deployment delete is issued as the last call and the
state merged from the function and no deployment is saved whatever the delete returns.
An error of the delete call is reported as `Failed to delete Cloud Function Deployment`
followed by the planned version id.  The diagnostics are that error, if any, followed by
those of the merge: `Update` reports no error exactly when the delete call returns none
and the merge reports none, as when no element is repeated in the slices of the replies
that it turns into sets.  The client accepts only status 200 for the delete call, so every
other answer of the remote, a 404 for an absent deployment included, is such an error. -/
theorem update_reports_failed_deployment_delete (ctx : Context) (fuel : Nat)
    (plan state : NvidiaCloudFunctionResourceModel) (w : World σ)
    (ht : (plan.Timeouts.Update (DEFAULT_TIMEOUT_SEC * Second)).2 = [])
    (hempty : plan.DeploymentSpecifications.Elements = [])
    (ha : HasError (updatedAuthorization env plan state w).diags = false) :
    (∃ r, Update env codec ctx fuel plan state w = some r ∧
      r.State = StateChange.set (updateNvidiaCloudFunctionResourceModelBaseOnResponse codec
        plan (refetchedFunction env plan state w).resp.Function none
        (some (updatedAuthorization env plan state w).val)) ∧
      r.world.calls = (updatedAuthorization env plan state w).world.calls ++
        [Call.deleteDeployment state.Id.ValueString state.VersionID.ValueString] ∧
      ((env.deleteDeployment (updatedAuthorization env plan state w).world.remote
          state.Id.ValueString state.VersionID.ValueString).err = none →
        r.Diagnostics = updateNvidiaCloudFunctionResourceModelBaseOnResponseDiagnostics
          (refetchedFunction env plan state w).resp.Function
          (some (updatedAuthorization env plan state w).val) [] ∧
        (withoutRepeatedElements (refetchedFunction env plan state w).resp.Function
            (some (updatedAuthorization env plan state w).val) → r.Diagnostics = [])) ∧
      (∀ e, (env.deleteDeployment (updatedAuthorization env plan state w).world.remote
          state.Id.ValueString state.VersionID.ValueString).err = some e →
        r.Diagnostics =
          Diagnostic.mk
              ("Failed to delete Cloud Function Deployment " ++ plan.VersionID.ValueString) e ::
            updateNvidiaCloudFunctionResourceModelBaseOnResponseDiagnostics
              (refetchedFunction env plan state w).resp.Function
              (some (updatedAuthorization env plan state w).val) [] ∧
        HasError r.Diagnostics = true ∧
        (withoutRepeatedElements (refetchedFunction env plan state w).resp.Function
            (some (updatedAuthorization env plan state w).val) →
          r.Diagnostics = [Diagnostic.mk
            ("Failed to delete Cloud Function Deployment " ++ plan.VersionID.ValueString) e]))) ∧
    (∀ (c : NVCFClient) (UnmarshalErrorResponse : String → Except String ErrorResponse)
      (responseObject : ResponseObject DeleteNvidiaCloudFunctionDeploymentResponse)
      (functionID functionVersionID : String) (response : HttpResponse),
      c.HttpClient
        { Method := "DELETE",
          URL := c.NvcfEndpoint ++ "/nvcf/deployments/functions/" ++ functionID ++
            "/versions/" ++ functionVersionID,
          Header := [("Authorization", "Bearer " ++ c.NgcApiKey),
                     ("Content-Type", "application/json")],
          Body := none } = Except.ok response →
      response.StatusCode ≠ 200 →
      (c.DeleteNvidiaCloudFunctionDeployment UnmarshalErrorResponse responseObject functionID
        functionVersionID).2 ≠ none) := by
  constructor
  · have hlen : (plan.DeploymentSpecifications.Elements.length == 0) = true := by simp [hempty]
    have hd := (hasError_eq_false_iff _).1 ha
    rw [Update_unfold env codec ctx fuel plan state w ht]
    simp only [ha, Bool.false_eq_true, if_false, hlen, if_true]
    refine ⟨_, rfl, rfl, rfl, ?_, ?_⟩
    · intro hnone
      have : (DeleteNvidiaCloudFunctionDeployment env (updatedAuthorization env plan state w).world
          state.Id.ValueString state.VersionID.ValueString).err = none := hnone
      have hdiag : updateNvidiaCloudFunctionResourceModelBaseOnResponseDiagnostics
            (refetchedFunction env plan state w).resp.Function
            (some (updatedAuthorization env plan state w).val)
            (match (DeleteNvidiaCloudFunctionDeployment env
                (updatedAuthorization env plan state w).world state.Id.ValueString
                state.VersionID.ValueString).err with
              | some e =>
                AddError (updatedAuthorization env plan state w).diags
                  ("Failed to delete Cloud Function Deployment " ++ plan.VersionID.ValueString) e
              | none => (updatedAuthorization env plan state w).diags) =
          updateNvidiaCloudFunctionResourceModelBaseOnResponseDiagnostics
            (refetchedFunction env plan state w).resp.Function
            (some (updatedAuthorization env plan state w).val) [] := by
        rw [this, hd]
      refine ⟨hdiag, fun hrep => ?_⟩
      show updateNvidiaCloudFunctionResourceModelBaseOnResponseDiagnostics _ _ _ = _
      rw [hdiag, mergeDiagnostics_of_withoutRepeatedElements _ _ [] hrep]
    · intro e hsome
      have : (DeleteNvidiaCloudFunctionDeployment env (updatedAuthorization env plan state w).world
          state.Id.ValueString state.VersionID.ValueString).err = some e := hsome
      have hdiag : updateNvidiaCloudFunctionResourceModelBaseOnResponseDiagnostics
            (refetchedFunction env plan state w).resp.Function
            (some (updatedAuthorization env plan state w).val)
            (match (DeleteNvidiaCloudFunctionDeployment env
                (updatedAuthorization env plan state w).world state.Id.ValueString
                state.VersionID.ValueString).err with
              | some e =>
                AddError (updatedAuthorization env plan state w).diags
                  ("Failed to delete Cloud Function Deployment " ++ plan.VersionID.ValueString) e
              | none => (updatedAuthorization env plan state w).diags) =
          Diagnostic.mk
              ("Failed to delete Cloud Function Deployment " ++ plan.VersionID.ValueString) e ::
            updateNvidiaCloudFunctionResourceModelBaseOnResponseDiagnostics
              (refetchedFunction env plan state w).resp.Function
              (some (updatedAuthorization env plan state w).val) [] := by
        rw [this, hd, mergeDiagnostics_append]
        rfl
      refine ⟨hdiag, ?_, fun hrep => ?_⟩
      · show HasError (updateNvidiaCloudFunctionResourceModelBaseOnResponseDiagnostics _ _ _)
          = true
        rw [hdiag]
        rfl
      · show updateNvidiaCloudFunctionResourceModelBaseOnResponseDiagnostics _ _ _ = _
        rw [hdiag, mergeDiagnostics_of_withoutRepeatedElements _ _ [] hrep]
  · intro c UnmarshalErrorResponse responseObject functionID functionVersionID response hdo hne
    have hdo2 : c.HttpClient (buildRequest c.NgcApiKey (c.NvcfEndpoint ++
        "/nvcf/deployments/functions/" ++ functionID ++ "/versions/" ++ functionVersionID)
        "DELETE" none) = Except.ok response := hdo
    have hexp : expected [(200, true)] response.StatusCode = false := by
      simp [expected, Ne.symm hne]
    exact sendRequest_err_of_unexpected_status c.HttpClient c.NgcApiKey
      UnmarshalErrorResponse _ "DELETE" none (some responseObject) [(200, true)] none response rfl
      hdo2 hexp

/-- Witness of C22 as amended: the remote answers the deployment delete with 200 and the
JSON of the function. -/
theorem update_reports_failed_deployment_delete_witness :
    undeployingPlan.DeploymentSpecifications.Elements = [] ∧
    (Update (deleteOverHttp (stubClient { StatusCode := 200, Body := "function" }) Script.quiet)
        stubCodec Background 0 undeployingPlan deployedState (scriptedWorld Script.quiet)).map
      (fun r => r.Diagnostics) = some [] := by
  refine ⟨rfl, ?_⟩
  obtain ⟨r, hr, _, _, hnone, _⟩ :=
    (update_reports_failed_deployment_delete
      (deleteOverHttp (stubClient { StatusCode := 200, Body := "function" }) Script.quiet)
      stubCodec Background 0 undeployingPlan deployedState (scriptedWorld Script.quiet)
      rfl rfl rfl).1
  rw [hr]
  exact congrArg some ((hnone rfl).1.trans rfl)

/-- Counterexample to C22 as stated: the remote answers the deployment delete with 404 and
an error body whose detail is `Not found`; `Update` reports the failed delete as an error
(and saves the state). -/
theorem update_reports_absent_deployment_as_error :
    (Update (deleteOverHttp (stubClient { StatusCode := 404, Body := "detail" }) Script.quiet)
        stubCodec Background 0 undeployingPlan deployedState (scriptedWorld Script.quiet)).map
      (fun r => (r.world.calls, r.Diagnostics)) =
      some ([Call.getFunctionVersion "f1" "v1", Call.getAuthorization "f1" "v1",
             Call.deleteDeployment "f1" "v1"],
            [Diagnostic.mk "Failed to delete Cloud Function Deployment v1" "Not found"]) ∧
    ∃ r m, Update (deleteOverHttp (stubClient { StatusCode := 404, Body := "detail" })
        Script.quiet) stubCodec Background 0 undeployingPlan deployedState
        (scriptedWorld Script.quiet) = some r ∧ r.State = StateChange.set m :=
  ⟨rfl, _, _, rfl, rfl⟩

/-- C28. For a configuration whose secrets are known, the function-creation payload holds
one entry per secret whose value is a non-empty string, in the order of the configuration:
the entry has the secret's name, and its value is the parsed JSON value when the string
parses and the JSON string holding the raw text when it does not; secrets with the empty
value have no entry; and building the payload adds no diagnostic, also when a value does
not parse. -/
theorem request_carries_secrets (data : NvidiaCloudFunctionResourceModel)
    (secrets : List NvidiaCloudFunctionResourceSecretModel)
    (hs : data.Secrets = TfValue.known secrets) :
    (createOrUpdateRequest codec data []).2 = [] ∧
    List.Forall₂
      (fun (v : NvidiaCloudFunctionResourceSecretModel) (entry : NvidiaCloudFunctionSecret) =>
        entry.Name = v.Name.ValueString ∧
        (∀ j, codec.Unmarshal v.Value.ValueString = Except.ok j → entry.Value = j) ∧
        (∀ e, codec.Unmarshal v.Value.ValueString = Except.error e →
          entry.Value = JsonValue.str v.Value.ValueString))
      (secrets.filter (fun v => decide (v.Value.ValueString ≠ "")))
      ((createOrUpdateRequest codec data []).1.Secrets.getD []) := by
  refine ⟨createOrUpdateRequest_diags codec data, ?_⟩
  have hreq : (createOrUpdateRequest codec data []).1.Secrets =
      appended (secrets.filterMap (secretEntry codec)) := by
    have hn : HasError [] = false := rfl
    unfold createOrUpdateRequest
    simp only [append_elementsAs_of_isSet, hn, Bool.and_false, Bool.false_eq_true, if_false, hs]
    rfl
  have hget : ∀ xs : List NvidiaCloudFunctionSecret, (appended xs).getD [] = xs := by
    intro xs
    cases xs <;> rfl
  rw [hreq, hget]
  clear hreq hs
  induction secrets with
  | nil => exact List.Forall₂.nil
  | cons v rest ih =>
    by_cases hv : v.Value.ValueString = ""
    · have h1 : secretEntry codec v = none := by simp [secretEntry, hv]
      simp only [List.filterMap_cons, h1, List.filter_cons, hv, ne_eq, not_true_eq_false,
        decide_False, Bool.false_eq_true, if_false]
      exact ih
    · rcases hu : codec.Unmarshal v.Value.ValueString with e | j
      · have h1 : secretEntry codec v =
            some { Name := v.Name.ValueString, Value := JsonValue.str v.Value.ValueString } := by
          simp [secretEntry, hv, hu]
        simp only [List.filterMap_cons, h1, List.filter_cons, hv, ne_eq, not_false_eq_true,
          decide_True, if_true]
        refine List.Forall₂.cons ⟨rfl, ?_, ?_⟩ ih
        · intro j hj
          rw [hu] at hj
          cases hj
        · intro _ _
          rfl
      · have h1 : secretEntry codec v = some { Name := v.Name.ValueString, Value := j } := by
          simp [secretEntry, hv, hu]
        simp only [List.filterMap_cons, h1, List.filter_cons, hv, ne_eq, not_false_eq_true,
          decide_True, if_true]
        refine List.Forall₂.cons ⟨rfl, ?_, ?_⟩ ih
        · intro j2 hj
          rw [hu] at hj
          cases hj
          rfl
        · intro e he
          rw [hu] at he
          cases he

/-- Witness of C28: a secret that is not JSON, one that parses and one that is empty. -/
theorem request_carries_secrets_witness :
    (createOrUpdateRequest strictCodec secretsModel []).2 = [] ∧
    (createOrUpdateRequest strictCodec secretsModel []).1.Secrets =
      some [{ Name := "raw", Value := JsonValue.str "not json" },
            { Name := "parsed", Value := JsonValue.str "true" }] :=
  ⟨(request_carries_secrets strictCodec secretsModel _ rfl).1, rfl⟩

end Lifecycle

/-! ## The provider, the import and the data source -/

section Provider

theorem splitChars_ne_nil (sep : Char) (s : List Char) : splitChars sep s ≠ [] := by
  induction s with
  | nil => simp [splitChars]
  | cons c cs ih =>
    unfold splitChars
    split_ifs
    · simp
    · split
      · simp
      · simp

theorem splitChars_of_not_mem (sep : Char) (s : List Char) (h : sep ∉ s) :
    splitChars sep s = [s] := by
  induction s with
  | nil => rfl
  | cons c cs ih =>
    have hc : c ≠ sep := fun e => h (by simp [e])
    have hcs : sep ∉ cs := fun e => h (by simp [e])
    simp [splitChars, hc, ih hcs]

theorem splitChars_append (sep : Char) (a b : List Char) (h : sep ∉ a) :
    splitChars sep (a ++ sep :: b) = a :: splitChars sep b := by
  induction a with
  | nil => simp [splitChars]
  | cons c cs ih =>
    have hc : c ≠ sep := fun e => h (by simp [e])
    have hcs : sep ∉ cs := fun e => h (by simp [e])
    simp [splitChars, hc, ih hcs]

theorem stringsSplit_pair (a b : String) (ha : ',' ∉ a.toList) (hb : ',' ∉ b.toList) :
    stringsSplit (a ++ "," ++ b) ',' = [a, b] := by
  have hl : (a ++ "," ++ b).toList = a.toList ++ ',' :: b.toList := by
    simp [String.toList]
  unfold stringsSplit
  rw [hl, splitChars_append _ _ _ ha, splitChars_of_not_mem _ _ hb]
  rfl

theorem ImportState_unfold (Quote : String → String) (ID : String) :
    ImportState Quote ID =
      match stringsSplit ID ',' with
      | [a, b] =>
        if a = "" ∨ b = "" then
          { Diagnostics := [Diagnostic.mk "Unexpected Import Identifier"
              ("Expected import identifier with format: function_id,version_id. Got: " ++
                Quote ID)],
            id := none, version_id := none }
        else { Diagnostics := [], id := some a, version_id := some b }
      | _ =>
        { Diagnostics := [Diagnostic.mk "Unexpected Import Identifier"
            ("Expected import identifier with format: function_id,version_id. Got: " ++
              Quote ID)],
          id := none, version_id := none } := by
  unfold ImportState
  generalize stringsSplit ID ',' = parts
  match parts with
  | [] => simp [HasError, AddError]
  | [a] => simp [HasError, AddError]
  | [a, b] =>
    by_cases ha : a = ""
    · simp [HasError, AddError, ha]
    · by_cases hb : b = ""
      · simp [HasError, AddError, ha, hb]
      · simp [HasError, AddError, ha, hb]
  | a :: b :: c :: rest => simp [HasError, AddError]

/-- C25. `ImportState` accepts an identifier (reports no error) exactly when splitting it
on the comma yields exactly two parts that are both non-empty; it then sets `id` to the
first part and `version_id` to the second, so that importing the identifier made of a
non-empty function id, a comma and a non-empty version id, neither holding a comma,
recovers that pair; when it rejects, it reports one error and sets neither attribute. -/
theorem importState_accepts_two_parts (Quote : String → String) (ID : String) :
    (HasError (ImportState Quote ID).Diagnostics = false ↔
      ∃ a b, stringsSplit ID ',' = [a, b] ∧ a ≠ "" ∧ b ≠ "") ∧
    (∀ a b, stringsSplit ID ',' = [a, b] → a ≠ "" → b ≠ "" →
      ImportState Quote ID = { Diagnostics := [], id := some a, version_id := some b }) ∧
    (∀ id versionId : String, id ≠ "" → versionId ≠ "" →
      ',' ∉ id.toList → ',' ∉ versionId.toList →
      ImportState Quote (id ++ "," ++ versionId) =
        { Diagnostics := [], id := some id, version_id := some versionId }) ∧
    (HasError (ImportState Quote ID).Diagnostics = true →
      (ImportState Quote ID).Diagnostics.length = 1 ∧
      (ImportState Quote ID).id = none ∧ (ImportState Quote ID).version_id = none) := by
  have hacc : ∀ (I a b : String), stringsSplit I ',' = [a, b] → a ≠ "" → b ≠ "" →
      ImportState Quote I = { Diagnostics := [], id := some a, version_id := some b } := by
    intro I a b hsplit ha hb
    rw [ImportState_unfold, hsplit]
    simp [ha, hb]
  refine ⟨?_, hacc ID, ?_, ?_⟩
  · constructor
    · intro h
      rw [ImportState_unfold] at h
      split at h
      · rename_i a b hsplit
        split_ifs at h with hab
        · simp [HasError] at h
        · exact ⟨a, b, hsplit, fun e => hab (Or.inl e), fun e => hab (Or.inr e)⟩
      · simp [HasError] at h
    · rintro ⟨a, b, hsplit, ha, hb⟩
      rw [hacc ID a b hsplit ha hb]
      rfl
  · intro id versionId hid hver hc1 hc2
    exact hacc _ id versionId (stringsSplit_pair id versionId hc1 hc2) hid hver
  · intro h
    rw [ImportState_unfold] at h ⊢
    split at h
    · split_ifs at h ⊢
      · exact ⟨rfl, rfl, rfl⟩
      · simp [HasError] at h
    · exact ⟨rfl, rfl, rfl⟩

/-- Witness of C25: the identifier of the function `f1`, version `v1`. -/
theorem importState_accepts_two_parts_witness :
    stringsSplit "f1,v1" ',' = ["f1", "v1"] ∧
    ImportState (fun s => s) "f1,v1" =
      { Diagnostics := [], id := some "f1", version_id := some "v1" } :=
  ⟨by decide,
   (importState_accepts_two_parts (fun s => s) "f1,v1").2.1 "f1" "v1" (by decide) (by decide)
     (by decide)⟩

/-- C26. With a configuration that is read without diagnostics, `Configure` reports an
error exactly when the resolved API key or the resolved org is empty, each setting being
resolved to the explicit provider-configuration value when that is non-empty and to the
environment value otherwise.  Without error, the client it hands to resources and data
sources carries the resolved key, org and team, and the resolved endpoint, replaced by
`https://api.ngc.nvidia.com` when it is empty; the team may be empty.  With an error, no
client is handed over. -/
theorem configure_resolves_settings (Getenv : String → String)
    (httpClient : HttpRequest → Except String HttpResponse) (data : NgcProviderModel) :
    (HasError (Configure Getenv httpClient data []).Diagnostics = true ↔
      resolvedSetting data.NgcApiKey (Getenv "NGC_API_KEY") = "" ∨
      resolvedSetting data.NgcOrg (Getenv "NGC_ORG") = "") ∧
    (HasError (Configure Getenv httpClient data []).Diagnostics = false →
      ∃ client : NGCClient,
        (Configure Getenv httpClient data []).ResourceData = some client ∧
        (Configure Getenv httpClient data []).DataSourceData = some client ∧
        client.NgcApiKey = resolvedSetting data.NgcApiKey (Getenv "NGC_API_KEY") ∧
        client.NgcOrg = resolvedSetting data.NgcOrg (Getenv "NGC_ORG") ∧
        client.NgcTeam = resolvedSetting data.NgcTeam (Getenv "NGC_TEAM") ∧
        (resolvedSetting data.NgcEndpoint (Getenv "NGC_ENDPOINT") ≠ "" →
          client.NgcEndpoint = resolvedSetting data.NgcEndpoint (Getenv "NGC_ENDPOINT")) ∧
        (resolvedSetting data.NgcEndpoint (Getenv "NGC_ENDPOINT") = "" →
          client.NgcEndpoint = "https://api.ngc.nvidia.com")) ∧
    (HasError (Configure Getenv httpClient data []).Diagnostics = true →
      (Configure Getenv httpClient data []).ResourceData = none ∧
      (Configure Getenv httpClient data []).DataSourceData = none) := by
  have hfold : ∀ (x : TfString) (environment : String),
      (if x.ValueString ≠ "" then x.ValueString else environment) =
        resolvedSetting x environment := fun _ _ => rfl
  unfold Configure
  simp only [hfold, Append, List.map_nil, List.append_nil]
  generalize resolvedSetting data.NgcApiKey (Getenv "NGC_API_KEY") = k
  generalize resolvedSetting data.NgcOrg (Getenv "NGC_ORG") = o
  generalize resolvedSetting data.NgcTeam (Getenv "NGC_TEAM") = t
  generalize resolvedSetting data.NgcEndpoint (Getenv "NGC_ENDPOINT") = e
  by_cases hk : k = "" <;> by_cases ho : o = "" <;> by_cases he : e = "" <;>
    simp [hk, ho, he, HasError, AddError]

/-- Witness of C26: nothing configured explicitly, key and org taken from the environment. -/
theorem configure_resolves_settings_witness :
    HasError (Configure stubGetenv (answering { StatusCode := 200, Body := "" })
      emptyProviderModel []).Diagnostics = false ∧
    ∃ client : NGCClient,
      (Configure stubGetenv (answering { StatusCode := 200, Body := "" })
        emptyProviderModel []).ResourceData = some client ∧
      client.NgcApiKey = "env-key" ∧ client.NgcOrg = "env-org" ∧ client.NgcTeam = "" ∧
      client.NgcEndpoint = "https://api.ngc.nvidia.com" := by
  refine ⟨rfl, ?_⟩
  obtain ⟨client, h1, _, h3, h4, h5, _, h7⟩ :=
    (configure_resolves_settings stubGetenv (answering { StatusCode := 200, Body := "" })
      emptyProviderModel).2.1 rfl
  exact ⟨client, h1, h3.trans rfl, h4.trans rfl, h5.trans rfl, h7 rfl⟩

/-- C27. Starting from the package variables of a fresh process, successive calls of
`NVCFClient()` all return the same client, the one built from the receiver of the first
call (its endpoint, API key, org, team and HTTP client), whatever the receivers of the
later calls are; the package variables do not change after the first call. -/
theorem nvcfClient_built_once (c : NGCClient) (later : List NGCClient) :
    (c.NVCFClient ClientPackage.start).1 = some c.built ∧
    c.built.NgcEndpoint = c.NgcEndpoint ∧ c.built.NgcApiKey = c.NgcApiKey ∧
    c.built.NgcOrg = c.NgcOrg ∧ c.built.NgcTeam = c.NgcTeam ∧
    c.built.HttpClient = c.HttpClient ∧
    (NVCFClientCalls later (c.NVCFClient ClientPackage.start).2).1 =
      List.replicate later.length (some c.built) ∧
    (NVCFClientCalls later (c.NVCFClient ClientPackage.start).2).2 =
      (c.NVCFClient ClientPackage.start).2 := by
  refine ⟨rfl, rfl, rfl, rfl, rfl, rfl, ?_⟩
  have hstep : ∀ d : NGCClient, d.NVCFClient (c.NVCFClient ClientPackage.start).2 =
      (some c.built, (c.NVCFClient ClientPackage.start).2) := by
    intro d
    rfl
  induction later with
  | nil => exact ⟨rfl, rfl⟩
  | cons d rest ih =>
    simp only [NVCFClientCalls, hstep, List.length_cons, List.replicate_succ, ih.1, ih.2,
      and_self]

/-- C30 fails on the code: for a function version whose health object is absent (the
scripted function has none), the data source's merge dereferences the nil pointer and
panics instead of producing a model; with a health object present it produces one. -/
theorem datasource_merge_dereferences_absent_health :
    scriptedFunction.Health = none ∧
    updateNvidiaCloudFunctionDataSourceModel stubCodec emptyDataSourceModel scriptedFunction
      NvidiaCloudFunctionDeployment.zero none = none ∧
    (updateNvidiaCloudFunctionDataSourceModel stubCodec emptyDataSourceModel
      { scriptedFunction with
        Health := some { Protocol := "HTTP", URI := "/health", Port := 8000, Timeout := "PT10S",
                         ExpectedStatusCode := 200 } }
      NvidiaCloudFunctionDeployment.zero none).isSome = true ∧
    (updateNvidiaCloudFunctionResourceModelBaseOnResponse stubCodec emptyModel scriptedFunction
      (some NvidiaCloudFunctionDeployment.zero) none).Health = TfValue.null :=
  ⟨rfl, rfl, rfl, rfl⟩

end Provider

/-! ## The standard library codec -/

namespace Json

theorem toNat_ofNat (n : Nat) (h : n < 55296) : (Char.ofNat n).toNat = n := by
  have hv : n.isValidChar := Or.inl h
  rw [Char.ofNat, dif_pos hv]
  rfl

theorem char_eq_of_toNat {c d : Char} (h : c.toNat = d.toNat) : c = d := by
  rw [← Char.ofNat_toNat c, ← Char.ofNat_toNat d, h]

theorem char_eq_iff_toNat (c : Char) (n : Nat) (h : n < 55296) :
    c = Char.ofNat n ↔ c.toNat = n := by
  constructor
  · intro hc
    rw [hc, toNat_ofNat n h]
  · intro hc
    apply char_eq_of_toNat
    rw [hc, toNat_ofNat n h]

/-! ### Decimal digits -/

theorem digitsValue_eq (cs : List Char) : digitsValue cs = foldDigits 0 cs := rfl

theorem foldDigits_append (a : Nat) (xs ys : List Char) :
    foldDigits a (xs ++ ys) = foldDigits (foldDigits a xs) ys := by
  simp [foldDigits, List.foldl_append]

theorem digitChar_toNat (n : Nat) (h : n < 10) : (digitChar n).toNat = 48 + n := by
  unfold digitChar
  exact toNat_ofNat _ (by omega)

theorem isDigit_digitChar (n : Nat) (h : n < 10) : isDigit (digitChar n) = true := by
  simp [isDigit, digitChar_toNat n h]
  omega

theorem natDigitsAux_append (fuel n : Nat) (acc : List Char) :
    natDigitsAux fuel n acc = natDigitsAux fuel n [] ++ acc := by
  induction fuel generalizing n acc with
  | zero => simp [natDigitsAux]
  | succ fuel ih =>
    simp only [natDigitsAux]
    split_ifs with h
    · simp
    · rw [ih (n / 10) (digitChar (n % 10) :: acc), ih (n / 10) [digitChar (n % 10)]]
      simp

theorem natDigitsAux_fuel (fuel n : Nat) (h : n < fuel) :
    natDigitsAux fuel n [] =
      if n < 10 then [digitChar n] else natDigits (n / 10) ++ [digitChar (n % 10)] := by
  induction fuel using Nat.strong_induction_on generalizing n with
  | _ fuel ih =>
    cases fuel with
    | zero => omega
    | succ fuel =>
      simp only [natDigitsAux]
      split_ifs with h10
      · rfl
      · rw [natDigitsAux_append]
        congr 1
        unfold natDigits
        have h1 : n / 10 < fuel := by omega
        have h2 : n / 10 < n / 10 + 1 := by omega
        rw [ih fuel (by omega) (n / 10) h1, ih (n / 10 + 1) (by omega) (n / 10) h2]

theorem natDigits_eq (n : Nat) :
    natDigits n = if n < 10 then [digitChar n] else natDigits (n / 10) ++ [digitChar (n % 10)] :=
  natDigitsAux_fuel (n + 1) n (by omega)

theorem natDigits_ne_nil (n : Nat) : natDigits n ≠ [] := by
  rw [natDigits_eq]
  split_ifs <;> simp

theorem natDigits_isDigit (n : Nat) : ∀ c ∈ natDigits n, isDigit c = true := by
  induction n using Nat.strong_induction_on with
  | _ n ih =>
    rw [natDigits_eq]
    split_ifs with h
    · intro c hc
      simp only [List.mem_singleton] at hc
      rw [hc]
      exact isDigit_digitChar n h
    · intro c hc
      rw [List.mem_append] at hc
      rcases hc with hc | hc
      · exact ih (n / 10) (by omega) c hc
      · simp only [List.mem_singleton] at hc
        rw [hc]
        exact isDigit_digitChar _ (by omega)

theorem foldDigits_natDigits (a n : Nat) :
    foldDigits a (natDigits n) = a * 10 ^ (natDigits n).length + n := by
  induction n using Nat.strong_induction_on generalizing a with
  | _ n ih =>
    rw [natDigits_eq]
    split_ifs with h
    · simp [foldDigits, digitChar_toNat n h]
      omega
    · rw [foldDigits_append, ih (n / 10) (by omega)]
      simp only [foldDigits, List.foldl_cons, List.foldl_nil, List.length_append,
        List.length_singleton, digitChar_toNat (n % 10) (by omega)]
      rw [pow_succ]
      have : 48 + n % 10 - 48 = n % 10 := by omega
      rw [this]
      have h2 := Nat.div_add_mod n 10
      nlinarith [h2]

theorem digitsValue_natDigits (n : Nat) : digitsValue (natDigits n) = n := by
  rw [digitsValue_eq, foldDigits_natDigits]
  simp

theorem foldDigits_zeros (a k : Nat) :
    foldDigits a (List.replicate k '0') = a * 10 ^ k := by
  induction k generalizing a with
  | zero => simp [foldDigits]
  | succ k ih =>
    rw [List.replicate_succ]
    show foldDigits (10 * a + ('0'.toNat - 48)) (List.replicate k '0') = _
    rw [ih]
    have : '0'.toNat - 48 = 0 := by decide
    rw [this, pow_succ]
    ring

/-- The first digit of a positive number is not the zero digit. -/
theorem natDigits_head (n : Nat) (hn : n ≠ 0) :
    ∃ c rest, natDigits n = c :: rest ∧ isDigit c = true ∧ c ≠ '0' := by
  induction n using Nat.strong_induction_on with
  | _ n ih =>
    rw [natDigits_eq]
    split_ifs with h
    · refine ⟨digitChar n, [], rfl, isDigit_digitChar n h, ?_⟩
      intro hc
      have := congrArg Char.toNat hc
      rw [digitChar_toNat n h] at this
      have h0 : '0'.toNat = 48 := by decide
      omega
    · obtain ⟨c, rest, hcr, hd, hc⟩ := ih (n / 10) (by omega) (by omega)
      exact ⟨c, rest ++ [digitChar (n % 10)], by rw [hcr]; rfl, hd, hc⟩

/-! ### Prefixes of digits -/

theorem takeWhile_append_of_all {p : Char → Bool} (xs rest : List Char)
    (hxs : ∀ c ∈ xs, p c = true) (hrest : ∀ c ∈ rest.head?, p c = false) :
    (xs ++ rest).takeWhile p = xs ∧ (xs ++ rest).dropWhile p = rest := by
  induction xs with
  | nil =>
    cases rest with
    | nil => simp
    | cons c rest =>
      have := hrest c (by simp)
      simp [List.takeWhile, List.dropWhile, this]
  | cons x xs ih =>
    have hx := hxs x (by simp)
    have := ih (fun c hc => hxs c (by simp [hc]))
    simp [List.takeWhile, List.dropWhile, hx, this.1, this.2]

/-! ### Rounding -/

theorem roundHalfEven_mul (m d : Nat) (hd : 0 < d) : roundHalfEven (m * d) d = m := by
  unfold roundHalfEven
  rw [Nat.mul_mod_left, Nat.mul_div_cancel _ hd]
  simp [hd]

theorem binade_eq (num den : Nat) (fuel s0 s : Nat)
    (hlow : ∀ t, s0 ≤ t → t < s → ¬ num * 2 ^ (1021 - t) < den * 2 ^ (t - 1021))
    (hs : num * 2 ^ (1021 - s) < den * 2 ^ (s - 1021))
    (h0 : s0 ≤ s) (hf : s < s0 + fuel) : binade num den fuel s0 = s := by
  induction fuel generalizing s0 with
  | zero => omega
  | succ fuel ih =>
    simp only [binade]
    by_cases hc : num * 2 ^ (1021 - s0) < den * 2 ^ (s0 - 1021)
    · rw [if_pos hc]
      by_contra hne
      exact hlow s0 (le_refl _) (by omega) hc
    · rw [if_neg hc]
      have hne : s0 ≠ s := by
        intro h
        rw [h] at hc
        exact hc hs
      exact ih (s0 + 1) (fun t ht hts => hlow t (by omega) hts) (by omega) (by omega)

/-- The binade test in terms of the float's mantissa and shift. -/
theorem binade_test_iff (A K num den m sh t : Nat) (hK : K = A + 53) (hden : 0 < den)
    (h : num * 2 ^ K = m * 2 ^ sh * den) :
    num * 2 ^ (A - t) < den * 2 ^ (t - A) ↔ m * 2 ^ sh < 2 ^ (t + 53) := by
  have hp : 0 < 2 ^ K := pow_pos (show (0 : Nat) < 2 by norm_num) _
  have key : num * 2 ^ (A - t) < den * 2 ^ (t - A) ↔
      num * 2 ^ K * 2 ^ (A - t) < den * 2 ^ (t - A) * 2 ^ K := by
    constructor
    · intro hlt
      calc num * 2 ^ K * 2 ^ (A - t) = num * 2 ^ (A - t) * 2 ^ K := by ring
        _ < den * 2 ^ (t - A) * 2 ^ K := Nat.mul_lt_mul_of_pos_right hlt hp
    · intro hlt
      have : num * 2 ^ (A - t) * 2 ^ K < den * 2 ^ (t - A) * 2 ^ K := by
        calc num * 2 ^ (A - t) * 2 ^ K = num * 2 ^ K * 2 ^ (A - t) := by ring
          _ < _ := hlt
      exact Nat.lt_of_mul_lt_mul_right this
  rw [key, h]
  have e1 : m * 2 ^ sh * den * 2 ^ (A - t) = den * (m * 2 ^ sh * 2 ^ (A - t)) := by ring
  have e2 : den * 2 ^ (t - A) * 2 ^ K = den * (2 ^ (t - A) * 2 ^ K) := by ring
  rw [e1, e2, Nat.mul_lt_mul_left hden]
  by_cases ht : t ≤ A
  · have e3 : t - A = 0 := by omega
    rw [e3, pow_zero, one_mul]
    have e4 : (2 : Nat) ^ (t + 53) * 2 ^ (A - t) = 2 ^ K := by
      rw [← pow_add]
      congr 1
      omega
    rw [← e4]
    have hp2 : 0 < 2 ^ (A - t) := pow_pos (show (0 : Nat) < 2 by norm_num) _
    exact Nat.mul_lt_mul_right hp2
  · have e3 : A - t = 0 := by omega
    rw [e3, pow_zero, mul_one, ← pow_add]
    have e4 : t - A + K = t + 53 := by omega
    rw [e4]

theorem binade_test_float (num den m sh t : Nat) (hden : 0 < den)
    (h : num * 2 ^ 1074 = m * 2 ^ sh * den) :
    num * 2 ^ (1021 - t) < den * 2 ^ (t - 1021) ↔ m * 2 ^ sh < 2 ^ (t + 53) :=
  binade_test_iff 1021 1074 num den m sh t (by norm_num) hden h

theorem scaled_exact (K num den m sh : Nat) (h : num * 2 ^ K = m * 2 ^ sh * den) :
    num * 2 ^ (K - sh) = m * (den * 2 ^ (sh - K)) := by
  by_cases hs : sh ≤ K
  · have e3 : sh - K = 0 := by omega
    rw [e3, pow_zero, mul_one]
    have hp : 0 < 2 ^ sh := pow_pos (show (0 : Nat) < 2 by norm_num) _
    apply Nat.eq_of_mul_eq_mul_right hp
    calc num * 2 ^ (K - sh) * 2 ^ sh = num * 2 ^ K := by
          rw [mul_assoc, ← pow_add]; congr 2; omega
      _ = m * den * 2 ^ sh := by rw [h]; ring
  · have e3 : K - sh = 0 := by omega
    rw [e3, pow_zero, mul_one]
    have hp : 0 < 2 ^ K := pow_pos (show (0 : Nat) < 2 by norm_num) _
    apply Nat.eq_of_mul_eq_mul_right hp
    calc num * 2 ^ K = m * 2 ^ sh * den := h
      _ = m * (den * 2 ^ (sh - K)) * 2 ^ K := by
          have : (2 : Nat) ^ sh = 2 ^ (sh - K) * 2 ^ K := by
            rw [← pow_add]; congr 1; omega
          rw [this]; ring

theorem bits_lt (sh m : Nat) (hm : m < 2 ^ 53) (hsh : sh ≤ 2045) :
    sh * 2 ^ 52 + m < 2047 * 2 ^ 52 := by
  have h53 : (2 : Nat) ^ 53 = 2 * 2 ^ 52 := by norm_num
  have h2 : sh * 2 ^ 52 ≤ 2045 * 2 ^ 52 := Nat.mul_le_mul_right _ hsh
  omega

theorem roundToFloat_exact (num den m sh : Nat) (hden : 0 < den)
    (h : num * 2 ^ 1074 = m * 2 ^ sh * den) (hm : m < 2 ^ 53)
    (hnorm : sh = 0 ∨ 2 ^ 52 ≤ m) (hsh : sh ≤ 2045) :
    roundToFloat num den = some (sh * 2 ^ 52 + m) := by
  have hb : binade num den 2046 0 = sh := by
    apply binade_eq
    · intro t _ hts
      rw [binade_test_float num den m sh t hden h]
      have h52 : 2 ^ 52 ≤ m := by
        rcases hnorm with h0 | h52
        · omega
        · exact h52
      have : 2 ^ (t + 53) ≤ m * 2 ^ sh := by
        calc 2 ^ (t + 53) ≤ 2 ^ (52 + sh) := Nat.pow_le_pow_right (by norm_num) (by omega)
          _ = 2 ^ 52 * 2 ^ sh := by rw [pow_add]
          _ ≤ m * 2 ^ sh := Nat.mul_le_mul_right _ h52
      exact Nat.not_lt.mpr this
    · rw [binade_test_float num den m sh sh hden h]
      calc m * 2 ^ sh < 2 ^ 53 * 2 ^ sh :=
            Nat.mul_lt_mul_of_pos_right hm (pow_pos (show (0 : Nat) < 2 by norm_num) _)
        _ = 2 ^ (sh + 53) := by rw [← pow_add, Nat.add_comm]
    · omega
    · omega
  have hq := scaled_exact 1074 num den m sh h
  have hdpos : 0 < den * 2 ^ (sh - 1074) := Nat.mul_pos hden (pow_pos (show (0 : Nat) < 2 by norm_num) _)
  unfold roundToFloat
  rw [hb, hq, roundHalfEven_mul m _ hdpos, if_pos (bits_lt sh m hm hsh)]

theorem roundToFloat_lt (num den mag : Nat) (h : roundToFloat num den = some mag) :
    mag < 2047 * 2 ^ 52 := by
  unfold roundToFloat at h
  generalize binade num den 2046 0 = s at h
  split at h
  · rename_i hc
    exact (Option.some.inj h) ▸ hc
  · exact absurd h (by simp)

/-! ### The decimal of a float -/

theorem float_parts (mag : Nat) (hfin : mag < 2047 * 2 ^ 52) :
    mag = floatShift mag * 2 ^ 52 + floatMantissa mag ∧ floatMantissa mag < 2 ^ 53 ∧
    (floatShift mag = 0 ∨ 2 ^ 52 ≤ floatMantissa mag) ∧ floatShift mag ≤ 2045 ∧
    (mag ≠ 0 → floatMantissa mag ≠ 0) := by
  unfold floatMantissa floatShift
  have h52 : (2 : Nat) ^ 52 = 4503599627370496 := by norm_num
  have h53 : (2 : Nat) ^ 53 = 9007199254740992 := by norm_num
  rw [h52, h53] at *
  have hdm := Nat.div_add_mod mag 4503599627370496
  have hmod := Nat.mod_lt mag (show 0 < 4503599627370496 by norm_num)
  generalize mag / 4503599627370496 = q at *
  generalize mag % 4503599627370496 = r at *
  rcases Nat.eq_zero_or_pos q with hq | hq
  · subst hq
    have e : (0 - 1) * 4503599627370496 = 0 := by norm_num
    rw [e]
    refine ⟨by omega, by omega, by omega, by omega, by omega⟩
  · obtain ⟨p, hp⟩ : ∃ p, q = p + 1 := ⟨q - 1, by omega⟩
    subst hp
    have e : p + 1 - 1 = p := by omega
    rw [e]
    refine ⟨by omega, by omega, by omega, by omega, by omega⟩

theorem exact_quotient (K m sh : Nat) :
    m * 2 ^ (sh - K) * 10 ^ K / (2 ^ (K - sh) * 10 ^ 0) = m * 2 ^ sh * 5 ^ K := by
  rw [pow_zero, mul_one]
  have h10 : (10 : Nat) ^ K = 2 ^ K * 5 ^ K := by rw [← Nat.mul_pow]
  by_cases hs : sh ≤ K
  · have e3 : sh - K = 0 := by omega
    rw [e3, pow_zero, mul_one, h10]
    have : (2 : Nat) ^ K = 2 ^ (K - sh) * 2 ^ sh := by
      rw [← pow_add]; congr 1; omega
    rw [this]
    have hp : 0 < 2 ^ (K - sh) := pow_pos (show (0 : Nat) < 2 by norm_num) _
    have e : m * (2 ^ (K - sh) * 2 ^ sh * 5 ^ K) = 2 ^ (K - sh) * (m * 2 ^ sh * 5 ^ K) := by
      ring
    rw [e, Nat.mul_div_cancel_left _ hp]
  · have e3 : K - sh = 0 := by omega
    rw [e3, pow_zero, Nat.div_one, h10]
    have : (2 : Nat) ^ sh = 2 ^ (sh - K) * 2 ^ K := by
      rw [← pow_add]; congr 1; omega
    rw [this]
    ring

theorem exact_source (K m sh : Nat) :
    m * 2 ^ sh * 5 ^ K * 2 ^ K = m * 2 ^ sh * 10 ^ K := by
  have h10 : (10 : Nat) ^ K = 5 ^ K * 2 ^ K := by rw [← Nat.mul_pow]
  rw [h10]
  ring

theorem toNat_neg_neg (K : Nat) : (-(-(K : Int))).toNat = K := by simp

theorem toNat_neg (K : Nat) : (-(K : Int)).toNat = 0 := by simp

theorem exact_decimal (mag : Nat) (hfin : mag < 2047 * 2 ^ 52) :
    parseDecimal (scaledNum mag (-1074) / scaledDen mag (-1074)) (-1074) = some mag := by
  obtain ⟨hmag, hm, hnorm, hsh, _⟩ := float_parts mag hfin
  have hk1 : (-(-1074 : Int)).toNat = 1074 := toNat_neg_neg 1074
  have hk2 : (-1074 : Int).toNat = 0 := toNat_neg 1074
  have hq : scaledNum mag (-1074) / scaledDen mag (-1074) =
      floatMantissa mag * 2 ^ floatShift mag * 5 ^ 1074 := by
    unfold scaledNum scaledDen
    rw [hk1, hk2]
    exact exact_quotient 1074 _ _
  rw [hq]
  unfold parseDecimal
  rw [hk1, hk2, pow_zero, mul_one]
  have := roundToFloat_exact (floatMantissa mag * 2 ^ floatShift mag * 5 ^ 1074) (10 ^ 1074)
    (floatMantissa mag) (floatShift mag) (pow_pos (show (0 : Nat) < 10 by norm_num) 1074)
    (exact_source 1074 _ _) hm hnorm hsh
  rw [this, ← hmag]

theorem parseDecimal_zero (e : Int) : parseDecimal 0 e = some 0 := by
  unfold parseDecimal
  rw [Nat.zero_mul]
  have := roundToFloat_exact 0 (10 ^ (-e).toNat) 0 0
    (pow_pos (show (0 : Nat) < 10 by norm_num) _)
    (by rw [Nat.zero_mul, Nat.zero_mul, Nat.zero_mul])
    (by norm_num) (Or.inl rfl) (by norm_num)
  simpa using this

theorem exact_decimal_ne_zero (mag : Nat) (hfin : mag < 2047 * 2 ^ 52) (h0 : mag ≠ 0) :
    scaledNum mag (-1074) / scaledDen mag (-1074) ≠ 0 := by
  intro hz
  have h := exact_decimal mag hfin
  rw [hz, parseDecimal_zero] at h
  cases h
  exact h0 rfl

theorem candidate_some (mag : Nat) (k : Int) (d : Nat) (h : candidate mag k = some d) :
    d ≠ 0 ∧ parseDecimal d k = some mag := by
  unfold candidate at h
  split_ifs at h with h1 h2 h3
  · cases h
    exact h1
  · cases h
    exact h2
  · cases h
    exact ⟨Nat.succ_ne_zero _, h3⟩

theorem shortestDecimal_spec (mag : Nat) (hfin : mag < 2047 * 2 ^ 52) (h0 : mag ≠ 0)
    (fuel : Nat) (k : Int) (hk : k = -1074 + fuel) :
    (shortestDecimal mag fuel k).1 ≠ 0 ∧
    parseDecimal (shortestDecimal mag fuel k).1 (shortestDecimal mag fuel k).2 = some mag := by
  induction fuel generalizing k with
  | zero =>
    have hk0 : k = -1074 := by simpa using hk
    subst hk0
    exact ⟨exact_decimal_ne_zero mag hfin h0, exact_decimal mag hfin⟩
  | succ fuel ih =>
    simp only [shortestDecimal]
    cases hc : candidate mag k with
    | some d => exact candidate_some mag k d hc
    | none =>
      apply ih
      push_cast at hk
      omega

theorem shortest_ok (mag : Nat) (hfin : mag < 2047 * 2 ^ 52) (h0 : mag ≠ 0) :
    (shortest mag).1 ≠ 0 ∧ parseDecimal (shortest mag).1 (shortest mag).2 = some mag :=
  shortestDecimal_spec mag hfin h0 (integerDigits mag + 1074) (integerDigits mag)
    (by push_cast; omega)

theorem delimited_cases {rest : List Char} (h : delimited rest) :
    rest = [] ∨ ∃ c r, rest = c :: r ∧ (c = ',' ∨ c = ']' ∨ c = closeBrace) := by
  cases rest with
  | nil => exact Or.inl rfl
  | cons c r => exact Or.inr ⟨c, r, rfl, h c (by simp)⟩

theorem delimited_not_digit {rest : List Char} (h : delimited rest) :
    ∀ c ∈ rest.head?, isDigit c = false := by
  intro c hc
  rcases h c hc with h | h | h <;> subst h <;> decide

theorem head_not_digit (c : Char) (r : List Char) (h : isDigit c = false) :
    ∀ x ∈ (c :: r).head?, isDigit x = false := by
  intro x hx
  simp only [List.head?_cons, Option.mem_def, Option.some.injEq] at hx
  rw [← hx]
  exact h

theorem scanExponent_delimited {rest : List Char} (h : delimited rest) :
    scanExponent rest = some (0, rest) := by
  rcases delimited_cases h with h | ⟨c, r, h, hc⟩
  · subst h
    rfl
  · subst h
    rcases hc with hc | hc | hc <;> subst hc <;> rfl

theorem scanFraction_delimited {rest : List Char} (h : delimited rest) :
    scanFraction rest = some ([], rest) := by
  rcases delimited_cases h with h | ⟨c, r, h, hc⟩
  · subst h
    rfl
  · subst h
    rcases hc with hc | hc | hc <;> subst hc <;> rfl

theorem scanFraction_digits (fs rest : List Char) (hfs : ∀ c ∈ fs, isDigit c = true)
    (hne : fs ≠ []) (hrest : ∀ c ∈ rest.head?, isDigit c = false) :
    scanFraction ('.' :: (fs ++ rest)) = some (fs, rest) := by
  obtain ⟨h1, h2⟩ := takeWhile_append_of_all fs rest hfs hrest
  simp only [scanFraction, h1, h2, if_true, if_neg hne]

theorem scanInteger_digits (c0 : Char) (t rest : List Char) (h0 : isDigit c0 = true)
    (hne0 : c0 ≠ '0') (ht : ∀ c ∈ t, isDigit c = true)
    (hrest : ∀ c ∈ rest.head?, isDigit c = false) :
    scanInteger (c0 :: (t ++ rest)) = some (c0 :: t, rest) := by
  have hall : ∀ c ∈ c0 :: t, isDigit c = true := by
    intro c hc
    rcases List.mem_cons.1 hc with h | h
    · rw [h]; exact h0
    · exact ht c h
  obtain ⟨h1, h2⟩ := takeWhile_append_of_all (c0 :: t) rest hall hrest
  simp only [scanInteger, if_neg hne0, h0, if_true]
  rw [← List.cons_append, h1, h2]

theorem scanExponentDigits_digits (neg : Bool) (n : Nat) (rest : List Char)
    (hrest : ∀ c ∈ rest.head?, isDigit c = false) :
    scanExponentDigits neg (natDigits n ++ rest) =
      some (if neg then -(n : Int) else (n : Int), rest) := by
  obtain ⟨h1, h2⟩ := takeWhile_append_of_all (natDigits n) rest (natDigits_isDigit n) hrest
  simp only [scanExponentDigits, h1, h2, if_neg (natDigits_ne_nil n), digitsValue_natDigits]

theorem scanExponent_format (x : Int) (rest : List Char)
    (hrest : ∀ c ∈ rest.head?, isDigit c = false) :
    scanExponent ('e' :: (if x < 0 then '-' else '+') :: (natDigits x.natAbs ++ rest)) =
      some (x, rest) := by
  by_cases hx : x < 0
  · have e : scanExponent ('e' :: '-' :: (natDigits x.natAbs ++ rest)) =
        scanExponentDigits true (natDigits x.natAbs ++ rest) := rfl
    rw [if_pos hx, e, scanExponentDigits_digits true _ rest hrest]
    simp only [if_true]
    refine congrArg some (Prod.ext ?_ rfl)
    show -(x.natAbs : Int) = x
    omega
  · have e : scanExponent ('e' :: '+' :: (natDigits x.natAbs ++ rest)) =
        scanExponentDigits false (natDigits x.natAbs ++ rest) := rfl
    rw [if_neg hx, e, scanExponentDigits_digits false _ rest hrest]
    simp only [Bool.false_eq_true, if_false]
    refine congrArg some (Prod.ext ?_ rfl)
    show (x.natAbs : Int) = x
    omega

theorem digitsValue_append_digits (xs : List Char) (n : Nat) :
    digitsValue (xs ++ natDigits n) = digitsValue xs * 10 ^ (natDigits n).length + n := by
  rw [digitsValue_eq, foldDigits_append, foldDigits_natDigits]
  rfl

theorem digitsValue_zeros_digits (z n : Nat) :
    digitsValue ('0' :: (List.replicate z '0' ++ natDigits n)) = n := by
  have : '0' :: (List.replicate z '0' ++ natDigits n) =
      List.replicate (z + 1) '0' ++ natDigits n := by
    rw [List.replicate_succ]
    rfl
  rw [this, digitsValue_append_digits, digitsValue_eq, foldDigits_zeros]
  simp

theorem digitsValue_digits_zeros (n z : Nat) :
    digitsValue (natDigits n ++ List.replicate z '0') = n * 10 ^ z := by
  rw [digitsValue_eq, foldDigits_append, foldDigits_zeros, ← digitsValue_eq,
    digitsValue_natDigits]

theorem isDigit_zeros (z : Nat) : ∀ c ∈ List.replicate z '0', isDigit c = true := by
  intro c hc
  rw [(List.mem_replicate.1 hc).2]
  decide

theorem scanUnsigned_formatFixed (d : Nat) (k : Int) (hd : d ≠ 0) (rest : List Char)
    (hrest : delimited rest) :
    ∃ d1 e1, scanUnsigned (formatFixed d k ++ rest) = some ((d1, e1), rest) ∧
      parseDecimal d1 e1 = parseDecimal d k := by
  obtain ⟨c0, t0, hds, hc0, hne0⟩ := natDigits_head d hd
  have hall := natDigits_isDigit d
  have hnd := delimited_not_digit hrest
  unfold formatFixed
  split_ifs with h1 h2
  · -- a fraction below one
    refine ⟨d, k, ?_, rfl⟩
    have hfs : ∀ c ∈ List.replicate (-(((natDigits d).length : Int) + k)).toNat '0' ++ natDigits d,
        isDigit c = true := by
      intro c hc
      rcases List.mem_append.1 hc with h | h
      · exact isDigit_zeros _ c h
      · exact hall c h
    have hne : List.replicate (-(((natDigits d).length : Int) + k)).toNat '0' ++ natDigits d ≠ [] := by
      intro h
      exact natDigits_ne_nil d (List.append_eq_nil.1 h).2
    have hsi : scanInteger ('0' :: '.' ::
        (List.replicate (-(((natDigits d).length : Int) + k)).toNat '0' ++ natDigits d) ++ rest) =
        some (['0'], '.' ::
          ((List.replicate (-(((natDigits d).length : Int) + k)).toNat '0' ++ natDigits d) ++
            rest)) := rfl
    simp only [scanUnsigned, hsi, scanFraction_digits _ rest hfs hne hnd,
      scanExponent_delimited hrest]
    refine congrArg some (Prod.ext (Prod.ext ?_ ?_) rfl)
    · exact digitsValue_zeros_digits _ _
    · show (0 : Int) - _ = k
      simp only [List.length_append, List.length_replicate]
      push_cast
      omega
  · -- an integer
    refine ⟨d * 10 ^ k.toNat, 0, ?_, ?_⟩
    · have hall2 : ∀ c ∈ t0 ++ List.replicate k.toNat '0', isDigit c = true := by
        intro c hc
        rcases List.mem_append.1 hc with h | h
        · exact hall c (by rw [hds]; exact List.mem_cons_of_mem _ h)
        · exact isDigit_zeros _ c h
      have hsi := scanInteger_digits c0 (t0 ++ List.replicate k.toNat '0') rest hc0 hne0 hall2 hnd
      have htext : natDigits d ++ List.replicate k.toNat '0' ++ rest =
          c0 :: (t0 ++ List.replicate k.toNat '0' ++ rest) := by
        rw [hds]
        simp
      rw [htext]
      simp only [scanUnsigned, hsi, scanFraction_delimited hrest, scanExponent_delimited hrest]
      refine congrArg some (Prod.ext (Prod.ext ?_ rfl) rfl)
      show digitsValue (c0 :: (t0 ++ List.replicate k.toNat '0') ++ []) = _
      rw [List.append_nil, ← List.cons_append, ← hds]
      exact digitsValue_digits_zeros _ _
    · unfold parseDecimal
      have e1 : (-k).toNat = 0 := by omega
      have e2 : (0 : Int).toNat = 0 := rfl
      have e3 : (-(0 : Int)).toNat = 0 := rfl
      rw [e1, e2, e3, pow_zero, mul_one]
  · -- digits on both sides of the point
    refine ⟨d, k, ?_, rfl⟩
    have hp0 : 0 < (((natDigits d).length : Int) + k).toNat := by omega
    have hpn : (((natDigits d).length : Int) + k).toNat < (natDigits d).length := by omega
    generalize hp : (((natDigits d).length : Int) + k).toNat = p at hp0 hpn
    have htake : List.take p (natDigits d) = c0 :: List.take (p - 1) t0 := by
      rw [hds]
      obtain ⟨q, hq⟩ : ∃ q, p = q + 1 := ⟨p - 1, by omega⟩
      subst hq
      simp
    have hallt : ∀ c ∈ List.take (p - 1) t0, isDigit c = true := by
      intro c hc
      exact hall c (by rw [hds]; exact List.mem_cons_of_mem _ (List.mem_of_mem_take hc))
    have halld : ∀ c ∈ List.drop p (natDigits d), isDigit c = true := by
      intro c hc
      exact hall c (List.mem_of_mem_drop hc)
    have hned : List.drop p (natDigits d) ≠ [] := by
      intro h
      have := congrArg List.length h
      simp only [List.length_drop, List.length_nil] at this
      omega
    have hsi := scanInteger_digits c0 (List.take (p - 1) t0)
      ('.' :: (List.drop p (natDigits d) ++ rest)) hc0 hne0 hallt
      (head_not_digit _ _ (by decide))
    have htext : List.take p (natDigits d) ++ '.' :: List.drop p (natDigits d) ++ rest =
        c0 :: (List.take (p - 1) t0 ++ '.' :: (List.drop p (natDigits d) ++ rest)) := by
      rw [htake]
      simp
    rw [htext]
    simp only [scanUnsigned, hsi, scanFraction_digits _ rest halld hned hnd,
      scanExponent_delimited hrest]
    refine congrArg some (Prod.ext (Prod.ext ?_ ?_) rfl)
    · show digitsValue (c0 :: List.take (p - 1) t0 ++ List.drop p (natDigits d)) = d
      rw [← htake, List.take_append_drop]
      exact digitsValue_natDigits d
    · show (0 : Int) - _ = k
      simp only [List.length_drop]
      omega

theorem scanUnsigned_formatExponent (d : Nat) (k : Int) (hd : d ≠ 0) (rest : List Char)
    (hrest : delimited rest) :
    ∃ d1 e1, scanUnsigned (formatExponent d k ++ rest) = some ((d1, e1), rest) ∧
      parseDecimal d1 e1 = parseDecimal d k := by
  obtain ⟨c0, t0, hds, hc0, hne0⟩ := natDigits_head d hd
  have hall := natDigits_isDigit d
  have hnd := delimited_not_digit hrest
  have hval := digitsValue_natDigits d
  refine ⟨d, k, ?_, rfl⟩
  unfold formatExponent
  rw [hds] at hall hval ⊢
  generalize hx : (((c0 :: t0).length : Int) + k - 1) = x
  have hexp := scanExponent_format x rest hnd
  cases t0 with
  | nil =>
    have hsi := scanInteger_digits c0 []
      ('e' :: (if x < 0 then '-' else '+') :: (natDigits x.natAbs ++ rest)) hc0 hne0
      (by simp) (head_not_digit _ _ (by decide))
    have hsf : scanFraction ('e' :: (if x < 0 then '-' else '+') :: (natDigits x.natAbs ++ rest)) =
        some ([], 'e' :: (if x < 0 then '-' else '+') :: (natDigits x.natAbs ++ rest)) := rfl
    have htext : (match c0 :: ([] : List Char) with
          | [] => []
          | c :: rest => if rest.isEmpty = true then [c] else c :: '.' :: rest) ++
          'e' :: (if x < 0 then '-' else '+') :: natDigits x.natAbs ++ rest =
        c0 :: ([] ++ 'e' :: (if x < 0 then '-' else '+') :: (natDigits x.natAbs ++ rest)) := by
      simp
    rw [htext]
    simp only [scanUnsigned, hsi, hsf, hexp]
    refine congrArg some (Prod.ext (Prod.ext ?_ ?_) rfl)
    · exact hval
    · show x - ((([] : List Char).length : Nat) : Int) = k
      simp only [List.length_nil, List.length_cons] at hx ⊢
      push_cast at hx ⊢
      omega
  | cons c1 t1 =>
    have hsi := scanInteger_digits c0 []
      ('.' :: ((c1 :: t1) ++
        'e' :: (if x < 0 then '-' else '+') :: (natDigits x.natAbs ++ rest))) hc0 hne0
      (by simp) (head_not_digit _ _ (by decide))
    have hfs : ∀ c ∈ c1 :: t1, isDigit c = true := by
      intro c hc
      exact hall c (List.mem_cons_of_mem _ hc)
    have hsf := scanFraction_digits (c1 :: t1)
      ('e' :: (if x < 0 then '-' else '+') :: (natDigits x.natAbs ++ rest)) hfs (by simp)
      (head_not_digit _ _ (by decide))
    have htext : (match c0 :: c1 :: t1 with
          | [] => []
          | c :: rest => if rest.isEmpty = true then [c] else c :: '.' :: rest) ++
          'e' :: (if x < 0 then '-' else '+') :: natDigits x.natAbs ++ rest =
        c0 :: ([] ++ '.' :: ((c1 :: t1) ++
          'e' :: (if x < 0 then '-' else '+') :: (natDigits x.natAbs ++ rest))) := by
      simp
    rw [htext]
    simp only [scanUnsigned, hsi, hsf, hexp]
    refine congrArg some (Prod.ext (Prod.ext ?_ ?_) rfl)
    · exact hval
    · show x - (((c1 :: t1).length : Nat) : Int) = k
      simp only [List.length_cons] at hx ⊢
      push_cast at hx ⊢
      omega

theorem scanUnsigned_head (cs : List Char) (r : (Nat × Int) × List Char)
    (h : scanUnsigned cs = some r) : ∃ c t, cs = c :: t ∧ isDigit c = true := by
  cases cs with
  | nil => simp [scanUnsigned, scanInteger] at h
  | cons c t =>
    refine ⟨c, t, rfl, ?_⟩
    by_cases h0 : c = '0'
    · rw [h0]
      decide
    · by_cases hd : isDigit c = true
      · exact hd
      · simp [scanUnsigned, scanInteger, h0, hd] at h

theorem scanUnsigned_zero (rest : List Char) (hrest : delimited rest) :
    scanUnsigned ('0' :: rest) = some ((0, 0), rest) := by
  have hsi : scanInteger ('0' :: rest) = some (['0'], rest) := rfl
  simp only [scanUnsigned, hsi, scanFraction_delimited hrest, scanExponent_delimited hrest]
  rfl

theorem isDigit_ne_minus (c : Char) (h : isDigit c = true) : c ≠ '-' := by
  intro hc
  rw [hc] at h
  exact absurd h (by decide)

/-- The unsigned decimal text of a finite magnitude scans back to a decimal that
`strconv.ParseFloat` converts to that magnitude. -/
theorem scanUnsigned_magnitude (mag : Nat) (hfin : mag < 2047 * 2 ^ 52) (rest : List Char)
    (hrest : delimited rest) :
    ∃ d1 e1, scanUnsigned
        ((if mag = 0 then ['0']
          else if mag < 4517329193108106637 ∨ 4921056587992461136 ≤ mag then
            formatExponent (shortest mag).1 (shortest mag).2
          else formatFixed (shortest mag).1 (shortest mag).2) ++
          rest) = some ((d1, e1), rest) ∧
      parseDecimal d1 e1 = some mag := by
  by_cases h0 : mag = 0
  · rw [if_pos h0, h0]
    exact ⟨0, 0, scanUnsigned_zero rest hrest, parseDecimal_zero 0⟩
  · rw [if_neg h0]
    obtain ⟨hne, hparse⟩ := shortest_ok mag hfin h0
    split_ifs with he
    · obtain ⟨d1, e1, hs, hp⟩ := scanUnsigned_formatExponent _ (shortest mag).2
        hne rest hrest
      exact ⟨d1, e1, hs, hp.trans hparse⟩
    · obtain ⟨d1, e1, hs, hp⟩ := scanUnsigned_formatFixed _ (shortest mag).2
        hne rest hrest
      exact ⟨d1, e1, hs, hp.trans hparse⟩

theorem scanNumber_formatFloat (bits : Nat) (text : List Char)
    (h : formatFloat bits = some text) (rest : List Char) (hrest : delimited rest) :
    scanNumber (text ++ rest) = some (bits, rest) ∧
    ∃ c t, text = c :: t ∧ (c = '-' ∨ isDigit c = true) := by
  unfold formatFloat at h
  split at h
  swap
  · exact absurd h (by simp)
  rename_i hfin
  have htext := (Option.some.inj h).symm
  obtain ⟨d1, e1, hs, hp⟩ := scanUnsigned_magnitude (bits % 2 ^ 63) hfin.2 rest hrest
  obtain ⟨c, t, hct, hc⟩ := scanUnsigned_head _ _ hs
  generalize hbody : (if bits % 2 ^ 63 = 0 then ['0']
      else if bits % 2 ^ 63 < 4517329193108106637 ∨ 4921056587992461136 ≤ bits % 2 ^ 63 then
        formatExponent (shortest (bits % 2 ^ 63)).1 (shortest (bits % 2 ^ 63)).2
      else formatFixed (shortest (bits % 2 ^ 63)).1 (shortest (bits % 2 ^ 63)).2) = body
    at hs hct htext
  have h63 : (2 : Nat) ^ 63 = 9223372036854775808 := by norm_num
  have h64 : (2 : Nat) ^ 64 = 18446744073709551616 := by norm_num
  by_cases hneg : 2 ^ 63 ≤ bits
  · rw [if_pos hneg] at htext
    subst htext
    refine ⟨?_, '-', body, rfl, Or.inl rfl⟩
    show scanNumber ('-' :: (body ++ rest)) = some (bits, rest)
    simp only [scanNumber, eq_self_iff_true, if_true, hs, hp]
    refine congrArg some (Prod.ext ?_ rfl)
    show 2 ^ 63 + bits % 2 ^ 63 = bits
    have := hfin.1
    rw [h63] at hneg ⊢
    rw [h64] at this
    omega
  · rw [if_neg hneg] at htext
    have htext2 : text = body := by simpa using htext
    subst htext2
    have hbr : text ++ rest = c :: t := hct
    cases text with
    | nil =>
      exfalso
      rw [List.nil_append] at hs
      obtain ⟨c2, t2, h2, hc2⟩ := scanUnsigned_head _ _ hs
      subst h2
      rcases hrest c2 (by simp) with h | h | h <;> subst h <;> exact absurd hc2 (by decide)
    | cons c2 t2 =>
      have hc2 : c2 = c := by
        have := hbr
        simp only [List.cons_append, List.cons.injEq] at this
        exact this.1
      subst hc2
      refine ⟨?_, c2, t2, rfl, Or.inr hc⟩
      show scanNumber (c2 :: (t2 ++ rest)) = some (bits, rest)
      have hs2 : scanUnsigned (c2 :: (t2 ++ rest)) = some ((d1, e1), rest) := hs
      simp only [scanNumber, if_neg (isDigit_ne_minus c2 hc), hs2, hp]
      refine congrArg some (Prod.ext ?_ rfl)
      show bits % 2 ^ 63 = bits
      rw [h63] at hneg ⊢
      omega

/-- A number that the scanner produced has a decimal text. -/
theorem scanNumber_finite (cs : List Char) (bits : Nat) (rest : List Char)
    (h : scanNumber cs = some (bits, rest)) : ∃ text, formatFloat bits = some text := by
  have key : bits < 2 ^ 64 ∧ bits % 2 ^ 63 < 2047 * 2 ^ 52 := by
    have h63 : (2 : Nat) ^ 63 = 9223372036854775808 := by norm_num
    have h64 : (2 : Nat) ^ 64 = 18446744073709551616 := by norm_num
    have h52 : (2047 : Nat) * 2 ^ 52 = 9218868437227405312 := by norm_num
    cases cs with
    | nil => simp [scanNumber] at h
    | cons c t =>
      simp only [scanNumber] at h
      split_ifs at h with hc
      · cases hu : scanUnsigned t with
        | none => simp [hu] at h
        | some r =>
          obtain ⟨p, cs1⟩ := r
          simp only [hu] at h
          cases hp : parseDecimal p.1 p.2 with
          | none => simp [hp] at h
          | some mag =>
            simp only [hp, Option.some.injEq, Prod.mk.injEq] at h
            have hlt := roundToFloat_lt _ _ _ hp
            rw [h52] at hlt ⊢
            rw [h63, h64]
            rw [h63] at h
            omega
      · cases hu : scanUnsigned (c :: t) with
        | none => simp [hu] at h
        | some r =>
          obtain ⟨p, cs1⟩ := r
          simp only [hu] at h
          cases hp : parseDecimal p.1 p.2 with
          | none => simp [hp] at h
          | some mag =>
            simp only [hp, Option.some.injEq, Prod.mk.injEq] at h
            have hlt := roundToFloat_lt _ _ _ hp
            rw [h52] at hlt ⊢
            rw [h63, h64]
            omega
  unfold formatFloat
  rw [if_pos key]
  exact ⟨_, rfl⟩

/-! ### String literals -/

theorem quoteMark_toNat : quoteMark.toNat = 34 := by decide

theorem backslash_toNat : backslash.toNat = 92 := by decide

theorem hexValue_hexDigit (d : Nat) (h : d < 16) : hexValue (hexDigit d) = some d := by
  interval_cases d <;> decide

theorem hex4_hexDigits (n : Nat) (h : n < 65536) (rest : List Char) :
    hex4 (hexDigit (n / 4096) :: hexDigit (n / 256 % 16) :: hexDigit (n / 16 % 16) ::
      hexDigit (n % 16) :: rest) = some (n, rest) := by
  simp only [hex4, hexValue_hexDigit (n / 4096) (by omega),
    hexValue_hexDigit (n / 256 % 16) (by omega), hexValue_hexDigit (n / 16 % 16) (by omega),
    hexValue_hexDigit (n % 16) (by omega)]
  refine congrArg some (Prod.ext ?_ rfl)
  show n / 4096 * 4096 + n / 256 % 16 * 256 + n / 16 % 16 * 16 + n % 16 = n
  omega

theorem scanString_escaped (fuel : Nat) (cs : List Char) (ch : Char) (rest : List Char)
    (h : scanEscape cs = some (ch, rest)) :
    scanString (fuel + 1) (backslash :: cs) = consResult ch (scanString fuel rest) := by
  have h1 : ¬ backslash = quoteMark := by decide
  simp only [scanString, if_neg h1, eq_self_iff_true, if_true, h]
  cases scanString fuel rest with
  | none => rfl
  | some p => rfl

theorem scanString_plain (fuel : Nat) (c : Char) (rest : List Char) (h1 : c ≠ quoteMark)
    (h2 : c ≠ backslash) (h3 : ¬ c.toNat < 32) :
    scanString (fuel + 1) (c :: rest) = consResult c (scanString fuel rest) := by
  simp only [scanString, if_neg h1, if_neg h2, if_neg h3]
  cases scanString fuel rest with
  | none => rfl
  | some p => rfl

theorem scanEscape_unicode (c : Char) (h : c.toNat < 55296) (rest : List Char) :
    scanEscape ('u' :: hexDigit (c.toNat / 4096) :: hexDigit (c.toNat / 256 % 16) ::
      hexDigit (c.toNat / 16 % 16) :: hexDigit (c.toNat % 16) :: rest) = some (c, rest) := by
  have h1 : ¬ ('u' = quoteMark ∨ 'u' = backslash ∨ 'u' = '/') := by decide
  have h2 : ¬ 'u' = 'b' := by decide
  have h3 : ¬ 'u' = 'f' := by decide
  have h4 : ¬ 'u' = 'n' := by decide
  have h5 : ¬ 'u' = 'r' := by decide
  have h6 : ¬ 'u' = 't' := by decide
  have hs : ¬ (55296 ≤ c.toNat ∧ c.toNat < 57344) := by omega
  simp only [scanEscape, if_neg h1, if_neg h2, if_neg h3, if_neg h4, if_neg h5, if_neg h6,
    eq_self_iff_true, if_true, scanUnicodeEscape, hex4_hexDigits c.toNat (by omega) rest,
    if_neg hs, Char.ofNat_toNat]

theorem scanEscape_short (e : Char) (n : Nat) (c : Char) (rest : List Char)
    (hc : c.toNat = n)
    (h : scanEscape (e :: rest) = some (Char.ofNat n, rest)) :
    scanEscape (e :: rest) = some (c, rest) := by
  rw [h, ← hc, Char.ofNat_toNat]

theorem scanString_escapeChar (shortEscapes : Bool) (fuel : Nat) (c : Char) (rest : List Char) :
    scanString (fuel + 1) (escapeChar shortEscapes c ++ rest) =
      consResult c (scanString fuel rest) := by
  unfold escapeChar
  split_ifs with h1 h2 h3 h4 h5 h6 h7
  · apply scanString_escaped
    rcases h1 with h | h <;> subst h <;> rfl
  · exact scanString_escaped fuel _ c rest (scanEscape_short 'n' 10 c rest h2 rfl)
  · exact scanString_escaped fuel _ c rest (scanEscape_short 'r' 13 c rest h3 rfl)
  · exact scanString_escaped fuel _ c rest (scanEscape_short 't' 9 c rest h4 rfl)
  · exact scanString_escaped fuel _ c rest (scanEscape_short 'b' 8 c rest h5.2 rfl)
  · exact scanString_escaped fuel _ c rest (scanEscape_short 'f' 12 c rest h6.2 rfl)
  · apply scanString_escaped
    apply scanEscape_unicode
    rcases h7 with h | h | h | h | h | h
    · omega
    · subst h; decide
    · subst h; decide
    · subst h; decide
    · omega
    · omega
  · have hq : c ≠ quoteMark := fun h => h1 (Or.inl h)
    have hb : c ≠ backslash := fun h => h1 (Or.inr h)
    have h32 : ¬ c.toNat < 32 := fun h => h7 (Or.inl h)
    exact scanString_plain fuel c rest hq hb h32

theorem scanString_escapeChars (shortEscapes : Bool) (s : List Char) (fuel : Nat)
    (hf : s.length < fuel) (rest : List Char) :
    scanString fuel (escapeChars shortEscapes s ++ quoteMark :: rest) = some (s, rest) := by
  induction s generalizing fuel with
  | nil =>
    obtain ⟨f, hf2⟩ : ∃ f, fuel = f + 1 := ⟨fuel - 1, by simp at hf; omega⟩
    subst hf2
    simp [escapeChars, scanString]
  | cons c s ih =>
    obtain ⟨f, hf2⟩ : ∃ f, fuel = f + 1 := ⟨fuel - 1, by simp at hf; omega⟩
    subst hf2
    simp only [escapeChars, List.append_assoc]
    rw [scanString_escapeChar, ih f (by simp at hf; omega)]
    rfl

theorem escapeChar_length (shortEscapes : Bool) (c : Char) :
    1 ≤ (escapeChar shortEscapes c).length := by
  unfold escapeChar
  split_ifs <;> simp

theorem escapeChars_length (shortEscapes : Bool) (s : List Char) :
    s.length ≤ (escapeChars shortEscapes s).length := by
  induction s with
  | nil => simp [escapeChars]
  | cons c s ih =>
    simp only [escapeChars, List.length_cons, List.length_append]
    have := escapeChar_length shortEscapes c
    omega

/-- A quoted string scans back to the string. -/
theorem scanString_quoteString (shortEscapes : Bool) (s : String) (rest : List Char) :
    ∃ body, quoteString shortEscapes s = quoteMark :: body ∧
      scanString (body ++ rest).length (body ++ rest) = some (s.data, rest) := by
  refine ⟨escapeChars shortEscapes s.data ++ [quoteMark], rfl, ?_⟩
  have e : escapeChars shortEscapes s.data ++ [quoteMark] ++ rest =
      escapeChars shortEscapes s.data ++ quoteMark :: rest := by simp
  rw [e]
  apply scanString_escapeChars
  have := escapeChars_length shortEscapes s.data
  simp only [List.length_append, List.length_cons]
  omega

/-! ### Objects -/

theorem charsLess_trans (a b c : List Char) (h1 : charsLess a b = true)
    (h2 : charsLess b c = true) : charsLess a c = true := by
  induction a generalizing b c with
  | nil =>
    cases c with
    | nil => cases b <;> simp [charsLess] at h2
    | cons z zs => rfl
  | cons x xs ih =>
    cases b with
    | nil => simp [charsLess] at h1
    | cons y ys =>
      cases c with
      | nil => simp [charsLess] at h2
      | cons z zs =>
        simp only [charsLess, Bool.or_eq_true, Bool.and_eq_true, decide_eq_true_eq] at h1 h2 ⊢
        rcases h1 with h1 | ⟨h1, h1r⟩
        · rcases h2 with h2 | ⟨h2, _⟩
          · exact Or.inl (by omega)
          · exact Or.inl (by omega)
        · rcases h2 with h2 | ⟨h2, h2r⟩
          · exact Or.inl (by omega)
          · exact Or.inr ⟨by omega, ih ys zs h1r h2r⟩

theorem charsLess_asymm (a b : List Char) (h : charsLess a b = true) :
    charsLess b a = false := by
  induction a generalizing b with
  | nil => cases b <;> simp [charsLess]
  | cons x xs ih =>
    cases b with
    | nil => simp [charsLess] at h
    | cons y ys =>
      simp only [charsLess, Bool.or_eq_true, Bool.and_eq_true, decide_eq_true_eq] at h
      simp only [charsLess, Bool.or_eq_false_iff, Bool.and_eq_false_imp, decide_eq_false_iff_not,
        decide_eq_true_eq]
      rcases h with h | ⟨h, hr⟩
      · exact ⟨by omega, fun h2 => by omega⟩
      · exact ⟨by omega, fun _ => ih ys hr⟩

theorem charsLess_total (a b : List Char) (h1 : charsLess a b = false)
    (h2 : charsLess b a = false) : a = b := by
  induction a generalizing b with
  | nil =>
    cases b with
    | nil => rfl
    | cons y ys => simp [charsLess] at h1
  | cons x xs ih =>
    cases b with
    | nil => simp [charsLess] at h2
    | cons y ys =>
      simp only [charsLess, Bool.or_eq_false_iff, Bool.and_eq_false_imp, decide_eq_false_iff_not,
        decide_eq_true_eq] at h1 h2
      have hxy : x.toNat = y.toNat := by omega
      rw [char_eq_of_toNat hxy, ih ys (h1.2 hxy) (h2.2 hxy.symm)]

theorem insertMember_mem (k : String) (v : JsonValue) (m : List (String × JsonValue))
    (p : String × JsonValue) (h : p ∈ insertMember k v m) : p = (k, v) ∨ p ∈ m := by
  induction m with
  | nil =>
    simp only [insertMember, List.mem_singleton] at h
    exact Or.inl h
  | cons a m ih =>
    obtain ⟨k1, v1⟩ := a
    simp only [insertMember] at h
    split_ifs at h with h1 h2
    · rcases List.mem_cons.1 h with h | h
      · exact Or.inl h
      · exact Or.inr h
    · rcases List.mem_cons.1 h with h | h
      · exact Or.inl h
      · exact Or.inr (List.mem_cons_of_mem _ h)
    · rcases List.mem_cons.1 h with h | h
      · exact Or.inr (by rw [h]; exact List.mem_cons_self _ _)
      · rcases ih h with h | h
        · exact Or.inl h
        · exact Or.inr (List.mem_cons_of_mem _ h)

theorem insertMember_ascending (k : String) (v : JsonValue) (m : List (String × JsonValue))
    (h : keysAscending m) : keysAscending (insertMember k v m) := by
  induction m with
  | nil => simp [insertMember, keysAscending]
  | cons a m ih =>
    obtain ⟨k1, v1⟩ := a
    unfold keysAscending at h ih ⊢
    rw [List.pairwise_cons] at h
    simp only [insertMember]
    split_ifs with h1 h2
    · rw [List.pairwise_cons]
      refine ⟨?_, List.pairwise_cons.2 h⟩
      intro p hp
      rcases List.mem_cons.1 hp with hp | hp
      · rw [hp]; exact h1
      · exact charsLess_trans _ _ _ h1 (h.1 p hp)
    · rw [List.pairwise_cons]
      refine ⟨?_, h.2⟩
      intro p hp
      show charsLess k.data p.1.data = true
      rw [h2]
      exact h.1 p hp
    · rw [List.pairwise_cons]
      refine ⟨?_, ih h.2⟩
      intro p hp
      rcases insertMember_mem k v m p hp with hp | hp
      · rw [hp]
        by_contra h3
        have hd := charsLess_total k.data k1.data (by simpa using h1) (by simpa using h3)
        exact h2 (String.ext hd)
      · exact h.1 p hp

theorem insertMember_last (k : String) (v : JsonValue) (m : List (String × JsonValue))
    (h : ∀ p ∈ m, charsLess p.1.data k.data = true) : insertMember k v m = m ++ [(k, v)] := by
  induction m with
  | nil => rfl
  | cons a m ih =>
    obtain ⟨k1, v1⟩ := a
    have hk : charsLess k1.data k.data = true := h (k1, v1) (List.mem_cons_self _ _)
    have hk2 : ¬ charsLess k.data k1.data = true := by
      rw [charsLess_asymm _ _ hk]
      simp
    have hk3 : ¬ k = k1 := by
      intro he
      rw [he] at hk
      have := charsLess_asymm _ _ hk
      rw [hk] at this
      exact absurd this (by simp)
    simp only [insertMember, if_neg hk2, if_neg hk3, List.cons_append]
    rw [ih (fun p hp => h p (List.mem_cons_of_mem _ hp))]

theorem foldl_insert_ascending (kvs acc : List (String × JsonValue)) (h : keysAscending acc) :
    keysAscending (kvs.foldl (fun m kv => insertMember kv.1 kv.2 m) acc) := by
  induction kvs generalizing acc with
  | nil => exact h
  | cons kv kvs ih => exact ih _ (insertMember_ascending kv.1 kv.2 acc h)

theorem foldl_insert_mem (kvs acc : List (String × JsonValue)) (p : String × JsonValue)
    (h : p ∈ kvs.foldl (fun m kv => insertMember kv.1 kv.2 m) acc) : p ∈ acc ∨ p ∈ kvs := by
  induction kvs generalizing acc with
  | nil => exact Or.inl h
  | cons kv kvs ih =>
    rcases ih _ h with h | h
    · rcases insertMember_mem kv.1 kv.2 acc p h with h | h
      · exact Or.inr (by rw [h]; exact List.mem_cons_self _ _)
      · exact Or.inl h
    · exact Or.inr (List.mem_cons_of_mem _ h)

theorem objectOf_ascending (kvs : List (String × JsonValue)) : keysAscending (objectOf kvs) :=
  foldl_insert_ascending kvs [] List.Pairwise.nil

theorem objectOf_mem (kvs : List (String × JsonValue)) (p : String × JsonValue)
    (h : p ∈ objectOf kvs) : p ∈ kvs := by
  rcases foldl_insert_mem kvs [] p h with h | h
  · exact absurd h (List.not_mem_nil _)
  · exact h

theorem foldl_insert_of_ascending (m acc : List (String × JsonValue))
    (h : keysAscending (acc ++ m)) :
    m.foldl (fun m kv => insertMember kv.1 kv.2 m) acc = acc ++ m := by
  induction m generalizing acc with
  | nil => simp
  | cons kv m ih =>
    have hlast : insertMember kv.1 kv.2 acc = acc ++ [kv] := by
      apply insertMember_last
      intro p hp
      unfold keysAscending at h
      rw [List.pairwise_append] at h
      exact h.2.2 p hp kv (List.mem_cons_self _ _)
    simp only [List.foldl_cons]
    rw [hlast, ih (acc ++ [kv]) (by simpa using h)]
    simp

theorem objectOf_of_ascending (m : List (String × JsonValue)) (h : keysAscending m) :
    objectOf m = m := by
  have := foldl_insert_of_ascending m [] (by simpa using h)
  simpa using this

/-! ### Values -/

theorem isDigit_toNat (c : Char) (h : isDigit c = true) : 48 ≤ c.toNat ∧ c.toNat ≤ 57 := by
  simpa [isDigit] using h

theorem isDigit_not_space (c : Char) (h : isDigit c = true) : isSpace c = false := by
  have hd := isDigit_toNat c h
  have h1 : c ≠ ' ' := by
    intro hc
    rw [hc] at hd
    exact absurd hd (by decide)
  simp only [isSpace, decide_eq_false_iff_not]
  intro hs
  rcases hs with hs | hs | hs | hs
  · exact h1 hs
  · omega
  · omega
  · omega

theorem isDigit_ne (c x : Char) (h : isDigit c = true) (hx : isDigit x = false) : c ≠ x := by
  intro hc
  rw [hc, hx] at h
  exact absurd h (by simp)

theorem valueStart_spec (c : Char) (h : valueStart c) :
    isSpace c = false ∧ c ≠ ']' ∧ c ≠ closeBrace := by
  rcases h with h | h | h | h | h | h | h | h
  · subst h; decide
  · subst h; decide
  · subst h; decide
  · subst h; decide
  · subst h; decide
  · subst h; decide
  · subst h; decide
  · exact ⟨isDigit_not_space c h, isDigit_ne c _ h (by decide), isDigit_ne c _ h (by decide)⟩

theorem skipSpace_cons (c : Char) (rest : List Char) (h : isSpace c = false) :
    skipSpace (c :: rest) = c :: rest := by
  simp [skipSpace, h]

theorem delimited_nil : delimited [] := by
  intro c hc
  simp at hc

theorem delimited_cons (c : Char) (rest : List Char)
    (h : c = ',' ∨ c = ']' ∨ c = closeBrace) : delimited (c :: rest) := by
  intro x hx
  simp only [List.head?_cons, Option.mem_def, Option.some.injEq] at hx
  rw [← hx]
  exact h

theorem formatFloat_head (bits : Nat) (text : List Char) (h : formatFloat bits = some text) :
    ∃ c t, text = c :: t ∧ (c = '-' ∨ isDigit c = true) :=
  (scanNumber_formatFloat bits text h [] delimited_nil).2

theorem string_mk_data (s : String) : String.mk s.data = s := rfl

/-- A scalar that the parser produced is encoded to a text that parses back to it. -/
theorem parseScalar_roundTrips (shortEscapes : Bool) (c : Char) (rest0 : List Char)
    (v : JsonValue) (r : List Char) (h : parseScalar c rest0 = some (v, r)) :
    ∃ c1 t, encodeValue shortEscapes v = some (c1 :: t) ∧ isSpace c1 = false ∧ c1 ≠ '[' ∧
      c1 ≠ openBrace ∧ ∀ rest, delimited rest → parseScalar c1 (t ++ rest) = some (v, rest) := by
  unfold parseScalar at h
  split_ifs at h with h1 h2 h3 h4
  · cases hs : scanString rest0.length rest0 with
    | none => simp [hs] at h
    | some p =>
      obtain ⟨s, rest1⟩ := p
      simp only [hs, Option.some.injEq, Prod.mk.injEq] at h
      obtain ⟨hv, _⟩ := h
      subst hv
      obtain ⟨body, hq, _⟩ := scanString_quoteString shortEscapes (String.mk s) []
      refine ⟨quoteMark, body, ?_, by decide, by decide, by decide, ?_⟩
      · simp only [encodeValue, hq]
      · intro rest _
        obtain ⟨body2, hq2, hscan⟩ := scanString_quoteString shortEscapes (String.mk s) rest
        have hb : body2 = body := by
          rw [hq] at hq2
          exact (List.cons.inj hq2).2.symm
        subst hb
        simp only [parseScalar, eq_self_iff_true, if_true, hscan]
  · cases hs : scanLiteral ['r', 'u', 'e'] rest0 with
    | none => simp [hs] at h
    | some rest1 =>
      simp only [hs, Option.some.injEq, Prod.mk.injEq] at h
      obtain ⟨hv, _⟩ := h
      subst hv
      refine ⟨'t', ['r', 'u', 'e'], rfl, by decide, by decide, by decide, ?_⟩
      intro rest _
      have hn : ¬ 't' = quoteMark := by decide
      simp [parseScalar, hn, scanLiteral, List.isPrefixOf]
  · cases hs : scanLiteral ['a', 'l', 's', 'e'] rest0 with
    | none => simp [hs] at h
    | some rest1 =>
      simp only [hs, Option.some.injEq, Prod.mk.injEq] at h
      obtain ⟨hv, _⟩ := h
      subst hv
      refine ⟨'f', ['a', 'l', 's', 'e'], rfl, by decide, by decide, by decide, ?_⟩
      intro rest _
      have hn : ¬ 'f' = quoteMark := by decide
      simp [parseScalar, hn, scanLiteral, List.isPrefixOf]
  · cases hs : scanLiteral ['u', 'l', 'l'] rest0 with
    | none => simp [hs] at h
    | some rest1 =>
      simp only [hs, Option.some.injEq, Prod.mk.injEq] at h
      obtain ⟨hv, _⟩ := h
      subst hv
      refine ⟨'n', ['u', 'l', 'l'], rfl, by decide, by decide, by decide, ?_⟩
      intro rest _
      have hn : ¬ 'n' = quoteMark := by decide
      simp [parseScalar, hn, scanLiteral, List.isPrefixOf]
  · cases hs : scanNumber (c :: rest0) with
    | none => simp [hs] at h
    | some p =>
      obtain ⟨bits, rest1⟩ := p
      simp only [hs, Option.some.injEq, Prod.mk.injEq] at h
      obtain ⟨hv, _⟩ := h
      subst hv
      obtain ⟨text, htext⟩ := scanNumber_finite _ _ _ hs
      obtain ⟨c1, t, hct, hc1⟩ := formatFloat_head bits text htext
      subst hct
      have hne : ∀ x : Char, isDigit x = false → x ≠ '-' → c1 ≠ x := by
        intro x hx hm
        rcases hc1 with hc | hc
        · rw [hc]; exact fun h => hm h.symm
        · exact isDigit_ne c1 x hc hx
      have hsp : isSpace c1 = false := by
        rcases hc1 with hc | hc
        · rw [hc]; decide
        · exact isDigit_not_space c1 hc
      refine ⟨c1, t, ?_, hsp, hne _ (by decide) (by decide), hne _ (by decide) (by decide), ?_⟩
      · simp only [encodeValue, htext]
      · intro rest hrest
        have hscan := (scanNumber_formatFloat bits (c1 :: t) htext rest hrest).1
        have hscan2 : scanNumber (c1 :: (t ++ rest)) = some (bits, rest) := hscan
        simp only [parseScalar, if_neg (hne quoteMark (by decide) (by decide)),
          if_neg (hne 't' (by decide) (by decide)), if_neg (hne 'f' (by decide) (by decide)),
          if_neg (hne 'n' (by decide) (by decide)), hscan2]

/-- Every value has an encoding that starts a value. -/
theorem encodeValue_head (shortEscapes : Bool) (v : JsonValue) (text : List Char)
    (h : encodeValue shortEscapes v = some text) : ∃ c t, text = c :: t ∧ valueStart c := by
  cases v with
  | null =>
    simp only [encodeValue, Option.some.injEq] at h
    exact ⟨'n', _, h.symm, by unfold valueStart; simp⟩
  | bool b =>
    cases b with
    | true =>
      simp only [encodeValue, Option.some.injEq] at h
      exact ⟨'t', _, h.symm, by unfold valueStart; simp⟩
    | false =>
      simp only [encodeValue, Option.some.injEq] at h
      exact ⟨'f', _, h.symm, by unfold valueStart; simp⟩
  | number bits =>
    simp only [encodeValue] at h
    obtain ⟨c, t, hct, hc⟩ := formatFloat_head bits text h
    refine ⟨c, t, hct, ?_⟩
    unfold valueStart
    rcases hc with hc | hc
    · simp [hc]
    · simp [hc]
  | str s =>
    simp only [encodeValue, Option.some.injEq] at h
    exact ⟨quoteMark, _, h.symm, by unfold valueStart; simp⟩
  | array xs =>
    simp only [encodeValue] at h
    cases he : encodeElements shortEscapes xs with
    | none => simp [he] at h
    | some body =>
      simp only [he, Option.some.injEq] at h
      exact ⟨'[', _, h.symm, by unfold valueStart; simp⟩
  | object kvs =>
    simp only [encodeValue] at h
    cases he : encodeMembers shortEscapes kvs with
    | none => simp [he] at h
    | some body =>
      simp only [he, Option.some.injEq] at h
      exact ⟨openBrace, _, h.symm, by unfold valueStart; simp⟩

/-! ### Arrays -/

theorem parseElements_mem (parse : List Char → Option (JsonValue × List Char)) (fuel : Nat)
    (cs : List Char) (vs : List JsonValue) (r : List Char)
    (h : parseElements parse fuel cs = some (vs, r)) :
    vs ≠ [] ∧ ∀ x ∈ vs, ∃ cs1 r1, parse cs1 = some (x, r1) := by
  induction fuel generalizing cs vs r with
  | zero => simp [parseElements] at h
  | succ fuel ih =>
    simp only [parseElements] at h
    cases hp : parse cs with
    | none => simp [hp] at h
    | some p =>
      obtain ⟨v, rest⟩ := p
      simp only [hp] at h
      cases hs : skipSpace rest with
      | nil => simp [hs] at h
      | cons c rest1 =>
        simp only [hs] at h
        split_ifs at h with h1 h2
        · cases hpe : parseElements parse fuel rest1 with
          | none => simp [hpe] at h
          | some q =>
            obtain ⟨vs1, r2⟩ := q
            simp only [hpe, Option.some.injEq, Prod.mk.injEq] at h
            obtain ⟨hv, _⟩ := h
            subst hv
            refine ⟨by simp, ?_⟩
            intro x hx
            rcases List.mem_cons.1 hx with hx | hx
            · exact ⟨cs, rest, by rw [hx]; exact hp⟩
            · exact (ih rest1 vs1 r2 hpe).2 x hx
        · simp only [Option.some.injEq, Prod.mk.injEq] at h
          obtain ⟨hv, _⟩ := h
          subst hv
          refine ⟨by simp, ?_⟩
          intro x hx
          simp only [List.mem_singleton] at hx
          exact ⟨cs, rest, by rw [hx]; exact hp⟩

theorem parseElements_encode (shortEscapes : Bool)
    (parse : List Char → Option (JsonValue × List Char)) (vs : List JsonValue) (hne : vs ≠ [])
    (hgood : ∀ x ∈ vs, roundTrips shortEscapes parse x) :
    ∃ body, encodeElements shortEscapes vs = some body ∧ vs.length ≤ body.length + 1 ∧
      (∃ c t, body = c :: t ∧ valueStart c) ∧
      ∀ fuel rest, vs.length ≤ fuel →
        parseElements parse fuel (body ++ ']' :: rest) = some (vs, rest) := by
  induction vs with
  | nil => exact absurd rfl hne
  | cons x xs ih =>
    obtain ⟨a, ha, hpa⟩ := hgood x (List.mem_cons_self _ _)
    obtain ⟨ca, ta, hcta, hca⟩ := encodeValue_head shortEscapes x a ha
    cases xs with
    | nil =>
      refine ⟨a, ?_, ?_, ⟨ca, ta, hcta, hca⟩, ?_⟩
      · simp [encodeElements, ha]
      · simp
      · intro fuel rest hf
        obtain ⟨f, hf2⟩ : ∃ f, fuel = f + 1 := ⟨fuel - 1, by simp at hf; omega⟩
        subst hf2
        have hp := hpa (']' :: rest) (delimited_cons _ _ (Or.inr (Or.inl rfl)))
        have hsk : skipSpace (']' :: rest) = ']' :: rest := skipSpace_cons _ _ (by decide)
        have hn : ¬ ']' = ',' := by decide
        simp only [parseElements, hp, hsk, if_neg hn, eq_self_iff_true, if_true]
    | cons y ys =>
      obtain ⟨b, hb, hlen, hhead, hpb⟩ := ih (by simp)
        (fun z hz => hgood z (List.mem_cons_of_mem _ hz))
      refine ⟨a ++ ',' :: b, ?_, ?_, ⟨ca, ta ++ ',' :: b, by rw [hcta]; rfl, hca⟩, ?_⟩
      · simp only [encodeElements] at hb ⊢
        simp [ha, hb]
      · simp only [List.length_append, List.length_cons] at hlen ⊢
        omega
      · intro fuel rest hf
        obtain ⟨f, hf2⟩ : ∃ f, fuel = f + 1 := ⟨fuel - 1, by simp at hf; omega⟩
        subst hf2
        have hp := hpa (',' :: (b ++ ']' :: rest)) (delimited_cons _ _ (Or.inl rfl))
        have hsk : skipSpace (',' :: (b ++ ']' :: rest)) = ',' :: (b ++ ']' :: rest) :=
          skipSpace_cons _ _ (by decide)
        have hrec := hpb f rest (by simp at hf ⊢; omega)
        have htext : a ++ ',' :: b ++ ']' :: rest = a ++ ',' :: (b ++ ']' :: rest) := by simp
        rw [htext]
        simp only [parseElements, hp, hsk, eq_self_iff_true, if_true, hrec]

theorem parseArray_roundTrips (shortEscapes : Bool)
    (parse : List Char → Option (JsonValue × List Char))
    (hparse : ∀ cs x r, parse cs = some (x, r) → roundTrips shortEscapes parse x)
    (rest0 : List Char) (v : JsonValue) (r : List Char)
    (h : parseArray parse rest0 = some (v, r)) :
    ∃ body, encodeValue shortEscapes v = some ('[' :: body) ∧
      ∀ rest, delimited rest → parseArray parse (body ++ rest) = some (v, rest) := by
  unfold parseArray at h
  cases hs : skipSpace rest0 with
  | nil => simp [hs] at h
  | cons c rest1 =>
    simp only [hs] at h
    split_ifs at h with h1
    · simp only [Option.some.injEq, Prod.mk.injEq] at h
      obtain ⟨hv, _⟩ := h
      subst hv
      refine ⟨[']'], ?_, ?_⟩
      · simp [encodeValue, encodeElements]
      · intro rest _
        have hsk : skipSpace ([']'] ++ rest) = ']' :: rest := skipSpace_cons _ _ (by decide)
        simp only [parseArray, hsk, eq_self_iff_true, if_true]
    · cases hpe : parseElements parse rest0.length (c :: rest1) with
      | none => simp [hpe] at h
      | some q =>
        obtain ⟨vs, r2⟩ := q
        simp only [hpe, Option.some.injEq, Prod.mk.injEq] at h
        obtain ⟨hv, _⟩ := h
        subst hv
        obtain ⟨hne, hmem⟩ := parseElements_mem parse _ _ _ _ hpe
        obtain ⟨body, hb, hlen, ⟨c1, t1, hct, hc1⟩, hpb⟩ :=
          parseElements_encode shortEscapes parse vs hne
            (fun x hx => by
              obtain ⟨cs1, r1, hp⟩ := hmem x hx
              exact hparse cs1 x r1 hp)
        refine ⟨body ++ [']'], ?_, ?_⟩
        · simp only [encodeValue, hb]
        · intro rest _
          obtain ⟨hsp, hnb, _⟩ := valueStart_spec c1 hc1
          have htext : body ++ [']'] ++ rest = c1 :: (t1 ++ ']' :: rest) := by
            rw [hct]
            simp
          have hsk : skipSpace (c1 :: (t1 ++ ']' :: rest)) = c1 :: (t1 ++ ']' :: rest) :=
            skipSpace_cons _ _ hsp
          have hrec := hpb (c1 :: (t1 ++ ']' :: rest)).length rest (by
            rw [hct] at hlen
            simp only [List.length_cons, List.length_append] at hlen ⊢
            omega)
          have hrec2 : parseElements parse (c1 :: (t1 ++ ']' :: rest)).length
              (c1 :: (t1 ++ ']' :: rest)) = some (vs, rest) := by
            have e : body ++ ']' :: rest = c1 :: (t1 ++ ']' :: rest) := by
              rw [hct]
              simp
            rw [← e]
            rw [← e] at hrec
            exact hrec
          rw [htext]
          simp only [parseArray, hsk, if_neg hnb, hrec2]

/-! ### Objects -/

theorem parseMember_value (parse : List Char → Option (JsonValue × List Char))
    (cs : List Char) (kv : String × JsonValue) (r : List Char)
    (h : parseMember parse cs = some (kv, r)) : ∃ cs1 r1, parse cs1 = some (kv.2, r1) := by
  unfold parseMember at h
  cases hs : skipSpace cs with
  | nil => simp [hs] at h
  | cons q rest =>
    simp only [hs] at h
    split_ifs at h with h1
    cases hk : scanString rest.length rest with
    | none => simp [hk] at h
    | some p =>
      obtain ⟨key, rest1⟩ := p
      simp only [hk] at h
      cases hs2 : skipSpace rest1 with
      | nil => simp [hs2] at h
      | cons c rest2 =>
        simp only [hs2] at h
        split_ifs at h with h2
        cases hp : parse rest2 with
        | none => simp [hp] at h
        | some p2 =>
          obtain ⟨v, rest3⟩ := p2
          simp only [hp, Option.some.injEq, Prod.mk.injEq] at h
          obtain ⟨hv, _⟩ := h
          subst hv
          exact ⟨rest2, rest3, hp⟩

theorem parseMembers_mem (parse : List Char → Option (JsonValue × List Char)) (fuel : Nat)
    (cs : List Char) (kvs : List (String × JsonValue)) (r : List Char)
    (h : parseMembers parse fuel cs = some (kvs, r)) :
    ∀ kv ∈ kvs, ∃ cs1 r1, parse cs1 = some (kv.2, r1) := by
  induction fuel generalizing cs kvs r with
  | zero => simp [parseMembers] at h
  | succ fuel ih =>
    simp only [parseMembers] at h
    cases hp : parseMember parse cs with
    | none => simp [hp] at h
    | some p =>
      obtain ⟨kv, rest⟩ := p
      simp only [hp] at h
      cases hs : skipSpace rest with
      | nil => simp [hs] at h
      | cons c rest1 =>
        simp only [hs] at h
        split_ifs at h with h1 h2
        · cases hpe : parseMembers parse fuel rest1 with
          | none => simp [hpe] at h
          | some q =>
            obtain ⟨kvs1, r2⟩ := q
            simp only [hpe, Option.some.injEq, Prod.mk.injEq] at h
            obtain ⟨hv, _⟩ := h
            subst hv
            intro x hx
            rcases List.mem_cons.1 hx with hx | hx
            · rw [hx]
              exact parseMember_value parse cs kv rest hp
            · exact ih rest1 kvs1 r2 hpe x hx
        · simp only [Option.some.injEq, Prod.mk.injEq] at h
          obtain ⟨hv, _⟩ := h
          subst hv
          intro x hx
          simp only [List.mem_singleton] at hx
          rw [hx]
          exact parseMember_value parse cs kv rest hp

/-- One encoded member parses back to the member. -/
theorem parseMember_encode (shortEscapes : Bool)
    (parse : List Char → Option (JsonValue × List Char)) (k : String) (v : JsonValue)
    (a : List Char) (hpa : ∀ rest, delimited rest → parse (a ++ rest) = some (v, rest))
    (rest : List Char) (hrest : delimited rest) :
    parseMember parse (quoteString shortEscapes k ++ ':' :: (a ++ rest)) = some ((k, v), rest) := by
  obtain ⟨body, hq, hscan⟩ := scanString_quoteString shortEscapes k (':' :: (a ++ rest))
  rw [hq]
  have hsk : skipSpace (quoteMark :: body ++ ':' :: (a ++ rest)) =
      quoteMark :: (body ++ ':' :: (a ++ rest)) := skipSpace_cons _ _ (by decide)
  have hsk2 : skipSpace (':' :: (a ++ rest)) = ':' :: (a ++ rest) :=
    skipSpace_cons _ _ (by decide)
  simp only [parseMember, hsk, eq_self_iff_true, if_true, hscan, hsk2, hpa rest hrest]

theorem parseMembers_encode (shortEscapes : Bool)
    (parse : List Char → Option (JsonValue × List Char)) (m : List (String × JsonValue))
    (hne : m ≠ []) (hgood : ∀ kv ∈ m, roundTrips shortEscapes parse kv.2) :
    ∃ body, encodeMembers shortEscapes m = some (quoteMark :: body) ∧ m.length ≤ body.length + 2 ∧
      ∀ fuel rest, m.length ≤ fuel →
        parseMembers parse fuel (quoteMark :: body ++ closeBrace :: rest) = some (m, rest) := by
  induction m with
  | nil => exact absurd rfl hne
  | cons x xs ih =>
    obtain ⟨k, v⟩ := x
    obtain ⟨a, ha, hpa⟩ := hgood (k, v) (List.mem_cons_self _ _)
    obtain ⟨kb, hkb, _⟩ := scanString_quoteString shortEscapes k []
    cases xs with
    | nil =>
      refine ⟨kb ++ ':' :: a, ?_, ?_, ?_⟩
      · simp [encodeMembers, ha, hkb]
      · simp
      · intro fuel rest hf
        obtain ⟨f, hf2⟩ : ∃ f, fuel = f + 1 := ⟨fuel - 1, by simp at hf; omega⟩
        subst hf2
        have hp := parseMember_encode shortEscapes parse k v a hpa (closeBrace :: rest)
          (delimited_cons _ _ (Or.inr (Or.inr rfl)))
        have htext : quoteMark :: (kb ++ ':' :: a) ++ closeBrace :: rest =
            quoteString shortEscapes k ++ ':' :: (a ++ closeBrace :: rest) := by
          rw [hkb]
          simp
        have hsk : skipSpace (closeBrace :: rest) = closeBrace :: rest :=
          skipSpace_cons _ _ (by decide)
        have hn : ¬ closeBrace = ',' := by decide
        rw [htext]
        simp only [parseMembers, hp, hsk, if_neg hn, eq_self_iff_true, if_true]
    | cons y ys =>
      obtain ⟨b, hb, hlen, hpb⟩ := ih (by simp)
        (fun z hz => hgood z (List.mem_cons_of_mem _ hz))
      refine ⟨kb ++ ':' :: (a ++ ',' :: quoteMark :: b), ?_, ?_, ?_⟩
      · simp only [encodeMembers] at hb ⊢
        simp [ha, hb, hkb]
      · simp only [List.length_append, List.length_cons] at hlen ⊢
        omega
      · intro fuel rest hf
        obtain ⟨f, hf2⟩ : ∃ f, fuel = f + 1 := ⟨fuel - 1, by simp at hf; omega⟩
        subst hf2
        have hp := parseMember_encode shortEscapes parse k v a hpa
          (',' :: (quoteMark :: b ++ closeBrace :: rest)) (delimited_cons _ _ (Or.inl rfl))
        have htext : quoteMark :: (kb ++ ':' :: (a ++ ',' :: quoteMark :: b)) ++
              closeBrace :: rest =
            quoteString shortEscapes k ++
              ':' :: (a ++ ',' :: (quoteMark :: b ++ closeBrace :: rest)) := by
          rw [hkb]
          simp
        have hsk : skipSpace (',' :: (quoteMark :: b ++ closeBrace :: rest)) =
            ',' :: (quoteMark :: b ++ closeBrace :: rest) := skipSpace_cons _ _ (by decide)
        have hrec := hpb f rest (by simp at hf ⊢; omega)
        rw [htext]
        simp only [parseMembers, hp, hsk, eq_self_iff_true, if_true, hrec]

theorem parseObject_roundTrips (shortEscapes : Bool)
    (parse : List Char → Option (JsonValue × List Char))
    (hparse : ∀ cs x r, parse cs = some (x, r) → roundTrips shortEscapes parse x)
    (rest0 : List Char) (v : JsonValue) (r : List Char)
    (h : parseObject parse rest0 = some (v, r)) :
    ∃ body, encodeValue shortEscapes v = some (openBrace :: body) ∧
      ∀ rest, delimited rest → parseObject parse (body ++ rest) = some (v, rest) := by
  have hempty : ∃ body, encodeValue shortEscapes (JsonValue.object []) =
        some (openBrace :: body) ∧
      ∀ rest, delimited rest →
        parseObject parse (body ++ rest) = some (JsonValue.object [], rest) := by
    refine ⟨[closeBrace], ?_, ?_⟩
    · simp [encodeValue, encodeMembers]
    · intro rest _
      have hsk : skipSpace ([closeBrace] ++ rest) = closeBrace :: rest :=
        skipSpace_cons _ _ (by decide)
      simp only [parseObject, hsk, eq_self_iff_true, if_true]
  unfold parseObject at h
  cases hs : skipSpace rest0 with
  | nil => simp [hs] at h
  | cons c rest1 =>
    simp only [hs] at h
    split_ifs at h with h1
    · simp only [Option.some.injEq, Prod.mk.injEq] at h
      obtain ⟨hv, _⟩ := h
      subst hv
      exact hempty
    · cases hpe : parseMembers parse rest0.length (c :: rest1) with
      | none => simp [hpe] at h
      | some q =>
        obtain ⟨kvs, r2⟩ := q
        simp only [hpe, Option.some.injEq, Prod.mk.injEq] at h
        obtain ⟨hv, _⟩ := h
        subst hv
        have hmem := parseMembers_mem parse _ _ _ _ hpe
        by_cases hnil : objectOf kvs = []
        · rw [hnil]
          exact hempty
        · obtain ⟨body, hb, hlen, hpb⟩ :=
            parseMembers_encode shortEscapes parse (objectOf kvs) hnil
              (fun kv hkv => by
                obtain ⟨cs1, r1, hp⟩ := hmem kv (objectOf_mem kvs kv hkv)
                exact hparse cs1 kv.2 r1 hp)
          refine ⟨quoteMark :: body ++ [closeBrace], ?_, ?_⟩
          · simp only [encodeValue, hb]
          · intro rest _
            have htext : quoteMark :: body ++ [closeBrace] ++ rest =
                quoteMark :: (body ++ closeBrace :: rest) := by simp
            have hsk : skipSpace (quoteMark :: (body ++ closeBrace :: rest)) =
                quoteMark :: (body ++ closeBrace :: rest) := skipSpace_cons _ _ (by decide)
            have hrec := hpb (quoteMark :: (body ++ closeBrace :: rest)).length rest (by
              simp only [List.length_cons, List.length_append]
              omega)
            have hrec2 : parseMembers parse (quoteMark :: (body ++ closeBrace :: rest)).length
                (quoteMark :: (body ++ closeBrace :: rest)) = some (objectOf kvs, rest) := by
              have e : quoteMark :: body ++ closeBrace :: rest =
                  quoteMark :: (body ++ closeBrace :: rest) := by simp
              rw [← e]
              rw [← e] at hrec
              exact hrec
            have hn : ¬ quoteMark = closeBrace := by decide
            rw [htext]
            simp only [parseObject, hsk, if_neg hn, hrec2,
              objectOf_of_ascending _ (objectOf_ascending kvs)]

/-! ### The round trip -/

theorem parseValue_roundTrips (shortEscapes : Bool) (n : Nat) :
    ∀ (cs : List Char) (v : JsonValue) (r : List Char),
      parseValue n cs = some (v, r) → roundTrips shortEscapes (parseValue n) v := by
  induction n with
  | zero =>
    intro cs v r h
    simp [parseValue] at h
  | succ b ih =>
    intro cs v r h
    simp only [parseValue] at h
    cases hs : skipSpace cs with
    | nil => simp [hs] at h
    | cons c rest0 =>
      simp only [hs] at h
      split_ifs at h with h1 h2 h3 h4
      · obtain ⟨body, henc, hp⟩ := parseArray_roundTrips shortEscapes (parseValue b) ih rest0 v r h
        refine ⟨'[' :: body, henc, ?_⟩
        intro rest hrest
        have hsk : skipSpace ('[' :: body ++ rest) = '[' :: (body ++ rest) :=
          skipSpace_cons _ _ (by decide)
        simp only [parseValue, hsk, eq_self_iff_true, if_true, if_neg h2, hp rest hrest]
      · obtain ⟨body, henc, hp⟩ :=
          parseObject_roundTrips shortEscapes (parseValue b) ih rest0 v r h
        refine ⟨openBrace :: body, henc, ?_⟩
        intro rest hrest
        have hsk : skipSpace (openBrace :: body ++ rest) = openBrace :: (body ++ rest) :=
          skipSpace_cons _ _ (by decide)
        have hn : ¬ openBrace = '[' := by decide
        simp only [parseValue, hsk, if_neg hn, eq_self_iff_true, if_true, if_neg h4,
          hp rest hrest]
      · obtain ⟨c1, t, henc, hsp, hn1, hn2, hp⟩ :=
          parseScalar_roundTrips shortEscapes c rest0 v r h
        refine ⟨c1 :: t, henc, ?_⟩
        intro rest hrest
        have hsk : skipSpace (c1 :: t ++ rest) = c1 :: (t ++ rest) := skipSpace_cons _ _ hsp
        simp only [parseValue, hsk, if_neg hn1, if_neg hn2, hp rest hrest]

/-- Round trip of `encoding/json` on decoded values. -/
theorem decode_encode (shortEscapes : Bool) (s : String) (v : JsonValue)
    (h : decode s = some v) :
    ∃ text, encodeValue shortEscapes v = some text ∧ decode (String.mk text) = some v := by
  unfold decode at h
  cases hp : parseValue 10001 s.data with
  | none => simp [hp] at h
  | some p =>
    obtain ⟨v1, rest⟩ := p
    simp only [hp] at h
    split_ifs at h with h1
    simp only [Option.some.injEq] at h
    subst h
    obtain ⟨text, henc, hparse⟩ := parseValue_roundTrips shortEscapes 10001 s.data v1 rest hp
    refine ⟨text, henc, ?_⟩
    have := hparse [] delimited_nil
    rw [List.append_nil] at this
    unfold decode
    simp only [this]
    rfl

end Json

/-- Round trip of the standard library codec: a value that `json.Unmarshal` decoded has a
non-empty encoding by `json.Marshal`, and `json.Unmarshal` decodes that encoding to the same
value. -/
theorem encoding_round_trip (errorText : String → String) (shortEscapes : Bool) (s : String)
    (c : JsonValue) (h : (goJson errorText shortEscapes).Unmarshal s = Except.ok c) :
    (goJson errorText shortEscapes).Marshal c ≠ "" ∧
    (goJson errorText shortEscapes).Unmarshal ((goJson errorText shortEscapes).Marshal c) =
      Except.ok c := by
  have hd : Json.decode s = some c := by
    simp only [goJson] at h
    cases hdec : Json.decode s with
    | none => simp [hdec] at h
    | some v =>
      simp only [hdec, Except.ok.injEq] at h
      rw [h]
  obtain ⟨text, henc, hdec⟩ := Json.decode_encode shortEscapes s c hd
  obtain ⟨c1, t, hct, _⟩ := Json.encodeValue_head shortEscapes c text henc
  refine ⟨?_, ?_⟩
  · simp only [goJson, henc, hct]
    intro hmk
    have := congrArg String.data hmk
    exact absurd this (by simp)
  · simp only [goJson, henc, hdec]

/-- C16. With the codec of the standard library, a deployment-specification configuration
that `json.Unmarshal` accepts (it is not the empty string, then) makes the round trip
through the request and the merge.  The request entry holds the parsed value.  The merge of the entry saves no configuration when
the value is the JSON null and the serialisation of the value otherwise; that serialisation
parses again, to the same value.  Hence the request entry built from the saved entry holds
the same value as the one built from the input: equal numbers, strings, booleans and
arrays, and equal maps, which here are lists of entries in key order. -/
theorem configuration_round_trip (errorText : String → String) (shortEscapes : Bool)
    (v : NvidiaCloudFunctionResourceDeploymentSpecificationModel) (s : String) (c : JsonValue)
    (hs : v.Configuration = TfValue.known s)
    (hparse : (goJson errorText shortEscapes).Unmarshal s = Except.ok c) :
    parsedConfiguration (goJson errorText shortEscapes) v = c ∧
    (c = JsonValue.null →
      (savedSpecification (goJson errorText shortEscapes) v).Configuration = TfValue.null) ∧
    (c ≠ JsonValue.null →
      (savedSpecification (goJson errorText shortEscapes) v).Configuration =
        TfValue.known ((goJson errorText shortEscapes).Marshal c)) ∧
    (goJson errorText shortEscapes).Unmarshal ((goJson errorText shortEscapes).Marshal c) =
      Except.ok c ∧
    parsedConfiguration (goJson errorText shortEscapes)
      (savedSpecification (goJson errorText shortEscapes) v) = c := by
  obtain ⟨hmne, hround⟩ := encoding_round_trip errorText shortEscapes s c hparse
  have hne : s ≠ "" := by
    intro h
    rw [h] at hparse
    exact absurd hparse (by
      show (Except.error (errorText "") : Except String JsonValue) ≠ Except.ok c
      intro h2
      cases h2)
  generalize goJson errorText shortEscapes = codec at hparse hmne hround ⊢
  have hv : v.Configuration.ValueString = s := by
    rw [hs]
    rfl
  have h1 : parsedConfiguration codec v = c := by
    simp only [parsedConfiguration, hv, ne_eq, hne, not_false_eq_true, if_true, hparse]
  have hnull : c = JsonValue.null → (savedSpecification codec v).Configuration = TfValue.null := by
    intro hc
    simp only [savedSpecification, deploymentSpecificationModelOf, requestSpecification, h1, hc]
  have hsome : c ≠ JsonValue.null →
      (savedSpecification codec v).Configuration = TfValue.known (codec.Marshal c) := by
    intro hc
    simp only [savedSpecification, deploymentSpecificationModelOf, requestSpecification, h1]
  refine ⟨h1, hnull, hsome, hround, ?_⟩
  by_cases hc : c = JsonValue.null
  · subst hc
    simp only [parsedConfiguration, hnull rfl]
    rfl
  · have hvs : (savedSpecification codec v).Configuration.ValueString = codec.Marshal c := by
      rw [hsome hc]
      rfl
    simp only [parsedConfiguration, hvs, ne_eq, hmne, not_false_eq_true, if_true, hround]

set_option maxRecDepth 1000000 in
set_option exponentiation.threshold 5000 in
/-- Witness of C16: the configuration `reorderedConfiguration` parses to the map with 2
under `a` and 1 under `b`, is saved as `serialisedConfiguration`, and that string parses to
the same map. -/
theorem configuration_round_trip_witness :
    standardCodec.Unmarshal reorderedConfiguration =
      Except.ok (JsonValue.object [("a", JsonValue.number 4611686018427387904),
                                   ("b", JsonValue.number 4607182418800017408)]) ∧
    (savedSpecification standardCodec reorderedSpecification).Configuration =
      TfValue.known serialisedConfiguration ∧
    standardCodec.Unmarshal serialisedConfiguration =
      Except.ok (JsonValue.object [("a", JsonValue.number 4611686018427387904),
                                   ("b", JsonValue.number 4607182418800017408)]) ∧
    parsedConfiguration standardCodec (savedSpecification standardCodec reorderedSpecification) =
      JsonValue.object [("a", JsonValue.number 4611686018427387904),
                        ("b", JsonValue.number 4607182418800017408)] := by
  have h := configuration_round_trip (fun _ => "invalid JSON") true reorderedSpecification
    reorderedConfiguration
    (JsonValue.object [("a", JsonValue.number 4611686018427387904),
                       ("b", JsonValue.number 4607182418800017408)]) rfl rfl
  exact ⟨rfl, rfl, rfl, h.2.2.2.2⟩

end Ngc
